import Mathlib

/-!
# palantir: the RFB protocol engine and its rectangle decoders

A shallow embedding of the VNC client's protocol code
(`vnc-rfb.cc`, `vnc-encoding-*.cc`, `zlib-reader.cpp`, `vnc.h`, `vnctypes.h`), of the
set-up in `main.cc`, and of the SDL display and network client
(`vnc-display-sdl.cc`, `vnc-net-sdl.cc`).

* Machine integers are natural numbers; every conversion to a narrower C type is an
  explicit `%`.  Bytes on the wire are `Uint8 = Fin 256`, the fields of a `ScreenRect`
  are `Uint16 = Fin 65536`.
* The abstract `NetworkClient` and `Display` interfaces of `vnc.h` become one `World`:
  the bytes the server still has to deliver, and the trace of every call made on the
  display and on the sending side of the network, oldest first.  `ReceiveBytes` on the
  world does what the program's network client, `SDLNetworkClient`, does on a socket that
  delivers these bytes (`ReceiveBytes_of_socket`): it takes the count as an `int`.
* Code that can throw is a function `World → Except Exc α × World`: the world at the
  throw is kept.
* The handshakes run inside the constructor of `RFBProto`: they take the session and
  return it; a `std::string` is the list of its bytes.
* The libraries the client links are parameters: `Des` for d3des, `Inflate` for zlib's
  `inflate`, the answers of SDL and of `getopt`, what a socket has in store for
  `SDLNet_TCP_Recv`, and the end from which `memcpy` copies. The loops of
  `ZlibReader::ReadBytes` and of `SDLNetworkClient::ReceiveBytes` take fuel, and `none`
  means that the loop is still running.
-/

namespace VNC

/-! ## vnctypes.h -/

/-- A byte (`typedef unsigned char Uint8`). -/
abbrev Uint8 := Fin 256

/-- An unsigned 16-bit value (`typedef unsigned short Uint16`). -/
abbrev Uint16 := Fin 65536

/-- Conversion of an integer value to `Uint8`. -/
def toUint8 (n : Nat) : Uint8 := ⟨n % 256, Nat.mod_lt _ (by decide)⟩

/-- Conversion of an integer value to `Uint16`. -/
def toUint16 (n : Nat) : Uint16 := ⟨n % 65536, Nat.mod_lt _ (by decide)⟩

/-- The struct `PixelFormat`. -/
structure PixelFormat where
  bytes : Nat
  bits : Nat
  red_mask : Nat
  green_mask : Nat
  blue_mask : Nat
  red_shift : Nat
  green_shift : Nat
  blue_shift : Nat
  big_endian : Bool
deriving DecidableEq, Repr

/-- The struct `ScreenRect`: four `Uint16` fields. -/
structure ScreenRect where
  x : Uint16
  y : Uint16
  w : Uint16
  h : Uint16
deriving DecidableEq, Repr

/-- The constructor `ScreenRect( Uint16 _x, Uint16 _y, Uint16 _w, Uint16 _h )` applied to
integer expressions: each argument is converted to `Uint16`. -/
def ScreenRect.ctor (x y w h : Nat) : ScreenRect :=
  ⟨toUint16 x, toUint16 y, toUint16 w, toUint16 h⟩

/-- The exception classes: `CREATE_VNC_EXCEPTION( name, msg )` gives `Exc##name`, and
`Msg` is a plain `Exc( "..." )`. `StdOutOfRange` is the C++ library's `std::out_of_range`
(thrown by `std::string::substr`), which is not a `VNC::Exc`. `BufferOverrun` is not an
exception at all: it stands for the undefined behaviour of a write past the end of a
buffer. -/
inductive Exc where
  | Read
  | Write
  | Resolve
  | Connect
  | Select
  | NotRFB
  | BadVersion
  | UnknownAuth
  | AuthFailed
  | AuthTooMany
  | BadFormat
  | MissingDecoder
  | UnknownMessage
  | Msg (msg : String)
  | StdOutOfRange
  | SDLInit
  | SDLVideo
  | BufferOverrun
deriving DecidableEq, Repr

/-- Embeds `VNC_SWAP_BE_16(u16)` assigned back to a `Uint16`; the flag is the compile-time
`VNC_LITTLE_ENDIAN`. -/
def VNC_SWAP_BE_16 (little_endian : Bool) (u16 : Nat) : Nat :=
  if little_endian then ((u16 &&& 0xFF00) >>> 8) + ((u16 &&& 0xFF) <<< 8) else u16

/-- Embeds `VNC_SWAP_BE_32(u32)`; the flag is the compile-time `VNC_LITTLE_ENDIAN`. -/
def VNC_SWAP_BE_32 (little_endian : Bool) (u32 : Nat) : Nat :=
  if little_endian then
    ((u32 &&& 0xFF000000) >>> 24) + ((u32 &&& 0x00FF0000) >>> 8)
      + ((u32 &&& 0x0000FF00) <<< 8) + ((u32 &&& 0x000000FF) <<< 24)
  else u32

/-! ## The world: network input, display and send trace -/

/-- One observable call on the `Display` or on the sending side of the `NetworkClient`.
The `data` of `WritePixels` is what the display reads at the pointer: the bytes of the
`count` pixels, as far as they have been stored in the buffer. -/
inductive Event where
  | BeginDrawing
  | EndDrawing (rect : ScreenRect)
  | WritePixels (x y count : Nat) (data : List Uint8)
  | WriteUniformPixels (x y count : Nat) (pixel : Nat)
  | CopyPixels (sx sy dx dy w h : Nat)
  | BeginWritePacket
  | EndWritePacket
  | SendBytes (data : List Uint8)
  | Cerr (text : String)
deriving DecidableEq, Repr

/-- The `m_processed` counter of each decoder object (`main` creates one per class). -/
structure Processed where
  RAW : Nat
  COPYRECT : Nat
  RRE : Nat
  CORRE : Nat
  HEXTILE : Nat
  ZLIB : Nat
deriving DecidableEq, Repr

/-- Everything the protocol code acts on. -/
structure World where
  /-- The flag `VNC_LITTLE_ENDIAN` of the build. -/
  little_endian : Bool
  /-- bytes sent by the server and not yet received -/
  input : List Uint8
  /-- calls made so far, oldest first -/
  trace : List Event
  /-- The member `Display::m_format`. -/
  disp_format : PixelFormat
  /-- the decoders' `m_processed` -/
  processed : Processed
deriving DecidableEq, Repr

deriving instance DecidableEq for Except

/-- A computation of the client: it returns or throws, and leaves a world. -/
def M (α : Type) : Type := World → Except Exc α × World

/-- Return. -/
def M.pure {α : Type} (a : α) : M α := fun W => (.ok a, W)

/-- Sequencing: a throw ends the computation. -/
def M.bind {α β : Type} (m : M α) (f : α → M β) : M β := fun W =>
  match m W with
  | (.ok a, W1) => f a W1
  | (.error e, W1) => (.error e, W1)

instance : Monad M where
  pure := M.pure
  bind := M.bind

/-- The statement `throw e`. -/
def throwExc {α : Type} (e : Exc) : M α := fun W => (.error e, W)

/-- Record a call in the trace. -/
def emit (e : Event) : M Unit := fun W => (.ok (), { W with trace := W.trace ++ [e] })

/-- A `for` loop whose control variable takes the values of `xs` in order; `s` holds the
local variables the body assigns. -/
def forLoop {σ : Type} (body : Nat → σ → M σ) : List Nat → σ → M σ
  | [], s => M.pure s
  | i :: rest, s => M.bind (body i s) (fun s1 => forLoop body rest s1)

/-- A `for` loop without locals. -/
def forEach (body : Nat → M Unit) (xs : List Nat) : M Unit :=
  forLoop (fun i _ => body i) xs ()

/-! ## NetworkClient and Display (vnc.h) -/

/-- Conversion of an `unsigned int` to `int`. -/
def toInt32 (n : Nat) : Int :=
  if n % 4294967296 < 2147483648 then ((n % 4294967296 : Nat) : Int)
  else ((n % 4294967296 : Nat) : Int) - 4294967296

/-- Embeds `NetworkClient::ReceiveBytes( data, count )` as the program's one network
client implements it, `SDLNetworkClient::ReceiveBytes` with its loop
`while( received < (int)count )`, on a connection that delivers the stream and then
closes.  The result is what the call has stored in `data`: the next `(int)count` bytes of
the stream, and nothing at all when `(int)count` is not positive, that is for a count of
2^31 or more; `ExcRead` if the stream ends first (what had arrived is consumed).  Bytes of
a buffer that no call has stored are indeterminate in the program and do not appear in the
result. -/
def ReceiveBytes (count : Nat) : M (List Uint8) := fun W =>
  let wanted := (toInt32 count).toNat
  if wanted ≤ W.input.length then
    (.ok (W.input.take wanted), { W with input := W.input.drop wanted })
  else (.error Exc.Read, { W with input := [] })

/-- Embeds `NetworkClient::WaitDataReady( ms )`: true when a byte can be read; no byte left in
the stream stands for the timeout. -/
def WaitDataReady (_ms : Nat) : M Bool := fun W => (.ok (!W.input.isEmpty), W)

/-- Embeds `NetworkClient::SendBytes( data, count )`. -/
def SendBytes (data : List Uint8) : M Unit := emit (.SendBytes data)

/-- Embeds `NetworkClient::BeginWritePacket()`. -/
def BeginWritePacket : M Unit := emit .BeginWritePacket

/-- Embeds `NetworkClient::EndWritePacket()`. -/
def EndWritePacket : M Unit := emit .EndWritePacket

/-- Embeds `Display::GetPixelFormat()`. -/
def GetPixelFormat : M PixelFormat := fun W => (.ok W.disp_format, W)

/-- The value of an object whose bytes in memory are `bs`, on a host of the given byte
order. -/
def nativeValue (little_endian : Bool) (bs : List Uint8) : Nat :=
  if little_endian then bs.foldr (fun b acc => b.val + 256 * acc) 0
  else bs.foldl (fun acc b => 256 * acc + b.val) 0

/-- Embeds `m_net.ReceiveBytes( (Uint8*)&var, n )` with no swap: the `_NOSWAP` macros and
`NET_UINT8`. -/
def GET_NOSWAP (n : Nat) : M Nat := fun W =>
  match ReceiveBytes n W with
  | (.ok bs, W1) => (.ok (nativeValue W.little_endian bs), W1)
  | (.error e, W1) => (.error e, W1)

/-- The macro `NET_UINT8( var )`. -/
def NET_UINT8 : M Nat := GET_NOSWAP 1

/-- The macro `NET_UINT16( var )`: receive two bytes, then `VNC_SWAP_BE_16`. -/
def NET_UINT16 : M Nat := fun W =>
  match GET_NOSWAP 2 W with
  | (.ok v, W1) => (.ok (VNC_SWAP_BE_16 W.little_endian v % 65536), W1)
  | (.error e, W1) => (.error e, W1)

/-- The macro `NET_UINT32( var )`: receive four bytes, then `VNC_SWAP_BE_32`. -/
def NET_UINT32 : M Nat := fun W =>
  match GET_NOSWAP 4 W with
  | (.ok v, W1) => (.ok (VNC_SWAP_BE_32 W.little_endian v % 4294967296), W1)
  | (.error e, W1) => (.error e, W1)

/-- The macro `NET_UINT16_NOSWAP( var )`. -/
def NET_UINT16_NOSWAP : M Nat := GET_NOSWAP 2

/-- The macro `NET_UINT32_NOSWAP( var )`. -/
def NET_UINT32_NOSWAP : M Nat := GET_NOSWAP 4

/-! ## vnc-encoding-raw.cc, vnc-encoding-copyrect.cc -/

/-- The statement `++m_processed` of a decoder (an `unsigned`). -/
def incProcessed (f : Processed → Processed) : M Unit := fun W =>
  (.ok (), { W with processed := f W.processed })

/-- Embeds `DEFINE_VNC_DECODER( RAW )`.  The byte count `rect.w*rect.h*bytes` and the
offset `bytes * rect.w * y` are `unsigned int` values: the products modulo 2^32. -/
def DecoderRAW (rect : ScreenRect) : M Unit := do
  incProcessed (fun p => { p with RAW := (p.RAW + 1) % 4294967296 })
  let fmt ← GetPixelFormat
  let count := (rect.w.val * rect.h.val * fmt.bytes) % 4294967296
  let buf ← ReceiveBytes count
  emit .BeginDrawing
  forEach (fun y =>
    emit (.WritePixels rect.x.val (rect.y.val + y) rect.w.val
      ((buf.drop ((fmt.bytes * rect.w.val * y) % 4294967296)).take (rect.w.val * fmt.bytes))))
    (List.range rect.h.val)
  emit (.EndDrawing rect)

/-- Embeds `DEFINE_VNC_DECODER( COPYRECT )`. -/
def DecoderCOPYRECT (rect : ScreenRect) : M Unit := do
  incProcessed (fun p => { p with COPYRECT := (p.COPYRECT + 1) % 4294967296 })
  let src_x ← NET_UINT16
  let src_y ← NET_UINT16
  emit .BeginDrawing
  emit (.CopyPixels src_x src_y rect.x.val rect.y.val rect.w.val rect.h.val)
  emit (.EndDrawing rect)

/-! ## vnc-encoding-rre.cc -/

/-- Embeds `FillSolidRect( disp, rect, pixel )` (the same text in `vnc-encoding-rre.cc` and in
`vnc-encoding-hextile.cc`): one `WriteUniformPixels` per row; `rect.y+y` is passed as an
`int` and is not truncated. -/
def FillSolidRect (rect : ScreenRect) (pixel : Nat) : M Unit :=
  forEach (fun y => emit (.WriteUniformPixels rect.x.val (rect.y.val + y) rect.w.val pixel))
    (List.range rect.h.val)

/-- Embeds `NetPixel( net, bpp )` of `vnc-encoding-rre.cc`: the pixel is received without a
swap. -/
def RRE.NetPixel (bpp : Nat) : M Nat :=
  match bpp with
  | 1 => NET_UINT8
  | 2 => NET_UINT16_NOSWAP
  | 4 => NET_UINT32_NOSWAP
  | _ => throwExc (.Msg "invalid color depth for RRE decoder")

/-- The body of the subrectangle loop of the RRE decoder. -/
def rreSubrect (rect : ScreenRect) (bpp : Nat) : M Unit := do
  let pixel ← RRE.NetPixel bpp
  let x ← NET_UINT16
  let y ← NET_UINT16
  let w ← NET_UINT16
  let h ← NET_UINT16
  let subrect := ScreenRect.ctor (rect.x.val + x) (rect.y.val + y) w h
  FillSolidRect subrect pixel

/-- Embeds `DEFINE_VNC_DECODER( RRE )`. -/
def DecoderRRE (rect : ScreenRect) : M Unit := do
  incProcessed (fun p => { p with RRE := (p.RRE + 1) % 4294967296 })
  let fmt ← GetPixelFormat
  let bpp := fmt.bytes
  let num_subrects ← NET_UINT32
  let bg_pixel ← RRE.NetPixel bpp
  emit .BeginDrawing
  FillSolidRect rect bg_pixel
  forEach (fun _ => rreSubrect rect bpp) (List.range num_subrects)
  emit (.EndDrawing rect)

/-- The body of the subrectangle loop of the CoRRE decoder. -/
def correSubrect (rect : ScreenRect) (bpp : Nat) : M Unit := do
  let pixel ← RRE.NetPixel bpp
  let x ← NET_UINT8
  let y ← NET_UINT8
  let w ← NET_UINT8
  let h ← NET_UINT8
  let subrect := ScreenRect.ctor (rect.x.val + x) (rect.y.val + y) w h
  FillSolidRect subrect pixel

/-- Embeds `DEFINE_VNC_DECODER( CORRE )`. -/
def DecoderCORRE (rect : ScreenRect) : M Unit := do
  incProcessed (fun p => { p with CORRE := (p.CORRE + 1) % 4294967296 })
  let fmt ← GetPixelFormat
  let bpp := fmt.bytes
  let num_subrects ← NET_UINT32
  let bg_pixel ← RRE.NetPixel bpp
  emit .BeginDrawing
  FillSolidRect rect bg_pixel
  forEach (fun _ => correSubrect rect bpp) (List.range num_subrects)
  emit (.EndDrawing rect)

/-! ## vnc-encoding-hextile.cc -/

def RFB_HEXTILE_RAW : Nat := 1
def RFB_HEXTILE_BG_SPECIFIED : Nat := 2
def RFB_HEXTILE_FG_SPECIFIED : Nat := 4
def RFB_HEXTILE_ANY_SUBRECTS : Nat := 8
def RFB_HEXTILE_SUBRECTS_COLORED : Nat := 16

/-- Embeds `NetPixel( net, bpp )` of `vnc-encoding-hextile.cc`: here the two- and four-byte
pixels go through `NET_UINT16` and `NET_UINT32`, which swap. -/
def Hextile.NetPixel (bpp : Nat) : M Nat :=
  match bpp with
  | 1 => NET_UINT8
  | 2 => NET_UINT16
  | 4 => NET_UINT32
  | _ => throwExc (.Msg "invalid color depth for RRE decoder")

/-- The two running values of the Hextile decoder, locals of `operator()`. -/
structure HextileColors where
  tile_bg_color : Nat
  subtile_fg_color : Nat
deriving DecidableEq, Repr

/-- The values of the control variable of `for( int t = 0; t < n; t += 16 )`. -/
def tileSteps (n : Nat) : List Nat := (List.range n).filter (fun t => t % 16 = 0)

/-- The body of the subrect loop of a complex tile. -/
def hextileSubrect (bpp : Nat) (tile_rect : ScreenRect) (subrects_colored : Bool)
    (subtile_fg_color : Nat) : M Unit := do
  let subrect_pixel ← (if subrects_colored then Hextile.NetPixel bpp
    else pure subtile_fg_color : M Nat)
  let packed_xy ← NET_UINT8
  let packed_wh ← NET_UINT8
  let subtile_rect := ScreenRect.ctor
    (tile_rect.x.val + ((packed_xy >>> 4) &&& 0x0F)) (tile_rect.y.val + (packed_xy &&& 0x0F))
    (1 + ((packed_wh >>> 4) &&& 0x0F)) (1 + (packed_wh &&& 0x0F))
  FillSolidRect subtile_rect subrect_pixel

/-- The body of the inner tile loop: one tile at offset `(tile_x, tile_y)`. -/
def hextileTile (rect : ScreenRect) (bpp tile_y tile_height tile_x : Nat)
    (c : HextileColors) : M HextileColors := do
  let tile_width := if rect.w.val - tile_x < 16 then rect.w.val - tile_x else 16
  let encoding ← NET_UINT8
  if encoding &&& RFB_HEXTILE_RAW ≠ 0 then
    let raw_pixel_buf ← ReceiveBytes (tile_width * tile_height * bpp)
    forEach (fun y =>
      emit (.WritePixels (rect.x.val + tile_x) (rect.y.val + tile_y + y) tile_width
        ((raw_pixel_buf.drop (bpp * tile_width * y)).take (tile_width * bpp))))
      (List.range tile_height)
    pure c
  else
    let tile_bg_color ←
      (if encoding &&& RFB_HEXTILE_BG_SPECIFIED ≠ 0 then Hextile.NetPixel bpp
        else pure c.tile_bg_color : M Nat)
    let subtile_fg_color ←
      (if encoding &&& RFB_HEXTILE_FG_SPECIFIED ≠ 0 then Hextile.NetPixel bpp
        else pure c.subtile_fg_color : M Nat)
    let num_subrects ←
      (if encoding &&& RFB_HEXTILE_ANY_SUBRECTS ≠ 0 then NET_UINT8 else pure 0 : M Nat)
    let subrects_colored : Bool := encoding &&& RFB_HEXTILE_SUBRECTS_COLORED ≠ 0
    let tile_rect := ScreenRect.ctor (tile_x + rect.x.val) (tile_y + rect.y.val)
      tile_width tile_height
    FillSolidRect tile_rect tile_bg_color
    forEach (fun _ => hextileSubrect bpp tile_rect subrects_colored subtile_fg_color)
      (List.range num_subrects)
    pure ⟨tile_bg_color, subtile_fg_color⟩

/-- The body of the outer tile loop: one row of tiles at offset `tile_y`. -/
def hextileRow (rect : ScreenRect) (bpp tile_y : Nat) (c : HextileColors) :
    M HextileColors :=
  let tile_height := if rect.h.val - tile_y < 16 then rect.h.val - tile_y else 16
  forLoop (hextileTile rect bpp tile_y tile_height) (tileSteps rect.w.val) c

/-- Embeds `DEFINE_VNC_DECODER( HEXTILE )`. -/
def DecoderHEXTILE (rect : ScreenRect) : M Unit := do
  incProcessed (fun p => { p with HEXTILE := (p.HEXTILE + 1) % 4294967296 })
  let fmt ← GetPixelFormat
  let bpp := fmt.bytes
  emit .BeginDrawing
  let _ ← forLoop (hextileRow rect bpp) (tileSteps rect.h.val) ⟨0, 0⟩
  emit (.EndDrawing rect)

/-! ## vnc-rfb.cc -/

/-- The bytes in memory of an `n`-byte object of value `v`, on a host of the given byte
order. -/
def memoryBytes (little_endian : Bool) (n v : Nat) : List Uint8 :=
  let le := (List.range n).map (fun i => toUint8 (v / 256 ^ i))
  if little_endian then le else le.reverse

/-- The macro `SEND_UINT8( val )`. -/
def SEND_UINT8 (val : Nat) : M Unit := fun W =>
  SendBytes (memoryBytes W.little_endian 1 (val % 256)) W

/-- The macro `SEND_UINT16( val )`. -/
def SEND_UINT16 (val : Nat) : M Unit := fun W =>
  SendBytes (memoryBytes W.little_endian 2
    (VNC_SWAP_BE_16 W.little_endian (val % 65536) % 65536)) W

/-- The macro `SEND_UINT32( val )`. -/
def SEND_UINT32 (val : Nat) : M Unit := fun W =>
  SendBytes (memoryBytes W.little_endian 4
    (VNC_SWAP_BE_32 W.little_endian (val % 4294967296) % 4294967296)) W

def RFB_CLIENT_FBUPDATEREQUEST : Nat := 3
def RFB_SERVER_FBUPDATE : Nat := 0
def RFB_SERVER_SETCOLORMAPENTRIES : Nat := 1
def RFB_SERVER_BELL : Nat := 2
def RFB_SERVER_CUTTEXT : Nat := 3

/-- The class `Decoder`: `GetType()` and `operator()`. -/
structure Decoder where
  GetType : Nat
  call : ScreenRect → M Unit

/-- The data members of `RFBProto` (`m_net` and `m_display` are the world); a
`std::string` is the list of its bytes. -/
structure RFBProto where
  /-- allow other clients to share desktop -/
  m_shared : Bool
  /-- plaintext connection password -/
  m_password : List Uint8
  m_rfb_major_version : Int
  m_rfb_minor_version : Int
  /-- current desktop format -/
  m_pixel_format : PixelFormat
  m_desktop_width : Int
  m_desktop_height : Int
  m_desktop_name : List Uint8
  /-- the map `m_decoders`: packet type to decoder -/
  m_decoders : Nat → Option Decoder
  /-- decoders in order of preference -/
  m_decoders_vec : List Decoder

/-- Conversion of an `int` to `Uint16`. -/
def intToUint16 (i : Int) : Nat := (i % 65536).toNat

/-- Embeds `RFBProto::SendUpdateRequest( rect, incremental )`. -/
def RFBProto.SendUpdateRequest (rect : ScreenRect) (incremental : Bool) : M Unit := do
  BeginWritePacket
  SEND_UINT8 RFB_CLIENT_FBUPDATEREQUEST
  SEND_UINT8 (if incremental then 1 else 0)
  SEND_UINT16 rect.x.val
  SEND_UINT16 rect.y.val
  SEND_UINT16 rect.w.val
  SEND_UINT16 rect.h.val
  EndWritePacket

/-- Embeds `RFBProto::GetDecoder( type )`. -/
def RFBProto.GetDecoder (S : RFBProto) (type : Nat) : M Decoder :=
  match S.m_decoders type with
  | none => do
      emit (.Cerr ("unable to find decoder for packet type " ++ toString type ++ "\n"))
      throwExc .MissingDecoder
  | some d => pure d

/-- The body of the rectangle loop of `RFBProto::Update`. -/
def RFBProto.updateRect (S : RFBProto) : M Unit := do
  let x ← NET_UINT16
  let y ← NET_UINT16
  let w ← NET_UINT16
  let h ← NET_UINT16
  let rect := ScreenRect.ctor x y w h
  let type ← NET_UINT32
  let d ← S.GetDecoder type
  d.call rect

/-- The text a `char` buffer prints as: the bytes before the first NUL. -/
def cString (buf : List Uint8) : String :=
  String.mk ((buf.takeWhile (fun b => b.val ≠ 0)).map (fun b => Char.ofNat b.val))

/-- Embeds `RFBProto::Update( ms )`. -/
def RFBProto.Update (S : RFBProto) (ms : Nat) : M Unit := do
  let ready ← WaitDataReady ms
  if ready = false then
    pure ()
  else
    let type ← NET_UINT8
    if type = RFB_SERVER_FBUPDATE then
      let _padding ← NET_UINT8
      let num_rects ← NET_UINT16
      forEach (fun _ => S.updateRect) (List.range num_rects)
      RFBProto.SendUpdateRequest
        (ScreenRect.ctor 0 0 (intToUint16 S.m_desktop_width) (intToUint16 S.m_desktop_height))
        true
    else if type = RFB_SERVER_SETCOLORMAPENTRIES then
      throwExc (.Msg "server tried to set color map entries, but this is currently unsupported")
    else if type = RFB_SERVER_BELL then
      emit (.Cerr "Ding!\n")
    else if type = RFB_SERVER_CUTTEXT then
      let _padding1 ← NET_UINT16
      let _padding2 ← NET_UINT8
      let length ← NET_UINT32
      -- `new char[ length + 1 ]`: the sum is a `Uint32`
      let size := (length + 1) % 4294967296
      if size ≤ length then
        -- `buf[length] = 0` writes past the buffer
        throwExc .BufferOverrun
      else
        let buf ← ReceiveBytes length
        emit (.Cerr ("New cut text: " ++ cString buf ++ "\n"))
    else
      emit (.Cerr ("got unknown message type " ++ toString type ++ "\n"))
      throwExc .UnknownMessage

/-! ## The wire format of a FramebufferUpdate, as the protocol describes it -/

/-- An unsigned 32-bit value (`typedef unsigned int Uint32`). -/
abbrev Uint32 := Fin 4294967296

/-- The two bytes of a big-endian u16. -/
def be16 (v : Nat) : List Uint8 := [toUint8 (v / 256), toUint8 v]

/-- The four bytes of a big-endian u32. -/
def be32 (v : Nat) : List Uint8 :=
  [toUint8 (v / 16777216), toUint8 (v / 65536), toUint8 (v / 256), toUint8 v]

/-- One rectangle header of a FramebufferUpdate: `x, y, w, h: u16, encoding: u32`. -/
structure RectHeader where
  rect : ScreenRect
  encoding : Uint32
deriving DecidableEq, Repr

/-- The twelve bytes of a rectangle header on the wire. -/
def RectHeader.wire (hd : RectHeader) : List Uint8 :=
  be16 hd.rect.x.val ++ be16 hd.rect.y.val ++ be16 hd.rect.w.val ++ be16 hd.rect.h.val
    ++ be32 hd.encoding.val

/-- The stream, from world `W` on, carries the rectangles `hs` in this order: each header
is followed by what the decoder registered for its encoding consumes, that decoder
returns when it is invoked with the header's rectangle, and `W'` is the world after the
last of these invocations. -/
def CarriesRects (S : RFBProto) : List RectHeader → World → World → Prop
  | [], W, W' => W' = W
  | hd :: hs, W, W' =>
      ∃ (rest : List Uint8) (d : Decoder) (W1 : World),
        W.input = hd.wire ++ rest ∧ S.m_decoders hd.encoding.val = some d ∧
        d.call hd.rect { W with input := rest } = (.ok (), W1) ∧ CarriesRects S hs W1 W'

/-- The calls of one `SendUpdateRequest( rect, incremental )`. -/
def updateRequestCalls (rect : ScreenRect) (incremental : Bool) : List Event :=
  [Event.BeginWritePacket, Event.SendBytes [3], Event.SendBytes [if incremental then 1 else 0],
    Event.SendBytes (be16 rect.x.val), Event.SendBytes (be16 rect.y.val),
    Event.SendBytes (be16 rect.w.val), Event.SendBytes (be16 rect.h.val),
    Event.EndWritePacket]

/-- A session that registers the Raw decoder only, on a 1x1 desktop. -/
def rawOnlySession : RFBProto :=
  { m_shared := true
    m_password := []
    m_rfb_major_version := 3
    m_rfb_minor_version := 3
    m_pixel_format := ⟨4, 24, 255, 255, 255, 16, 8, 0, false⟩
    m_desktop_width := 1
    m_desktop_height := 1
    m_desktop_name := [84]
    m_decoders := fun t => if t = 0 then some ⟨0, DecoderRAW⟩ else none
    m_decoders_vec := [⟨0, DecoderRAW⟩] }

/-- A 4-byte-per-pixel display with nothing drawn, on a little-endian host, and the given
bytes on the way from the server. -/
def freshWorld (input : List Uint8) : World :=
  ⟨true, input, [], ⟨4, 24, 255, 255, 255, 16, 8, 0, false⟩, ⟨0, 0, 0, 0, 0, 0⟩⟩

/-! ## Raw payloads -/

/-- The display calls of the Raw decoder for a payload: one `WritePixels` per row. -/
def rawRows (rect : ScreenRect) (bpp : Nat) (payload : List Uint8) : List Event :=
  (List.range rect.h.val).map (fun i =>
    Event.WritePixels rect.x.val (rect.y.val + i) rect.w.val
      ((payload.drop (i * rect.w.val * bpp)).take (rect.w.val * bpp)))
/-! ## RRE and CoRRE payloads, as the protocol describes them -/

/-- The rows that fill the rectangle `(x, y, w, h)` with one pixel value: `h` calls of
`WriteUniformPixels`, each `w` pixels wide. -/
def solidRows (x y w h pixel : Nat) : List Event :=
  (List.range h).map (fun i => Event.WriteUniformPixels x (y + i) w pixel)

/-- One RRE subrectangle on the wire: a pixel, then `x, y, w, h` as big-endian u16. -/
structure RRESubrect where
  pixel : List Uint8
  x : Uint16
  y : Uint16
  w : Uint16
  h : Uint16
deriving DecidableEq, Repr

/-- One CoRRE subrectangle on the wire: a pixel, then `x, y, w, h` as single bytes. -/
structure CoRRESubrect where
  pixel : List Uint8
  x : Uint8
  y : Uint8
  w : Uint8
  h : Uint8
deriving DecidableEq, Repr

/-- The bytes of the RRE subrectangles, in wire order. -/
def rreSubrectsWire : List RRESubrect → List Uint8
  | [] => []
  | s :: ss => s.pixel ++ be16 s.x.val ++ be16 s.y.val ++ be16 s.w.val ++ be16 s.h.val
      ++ rreSubrectsWire ss

/-- An RRE payload: the number of subrectangles as a big-endian u32, the background
pixel, the subrectangles. -/
def rreWire (bg : List Uint8) (subs : List RRESubrect) : List Uint8 :=
  be32 subs.length ++ bg ++ rreSubrectsWire subs

/-- The bytes of the CoRRE subrectangles, in wire order. -/
def correSubrectsWire : List CoRRESubrect → List Uint8
  | [] => []
  | s :: ss => s.pixel ++ [s.x, s.y, s.w, s.h] ++ correSubrectsWire ss

/-- A CoRRE payload. -/
def correWire (bg : List Uint8) (subs : List CoRRESubrect) : List Uint8 :=
  be32 subs.length ++ bg ++ correSubrectsWire subs

/-- Widening of a CoRRE subrectangle: its four 8-bit values as 16-bit values. -/
def CoRRESubrect.widen (s : CoRRESubrect) : RRESubrect :=
  ⟨s.pixel, toUint16 s.x.val, toUint16 s.y.val, toUint16 s.w.val, toUint16 s.h.val⟩

/-- The fills of the subrectangles in wire order: subrectangle `i` fills
`(rect.x + x_i, rect.y + y_i, w_i, h_i)` with its pixel, taken in native byte order. -/
def rreSubrectCalls (little_endian : Bool) (rect : ScreenRect) : List RRESubrect → List Event
  | [] => []
  | s :: ss =>
      solidRows (rect.x.val + s.x.val) (rect.y.val + s.y.val) s.w.val s.h.val
          (nativeValue little_endian s.pixel)
        ++ rreSubrectCalls little_endian rect ss

/-- The display calls the protocol asks of an RRE rectangle: fill `rect` with the
background, then fill each subrectangle, between `BeginDrawing` and `EndDrawing`. -/
def rreCalls (little_endian : Bool) (rect : ScreenRect) (bg : List Uint8)
    (subs : List RRESubrect) : List Event :=
  [Event.BeginDrawing]
    ++ solidRows rect.x.val rect.y.val rect.w.val rect.h.val (nativeValue little_endian bg)
    ++ rreSubrectCalls little_endian rect subs ++ [Event.EndDrawing rect]

/-- The fills the decoder makes for the subrectangles: the corner of each goes through
the `ScreenRect` constructor. -/
def filledSubrects (little_endian : Bool) (rect : ScreenRect) : List RRESubrect → List Event
  | [] => []
  | s :: ss =>
      solidRows ((rect.x.val + s.x.val) % 65536) ((rect.y.val + s.y.val) % 65536) s.w.val
          s.h.val (nativeValue little_endian s.pixel)
        ++ filledSubrects little_endian rect ss
/-! ## Hextile payloads, as the protocol describes them -/

/-- One Hextile subrectangle on the wire: a pixel when the tile's subrectangles are
coloured, then the packed `xy` and `wh` bytes. -/
structure HexSubrect where
  pixel : List Uint8
  xy : Uint8
  wh : Uint8
deriving DecidableEq, Repr

/-- One Hextile tile on the wire: the subencoding byte, then the raw pixels (Raw bit), or
the background pixel (BackgroundSpecified), the foreground pixel (ForegroundSpecified),
and the subrectangles with their count (AnySubrects). -/
structure HexTile where
  encoding : Uint8
  raw : List Uint8
  bg : List Uint8
  fg : List Uint8
  subrects : List HexSubrect
deriving DecidableEq, Repr

/-- The bytes of the subrectangles of a tile, in wire order. -/
def hexSubrectsWire (colored : Bool) : List HexSubrect → List Uint8
  | [] => []
  | s :: ss => (if colored then s.pixel else []) ++ [s.xy, s.wh] ++ hexSubrectsWire colored ss

/-- The bytes of a tile. -/
def HexTile.wire (t : HexTile) : List Uint8 :=
  t.encoding ::
    (if t.encoding.val &&& RFB_HEXTILE_RAW ≠ 0 then t.raw
     else
      (if t.encoding.val &&& RFB_HEXTILE_BG_SPECIFIED ≠ 0 then t.bg else [])
      ++ (if t.encoding.val &&& RFB_HEXTILE_FG_SPECIFIED ≠ 0 then t.fg else [])
      ++ (if t.encoding.val &&& RFB_HEXTILE_ANY_SUBRECTS ≠ 0 then [toUint8 t.subrects.length]
          else [])
      ++ hexSubrectsWire (decide (t.encoding.val &&& RFB_HEXTILE_SUBRECTS_COLORED ≠ 0))
          t.subrects)

/-- A tile of `tw` by `th` pixels is well formed: a raw tile carries `tw * th * bpp` bytes;
another tile carries pixels of `bpp` bytes where its flags announce them, and as many
subrectangles as its count byte says (none without AnySubrects). -/
def HexTile.WellFormed (bpp tw th : Nat) (t : HexTile) : Prop :=
  if t.encoding.val &&& RFB_HEXTILE_RAW ≠ 0 then t.raw.length = tw * th * bpp
  else
    (t.encoding.val &&& RFB_HEXTILE_BG_SPECIFIED ≠ 0 → t.bg.length = bpp)
    ∧ (t.encoding.val &&& RFB_HEXTILE_FG_SPECIFIED ≠ 0 → t.fg.length = bpp)
    ∧ (if t.encoding.val &&& RFB_HEXTILE_ANY_SUBRECTS ≠ 0 then t.subrects.length < 256
        else t.subrects = [])
    ∧ (t.encoding.val &&& RFB_HEXTILE_SUBRECTS_COLORED ≠ 0 →
        ∀ s ∈ t.subrects, s.pixel.length = bpp)

instance (bpp tw th : Nat) (t : HexTile) : Decidable (t.WellFormed bpp tw th) := by
  unfold HexTile.WellFormed
  infer_instance

/-- The running colours after a tile: a raw tile leaves both; another tile replaces the
background when BackgroundSpecified and the foreground when ForegroundSpecified. -/
def tileColors (c : HextileColors) (t : HexTile) : HextileColors :=
  if t.encoding.val &&& RFB_HEXTILE_RAW ≠ 0 then c
  else
    ⟨if t.encoding.val &&& RFB_HEXTILE_BG_SPECIFIED ≠ 0 then nativeValue false t.bg
      else c.tile_bg_color,
     if t.encoding.val &&& RFB_HEXTILE_FG_SPECIFIED ≠ 0 then nativeValue false t.fg
      else c.subtile_fg_color⟩

/-- The rows that fill a rectangle with one pixel value. -/
def fillRows (r : ScreenRect) (pixel : Nat) : List Event :=
  solidRows r.x.val r.y.val r.w.val r.h.val pixel

/-- The rectangle of a subrectangle with packed bytes `xy` and `wh` in a tile: at
`(tile.x + (xy >> 4), tile.y + (xy & 15))`, `1 + (wh >> 4)` wide and `1 + (wh & 15)`
high. -/
def hexSubrectRect (tile : ScreenRect) (s : HexSubrect) : ScreenRect :=
  ScreenRect.ctor (tile.x.val + (s.xy.val >>> 4)) (tile.y.val + (s.xy.val &&& 15))
    (1 + (s.wh.val >>> 4)) (1 + (s.wh.val &&& 15))

/-- The fills of the subrectangles of a tile, in wire order: each subrectangle is filled
with its own pixel when `colored` and with `fg` otherwise. -/
def hexSubrectCalls (tile : ScreenRect) (colored : Bool) (fg : Nat) :
    List HexSubrect → List Event
  | [] => []
  | s :: ss =>
      fillRows (hexSubrectRect tile s) (if colored then nativeValue false s.pixel else fg)
        ++ hexSubrectCalls tile colored fg ss

/-- The fills the decoder makes for the subrectangles of a tile: the corner of each goes
through the `ScreenRect` constructor. -/
def hexSubrectFills (tile_x tile_y : Nat) (colored : Bool) (fg : Nat) :
    List HexSubrect → List Event
  | [] => []
  | s :: ss =>
      solidRows ((tile_x + (s.xy.val >>> 4)) % 65536) ((tile_y + (s.xy.val &&& 15)) % 65536)
          (1 + (s.wh.val >>> 4)) (1 + (s.wh.val &&& 15))
          (if colored then nativeValue false s.pixel else fg)
        ++ hexSubrectFills tile_x tile_y colored fg ss

/-- The rows of a raw tile of `tw` by `th` pixels at `(x, y)`. -/
def rawTileRows (x y tw th bpp : Nat) (raw : List Uint8) : List Event :=
  (List.range th).map (fun i =>
    Event.WritePixels x (y + i) tw ((raw.drop (bpp * tw * i)).take (tw * bpp)))

/-- The display calls of the tile at offset `(tile_x, tile_y)` of `rect`, `th` high, when
the running colours before it are `c`: the rows of a raw tile; otherwise the fill of the
tile with the background, then the fills of its subrectangles (the corner of the tile is
a `ScreenRect` corner, 16-bit). -/
def tileFills (rect : ScreenRect) (bpp tile_y th tile_x : Nat) (c : HextileColors)
    (t : HexTile) : List Event :=
  if t.encoding.val &&& RFB_HEXTILE_RAW ≠ 0 then
    rawTileRows (rect.x.val + tile_x) (rect.y.val + tile_y) (min 16 (rect.w.val - tile_x)) th
      bpp t.raw
  else
    solidRows ((tile_x + rect.x.val) % 65536) ((tile_y + rect.y.val) % 65536)
        (min 16 (rect.w.val - tile_x)) th (tileColors c t).tile_bg_color
      ++ hexSubrectFills ((tile_x + rect.x.val) % 65536) ((tile_y + rect.y.val) % 65536)
          (decide (t.encoding.val &&& RFB_HEXTILE_SUBRECTS_COLORED ≠ 0))
          (tileColors c t).subtile_fg_color t.subrects

/-- The offsets of the tile rows or columns of a side of length `n`: `0, 16, ...`,
`ceil(n/16)` of them. -/
def tileOffsets (n : Nat) : List Nat := (List.range ((n + 15) / 16)).map (fun k => 16 * k)

/-- The display calls of one row of tiles, left to right; the running colours go from
tile to tile. -/
def rowFills (rect : ScreenRect) (bpp tile_y th : Nat) :
    List Nat → List HexTile → HextileColors → List Event
  | tile_x :: xs, t :: ts, c =>
      tileFills rect bpp tile_y th tile_x c t ++ rowFills rect bpp tile_y th xs ts (tileColors c t)
  | _, _, _ => []

/-- The running colours after a row of tiles. -/
def rowColors (c : HextileColors) (ts : List HexTile) : HextileColors :=
  ts.foldl tileColors c

/-- The bytes of a row of tiles. -/
def rowWire : List HexTile → List Uint8
  | [] => []
  | t :: ts => t.wire ++ rowWire ts

/-- The display calls of the rows of tiles, top to bottom; the running colours go from
row to row. -/
def rectFills (rect : ScreenRect) (bpp : Nat) :
    List Nat → List (List HexTile) → HextileColors → List Event
  | tile_y :: ys, row :: rows, c =>
      rowFills rect bpp tile_y (min 16 (rect.h.val - tile_y)) (tileOffsets rect.w.val) row c
        ++ rectFills rect bpp ys rows (rowColors c row)
  | _, _, _ => []

/-- The bytes of a Hextile payload: the tiles row by row. -/
def hexWire : List (List HexTile) → List Uint8
  | [] => []
  | row :: rows => rowWire row ++ hexWire rows

/-- A row of tiles for the columns at offsets `xs`. -/
def RowWellFormed (rect : ScreenRect) (bpp th : Nat) : List Nat → List HexTile → Prop
  | tile_x :: xs, t :: ts =>
      t.WellFormed bpp (min 16 (rect.w.val - tile_x)) th ∧ RowWellFormed rect bpp th xs ts
  | [], [] => True
  | _, _ => False

instance RowWellFormed.decidable (rect : ScreenRect) (bpp th : Nat) :
    (xs : List Nat) → (ts : List HexTile) → Decidable (RowWellFormed rect bpp th xs ts)
  | [], [] => isTrue trivial
  | [], _ :: _ => isFalse (fun h => h)
  | _ :: _, [] => isFalse (fun h => h)
  | _ :: xs, _ :: ts =>
      @instDecidableAnd _ _ inferInstance (RowWellFormed.decidable rect bpp th xs ts)

/-- A Hextile payload for `rect`: `ceil(h/16)` rows of `ceil(w/16)` well-formed tiles. -/
def HexWellFormed (rect : ScreenRect) (bpp : Nat) : List Nat → List (List HexTile) → Prop
  | tile_y :: ys, row :: rows =>
      RowWellFormed rect bpp (min 16 (rect.h.val - tile_y)) (tileOffsets rect.w.val) row
        ∧ HexWellFormed rect bpp ys rows
  | [], [] => True
  | _, _ => False

instance HexWellFormed.decidable (rect : ScreenRect) (bpp : Nat) :
    (ys : List Nat) → (rows : List (List HexTile)) → Decidable (HexWellFormed rect bpp ys rows)
  | [], [] => isTrue trivial
  | [], _ :: _ => isFalse (fun h => h)
  | _ :: _, [] => isFalse (fun h => h)
  | _ :: ys, _ :: rows =>
      @instDecidableAnd _ _ inferInstance (HexWellFormed.decidable rect bpp ys rows)

/-- The display calls of a Hextile rectangle whose payload is the rows of tiles `rows`:
the tiles in row-major order between `BeginDrawing` and `EndDrawing`, the running colours
starting at `⟨0, 0⟩`. -/
def hextileCalls (rect : ScreenRect) (bpp : Nat) (rows : List (List HexTile)) : List Event :=
  [Event.BeginDrawing] ++ rectFills rect bpp (tileOffsets rect.h.val) rows ⟨0, 0⟩
    ++ [Event.EndDrawing rect]

/-! ## Pixels written, and the tile grid -/

/-- The pixels a drawing call writes: `WritePixels` and `WriteUniformPixels` write the
`count` pixels of row `y` from column `x` on. -/
def Event.writesPixel (e : Event) (px py : Nat) : Prop :=
  match e with
  | .WritePixels x y count _ => py = y ∧ x ≤ px ∧ px < x + count
  | .WriteUniformPixels x y count _ => py = y ∧ x ≤ px ∧ px < x + count
  | _ => False

instance (e : Event) (px py : Nat) : Decidable (e.writesPixel px py) := by
  cases e <;> simp only [Event.writesPixel] <;> infer_instance

/-- The pixel `(px, py)` lies in the rectangle. -/
def ScreenRect.hasPixel (rect : ScreenRect) (px py : Nat) : Prop :=
  rect.x.val ≤ px ∧ px < rect.x.val + rect.w.val ∧ rect.y.val ≤ py ∧ py < rect.y.val + rect.h.val

instance (rect : ScreenRect) (px py : Nat) : Decidable (rect.hasPixel px py) := by
  unfold ScreenRect.hasPixel
  infer_instance

/-- No call of the list writes a pixel outside the rectangle. -/
def StaysInside (rect : ScreenRect) (calls : List Event) : Prop :=
  ∀ e ∈ calls, ∀ px py : Nat, e.writesPixel px py → rect.hasPixel px py

/-- Every subrectangle of the tile lies in the tile of `tw` by `th` pixels (a raw tile has
none). -/
def HexTile.SubrectsInside (tw th : Nat) (t : HexTile) : Prop :=
  t.encoding.val &&& RFB_HEXTILE_RAW ≠ 0 ∨
    ∀ s ∈ t.subrects, (s.xy.val >>> 4) + (1 + (s.wh.val >>> 4)) ≤ tw
      ∧ (s.xy.val &&& 15) + (1 + (s.wh.val &&& 15)) ≤ th

instance (tw th : Nat) (t : HexTile) : Decidable (t.SubrectsInside tw th) := by
  unfold HexTile.SubrectsInside
  infer_instance

/-- Every subrectangle of a row of tiles lies in its tile. -/
def RowInside (rect : ScreenRect) (th : Nat) : List Nat → List HexTile → Prop
  | tile_x :: xs, t :: ts =>
      t.SubrectsInside (min 16 (rect.w.val - tile_x)) th ∧ RowInside rect th xs ts
  | _, _ => True

instance RowInside.decidable (rect : ScreenRect) (th : Nat) :
    (xs : List Nat) → (ts : List HexTile) → Decidable (RowInside rect th xs ts)
  | [], _ => isTrue trivial
  | _ :: _, [] => isTrue trivial
  | _ :: xs, _ :: ts =>
      @instDecidableAnd _ _ inferInstance (RowInside.decidable rect th xs ts)

/-- Every subrectangle of a Hextile payload lies in its tile. -/
def HexInside (rect : ScreenRect) : List Nat → List (List HexTile) → Prop
  | tile_y :: ys, row :: rows =>
      RowInside rect (min 16 (rect.h.val - tile_y)) (tileOffsets rect.w.val) row
        ∧ HexInside rect ys rows
  | _, _ => True

instance HexInside.decidable (rect : ScreenRect) :
    (ys : List Nat) → (rows : List (List HexTile)) → Decidable (HexInside rect ys rows)
  | [], _ => isTrue trivial
  | _ :: _, [] => isTrue trivial
  | _ :: ys, _ :: rows =>
      @instDecidableAnd _ _ inferInstance (HexInside.decidable rect ys rows)

/-- The Hextile decoder written over the tile grid in row-major order: `ceil(w/16)`
columns and `ceil(h/16)` rows; step `k` is the tile at column `k % cols` and row
`k / cols`, at offset `(16 * column, 16 * row)`, of height `min(16, h - 16 * row)`. -/
def hextileByGrid (rect : ScreenRect) : M Unit := do
  incProcessed (fun p => { p with HEXTILE := (p.HEXTILE + 1) % 4294967296 })
  let fmt ← GetPixelFormat
  emit .BeginDrawing
  let cols := (rect.w.val + 15) / 16
  let rows := (rect.h.val + 15) / 16
  let _ ← forLoop (fun k c =>
      hextileTile rect fmt.bytes (16 * (k / cols)) (min 16 (rect.h.val - 16 * (k / cols)))
        (16 * (k % cols)) c)
    (List.range (rows * cols)) ⟨0, 0⟩
  emit (.EndDrawing rect)

/-! ## vnc-rfb.cc: the handshakes -/

/-- The `std::string` made from a `char` buffer (`string s = buf`, `var = _tmp`): the
bytes before the first NUL. -/
def cStr (buf : List Uint8) : List Uint8 := buf.takeWhile (fun b => b.val ≠ 0)

/-- The text of a `std::string`, for messages. -/
def stdString (s : List Uint8) : String := String.mk (s.map (fun b => Char.ofNat b.val))

/-- Embeds `std::string::substr( pos, n )`: throws `std::out_of_range` when `pos` is
past the end of the string. -/
def substr (s : List Uint8) (pos n : Nat) : M (List Uint8) :=
  if pos > s.length then throwExc .StdOutOfRange else pure ((s.drop pos).take n)

/-- The C library's `isspace` in the "C" locale. -/
def isspace (c : Uint8) : Bool := c.val = 32 || (9 ≤ c.val && c.val ≤ 13)

/-- The C library's `isdigit`. -/
def isdigit (c : Uint8) : Bool := 48 ≤ c.val && c.val ≤ 57

/-- The digits loop of `atoi`: stops at the first byte that is not a digit. -/
def atoiDigits : List Uint8 → Int → Int
  | [], acc => acc
  | c :: cs, acc => if isdigit c then atoiDigits cs (acc * 10 + ((c.val : Int) - 48)) else acc

/-- The C library's `atoi` on a string short enough not to overflow an `int`: leading
white space, an optional sign, then decimal digits. -/
def atoi (s : List Uint8) : Int :=
  match s.dropWhile isspace with
  | [] => 0
  | c :: cs =>
    if c.val = 45 then - atoiDigits cs 0
    else if c.val = 43 then atoiDigits cs 0
    else atoiDigits (c :: cs) 0

def VNC_STRING_LENGTH_LIMIT : Nat := 1000

/-- The macro `NET_STRING( var, limit )`: the value given to `var`. -/
def NET_STRING (limit : Nat) : M (List Uint8) := do
  let _v ← NET_UINT32
  if _v > limit then
    throwExc (.Msg "received unreasonably long string")
  else
    let _tmp ← ReceiveBytes _v
    pure (cStr _tmp)

/-- The bytes of the literal `"RFB"`. -/
def RFB_ID : List Uint8 := [82, 70, 66]

/-- The twelve bytes `sprintf( buf, "RFB 003.003\n" )` leaves in `buf`. -/
def RFB_VERSION_3_3 : List Uint8 := [82, 70, 66, 32, 48, 48, 51, 46, 48, 48, 51, 10]

/-- Embeds `RFBProto::DoVersionHandshake()`. -/
def RFBProto.DoVersionHandshake (S : RFBProto) : M RFBProto := do
  let buf ← ReceiveBytes 12
  let version := cStr (buf.set 11 0)
  let rfb_id ← substr version 0 3
  let rfb_major ← substr version 4 3
  let rfb_minor ← substr version 8 3
  let S1 := { S with m_rfb_major_version := atoi rfb_major,
                     m_rfb_minor_version := atoi rfb_minor }
  if rfb_id ≠ RFB_ID then
    throwExc .NotRFB
  else if S1.m_rfb_major_version ≠ 3 then
    throwExc .BadVersion
  else if S1.m_rfb_minor_version < 0 then
    throwExc .BadVersion
  else
    let S2 := { S1 with m_rfb_major_version := 3, m_rfb_minor_version := 3 }
    SendBytes RFB_VERSION_3_3
    pure S2

/-- The key loop of `RFBProto::GenerateDESResponse`: `key[i]` is `'\0'` when
`i >= m_password.length()` and `m_password[i]` otherwise. -/
def desKey (password : List Uint8) : List Uint8 :=
  (List.range 8).map (fun i => if i ≥ password.length then 0 else password.getD i 0)

/-- Embeds `RFBProto::GenerateDESResponse( challenge, response )`: the 16 bytes left in
`response`. `Des key block` stands for d3des, which is taken as a parameter: the 8 bytes
`des( block, out )` writes after `deskey( key, 0 )`. -/
def GenerateDESResponse (Des : List Uint8 → List Uint8 → List Uint8)
    (password challenge : List Uint8) : List Uint8 :=
  let key := desKey password
  Des key (challenge.take 8) ++ Des key ((challenge.drop 8).take 8)

def RFB_AUTH_FAILED : Nat := 0
def RFB_AUTH_NONE : Nat := 1
def RFB_AUTH_VNC : Nat := 2
def RFB_AUTH_RESULT_OK : Nat := 0
def RFB_AUTH_RESULT_FAILED : Nat := 1
def RFB_AUTH_RESULT_TOOMANY : Nat := 2

/-- Embeds `RFBProto::DoDESChallenge()`. -/
def RFBProto.DoDESChallenge (Des : List Uint8 → List Uint8 → List Uint8) (S : RFBProto) :
    M Unit := do
  let challenge ← ReceiveBytes 16
  let response := GenerateDESResponse Des S.m_password challenge
  SendBytes response
  let result ← NET_UINT32
  if result = RFB_AUTH_RESULT_OK then
    pure ()
  else if result = RFB_AUTH_RESULT_FAILED then
    throwExc .AuthFailed
  else if result = RFB_AUTH_RESULT_TOOMANY then
    throwExc .AuthTooMany
  else
    throwExc .AuthFailed

/-- Embeds `RFBProto::DoAuthHandshake()`. -/
def RFBProto.DoAuthHandshake (Des : List Uint8 → List Uint8 → List Uint8) (S : RFBProto) :
    M Unit := do
  let scheme ← NET_UINT32
  if scheme = RFB_AUTH_FAILED then
    let reason ← NET_STRING VNC_STRING_LENGTH_LIMIT
    throwExc (.Msg ("RFB handshake failed: " ++ stdString reason))
  else if scheme = RFB_AUTH_NONE then
    pure ()
  else if scheme = RFB_AUTH_VNC then
    S.DoDESChallenge Des
  else
    throwExc .UnknownAuth

/-- Embeds `RFBProto::DoInitHandshake()`. -/
def RFBProto.DoInitHandshake (S : RFBProto) : M RFBProto := do
  let shared_flag : Uint8 := if S.m_shared then 1 else 0
  SendBytes [shared_flag]
  let fb_width ← NET_UINT16
  let fb_height ← NET_UINT16
  let bits_per_pixel ← NET_UINT8
  let color_depth ← NET_UINT8
  let big_endian_flag ← NET_UINT8
  let _true_color_flag ← NET_UINT8
  let red_max ← NET_UINT16
  let green_max ← NET_UINT16
  let blue_max ← NET_UINT16
  let red_shift ← NET_UINT8
  let green_shift ← NET_UINT8
  let blue_shift ← NET_UINT8
  let _padding ← ReceiveBytes 3
  let desktop_name ← NET_STRING VNC_STRING_LENGTH_LIMIT
  let S1 := { S with m_desktop_name := desktop_name,
                     m_desktop_width := (fb_width : Int),
                     m_desktop_height := (fb_height : Int) }
  let S2 := { S1 with m_pixel_format := { S1.m_pixel_format with bytes := bits_per_pixel / 8 } }
  if S2.m_pixel_format.bytes < 1 then
    throwExc .BadFormat
  else
    pure { S2 with m_pixel_format :=
      { S2.m_pixel_format with
        bits := color_depth
        red_mask := red_max
        green_mask := green_max
        blue_mask := blue_max
        red_shift := red_shift
        green_shift := green_shift
        blue_shift := blue_shift
        big_endian := if big_endian_flag ≠ 0 then true else false } }

def RFB_CLIENT_SETENCODINGS : Nat := 2

/-- Embeds `RFBProto::DoSupportedEncodings()`. -/
def RFBProto.DoSupportedEncodings (S : RFBProto) : M Unit := do
  BeginWritePacket
  SEND_UINT8 RFB_CLIENT_SETENCODINGS
  SEND_UINT8 0
  SEND_UINT16 S.m_decoders_vec.length
  forEach (fun i => SEND_UINT32 ((S.m_decoders_vec.map Decoder.GetType).getD i 0))
    (List.range S.m_decoders_vec.length)
  EndWritePacket

/-- The loop of the constructor that fills the map:
`m_decoders[ decoders[i]->GetType() ] = decoders[i]`, from the empty map. -/
def registerDecoders (decoders : List Decoder) : Nat → Option Decoder :=
  decoders.foldl (fun m d => fun t => if t = d.GetType then some d else m t) (fun _ => none)

/-- Embeds the constructor `RFBProto::RFBProto( net, password, shared, decoders )`; the
pixel format is not initialised by it, `fmt0` is what the member holds before the init
handshake sets it. -/
def RFBProto.ctor (Des : List Uint8 → List Uint8 → List Uint8) (fmt0 : PixelFormat)
    (password : List Uint8) (shared : Bool) (decoders : List Decoder) : M RFBProto := do
  let S0 : RFBProto :=
    { m_shared := shared
      m_password := password
      m_rfb_major_version := -1
      m_rfb_minor_version := -1
      m_pixel_format := fmt0
      m_desktop_width := -1
      m_desktop_height := -1
      m_desktop_name := [110, 111, 116, 32, 99, 111, 110, 110, 101, 99, 116, 101, 100]
      m_decoders := registerDecoders decoders
      m_decoders_vec := decoders }
  let S1 ← S0.DoVersionHandshake
  S1.DoAuthHandshake Des
  let S2 ← S1.DoInitHandshake
  S2.DoSupportedEncodings
  pure S2

/-- Embeds `RFBProto::GetDesktopName()`. -/
def RFBProto.GetDesktopName (S : RFBProto) : List Uint8 := S.m_desktop_name

/-! ## zlib-reader.cpp and vnc-encoding-zlib.cc -/

/-- Conversion of an `int` to zlib's `uInt`. -/
def toUInt (i : Int) : Nat := (i % 4294967296).toNat

def Z_OK : Int := 0

/-- What one call `inflate( &m_zs, Z_SYNC_FLUSH )` does: its return code, the new internal
state, how many input bytes it consumed and the bytes it wrote at `next_out`. -/
structure InflateResult (σ : Type) where
  ret : Int
  state : σ
  consumed : Nat
  output : List Uint8

/-- The zlib primitive `inflate` with `Z_SYNC_FLUSH`, taken as a parameter: from the
internal state, the `avail_in` bytes at `next_in` and `avail_out`. -/
abbrev Inflate (σ : Type) : Type := σ → List Uint8 → Nat → InflateResult σ

/-- The class `ZlibReader`: the member `m_zs`, as its internal state and the `avail_in`
bytes at `next_in`. -/
structure ZlibReader (σ : Type) where
  state : σ
  next_in : List Uint8

/-- Embeds `ZlibReader::SetStream( input, size )`. -/
def ZlibReader.SetStream {σ : Type} (rd : ZlibReader σ) (input : List Uint8) (size : Int) :
    M (ZlibReader σ) := do
  emit (.Cerr ("stream has " ++ toString size ++ " bytes\n"))
  pure { rd with next_in := input.take (toUInt size) }

/-- The `do ... while` loop of `ZlibReader::ReadBytes`: `written` is what lies between
`buf` and `next_out`; `none` when the loop is still running after `fuel` turns. A call of
`inflate` writes at most `avail_out` bytes. -/
def ZlibReader.readLoop {σ : Type} (inflate : Inflate σ) (length : Int) :
    Nat → ZlibReader σ → Nat → List Uint8 → Option (Except Exc (List Uint8) × ZlibReader σ)
  | 0, _, _, _ => none
  | fuel + 1, rd, avail_out, written =>
    let r := inflate rd.state rd.next_in avail_out
    let out := r.output.take avail_out
    let rd1 : ZlibReader σ := ⟨r.state, rd.next_in.drop r.consumed⟩
    if r.ret ≠ Z_OK then
      some (.error (.Msg "unable to decompress data"), rd1)
    else if ((written ++ out).length : Int) < length then
      ZlibReader.readLoop inflate length fuel rd1 (avail_out - out.length) (written ++ out)
    else
      some (.ok (written ++ out), rd1)

/-- Embeds `ZlibReader::ReadBytes( buf, length )`: the bytes written to `buf`. -/
def ZlibReader.ReadBytes {σ : Type} (inflate : Inflate σ) (fuel : Nat) (rd : ZlibReader σ)
    (length : Int) : Option (Except Exc (List Uint8) × ZlibReader σ) :=
  ZlibReader.readLoop inflate length fuel rd (toUInt length) []

/-- The part of `DecoderZLIB::operator()` before the inflater runs. -/
def DecoderZLIB.receive {σ : Type} (rd : ZlibReader σ) : M (ZlibReader σ) := do
  incProcessed (fun p => { p with ZLIB := (p.ZLIB + 1) % 4294967296 })
  let compressed_length ← NET_UINT32
  let compressed_buf ← ReceiveBytes compressed_length
  rd.SetStream compressed_buf (toInt32 compressed_length)

/-- The part of `DecoderZLIB::operator()` after the inflater has filled `buf`. -/
def DecoderZLIB.draw (rect : ScreenRect) (buf : List Uint8) : M Unit := do
  emit .BeginDrawing
  let fmt ← GetPixelFormat
  forEach (fun y =>
    emit (.WritePixels rect.x.val (rect.y.val + y) rect.w.val
      ((buf.drop ((fmt.bytes * rect.w.val * y) % 4294967296)).take (rect.w.val * fmt.bytes))))
    (List.range rect.h.val)
  emit (.EndDrawing rect)

/-- Embeds `DecoderZLIB::operator()( rect, disp )`, with the decoder's member
`m_zlib_reader` passed in and out; `none` when `ReadBytes` is still running after `fuel`
turns of its loop. -/
def DecoderZLIB {σ : Type} (inflate : Inflate σ) (fuel : Nat) (rect : ScreenRect)
    (rd : ZlibReader σ) : World → Option (Except Exc (ZlibReader σ) × World) := fun W =>
  match DecoderZLIB.receive rd W with
  | (.error e, W1) => some (.error e, W1)
  | (.ok rd1, W1) =>
    let count := (rect.w.val * rect.h.val * W1.disp_format.bytes) % 4294967296
    match rd1.ReadBytes inflate fuel (toInt32 count) with
    | none => none
    | some (.error e, _) => some (.error e, W1)
    | some (.ok buf, rd2) =>
      match DecoderZLIB.draw rect buf W1 with
      | (.error e, W2) => some (.error e, W2)
      | (.ok _, W2) => some (.ok rd2, W2)

/-! ## The handshake records, as the protocol describes them -/

/-- The server-init record: `width, height: u16`, the 16-byte pixel format (bits per
pixel, depth, big-endian flag, true-colour flag, three u16 maxima, three u8 shifts, three
padding bytes) and the desktop name, which goes on the wire behind its u32 length. -/
structure ServerInit where
  width : Uint16
  height : Uint16
  bits_per_pixel : Uint8
  depth : Uint8
  big_endian_flag : Uint8
  true_color_flag : Uint8
  red_max : Uint16
  green_max : Uint16
  blue_max : Uint16
  red_shift : Uint8
  green_shift : Uint8
  blue_shift : Uint8
  pad0 : Uint8
  pad1 : Uint8
  pad2 : Uint8
  name : List Uint8
deriving DecidableEq, Repr

/-- The bytes of a server-init record on the wire. -/
def ServerInit.wire (r : ServerInit) : List Uint8 :=
  be16 r.width.val ++ (be16 r.height.val ++
    (r.bits_per_pixel :: r.depth :: r.big_endian_flag :: r.true_color_flag ::
      (be16 r.red_max.val ++ (be16 r.green_max.val ++ (be16 r.blue_max.val ++
        (r.red_shift :: r.green_shift :: r.blue_shift :: r.pad0 :: r.pad1 :: r.pad2 ::
          (be32 r.name.length ++ r.name)))))))

/-- The pixel format a server-init record describes: bytes = bits per pixel div 8, the
depth, the flag (non-zero means big-endian), the maxima and the shifts. -/
def ServerInit.format (r : ServerInit) : PixelFormat :=
  { bytes := r.bits_per_pixel.val / 8
    bits := r.depth.val
    red_mask := r.red_max.val
    green_mask := r.green_max.val
    blue_mask := r.blue_max.val
    red_shift := r.red_shift.val
    green_shift := r.green_shift.val
    blue_shift := r.blue_shift.val
    big_endian := decide (r.big_endian_flag.val ≠ 0) }

/-- The init record of a 1x1 desktop at 32 bits per pixel, depth 24, with the given name. -/
def initRecord (name : List Uint8) : ServerInit :=
  ⟨1, 1, 32, 24, 0, 1, 255, 255, 255, 16, 8, 0, 0, 0, 0, name⟩

/-- A byte with its bits in reverse order: bit 0 swapped with bit 7, 1 with 6, and so on
(what the RFB reference does to each key byte). -/
def bitMirror (b : Uint8) : Uint8 :=
  toUint8 ((List.range 8).foldl (fun acc i => acc + (b.val / 2 ^ i % 2) * 2 ^ (7 - i)) 0)

/-- The bytes of the password `"pass"`. -/
def passBytes : List Uint8 := [112, 97, 115, 115]

/-- A DES stand-in that lets the key it is given be seen: it returns the key. -/
def keyProbe (key _block : List Uint8) : List Uint8 := key

/-- A session whose decoder map is built from the list that holds the Raw decoder only. -/
def rawListSession : RFBProto :=
  { rawOnlySession with m_decoders := registerDecoders [⟨0, DecoderRAW⟩] }

/-- A session with the password `"pass"`. -/
def passSession : RFBProto := { rawOnlySession with m_password := passBytes }

/-- The `WritePixels` calls of the row loop that the Raw and the ZLIB decoder have in
common, on the buffer `buf`: row `y` is drawn at `(x, y0 + y)` with count `w` from the
bytes of `buf` at offset `bpp * w * y` (an `unsigned` product). -/
def bufferRows (rect : ScreenRect) (bpp : Nat) (buf : List Uint8) : List Event :=
  (List.range rect.h.val).map (fun y =>
    Event.WritePixels rect.x.val (rect.y.val + y) rect.w.val
      ((buf.drop ((bpp * rect.w.val * y) % 4294967296)).take (rect.w.val * bpp)))

/-! ## vnc-rfb.cc: the messages the client sends -/

def RFB_CLIENT_SETPIXELFORMAT : Nat := 0
def RFB_CLIENT_KEYEVENT : Nat := 4
def RFB_CLIENT_POINTEREVENT : Nat := 5

/-- Embeds `RFBProto::SendPixelFormat( format )`. -/
def RFBProto.SendPixelFormat (format : PixelFormat) : M Unit := do
  BeginWritePacket
  SEND_UINT8 RFB_CLIENT_SETPIXELFORMAT
  SEND_UINT8 0
  SEND_UINT16 0
  SEND_UINT8 ((format.bytes * 8) % 4294967296)
  SEND_UINT8 format.bits
  SEND_UINT8 (if format.big_endian then 1 else 0)
  SEND_UINT8 1
  SEND_UINT16 format.red_mask
  SEND_UINT16 format.green_mask
  SEND_UINT16 format.blue_mask
  SEND_UINT8 format.red_shift
  SEND_UINT8 format.green_shift
  SEND_UINT8 format.blue_shift
  SEND_UINT8 0
  SEND_UINT16 0
  EndWritePacket

/-- Embeds `RFBProto::SetDisplay( display )`: the display is the world's. -/
def RFBProto.SetDisplay (S : RFBProto) : M RFBProto := do
  let fmt ← GetPixelFormat
  let S1 := { S with m_pixel_format := fmt }
  RFBProto.SendPixelFormat S1.m_pixel_format
  pure S1

/-- Embeds `RFBProto::SendKeyEventMessage( key, down )`. -/
def RFBProto.SendKeyEventMessage (key : Nat) (down : Bool) : M Unit := do
  BeginWritePacket
  SEND_UINT8 RFB_CLIENT_KEYEVENT
  SEND_UINT8 (if down then 1 else 0)
  SEND_UINT16 0
  SEND_UINT32 key
  EndWritePacket

/-- Embeds `RFBProto::SendMouseEventMessage( x, y, buttons )`. -/
def RFBProto.SendMouseEventMessage (x y buttons : Nat) : M Unit := do
  BeginWritePacket
  SEND_UINT8 RFB_CLIENT_POINTEREVENT
  SEND_UINT8 buttons
  SEND_UINT16 x
  SEND_UINT16 y
  EndWritePacket

/-! ## vnc-display-sdl.cc: the pixel format of the display -/

/-- The fields of SDL's `SDL_PixelFormat` that the display reads. -/
structure SDL_PixelFormat where
  BytesPerPixel : Nat
  Rmask : Nat
  Gmask : Nat
  Bmask : Nat
  Rshift : Nat
  Gshift : Nat
  Bshift : Nat
deriving DecidableEq, Repr

/-- The loop of `MaskSize`: `while( mask ) { ++i; mask >>= 1; }`. A `Uint32` is zero after
at most 32 turns. -/
def MaskSize.loop : Nat → Nat → Nat → Nat
  | 0, _, i => i
  | fuel + 1, mask, i => if mask ≠ 0 then MaskSize.loop fuel (mask >>> 1) (i + 1) else i

/-- Embeds `MaskSize( mask )`. -/
def MaskSize (mask : Nat) : Nat := MaskSize.loop 32 (mask % 4294967296) 0

/-- Embeds `SDLDisplay::Setup8bpp()`: the new value of `m_format`. The three masks are
`int`s converted to `unsigned`, exact for sizes below 31. The palette handed to
`SDL_SetColors` is not part of the world. -/
def Setup8bpp (m_format : PixelFormat) : PixelFormat :=
  let server := m_format.bytes = 1
  let rbits := if server then MaskSize m_format.red_mask else 3
  let _gbits := if server then MaskSize m_format.green_mask else 3
  let _bbits := if server then MaskSize m_format.blue_mask else 2
  let rshift := if server then m_format.red_shift else 5
  let gshift := if server then m_format.green_shift else 2
  let bshift := if server then m_format.blue_shift else 0
  let rmask := ((1 <<< rbits) - 1) % 4294967296
  let gmask := ((1 <<< rbits) - 1) % 4294967296
  let bmask := ((1 <<< rbits) - 1) % 4294967296
  { bytes := 1
    bits := 8
    red_mask := rmask
    green_mask := gmask
    blue_mask := bmask
    red_shift := rshift
    green_shift := gshift
    blue_shift := bshift
    big_endian := false }

/-- Embeds `SDLDisplay::Setup16or32bit()`: the new value of `m_format`; `VNC_BIG_ENDIAN` is
the build flag of a big-endian host. -/
def Setup16or32bit (little_endian : Bool) (fmt : SDL_PixelFormat) (m_format : PixelFormat) :
    PixelFormat :=
  { m_format with
    red_mask := (fmt.Rmask % 4294967296) >>> fmt.Rshift
    green_mask := (fmt.Gmask % 4294967296) >>> fmt.Gshift
    blue_mask := (fmt.Bmask % 4294967296) >>> fmt.Bshift
    red_shift := fmt.Rshift
    green_shift := fmt.Gshift
    blue_shift := fmt.Bshift
    big_endian := !little_endian }

/-- Embeds `SDLDisplay::ReconcilePixelFormat()`: the new value of `m_format`. -/
def ReconcilePixelFormat (fmt : SDL_PixelFormat) (m_format : PixelFormat) : M PixelFormat :=
  fun W =>
    if fmt.BytesPerPixel = 1 then (.ok (Setup8bpp m_format), W)
    else if fmt.BytesPerPixel = 2 ∨ fmt.BytesPerPixel = 3 ∨ fmt.BytesPerPixel = 4 then
      (.ok (Setup16or32bit W.little_endian fmt m_format), W)
    else (.error (.Msg "strange color depth returned from SDL"), W)

/-- Assignment to the member `Display::m_format`. -/
def setDisplayFormat (fmt : PixelFormat) : M Unit := fun W =>
  (.ok (), { W with disp_format := fmt })

/-- Embeds the constructors `Display::Display( rfb )` and `SDLDisplay::SDLDisplay( rfb )`.
What SDL answers is a parameter: the result of `SDL_Init` and the format of the surface
that `SDL_SetVideoMode` returns (`none` for `NULL`). -/
def SDLDisplay.ctor (rfb : RFBProto) (sdl_init : Int) (surface : Option SDL_PixelFormat) :
    M Unit := do
  setDisplayFormat rfb.m_pixel_format
  if sdl_init < 0 then
    throwExc .SDLInit
  else
    match surface with
    | none => throwExc .SDLVideo
    | some fmt => do
      let m_format ← GetPixelFormat
      let reconciled ← ReconcilePixelFormat fmt m_format
      setDisplayFormat reconciled
      RFBProto.SendUpdateRequest
        (ScreenRect.ctor 0 0 (intToUint16 rfb.m_desktop_width)
          (intToUint16 rfb.m_desktop_height))
        false

/-! ## main.cc -/

def VNC_DEFAULT_PORT : Int := 5901

/-- The option variables of `main`. -/
structure Options where
  opt_password : List Uint8
  opt_port : Int
  opt_verbose : Bool
  opt_enable_hextile : Bool
  opt_enable_corre : Bool
  opt_enable_rre : Bool
  opt_enable_zrle : Bool
  opt_enable_copyrect : Bool
  opt_enable_zlib : Bool
deriving DecidableEq, Repr

/-- The initial values of the option variables. -/
def Options.initial : Options :=
  { opt_password := []
    opt_port := VNC_DEFAULT_PORT
    opt_verbose := false
    opt_enable_hextile := true
    opt_enable_corre := true
    opt_enable_rre := true
    opt_enable_zrle := true
    opt_enable_copyrect := true
    opt_enable_zlib := true }

/-- The bytes of a string literal of the source (ASCII). -/
def asciiBytes (s : String) : List Uint8 := s.toList.map (fun c => toUint8 c.toNat)

/-- The C library's `tolower` in the "C" locale. -/
def tolower (c : Uint8) : Uint8 := if 65 ≤ c.val ∧ c.val ≤ 90 then toUint8 (c.val + 32) else c

/-- The C library's `strcasecmp` on two strings: zero when they are equal up to the case
of letters, else the difference of the first two bytes that differ. -/
def strcasecmp : List Uint8 → List Uint8 → Int
  | [], [] => 0
  | [], b :: _ => - ((tolower b).val : Int)
  | a :: _, [] => ((tolower a).val : Int)
  | a :: as, b :: bs =>
    if tolower a = tolower b then strcasecmp as bs
    else ((tolower a).val : Int) - ((tolower b).val : Int)

/-- Embeds `Usage( path )`: the text written to `cerr`. -/
def Usage (path : String) : String :=
  "Edifying VNC Client of Ook, version 0.1\n"
    ++ "Usage:" ++ path ++ " [-p port] [-a password] [-v] [-d encoding] hostname\n"
    ++ "    -p port          TCP port to connect with\n"
    ++ "    -a password      VNC authentication password\n"
    ++ "    -d encoding      disable a particular encoding by name\n"

/-- One answer of `getopt( argc, argv, "va:p:d:" )`: the option character and `optarg`. -/
structure GetoptResult where
  ch : Char
  optarg : List Uint8
deriving DecidableEq, Repr

/-- The body of the option loop of `main` for one answer of `getopt`: the new option
variables, or the exit status of `main` with the text written to `cerr`. -/
def mainOption (program_path : String) (o : Options) (g : GetoptResult) :
    Except (Int × String) Options :=
  if g.ch = 'a' then .ok { o with opt_password := g.optarg }
  else if g.ch = 'p' then
    let opt_port := atoi g.optarg
    if opt_port < 0 ∨ opt_port > 65535 then
      .error (1, "Invalid port " ++ toString opt_port ++ " selected.\n")
    else .ok { o with opt_port := opt_port }
  else if g.ch = 'v' then .ok { o with opt_verbose := true }
  else if g.ch = 'd' then
    if strcasecmp g.optarg (asciiBytes "hextile") = 0 then
      .ok { o with opt_enable_hextile := false }
    else if strcasecmp g.optarg (asciiBytes "corre") = 0 then
      .ok { o with opt_enable_corre := false }
    else if strcasecmp g.optarg (asciiBytes "rre") = 0 then
      .ok { o with opt_enable_rre := false }
    else if strcasecmp g.optarg (asciiBytes "zrle") = 0 then
      .ok { o with opt_enable_zrle := false }
    else if strcasecmp g.optarg (asciiBytes "copyrect") = 0 then
      .ok { o with opt_enable_copyrect := false }
    else if strcasecmp g.optarg (asciiBytes "zlib") = 0 then
      .ok { o with opt_enable_zlib := false }
    else .error (1, Usage program_path)
  else .error (1, Usage program_path)

/-- The option loop of `main` over the answers of `getopt`, oldest first. -/
def mainOptionLoop (program_path : String) : Options → List GetoptResult →
    Except (Int × String) Options
  | o, [] => .ok o
  | o, g :: gs =>
    match mainOption program_path o g with
    | .ok o1 => mainOptionLoop program_path o1 gs
    | .error e => .error e

/-- Embeds `main` up to the host name: the option loop, then the check that exactly one
operand is left. -/
def mainOptions (program_path : String) (opts : List GetoptResult)
    (operands : List (List Uint8)) : Except (Int × String) Options :=
  match mainOptionLoop program_path Options.initial opts with
  | .error e => .error e
  | .ok o => if operands.length ≠ 1 then .error (1, Usage program_path) else .ok o

/-- The decoder classes of which `main` creates an object. -/
inductive DecoderClass where
  | ZLIB
  | HEXTILE
  | CORRE
  | RRE
  | COPYRECT
  | RAW
deriving DecidableEq, Repr

/-- The vector `decoders` that `main` fills "in order of preference" and hands to the
session. -/
def mainDecoders (o : Options) : List DecoderClass :=
  (if o.opt_enable_zlib then [DecoderClass.ZLIB] else [])
    ++ (if o.opt_enable_hextile then [DecoderClass.HEXTILE] else [])
    ++ (if o.opt_enable_corre then [DecoderClass.CORRE] else [])
    ++ (if o.opt_enable_rre then [DecoderClass.RRE] else [])
    ++ (if o.opt_enable_copyrect then [DecoderClass.COPYRECT] else [])
    ++ [DecoderClass.RAW]

/-- Embeds the three statements of `main` that set the session up, without `-v`:
`VNC::RFBProto rfb( client, opt_password, true, decoders )`,
`VNC::SDLDisplay display( rfb )` and `rfb.SetDisplay( &display )`. -/
def mainSession (Des : List Uint8 → List Uint8 → List Uint8) (fmt0 : PixelFormat)
    (opt_password : List Uint8) (decoders : List Decoder) (sdl_init : Int)
    (surface : Option SDL_PixelFormat) : M RFBProto := do
  let rfb ← RFBProto.ctor Des fmt0 opt_password true decoders
  SDLDisplay.ctor rfb sdl_init surface
  rfb.SetDisplay

/-! ## What is sent, as the protocol describes it -/

/-- The bytes one call hands to the transport. -/
def Event.sent : Event → List Uint8
  | .SendBytes data => data
  | _ => []

/-- The bytes a trace hands to the transport, in order. -/
def sentBytes (tr : List Event) : List Uint8 := (tr.map Event.sent).flatten

/-- Calls on the sending side of the network. -/
def Event.isNetCall : Event → Bool
  | .BeginWritePacket => true
  | .EndWritePacket => true
  | .SendBytes _ => true
  | _ => false

/-- Calls on the display. -/
def Event.isDisplayCall : Event → Bool
  | .BeginDrawing => true
  | .EndDrawing _ => true
  | .WritePixels _ _ _ _ => true
  | .WriteUniformPixels _ _ _ _ => true
  | .CopyPixels _ _ _ _ _ _ => true
  | _ => false

/-- The calls of a trace on the sending side of the network. -/
def netCalls (tr : List Event) : List Event := tr.filter Event.isNetCall

/-- The calls of a trace on the display. -/
def displayCalls (tr : List Event) : List Event := tr.filter Event.isDisplayCall

/-- A computation that makes no call on the sending side of the network, whether it
returns or throws. -/
def Silent {α : Type} (m : M α) : Prop := ∀ W, netCalls (m W).2.trace = netCalls W.trace

/-- A decoder that writes nothing to the transport. -/
def Decoder.Quiet (d : Decoder) : Prop := ∀ rect, Silent (d.call rect)

/-- The calls of `SendPixelFormat( format )`. -/
def pixelFormatCalls (format : PixelFormat) : List Event :=
  [Event.BeginWritePacket, Event.SendBytes [0], Event.SendBytes [0], Event.SendBytes [0, 0],
    Event.SendBytes [toUint8 (format.bytes * 8)], Event.SendBytes [toUint8 format.bits],
    Event.SendBytes [if format.big_endian then 1 else 0], Event.SendBytes [1],
    Event.SendBytes (be16 (format.red_mask % 65536)),
    Event.SendBytes (be16 (format.green_mask % 65536)),
    Event.SendBytes (be16 (format.blue_mask % 65536)),
    Event.SendBytes [toUint8 format.red_shift], Event.SendBytes [toUint8 format.green_shift],
    Event.SendBytes [toUint8 format.blue_shift], Event.SendBytes [0], Event.SendBytes [0, 0],
    Event.EndWritePacket]

/-- The 16-byte pixel-format record of the protocol, for a format whose fields are
converted to the widths of the record. -/
def pixelFormatRecord (format : PixelFormat) : List Uint8 :=
  [toUint8 (format.bytes * 8), toUint8 format.bits, if format.big_endian then 1 else 0, 1]
    ++ be16 (format.red_mask % 65536) ++ be16 (format.green_mask % 65536)
    ++ be16 (format.blue_mask % 65536)
    ++ [toUint8 format.red_shift, toUint8 format.green_shift, toUint8 format.blue_shift,
      0, 0, 0]

/-- The calls of `DoSupportedEncodings()` for a preference list. -/
def setEncodingsCalls (decoders : List Decoder) : List Event :=
  [Event.BeginWritePacket, Event.SendBytes [2], Event.SendBytes [0],
    Event.SendBytes (be16 (decoders.length % 65536))]
    ++ decoders.map (fun d => Event.SendBytes (be32 (d.GetType % 4294967296)))
    ++ [Event.EndWritePacket]

/-- The calls of `SendKeyEventMessage( key, down )`. -/
def keyEventCalls (key : Uint32) (down : Bool) : List Event :=
  [Event.BeginWritePacket, Event.SendBytes [4], Event.SendBytes [if down then 1 else 0],
    Event.SendBytes [0, 0], Event.SendBytes (be32 key.val), Event.EndWritePacket]

/-- The calls of `SendMouseEventMessage( x, y, buttons )`. -/
def pointerEventCalls (x y : Uint16) (buttons : Uint8) : List Event :=
  [Event.BeginWritePacket, Event.SendBytes [5], Event.SendBytes [buttons],
    Event.SendBytes (be16 x.val), Event.SendBytes (be16 y.val), Event.EndWritePacket]

/-- The bytes a call sends in the world `W`: what it adds to the trace. -/
def sentBy (m : M Unit) (W : World) : List Uint8 :=
  sentBytes ((m W).2.trace.drop W.trace.length)

/-- Reading a KeyEvent with the big-endian readers of the source: type, down flag, two
padding bytes, keysym. -/
def readKeyEvent : M (Nat × Nat × Nat) := do
  let type ← NET_UINT8
  let down ← NET_UINT8
  let _padding ← NET_UINT16
  let key ← NET_UINT32
  pure (type, down, key)

/-- Reading a PointerEvent with the big-endian readers of the source: type, button mask,
x, y. -/
def readPointerEvent : M (Nat × Nat × Nat × Nat) := do
  let type ← NET_UINT8
  let buttons ← NET_UINT8
  let x ← NET_UINT16
  let y ← NET_UINT16
  pure (type, buttons, x, y)

/-- Reading a FramebufferUpdateRequest with the big-endian readers of the source: type,
incremental flag, x, y, w, h. -/
def readUpdateRequest : M (Nat × Nat × Nat × Nat × Nat × Nat) := do
  let type ← NET_UINT8
  let incremental ← NET_UINT8
  let x ← NET_UINT16
  let y ← NET_UINT16
  let w ← NET_UINT16
  let h ← NET_UINT16
  pure (type, incremental, x, y, w, h)

/-- The number of one bits of a 32-bit value. -/
def popcount (n : Nat) : Nat := ((List.range 32).map (fun i => n / 2 ^ i % 2)).sum

/-- The invariant of the data model's PixelFormat: `bytes_per_pixel` is 1, 2 or 4 and
`bytes_per_pixel * 8 >= depth_bits >= popcount(r_mask) + popcount(g_mask) + popcount(b_mask)`. -/
def PixelFormat.Invariant (f : PixelFormat) : Prop :=
  (f.bytes = 1 ∨ f.bytes = 2 ∨ f.bytes = 4)
    ∧ f.bits ≤ f.bytes * 8
    ∧ popcount f.red_mask + popcount f.green_mask + popcount f.blue_mask ≤ f.bits

instance (f : PixelFormat) : Decidable f.Invariant := by
  unfold PixelFormat.Invariant; infer_instance

/-- The server-init record that carries the pixel-format record of `format` behind the
size of a desktop, with a name. -/
def echoRecord (w h : Uint16) (format : PixelFormat) (name : List Uint8) : ServerInit :=
  { width := w
    height := h
    bits_per_pixel := toUint8 (format.bytes * 8)
    depth := toUint8 format.bits
    big_endian_flag := if format.big_endian then 1 else 0
    true_color_flag := 1
    red_max := toUint16 format.red_mask
    green_max := toUint16 format.green_mask
    blue_max := toUint16 format.blue_mask
    red_shift := toUint8 format.red_shift
    green_shift := toUint8 format.green_shift
    blue_shift := toUint8 format.blue_shift
    pad0 := 0
    pad1 := 0
    pad2 := 0
    name := name }

/-- The constructor of `RFBProto` up to and with the init handshake, that is without its
last statement `DoSupportedEncodings()`. -/
def RFBProto.handshakes (Des : List Uint8 → List Uint8 → List Uint8) (fmt0 : PixelFormat)
    (password : List Uint8) (shared : Bool) (decoders : List Decoder) : M RFBProto := do
  let S0 : RFBProto :=
    { m_shared := shared
      m_password := password
      m_rfb_major_version := -1
      m_rfb_minor_version := -1
      m_pixel_format := fmt0
      m_desktop_width := -1
      m_desktop_height := -1
      m_desktop_name := [110, 111, 116, 32, 99, 111, 110, 110, 101, 99, 116, 101, 100]
      m_decoders := registerDecoders decoders
      m_decoders_vec := decoders }
  let S1 ← S0.DoVersionHandshake
  S1.DoAuthHandshake Des
  S1.DoInitHandshake

/-- The format of a 32-bit SDL surface with 8-bit channels at shifts 16, 8, 0. -/
def surface32 : SDL_PixelFormat := ⟨4, 0xFF0000, 0xFF00, 0xFF, 16, 8, 0⟩

/-- The bytes a server sends up to the end of its init record: the greeting
`"RFB 003.008\n"`, the scheme 1 (no authentication) and the record of a 1x1 desktop
named `"T"`. -/
def serverHello : List Uint8 :=
  [82, 70, 66, 32, 48, 48, 51, 46, 48, 48, 56, 10] ++ be32 1 ++ (initRecord [84]).wire

/-- A server format of 1 byte per pixel with 3 bits of red, 3 of green and 2 of blue:
maxima 7, 7, 3 at shifts 5, 2, 0. -/
def format332 : PixelFormat := ⟨1, 8, 7, 7, 3, 5, 2, 0, false⟩

/-- A format of the data model with a red channel of 17 bits: maxima `0x1FFFF`, `0x7F`,
`0xFF` at shifts 15, 8, 0 in 4 bytes. -/
def format1778 : PixelFormat := ⟨4, 32, 0x1FFFF, 0x7F, 0xFF, 15, 8, 0, false⟩

/-- A `-d` argument names one of the six encodings that can be disabled: it is equal,
up to the case of letters, to `hextile`, `corre`, `rre`, `zrle`, `copyrect` or `zlib`. -/
def NamesEncoding (optarg : List Uint8) : Prop :=
  strcasecmp optarg (asciiBytes "hextile") = 0 ∨ strcasecmp optarg (asciiBytes "corre") = 0
    ∨ strcasecmp optarg (asciiBytes "rre") = 0 ∨ strcasecmp optarg (asciiBytes "zrle") = 0
    ∨ strcasecmp optarg (asciiBytes "copyrect") = 0 ∨ strcasecmp optarg (asciiBytes "zlib") = 0

instance (optarg : List Uint8) : Decidable (NamesEncoding optarg) := by
  unfold NamesEncoding; infer_instance

/-- The fixed order of preference of the decoder classes. -/
def preferenceOrder : List DecoderClass :=
  [DecoderClass.ZLIB, DecoderClass.HEXTILE, DecoderClass.CORRE, DecoderClass.RRE,
    DecoderClass.COPYRECT, DecoderClass.RAW]

/-- The option variable that enables a decoder class; there is none for Raw. -/
def Options.enables (o : Options) : DecoderClass → Bool
  | .ZLIB => o.opt_enable_zlib
  | .HEXTILE => o.opt_enable_hextile
  | .CORRE => o.opt_enable_corre
  | .RRE => o.opt_enable_rre
  | .COPYRECT => o.opt_enable_copyrect
  | .RAW => true

/-- The display's arbitrated format, for a surface of 1 to 4 bytes per pixel: what
`ReconcilePixelFormat` makes of the server's format. -/
def arbitrated (little_endian : Bool) (fmt : SDL_PixelFormat) (server : PixelFormat) :
    PixelFormat :=
  if fmt.BytesPerPixel = 1 then Setup8bpp server else Setup16or32bit little_endian fmt server

/-! ## vnc.h: the counter of a decoder -/

/-- Embeds `Decoder::GetNumProcessed()` on the decoder object of the given class: the value
of its member `m_processed`. -/
def GetNumProcessed (c : DecoderClass) (W : World) : Nat :=
  match c with
  | .ZLIB => W.processed.ZLIB
  | .HEXTILE => W.processed.HEXTILE
  | .CORRE => W.processed.CORRE
  | .RRE => W.processed.RRE
  | .COPYRECT => W.processed.COPYRECT
  | .RAW => W.processed.RAW

/-! ## vnc-net-sdl.cc: receiving over the SDL_net socket -/

/-- One thing the socket has in store for `SDLNet_TCP_Recv`: bytes that have arrived, or
a failure, which is answered with `-code` (0 when the peer has closed the connection, a
negative value on an error). -/
inductive RecvAnswer where
  | data (bytes : List Uint8)
  | fail (code : Nat)
deriving DecidableEq, Repr

/-- The TCP socket: what it has in store, oldest first, and the `maxlen` of every call of
`SDLNet_TCP_Recv` made on it, oldest first. -/
structure Socket where
  pending : List RecvAnswer
  requests : List Int
deriving DecidableEq, Repr

/-- SDL_net's `SDLNet_TCP_Recv( sock, data, maxlen )`: up to `maxlen` of the bytes that
have arrived are stored at `data` and their number is returned, the rest stay in store;
on a failure, and when nothing is in store any more, the result is 0 or less. Returns the
result, the bytes stored and the socket. -/
def SDLNet_TCP_Recv (maxlen : Int) (s : Socket) : Int × List Uint8 × Socket :=
  match s.pending with
  | [] => (0, [], ⟨[], s.requests ++ [maxlen]⟩)
  | .fail code :: rest => (-(code : Int), [], ⟨rest, s.requests ++ [maxlen]⟩)
  | .data bytes :: rest =>
    let got := bytes.take maxlen.toNat
    let left := bytes.drop maxlen.toNat
    ((got.length : Int), got,
      ⟨if left.isEmpty then rest else .data left :: rest, s.requests ++ [maxlen]⟩)

/-- The loop of `SDLNetworkClient::ReceiveBytes`: `count` is `(int)count`, `buf` holds the
bytes stored through `data` so far; `none` when the loop is still running after `fuel`
turns. -/
def SDLNetworkClient.ReceiveBytes.loop (count : Int) :
    Nat → Int → List Uint8 → Socket → Option (Except Exc (List Uint8) × Socket)
  | 0, _, _, _ => none
  | fuel + 1, received, buf, s =>
    if received < count then
      match SDLNet_TCP_Recv (count - received) s with
      | (amt, bytes, s1) =>
        if amt ≤ 0 then some (.error .Read, s1)
        else SDLNetworkClient.ReceiveBytes.loop count fuel (received + amt) (buf ++ bytes) s1
    else some (.ok buf, s)

/-- Embeds `SDLNetworkClient::ReceiveBytes( data, count )` with `count` an `unsigned int`:
the bytes stored at `data`. -/
def SDLNetworkClient.ReceiveBytes (fuel : Nat) (count : Nat) (s : Socket) :
    Option (Except Exc (List Uint8) × Socket) :=
  SDLNetworkClient.ReceiveBytes.loop (toInt32 count) fuel 0 [] s

/-! ## vnc-display-sdl.cc: copying inside the surface -/

/-- The fields of `SDL_Surface` that `CopyPixels` uses: the bytes at `pixels`, the length
`pitch` of a row in bytes, and `format->BytesPerPixel`. -/
structure Surface where
  pixels : List Uint8
  pitch : Nat
  BytesPerPixel : Nat
deriving DecidableEq, Repr

/-- The C library's `memcpy( dst, src, n )` inside one block of memory, with addresses as
offsets into the block: a copy byte by byte, from the low end when `ascending` and from
the high end otherwise. For regions that do not overlap both give the same result; for
regions that overlap the C standard does not define the result, and the flag stands for
what a library does then. -/
def memcpy (ascending : Bool) (mem : List Uint8) (dst src n : Nat) : List Uint8 :=
  (if ascending then List.range n else (List.range n).reverse).foldl
    (fun m k => m.set (dst + k) (m.getD (src + k) 0)) mem

/-- Embeds `SDLDisplay::CopyPixels( sx, sy, dx, dy, w, h )`: the surface after the call. -/
def SDLDisplay.CopyPixels (ascending : Bool) (sx sy dx dy w h : Nat) (s : Surface) : Surface :=
  let bpp := s.BytesPerPixel
  let rows := if sy > dy then List.range h else (List.range h).reverse
  { s with
    pixels := rows.foldl
      (fun pixels y =>
        memcpy ascending pixels (s.pitch * (dy + y) + dx * bpp)
          (s.pitch * (sy + y) + sx * bpp) (w * bpp))
      s.pixels }

/-! ## Drawing calls, counters, sockets and surfaces, as the specification speaks of them -/

/-- The calls that write pixels: `WritePixels`, `WriteUniformPixels` and `CopyPixels`. -/
def Event.isPixelCall : Event → Bool
  | .WritePixels _ _ _ _ => true
  | .WriteUniformPixels _ _ _ _ => true
  | .CopyPixels _ _ _ _ _ _ => true
  | _ => false

/-- A call addresses only pixels of a desktop of the given width and height: a row of
`count` pixels from `(x, y)` lies in it, and both rectangles of a copy do. Calls that
address no pixel do so trivially. -/
def Event.insideDesktop (width height : Nat) : Event → Prop
  | .WritePixels x y count _ => x + count ≤ width ∧ y < height
  | .WriteUniformPixels x y count _ => x + count ≤ width ∧ y < height
  | .CopyPixels sx sy dx dy w h =>
      sx + w ≤ width ∧ sy + h ≤ height ∧ dx + w ≤ width ∧ dy + h ≤ height
  | _ => True

instance (width height : Nat) (e : Event) : Decidable (e.insideDesktop width height) := by
  cases e <;> simp only [Event.insideDesktop] <;> infer_instance

/-- A rectangle lies in a desktop of the given width and height. -/
def ScreenRect.insideDesktop (rect : ScreenRect) (width height : Nat) : Prop :=
  rect.x.val + rect.w.val ≤ width ∧ rect.y.val + rect.h.val ≤ height

instance (rect : ScreenRect) (width height : Nat) :
    Decidable (rect.insideDesktop width height) := by
  unfold ScreenRect.insideDesktop; infer_instance

/-- Whatever its outcome, the computation only adds calls to the trace, and every call it
adds satisfies `P`. -/
def Emits {α : Type} (P : Event → Prop) (m : M α) : Prop :=
  ∀ W, ∃ calls, (m W).2.trace = W.trace ++ calls ∧ ∀ e ∈ calls, P e

/-- When the computation returns, it has added pixel calls and then `EndDrawing rect`,
and nothing else. -/
def Closes {α : Type} (rect : ScreenRect) (m : M α) : Prop :=
  ∀ W a W1, m W = (.ok a, W1) →
    ∃ mid, W1.trace = W.trace ++ (mid ++ [Event.EndDrawing rect])
      ∧ ∀ e ∈ mid, e.isPixelCall = true

/-- When the computation returns, it has added `BeginDrawing`, then pixel calls, then
`EndDrawing rect`, and nothing else. -/
def Brackets {α : Type} (rect : ScreenRect) (m : M α) : Prop :=
  ∀ W a W1, m W = (.ok a, W1) →
    ∃ mid, W1.trace = W.trace ++ ([Event.BeginDrawing] ++ mid ++ [Event.EndDrawing rect])
      ∧ ∀ e ∈ mid, e.isPixelCall = true

/-- The computation leaves the decoders' counters as they are, whatever its outcome. -/
def KeepsCounters {α : Type} (m : M α) : Prop := ∀ W, (m W).2.processed = W.processed

/-- A sequence of invocations of a decoder, one per rectangle, each in the world the one
before has left, whether that one returned or threw. -/
def invocations (d : ScreenRect → M Unit) : List ScreenRect → World → World
  | [], W => W
  | rect :: rects, W => invocations d rects (d rect W).2

/-- The five decoders that are rectangle functions of the world, with their classes. -/
def decoderTable : List (DecoderClass × (ScreenRect → M Unit)) :=
  [(DecoderClass.RAW, DecoderRAW), (DecoderClass.COPYRECT, DecoderCOPYRECT),
    (DecoderClass.RRE, DecoderRRE), (DecoderClass.CORRE, DecoderCORRE),
    (DecoderClass.HEXTILE, DecoderHEXTILE)]

/-- The bytes a socket delivers before its first failure: the stream. An empty arrival
is answered with 0, like a closed connection. -/
def deliverable : List RecvAnswer → List Uint8
  | [] => []
  | .fail _ :: _ => []
  | .data bytes :: rest => if bytes.isEmpty then [] else bytes ++ deliverable rest

/-- A socket on which nothing has been asked yet. -/
def freshSocket (pending : List RecvAnswer) : Socket := ⟨pending, []⟩

/-- The bytes of the pixel at `(x, y)` of a surface. -/
def Surface.pixelAt (s : Surface) (x y : Nat) : List Uint8 :=
  (s.pixels.drop (s.pitch * y + x * s.BytesPerPixel)).take s.BytesPerPixel

/-- The rectangle lies inside the surface: its rows fit into the pitch and its last row
into the pixel memory. -/
def Surface.holds (s : Surface) (x y w h : Nat) : Prop :=
  (x + w) * s.BytesPerPixel ≤ s.pitch ∧ s.pitch * (y + h) ≤ s.pixels.length

instance (s : Surface) (x y w h : Nat) : Decidable (s.holds x y w h) := by
  unfold Surface.holds; infer_instance

/-- A surface of one row of three pixels of one byte: 10, 20, 30. -/
def rowSurface : Surface := ⟨[10, 20, 30], 3, 1⟩

/-- A surface of 3 by 3 pixels of one byte, numbered 1 to 9. -/
def gridSurface : Surface := ⟨[1, 2, 3, 4, 5, 6, 7, 8, 9], 3, 1⟩

/-- A server-init record of a 1x1 desktop at 24 bits per pixel. -/
def initRecord24 : ServerInit := ⟨1, 1, 24, 24, 0, 1, 255, 255, 255, 16, 8, 0, 0, 0, 0, [84]⟩

/-- The computation makes no call and leaves the decoders' counters as they are,
whatever its outcome: it only reads. -/
def Still {α : Type} (m : M α) : Prop :=
  ∀ W, (m W).2.trace = W.trace ∧ (m W).2.processed = W.processed

/-! ## The inflater as a function of the compressed bytes -/

/-- The library's `inflate` implements the decompression function `out`, which gives for
a stream state and compressed bytes the bytes they stand for: a call consumes no more
than it is given and writes no more than there is room for; after a call that returns
`Z_OK`, what it wrote followed by what the bytes it left stand for in the new state is
what the bytes stood for before; a call that returns `Z_OK` has consumed or written
something; and a call with room, on bytes that stand for something, returns `Z_OK`. -/
structure Implements {σ : Type} (inflate : Inflate σ) (out : σ → List Uint8 → List Uint8) :
    Prop where
  consumed_le : ∀ s inp a, (inflate s inp a).consumed ≤ inp.length
  output_le : ∀ s inp a, (inflate s inp a).output.length ≤ a
  coherent : ∀ s inp a, (inflate s inp a).ret = Z_OK →
    (inflate s inp a).output
        ++ out (inflate s inp a).state (inp.drop (inflate s inp a).consumed)
      = out s inp
  progress : ∀ s inp a, (inflate s inp a).ret = Z_OK →
    0 < (inflate s inp a).consumed ∨ 0 < (inflate s inp a).output.length
  willing : ∀ s inp a, 0 < a → out s inp ≠ [] → (inflate s inp a).ret = Z_OK

/-- A decompression function for examples: every compressed byte `b` stands for the two
bytes `b, b + 1`; the state holds the bytes decoded and not yet written. -/
def pairOut (pending : List Uint8) (compressed : List Uint8) : List Uint8 :=
  pending ++ compressed.flatMap (fun b => [b, b + 1])

/-- An inflater for `pairOut` that takes all its input at once and writes at most three
bytes per call; `Z_BUF_ERROR` (-5) when it can do nothing. -/
def pairInflate : Inflate (List Uint8) := fun pending next_in avail_out =>
  let all := pairOut pending next_in
  let k := min avail_out 3
  ⟨if next_in.isEmpty && (all.take k).isEmpty then -5 else Z_OK, all.drop k, next_in.length,
    all.take k⟩

/-! ## The rectangles of a FramebufferUpdate with their payloads -/

/-- The payload of one rectangle, by encoding: Raw pixels, the source corner of a
CopyRect, the background and subrectangles of RRE and CoRRE, the rows of tiles of
Hextile. -/
inductive RectPayload where
  | raw (bytes : List Uint8)
  | copyrect (src_x src_y : Uint16)
  | rre (bg : List Uint8) (subs : List RRESubrect)
  | corre (bg : List Uint8) (subs : List CoRRESubrect)
  | hextile (rows : List (List HexTile))

/-- The encoding number that goes with the payload in the rectangle header. -/
def RectPayload.encoding : RectPayload → Uint32
  | .raw _ => 0
  | .copyrect _ _ => 1
  | .rre _ _ => 2
  | .corre _ _ => 4
  | .hextile _ => 5

/-- The bytes of the payload on the wire. -/
def RectPayload.wire : RectPayload → List Uint8
  | .raw bytes => bytes
  | .copyrect src_x src_y => be16 src_x.val ++ be16 src_y.val
  | .rre bg subs => rreWire bg subs
  | .corre bg subs => correWire bg subs
  | .hextile rows => hexWire rows

/-- The decoder of the program for the payload's encoding. -/
def RectPayload.decoder : RectPayload → ScreenRect → M Unit
  | .raw _ => DecoderRAW
  | .copyrect _ _ => DecoderCOPYRECT
  | .rre _ _ => DecoderRRE
  | .corre _ _ => DecoderCORRE
  | .hextile _ => DecoderHEXTILE

/-- The payload has the lengths its encoding asks for, for a rectangle and a number of
bytes per pixel: a Raw payload has the bytes the decoder reads for the rectangle, its
`unsigned int` count `w * h * bpp` taken as an `int` (so `w * h * bpp` bytes whenever that
is below 2^31); the pixels of the other encodings have `bpp` bytes, 1, 2 or 4; a Hextile
payload has its grid of tiles. -/
def RectPayload.WellFormed (rect : ScreenRect) (bpp : Nat) : RectPayload → Prop
  | .raw bytes =>
      bytes.length = (toInt32 ((rect.w.val * rect.h.val * bpp) % 4294967296)).toNat
  | .copyrect _ _ => True
  | .rre bg subs =>
      (bpp = 1 ∨ bpp = 2 ∨ bpp = 4) ∧ bg.length = bpp ∧ (∀ s ∈ subs, s.pixel.length = bpp)
        ∧ subs.length < 4294967296
  | .corre bg subs =>
      (bpp = 1 ∨ bpp = 2 ∨ bpp = 4) ∧ bg.length = bpp ∧ (∀ s ∈ subs, s.pixel.length = bpp)
        ∧ subs.length < 4294967296
  | .hextile rows =>
      (bpp = 1 ∨ bpp = 2 ∨ bpp = 4) ∧ HexWellFormed rect bpp (tileOffsets rect.h.val) rows

instance (rect : ScreenRect) (bpp : Nat) (p : RectPayload) :
    Decidable (p.WellFormed rect bpp) := by
  cases p <;> simp only [RectPayload.WellFormed] <;> infer_instance

/-- What the payload refers to lies where the protocol wants it: the source rectangle of
a CopyRect lies in the desktop of the given width and height; every subrectangle of an
RRE or CoRRE payload lies in the rectangle; every subrectangle of a Hextile tile lies in
its tile. -/
def RectPayload.Inside (rect : ScreenRect) (width height : Nat) : RectPayload → Prop
  | .raw _ => True
  | .copyrect src_x src_y =>
      src_x.val + rect.w.val ≤ width ∧ src_y.val + rect.h.val ≤ height
  | .rre _ subs =>
      ∀ s ∈ subs, s.x.val + s.w.val ≤ rect.w.val ∧ s.y.val + s.h.val ≤ rect.h.val
  | .corre _ subs =>
      ∀ s ∈ subs, s.x.val + s.w.val ≤ rect.w.val ∧ s.y.val + s.h.val ≤ rect.h.val
  | .hextile rows => HexInside rect (tileOffsets rect.h.val) rows

instance (rect : ScreenRect) (width height : Nat) (p : RectPayload) :
    Decidable (p.Inside rect width height) := by
  cases p <;> simp only [RectPayload.Inside] <;> infer_instance

/-- The display calls the decoder makes for the payload. -/
def RectPayload.calls (little_endian : Bool) (rect : ScreenRect) (bpp : Nat) :
    RectPayload → List Event
  | .raw bytes => [Event.BeginDrawing] ++ bufferRows rect bpp bytes ++ [Event.EndDrawing rect]
  | .copyrect src_x src_y =>
      [Event.BeginDrawing,
        Event.CopyPixels src_x.val src_y.val rect.x.val rect.y.val rect.w.val rect.h.val,
        Event.EndDrawing rect]
  | .rre bg subs =>
      [Event.BeginDrawing]
        ++ solidRows rect.x.val rect.y.val rect.w.val rect.h.val (nativeValue little_endian bg)
        ++ filledSubrects little_endian rect subs ++ [Event.EndDrawing rect]
  | .corre bg subs =>
      [Event.BeginDrawing]
        ++ solidRows rect.x.val rect.y.val rect.w.val rect.h.val (nativeValue little_endian bg)
        ++ filledSubrects little_endian rect (subs.map CoRRESubrect.widen)
        ++ [Event.EndDrawing rect]
  | .hextile rows => hextileCalls rect bpp rows

/-- The counters after the decoder of the payload's encoding has run once. -/
def RectPayload.counted : RectPayload → Processed → Processed
  | .raw _, p => { p with RAW := (p.RAW + 1) % 4294967296 }
  | .copyrect _ _, p => { p with COPYRECT := (p.COPYRECT + 1) % 4294967296 }
  | .rre _ _, p => { p with RRE := (p.RRE + 1) % 4294967296 }
  | .corre _ _, p => { p with CORRE := (p.CORRE + 1) % 4294967296 }
  | .hextile _, p => { p with HEXTILE := (p.HEXTILE + 1) % 4294967296 }

/-- One rectangle of a FramebufferUpdate: the rectangle of its header and its payload. -/
structure UpdateRect where
  rect : ScreenRect
  payload : RectPayload

/-- The header of the rectangle. -/
def UpdateRect.header (r : UpdateRect) : RectHeader := ⟨r.rect, r.payload.encoding⟩

/-- The bytes of the rectangles of a FramebufferUpdate: each header, then its payload. -/
def rectsWire : List UpdateRect → List Uint8
  | [] => []
  | r :: rs => r.header.wire ++ (r.payload.wire ++ rectsWire rs)

/-- The display calls for the rectangles, in order. -/
def rectsCalls (little_endian : Bool) (bpp : Nat) : List UpdateRect → List Event
  | [] => []
  | r :: rs => r.payload.calls little_endian r.rect bpp ++ rectsCalls little_endian bpp rs

/-- The counters after the rectangles. -/
def rectsCounted : List UpdateRect → Processed → Processed
  | [], p => p
  | r :: rs, p => rectsCounted rs (r.payload.counted p)

/-- A session that registers the five decoders, on a desktop of 20 by 20 pixels. -/
def fiveSession : RFBProto :=
  { rawOnlySession with
    m_desktop_width := 20
    m_desktop_height := 20
    m_decoders := fun t =>
      if t = 0 then some ⟨0, DecoderRAW⟩
      else if t = 1 then some ⟨1, DecoderCOPYRECT⟩
      else if t = 2 then some ⟨2, DecoderRRE⟩
      else if t = 4 then some ⟨4, DecoderCORRE⟩
      else if t = 5 then some ⟨5, DecoderHEXTILE⟩
      else none
    m_decoders_vec := [⟨5, DecoderHEXTILE⟩, ⟨4, DecoderCORRE⟩, ⟨2, DecoderRRE⟩,
      ⟨1, DecoderCOPYRECT⟩, ⟨0, DecoderRAW⟩] }

/-- Five rectangles inside a desktop of 20 by 20 pixels, one of each encoding, at 4 bytes
per pixel: a Raw rectangle of 2 by 1 pixels, a CopyRect from `(3, 4)`, an RRE and a CoRRE
rectangle with one subrectangle each, a Hextile rectangle of 17 by 2 pixels (a tile with a
background and one subrectangle, and a raw tile one pixel wide). -/
def fiveRects : List UpdateRect :=
  [⟨⟨0, 0, 2, 1⟩, .raw [1, 2, 3, 4, 5, 6, 7, 8]⟩,
    ⟨⟨10, 10, 5, 6⟩, .copyrect 3 4⟩,
    ⟨⟨2, 2, 4, 4⟩, .rre [9, 9, 9, 9] [⟨[7, 7, 7, 7], 1, 1, 3, 2⟩]⟩,
    ⟨⟨8, 2, 4, 4⟩, .corre [9, 9, 9, 9] [⟨[7, 7, 7, 7], 0, 3, 4, 1⟩]⟩,
    ⟨⟨3, 18, 17, 2⟩, .hextile [[⟨0x0A, [], [1, 2, 3, 4], [], [⟨[], 0x10, 0x20⟩]⟩,
      ⟨0x01, [1, 2, 3, 4, 5, 6, 7, 8], [], [], []⟩]]⟩]

/-! # Theorems -/

/-! ## Running the code: basic lemmas -/

@[simp] theorem bind_run {α β : Type} (m : M α) (f : α → M β) (W : World) :
    (m >>= f) W = match m W with
      | (.ok a, W1) => f a W1
      | (.error e, W1) => (.error e, W1) := rfl

@[simp] theorem pure_run {α : Type} (a : α) (W : World) : (pure a : M α) W = (.ok a, W) := rfl

@[simp] theorem Mpure_run {α : Type} (a : α) (W : World) : (M.pure a : M α) W = (.ok a, W) := rfl

@[simp] theorem throwExc_run {α : Type} (e : Exc) (W : World) :
    (throwExc e : M α) W = (.error e, W) := rfl

theorem ite_run {α : Type} (c : Prop) [Decidable c] (a b : M α) (W : World) :
    (if c then a else b) W = if c then a W else b W := by
  split <;> rfl

@[simp] theorem emit_run (e : Event) (W : World) :
    emit e W = (.ok (), { W with trace := W.trace ++ [e] }) := rfl

@[simp] theorem incProcessed_run (f : Processed → Processed) (W : World) :
    incProcessed f W = (.ok (), { W with processed := f W.processed }) := rfl

@[simp] theorem GetPixelFormat_run (W : World) : GetPixelFormat W = (.ok W.disp_format, W) := rfl

@[simp] theorem forEach_nil (body : Nat → M Unit) (W : World) :
    forEach body [] W = (.ok (), W) := rfl

theorem forEach_cons (body : Nat → M Unit) (i : Nat) (xs : List Nat) (W : World) :
    forEach body (i :: xs) W = match body i W with
      | (.ok _, W1) => forEach body xs W1
      | (.error e, W1) => (.error e, W1) := by
  simp only [forEach, forLoop, M.bind]
  rcases body i W with ⟨r, W1⟩
  cases r <;> rfl

/-- A loop whose body records one call per iteration records them in order. -/
theorem forEach_emit (f : Nat → Event) (xs : List Nat) (W : World) :
    forEach (fun i => emit (f i)) xs W = (.ok (), { W with trace := W.trace ++ xs.map f }) := by
  induction xs generalizing W with
  | nil => simp
  | cons i xs ih => rw [forEach_cons]; simp [ih]

theorem toInt32_small (n : Nat) (h : n < 2147483648) : toInt32 n = (n : Int) := by
  have h1 : n % 4294967296 = n := Nat.mod_eq_of_lt (by omega)
  simp [toInt32, h1, h]

theorem toInt32_large (n : Nat) (h1 : 2147483648 ≤ n) (h2 : n < 4294967296) :
    toInt32 n = (n : Int) - 4294967296 := by
  have h3 : n % 4294967296 = n := Nat.mod_eq_of_lt h2
  have h4 : ¬ n < 2147483648 := by omega
  simp [toInt32, h3, h4]

/-- With a count of 0 `ReceiveBytes` returns without a call of `SDLNet_TCP_Recv`. -/

theorem toInt32_toNat_small (n : Nat) (h : n < 2147483648) : (toInt32 n).toNat = n := by
  rw [toInt32_small n h]; rfl

theorem toInt32_toNat_large (n : Nat) (h1 : 2147483648 ≤ n) (h2 : n < 4294967296) :
    (toInt32 n).toNat = 0 := by
  rw [toInt32_large n h1 h2]; omega

/-- The call stores the next `(int)count` bytes of the stream, none when that is not
positive. -/
theorem ReceiveBytes_stored (count : Nat) (le : Bool) (bs rest : List Uint8) (tr : List Event)
    (fmt : PixelFormat) (pr : Processed) (hlen : bs.length = (toInt32 count).toNat) :
    ReceiveBytes count ⟨le, bs ++ rest, tr, fmt, pr⟩ = (.ok bs, ⟨le, rest, tr, fmt, pr⟩) := by
  simp [ReceiveBytes, ← hlen]

/-- A count below 2^31: the call delivers the next `count` bytes of the stream. -/
theorem ReceiveBytes_mk (le : Bool) (bs rest : List Uint8) (tr : List Event) (fmt : PixelFormat)
    (pr : Processed) (hlt : bs.length < 2147483648) :
    ReceiveBytes bs.length ⟨le, bs ++ rest, tr, fmt, pr⟩ = (.ok bs, ⟨le, rest, tr, fmt, pr⟩) := by
  simp [ReceiveBytes, toInt32_toNat_small _ hlt]

/-- A count of 2^31 or more: the call returns at once, no byte is taken from the stream
and none is stored. -/
theorem ReceiveBytes_unfilled (count : Nat) (h1 : 2147483648 ≤ count) (h2 : count < 4294967296)
    (W : World) : ReceiveBytes count W = (.ok [], W) := by
  simp [ReceiveBytes, toInt32_toNat_large _ h1 h2]

theorem and_FF (x : Nat) : x &&& 0xFF = x % 256 := Nat.and_pow_two_sub_one_eq_mod x 8

theorem and_shifted_FF (x k : Nat) : x &&& (0xFF <<< k) = (x / 2 ^ k % 256) * 2 ^ k := by
  have h : x &&& (0xFF <<< k) = ((x >>> k) &&& 0xFF) <<< k := by
    apply Nat.eq_of_testBit_eq
    intro i
    by_cases hi : k ≤ i
    · have : k + (i - k) = i := by omega
      simp [Nat.testBit_and, Nat.testBit_shiftLeft, Nat.testBit_shiftRight, hi, this]
    · simp [Nat.testBit_and, Nat.testBit_shiftLeft, Nat.testBit_shiftRight, hi]
  rw [h, and_FF, Nat.shiftLeft_eq, Nat.shiftRight_eq_div_pow]

theorem and_FF00 (x : Nat) : x &&& 0xFF00 = (x / 256 % 256) * 256 := and_shifted_FF x 8

theorem and_FF0000 (x : Nat) : x &&& 0xFF0000 = (x / 65536 % 256) * 65536 :=
  and_shifted_FF x 16

theorem and_FF000000 (x : Nat) : x &&& 0xFF000000 = (x / 16777216 % 256) * 16777216 :=
  and_shifted_FF x 24

/-- On either host, `VNC_SWAP_BE_16` of two received bytes is their big-endian value. -/
theorem swap16_native (le : Bool) (b0 b1 : Uint8) :
    VNC_SWAP_BE_16 le (nativeValue le [b0, b1]) % 65536 = b0.val * 256 + b1.val := by
  cases le
  · simp [VNC_SWAP_BE_16, nativeValue]; omega
  · have h0 : (b0.val + 256 * (b1.val + 256 * 0)) % 256 = b0.val := by omega
    have h1 : (b0.val + 256 * (b1.val + 256 * 0)) / 256 % 256 = b1.val := by omega
    simp only [VNC_SWAP_BE_16, nativeValue, if_true, List.foldr]
    rw [and_FF00, and_FF, Nat.shiftLeft_eq, Nat.shiftRight_eq_div_pow, h0, h1]
    omega

/-- On either host, `VNC_SWAP_BE_32` of four received bytes is their big-endian value. -/
theorem swap32_native (le : Bool) (b0 b1 b2 b3 : Uint8) :
    VNC_SWAP_BE_32 le (nativeValue le [b0, b1, b2, b3]) % 4294967296
      = b0.val * 16777216 + b1.val * 65536 + b2.val * 256 + b3.val := by
  cases le
  · simp [VNC_SWAP_BE_32, nativeValue]; omega
  · have h0 : (b0.val + 256 * (b1.val + 256 * (b2.val + 256 * (b3.val + 256 * 0)))) % 256
        = b0.val := by omega
    have h1 : (b0.val + 256 * (b1.val + 256 * (b2.val + 256 * (b3.val + 256 * 0)))) / 256 % 256
        = b1.val := by omega
    have h2 : (b0.val + 256 * (b1.val + 256 * (b2.val + 256 * (b3.val + 256 * 0)))) / 65536 % 256
        = b2.val := by omega
    have h3 : (b0.val + 256 * (b1.val + 256 * (b2.val + 256 * (b3.val + 256 * 0)))) / 16777216
        % 256 = b3.val := by omega
    simp only [VNC_SWAP_BE_32, nativeValue, if_true, List.foldr]
    rw [and_FF000000, and_FF0000, and_FF00, and_FF]
    simp only [Nat.shiftLeft_eq, Nat.shiftRight_eq_div_pow, h0, h1, h2, h3]
    omega

@[simp] theorem NET_UINT8_mk (le : Bool) (b : Uint8) (rest : List Uint8) (tr : List Event)
    (fmt : PixelFormat) (pr : Processed) :
    NET_UINT8 ⟨le, b :: rest, tr, fmt, pr⟩ = (.ok b.val, ⟨le, rest, tr, fmt, pr⟩) := by
  cases le <;> simp [NET_UINT8, GET_NOSWAP, ReceiveBytes, nativeValue, toInt32]

@[simp] theorem NET_UINT16_mk (le : Bool) (b0 b1 : Uint8) (rest : List Uint8) (tr : List Event)
    (fmt : PixelFormat) (pr : Processed) :
    NET_UINT16 ⟨le, b0 :: b1 :: rest, tr, fmt, pr⟩
      = (.ok (b0.val * 256 + b1.val), ⟨le, rest, tr, fmt, pr⟩) := by
  have h := swap16_native le b0 b1
  simp [NET_UINT16, GET_NOSWAP, ReceiveBytes, h, toInt32]

@[simp] theorem NET_UINT32_mk (le : Bool) (b0 b1 b2 b3 : Uint8) (rest : List Uint8)
    (tr : List Event) (fmt : PixelFormat) (pr : Processed) :
    NET_UINT32 ⟨le, b0 :: b1 :: b2 :: b3 :: rest, tr, fmt, pr⟩
      = (.ok (b0.val * 16777216 + b1.val * 65536 + b2.val * 256 + b3.val),
          ⟨le, rest, tr, fmt, pr⟩) := by
  have h := swap32_native le b0 b1 b2 b3
  simp [NET_UINT32, GET_NOSWAP, ReceiveBytes, h, toInt32]
/-! ## Raw and CopyRect -/

/-- The Raw decoder on a stream that starts with the bytes the network client stores for
its count, the `unsigned int` product `w * h * bpp` taken as an `int`: it returns having
read them, and draws the rows of what was stored. -/
theorem DecoderRAW_run (rect : ScreenRect) (le : Bool) (buf rest : List Uint8)
    (tr : List Event) (fmt : PixelFormat) (pr : Processed)
    (hlen : buf.length
      = (toInt32 ((rect.w.val * rect.h.val * fmt.bytes) % 4294967296)).toNat) :
    DecoderRAW rect ⟨le, buf ++ rest, tr, fmt, pr⟩
      = (.ok (), ⟨le, rest, tr ++ ([Event.BeginDrawing] ++ bufferRows rect fmt.bytes buf
          ++ [Event.EndDrawing rect]), fmt, { pr with RAW := (pr.RAW + 1) % 4294967296 }⟩) := by
  simp only [DecoderRAW, bind_run, incProcessed_run, GetPixelFormat_run,
    ReceiveBytes_stored _ le buf rest tr fmt _ hlen, emit_run, forEach_emit, bufferRows,
    List.append_assoc]

/-- The rows of a buffer in which nothing was stored carry no byte. -/
theorem bufferRows_nil (rect : ScreenRect) (bpp : Nat) :
    bufferRows rect bpp []
      = (List.range rect.h.val).map
          (fun i => Event.WritePixels rect.x.val (rect.y.val + i) rect.w.val []) := by
  simp [bufferRows]

/-- The rows of a buffer that holds `w * h * bpp` bytes, a product below 2^32. -/
theorem bufferRows_payload (rect : ScreenRect) (bpp : Nat) (payload : List Uint8)
    (hlt : rect.w.val * rect.h.val * bpp < 4294967296) :
    bufferRows rect bpp payload = rawRows rect bpp payload := by
  apply List.map_congr_left
  intro i hi
  have hi1 : i < rect.h.val := List.mem_range.mp hi
  have h1 : bpp * rect.w.val * i ≤ bpp * rect.w.val * rect.h.val :=
    Nat.mul_le_mul_left _ (Nat.le_of_lt hi1)
  have h2 : bpp * rect.w.val * rect.h.val = rect.w.val * rect.h.val * bpp := by ring
  have h3 : bpp * rect.w.val * i = i * rect.w.val * bpp := by ring
  rw [Nat.mod_eq_of_lt (by omega), h3]

/-- For every rectangle and every number of bytes per pixel (1, 2 and 4 among them) with
`w * h * bpp < 2^31`, on a payload of `w * h * bpp` bytes the Raw decoder returns having
read exactly the payload, and its display calls are `BeginDrawing`, then `h` calls of
`WritePixels`, the `i`-th at `(x, y + i)` with count `w` and the payload bytes
`[i * w * bpp, (i + 1) * w * bpp)`, then `EndDrawing rect`. -/
theorem DecoderRAW_display_calls (rect : ScreenRect) (W : World) (payload rest : List Uint8)
    (hlt : rect.w.val * rect.h.val * W.disp_format.bytes < 2147483648)
    (hlen : payload.length = rect.w.val * rect.h.val * W.disp_format.bytes)
    (hin : W.input = payload ++ rest) :
    DecoderRAW rect W = (.ok (),
      { W with
        input := rest
        trace := W.trace ++ ([Event.BeginDrawing] ++ rawRows rect W.disp_format.bytes payload
          ++ [Event.EndDrawing rect])
        processed := { W.processed with RAW := (W.processed.RAW + 1) % 4294967296 } }) := by
  obtain ⟨le, inp, tr, fmt, pr⟩ := W
  simp only at hlt hlen hin
  subst hin
  have hcount : payload.length
      = (toInt32 ((rect.w.val * rect.h.val * fmt.bytes) % 4294967296)).toNat := by
    rw [Nat.mod_eq_of_lt (by omega), toInt32_toNat_small _ hlt, hlen]
  rw [DecoderRAW_run rect le payload rest tr fmt pr hcount,
    bufferRows_payload rect fmt.bytes payload (by omega)]

/-- The rectangle `(0, 0, 2, 1)` with 4 bytes per pixel: a single `WritePixels 0 0 2`
carrying the 8 payload bytes. -/
theorem DecoderRAW_display_calls_witness :
    DecoderRAW ⟨0, 0, 2, 1⟩
        ⟨true, [0x11, 0x22, 0x33, 0x44, 0x55, 0x66, 0x77, 0x88, 0x09], [],
          ⟨4, 24, 255, 255, 255, 16, 8, 0, false⟩, ⟨0, 0, 0, 0, 0, 0⟩⟩
      = (.ok (),
        ⟨true, [0x09],
          [Event.BeginDrawing,
            Event.WritePixels 0 0 2 [0x11, 0x22, 0x33, 0x44, 0x55, 0x66, 0x77, 0x88],
            Event.EndDrawing ⟨0, 0, 2, 1⟩],
          ⟨4, 24, 255, 255, 255, 16, 8, 0, false⟩, ⟨1, 0, 0, 0, 0, 0⟩⟩) :=
  DecoderRAW_display_calls ⟨0, 0, 2, 1⟩
    ⟨true, [0x11, 0x22, 0x33, 0x44, 0x55, 0x66, 0x77, 0x88, 0x09], [],
      ⟨4, 24, 255, 255, 255, 16, 8, 0, false⟩, ⟨0, 0, 0, 0, 0, 0⟩⟩
    [0x11, 0x22, 0x33, 0x44, 0x55, 0x66, 0x77, 0x88] [0x09] (by decide) (by decide) (by decide)

/-- For a rectangle whose byte count `w * h * bpp` is 2^31 or more (and below 2^32), the
network client takes the count as a negative `int` and stores nothing: the Raw decoder
returns without having read a byte of the stream, and every row it draws comes from a
buffer in which nothing was stored. -/
theorem DecoderRAW_unfilled (rect : ScreenRect) (W : World)
    (h1 : 2147483648 ≤ rect.w.val * rect.h.val * W.disp_format.bytes)
    (h2 : rect.w.val * rect.h.val * W.disp_format.bytes < 4294967296) :
    DecoderRAW rect W = (.ok (),
      { W with
        trace := W.trace ++ ([Event.BeginDrawing]
          ++ (List.range rect.h.val).map
              (fun i => Event.WritePixels rect.x.val (rect.y.val + i) rect.w.val [])
          ++ [Event.EndDrawing rect])
        processed := { W.processed with RAW := (W.processed.RAW + 1) % 4294967296 } }) := by
  obtain ⟨le, inp, tr, fmt, pr⟩ := W
  simp only at h1 h2
  have hcount : ([] : List Uint8).length
      = (toInt32 ((rect.w.val * rect.h.val * fmt.bytes) % 4294967296)).toNat := by
    rw [Nat.mod_eq_of_lt h2, toInt32_toNat_large _ h1 h2]; rfl
  have h := DecoderRAW_run rect le [] inp tr fmt pr hcount
  rw [List.nil_append, bufferRows_nil] at h
  exact h

/-- Claim C2 fails on the code at a rectangle of 32768 by 32768 pixels with 2 bytes per
pixel, whose payload has `w * h * bpp = 2^31` bytes, below 2^32.  The network client
compares `received` with `(int)count`, which is negative, and returns at once: the Raw
decoder reads no byte of the payload (the stream is left as it was) and still makes its
32768 calls of `WritePixels`, none of which carries a byte of the payload, where the
claim has row `i` carry the payload bytes `[i * w * bpp, (i + 1) * w * bpp)`. -/
theorem DecoderRAW_draws_unfilled_buffer (le : Bool) (input : List Uint8) (tr : List Event)
    (pr : Processed) :
    32768 * 32768 * 2 = 2147483648
      ∧ DecoderRAW ⟨0, 0, 32768, 32768⟩
          ⟨le, input, tr, ⟨2, 16, 31, 63, 31, 11, 5, 0, false⟩, pr⟩
        = (.ok (),
          ⟨le, input,
            tr ++ ([Event.BeginDrawing]
              ++ (List.range 32768).map (fun i => Event.WritePixels 0 (0 + i) 32768 [])
              ++ [Event.EndDrawing ⟨0, 0, 32768, 32768⟩]),
            ⟨2, 16, 31, 63, 31, 11, 5, 0, false⟩,
            { pr with RAW := (pr.RAW + 1) % 4294967296 }⟩) :=
  ⟨by decide, DecoderRAW_unfilled ⟨0, 0, 32768, 32768⟩
    ⟨le, input, tr, ⟨2, 16, 31, 63, 31, 11, 5, 0, false⟩, pr⟩
    (show 2147483648 ≤ 32768 * 32768 * 2 by decide)
    (show 32768 * 32768 * 2 < 4294967296 by decide)⟩

/-- Claim C3. For every rectangle and every four payload bytes, the CopyRect decoder reads
exactly these four bytes, takes them as big-endian u16 `src_x` then `src_y`, and makes
exactly one drawing call `CopyPixels src_x src_y x y w h`, between `BeginDrawing` and
`EndDrawing rect`. -/
theorem DecoderCOPYRECT_display_calls (rect : ScreenRect) (W : World) (b0 b1 b2 b3 : Uint8)
    (rest : List Uint8) (hin : W.input = b0 :: b1 :: b2 :: b3 :: rest) :
    DecoderCOPYRECT rect W = (.ok (),
      { W with
        input := rest
        trace := W.trace ++ [Event.BeginDrawing,
          Event.CopyPixels (b0.val * 256 + b1.val) (b2.val * 256 + b3.val)
            rect.x.val rect.y.val rect.w.val rect.h.val,
          Event.EndDrawing rect]
        processed := { W.processed with
          COPYRECT := (W.processed.COPYRECT + 1) % 4294967296 } }) := by
  obtain ⟨le, inp, tr, fmt, pr⟩ := W
  simp only at hin
  subst hin
  simp [DecoderCOPYRECT]
/-! ## The message loop -/

theorem toUint8_val (n : Nat) : (toUint8 n).val = n % 256 := rfl

theorem toUint16_val (n : Nat) : (toUint16 n).val = n % 65536 := rfl

theorem toUint16_of_val (x : Uint16) : toUint16 x.val = x := by
  apply Fin.ext
  simp [toUint16_val, Nat.mod_eq_of_lt x.isLt]

theorem memoryBytes_swap16 (le : Bool) (v : Nat) :
    memoryBytes le 2 (VNC_SWAP_BE_16 le (v % 65536) % 65536) = be16 (v % 65536) := by
  obtain ⟨q, r, hq, hr, hu⟩ : ∃ q r, q < 256 ∧ r < 256 ∧ v % 65536 = 256 * q + r :=
    ⟨v % 65536 / 256, v % 65536 % 256, by omega, by omega, by omega⟩
  rw [hu]
  have h1 : (256 * q + r) / 256 = q := by omega
  have h2 : (256 * q + r) % 256 = r := by omega
  cases le
  · simp only [memoryBytes, VNC_SWAP_BE_16, be16, List.range, List.range.loop, List.map,
      List.reverse_cons, List.reverse_nil, List.nil_append, List.singleton_append,
      Bool.false_eq_true, if_false, pow_zero, pow_one, Nat.div_one, h1]
    have h3 : (256 * q + r) % 65536 = 256 * q + r := by omega
    rw [h3, h1]
  · have h3 : q % 256 = q := by omega
    have h4 : (q * 256 / 2 ^ 8 + r * 2 ^ 8) % 65536 = q + r * 256 := by norm_num; omega
    have h5 : (q + r * 256) / 256 = r := by omega
    simp only [memoryBytes, VNC_SWAP_BE_16, if_true, be16, List.range, List.range.loop,
      List.map, pow_zero, pow_one, Nat.div_one]
    rw [and_FF00, and_FF, Nat.shiftLeft_eq, Nat.shiftRight_eq_div_pow, h1, h2, h3, h4, h5]
    simp only [List.cons.injEq, and_true]
    constructor <;> apply Fin.ext <;> simp only [toUint8_val] <;> omega

@[simp] theorem SEND_UINT8_run (v : Nat) (hv : v < 256) (W : World) :
    SEND_UINT8 v W = (.ok (), { W with trace := W.trace ++ [Event.SendBytes [toUint8 v]] }) := by
  cases hle : W.little_endian <;>
    simp [SEND_UINT8, SendBytes, memoryBytes, hle, List.range, List.range.loop,
      Nat.mod_eq_of_lt hv]

@[simp] theorem SEND_UINT16_run (v : Nat) (W : World) :
    SEND_UINT16 v W
      = (.ok (), { W with trace := W.trace ++ [Event.SendBytes (be16 (v % 65536))] }) := by
  simp [SEND_UINT16, SendBytes, memoryBytes_swap16]

/-- The call `SendUpdateRequest` always returns, after adding its eight calls to the trace. -/
theorem SendUpdateRequest_run (rect : ScreenRect) (incremental : Bool) (W : World) :
    RFBProto.SendUpdateRequest rect incremental W
      = (.ok (), { W with trace := W.trace ++ updateRequestCalls rect incremental }) := by
  have hx := Nat.mod_eq_of_lt rect.x.isLt
  have hy := Nat.mod_eq_of_lt rect.y.isLt
  have hw := Nat.mod_eq_of_lt rect.w.isLt
  have hh := Nat.mod_eq_of_lt rect.h.isLt
  cases incremental <;>
    simp [RFBProto.SendUpdateRequest, BeginWritePacket, EndWritePacket, updateRequestCalls,
      RFB_CLIENT_FBUPDATEREQUEST, hx, hy, hw, hh, toUint8]

theorem be16_read (x : Uint16) : (toUint8 (x.val / 256)).val * 256 + (toUint8 x.val).val = x.val := by
  simp only [toUint8_val]; omega

theorem be32_read (e : Uint32) :
    (toUint8 (e.val / 16777216)).val * 16777216 + (toUint8 (e.val / 65536)).val * 65536
      + (toUint8 (e.val / 256)).val * 256 + (toUint8 e.val).val = e.val := by
  simp only [toUint8_val]; omega

/-- One turn of the rectangle loop on a stream that starts with a header. -/
theorem updateRect_run (S : RFBProto) (hd : RectHeader) (d : Decoder) (W : World)
    (rest : List Uint8) (hin : W.input = hd.wire ++ rest)
    (hreg : S.m_decoders hd.encoding.val = some d) :
    S.updateRect W = d.call hd.rect { W with input := rest } := by
  obtain ⟨le, inp, tr, fmt, pr⟩ := W
  simp only at hin
  subst hin
  simp [RFBProto.updateRect, RectHeader.wire, be16, be32, be16_read, be32_read,
    RFBProto.GetDecoder, hreg, ScreenRect.ctor, toUint16_of_val]

theorem forEach_updateRect (S : RFBProto) (hs : List RectHeader) (xs : List Nat)
    (hlen : xs.length = hs.length) (W W' : World) (hc : CarriesRects S hs W W') :
    forEach (fun _ => S.updateRect) xs W = (.ok (), W') := by
  induction hs generalizing xs W with
  | nil =>
    have : xs = [] := List.length_eq_zero.mp hlen
    subst this
    simp only [CarriesRects] at hc
    simp [hc]
  | cons hd hs ih =>
    obtain ⟨rest, d, W1, hin, hreg, hcall, hrest⟩ := hc
    cases xs with
    | nil => simp at hlen
    | cons i xs =>
      rw [forEach_cons, updateRect_run S hd d W rest hin hreg, hcall]
      exact ih xs (by simpa using hlen) W1 hrest

/-- Claim C1. A FramebufferUpdate message (type byte 0, one padding byte, the big-endian
u16 count, then the rectangles) that carries the headers `hs`, all with registered
encodings: `Update` invokes, in arrival order, the decoder registered for each header's
encoding with that header's rectangle, `hs.length` invocations in all, and only after the
last of them has returned does it send the follow-up update request: the final world is
the world `W'` left by the last invocation with the request's calls added to its trace. -/
theorem Update_invokes_decoders_in_order (S : RFBProto) (ms : Nat) (W W' : World)
    (padding : Uint8) (hs : List RectHeader) (body : List Uint8)
    (hn : hs.length < 65536)
    (hin : W.input = 0 :: padding :: (be16 hs.length ++ body))
    (hc : CarriesRects S hs { W with input := body } W') :
    S.Update ms W = (.ok (),
      { W' with
        trace := W'.trace ++ (updateRequestCalls
          (ScreenRect.ctor 0 0 (intToUint16 S.m_desktop_width)
            (intToUint16 S.m_desktop_height)) true) }) := by
  obtain ⟨le, inp, tr, fmt, pr⟩ := W
  simp only at hin hc
  subst hin
  have hnum : (toUint8 (hs.length / 256)).val * 256 + (toUint8 hs.length).val = hs.length := by
    simp only [toUint8_val]; omega
  have hloop := forEach_updateRect S hs (List.range hs.length) (by simp) _ W' hc
  simp [RFBProto.Update, WaitDataReady, be16, RFB_SERVER_FBUPDATE, hnum, hloop,
    SendUpdateRequest_run]
/-- Claim C1 at a message of two Raw rectangles for a session that registers the Raw
decoder: two invocations in arrival order, then the update request. -/
theorem Update_invokes_decoders_in_order_witness :
    rawOnlySession.Update 100
        (freshWorld [0, 0, 0, 2,
          0, 0, 0, 0, 0, 2, 0, 1, 0, 0, 0, 0, 0x11, 0x22, 0x33, 0x44, 0x55, 0x66, 0x77, 0x88,
          0, 0, 0, 0, 0, 1, 0, 1, 0, 0, 0, 0, 0xAA, 0xBB, 0xCC, 0xDD])
      = (.ok (),
        ⟨true, [],
          [Event.BeginDrawing,
            Event.WritePixels 0 0 2 [0x11, 0x22, 0x33, 0x44, 0x55, 0x66, 0x77, 0x88],
            Event.EndDrawing ⟨0, 0, 2, 1⟩,
            Event.BeginDrawing,
            Event.WritePixels 0 0 1 [0xAA, 0xBB, 0xCC, 0xDD],
            Event.EndDrawing ⟨0, 0, 1, 1⟩,
            Event.BeginWritePacket, Event.SendBytes [3], Event.SendBytes [1],
            Event.SendBytes [0, 0], Event.SendBytes [0, 0], Event.SendBytes [0, 1],
            Event.SendBytes [0, 1], Event.EndWritePacket],
          ⟨4, 24, 255, 255, 255, 16, 8, 0, false⟩, ⟨2, 0, 0, 0, 0, 0⟩⟩) :=
  Update_invokes_decoders_in_order rawOnlySession 100 _
    ⟨true, [],
      [Event.BeginDrawing,
        Event.WritePixels 0 0 2 [0x11, 0x22, 0x33, 0x44, 0x55, 0x66, 0x77, 0x88],
        Event.EndDrawing ⟨0, 0, 2, 1⟩,
        Event.BeginDrawing,
        Event.WritePixels 0 0 1 [0xAA, 0xBB, 0xCC, 0xDD],
        Event.EndDrawing ⟨0, 0, 1, 1⟩],
      ⟨4, 24, 255, 255, 255, 16, 8, 0, false⟩, ⟨2, 0, 0, 0, 0, 0⟩⟩
    0 [⟨⟨0, 0, 2, 1⟩, 0⟩, ⟨⟨0, 0, 1, 1⟩, 0⟩]
    [0, 0, 0, 0, 0, 2, 0, 1, 0, 0, 0, 0, 0x11, 0x22, 0x33, 0x44, 0x55, 0x66, 0x77, 0x88,
      0, 0, 0, 0, 0, 1, 0, 1, 0, 0, 0, 0, 0xAA, 0xBB, 0xCC, 0xDD]
    (by decide) (by decide)
    ⟨[0x11, 0x22, 0x33, 0x44, 0x55, 0x66, 0x77, 0x88,
        0, 0, 0, 0, 0, 1, 0, 1, 0, 0, 0, 0, 0xAA, 0xBB, 0xCC, 0xDD],
      ⟨0, DecoderRAW⟩,
      ⟨true, [0, 0, 0, 0, 0, 1, 0, 1, 0, 0, 0, 0, 0xAA, 0xBB, 0xCC, 0xDD],
        [Event.BeginDrawing,
          Event.WritePixels 0 0 2 [0x11, 0x22, 0x33, 0x44, 0x55, 0x66, 0x77, 0x88],
          Event.EndDrawing ⟨0, 0, 2, 1⟩],
        ⟨4, 24, 255, 255, 255, 16, 8, 0, false⟩, ⟨1, 0, 0, 0, 0, 0⟩⟩,
      by decide, rfl, by decide,
      ⟨[0xAA, 0xBB, 0xCC, 0xDD], ⟨0, DecoderRAW⟩, _, by decide, rfl, by decide, rfl⟩⟩
/-! ## RRE and CoRRE -/

theorem FillSolidRect_run (rect : ScreenRect) (pixel : Nat) (W : World) :
    FillSolidRect rect pixel W = (.ok (),
      { W with trace := W.trace ++ solidRows rect.x.val rect.y.val rect.w.val rect.h.val pixel }) := by
  simp [FillSolidRect, forEach_emit, solidRows]

theorem GET_NOSWAP_mk (le : Bool) (bs rest : List Uint8) (tr : List Event) (fmt : PixelFormat)
    (pr : Processed) (hlt : bs.length < 2147483648) :
    GET_NOSWAP bs.length ⟨le, bs ++ rest, tr, fmt, pr⟩
      = (.ok (nativeValue le bs), ⟨le, rest, tr, fmt, pr⟩) := by
  simp [GET_NOSWAP, ReceiveBytes_mk le bs rest tr fmt pr hlt]

/-- The function `NetPixel` of the RRE file returns the native value of the next `bpp` bytes. -/
theorem RRE_NetPixel_mk (bpp : Nat) (hb : bpp = 1 ∨ bpp = 2 ∨ bpp = 4) (le : Bool)
    (bs rest : List Uint8) (hlen : bs.length = bpp) (tr : List Event) (fmt : PixelFormat)
    (pr : Processed) :
    RRE.NetPixel bpp ⟨le, bs ++ rest, tr, fmt, pr⟩
      = (.ok (nativeValue le bs), ⟨le, rest, tr, fmt, pr⟩) := by
  subst hlen
  rcases hb with h | h | h <;>
    simp only [RRE.NetPixel, h, NET_UINT8, NET_UINT16_NOSWAP, NET_UINT32_NOSWAP] <;>
    rw [← h, GET_NOSWAP_mk le bs rest tr fmt pr (by omega)]

theorem rreSubrect_run (bpp : Nat) (hb : bpp = 1 ∨ bpp = 2 ∨ bpp = 4) (rect : ScreenRect)
    (le : Bool) (fmt : PixelFormat) (pr : Processed) (rest : List Uint8) (s : RRESubrect)
    (hs : s.pixel.length = bpp) (tr : List Event) :
    rreSubrect rect bpp
      ⟨le, s.pixel ++ be16 s.x.val ++ be16 s.y.val ++ be16 s.w.val ++ be16 s.h.val ++ rest,
        tr, fmt, pr⟩
    = (.ok (), ⟨le, rest,
        tr ++ solidRows ((rect.x.val + s.x.val) % 65536) ((rect.y.val + s.y.val) % 65536)
          s.w.val s.h.val (nativeValue le s.pixel), fmt, pr⟩) := by
  simp only [rreSubrect, List.append_assoc, bind_run,
    RRE_NetPixel_mk bpp hb le s.pixel _ hs, be16, List.cons_append, List.nil_append,
    NET_UINT16_mk, be16_read, FillSolidRect_run, ScreenRect.ctor, toUint16_val,
    toUint16_of_val]

theorem rreSubrect_loop (bpp : Nat) (hb : bpp = 1 ∨ bpp = 2 ∨ bpp = 4) (rect : ScreenRect)
    (le : Bool) (fmt : PixelFormat) (pr : Processed) (rest : List Uint8)
    (subs : List RRESubrect) (hpix : ∀ s ∈ subs, s.pixel.length = bpp)
    (xs : List Nat) (hxs : xs.length = subs.length) (tr : List Event) :
    forEach (fun _ => rreSubrect rect bpp) xs ⟨le, rreSubrectsWire subs ++ rest, tr, fmt, pr⟩
    = (.ok (), ⟨le, rest, tr ++ filledSubrects le rect subs, fmt, pr⟩) := by
  induction subs generalizing xs tr with
  | nil =>
    have : xs = [] := List.length_eq_zero.mp hxs
    subst this
    simp [rreSubrectsWire, filledSubrects]
  | cons s ss ih =>
    cases xs with
    | nil => simp at hxs
    | cons i xs =>
      have hs : s.pixel.length = bpp := hpix s (List.mem_cons_self _ _)
      have hstep := rreSubrect_run bpp hb rect le fmt pr (rreSubrectsWire ss ++ rest) s hs tr
      rw [forEach_cons]
      simp only [rreSubrectsWire, List.append_assoc] at hstep ⊢
      rw [hstep]
      simp only []
      rw [ih (fun t ht => hpix t (List.mem_cons_of_mem _ ht)) xs (by simpa using hxs)]
      simp [filledSubrects, List.append_assoc]
theorem be32_read_nat (n : Nat) (hn : n < 4294967296) :
    (toUint8 (n / 16777216)).val * 16777216 + (toUint8 (n / 65536)).val * 65536
      + (toUint8 (n / 256)).val * 256 + (toUint8 n).val = n := by
  simp only [toUint8_val]; omega

/-- What the RRE decoder does on an RRE payload, with the corners it computes. -/
theorem DecoderRRE_run (rect : ScreenRect) (le : Bool) (tr : List Event) (fmt : PixelFormat)
    (pr : Processed) (bg rest : List Uint8) (subs : List RRESubrect)
    (hb : fmt.bytes = 1 ∨ fmt.bytes = 2 ∨ fmt.bytes = 4)
    (hbg : bg.length = fmt.bytes) (hpix : ∀ s ∈ subs, s.pixel.length = fmt.bytes)
    (hn : subs.length < 4294967296) :
    DecoderRRE rect ⟨le, rreWire bg subs ++ rest, tr, fmt, pr⟩
      = (.ok (), ⟨le, rest,
          tr ++ ([Event.BeginDrawing]
            ++ solidRows rect.x.val rect.y.val rect.w.val rect.h.val (nativeValue le bg)
            ++ filledSubrects le rect subs ++ [Event.EndDrawing rect]),
          fmt, { pr with RRE := (pr.RRE + 1) % 4294967296 }⟩) := by
  have hloop := rreSubrect_loop fmt.bytes hb rect le fmt
    { pr with RRE := (pr.RRE + 1) % 4294967296 } rest subs hpix (List.range subs.length)
    (by simp)
  simp only [DecoderRRE, rreWire, be32, List.append_assoc, List.cons_append, List.nil_append,
    bind_run, incProcessed_run, GetPixelFormat_run, NET_UINT32_mk, be32_read_nat _ hn,
    RRE_NetPixel_mk fmt.bytes hb le bg _ hbg, emit_run, FillSolidRect_run, hloop]

theorem correSubrect_run (bpp : Nat) (hb : bpp = 1 ∨ bpp = 2 ∨ bpp = 4) (rect : ScreenRect)
    (le : Bool) (fmt : PixelFormat) (pr : Processed) (rest : List Uint8) (s : CoRRESubrect)
    (hs : s.pixel.length = bpp) (tr : List Event) :
    correSubrect rect bpp ⟨le, s.pixel ++ [s.x, s.y, s.w, s.h] ++ rest, tr, fmt, pr⟩
    = (.ok (), ⟨le, rest,
        tr ++ solidRows ((rect.x.val + s.x.val) % 65536) ((rect.y.val + s.y.val) % 65536)
          s.w.val s.h.val (nativeValue le s.pixel), fmt, pr⟩) := by
  have hw : s.w.val % 65536 = s.w.val := by omega
  have hh : s.h.val % 65536 = s.h.val := by omega
  simp only [correSubrect, List.append_assoc, bind_run,
    RRE_NetPixel_mk bpp hb le s.pixel _ hs, List.cons_append, List.nil_append,
    NET_UINT8_mk, FillSolidRect_run, ScreenRect.ctor, toUint16_val, hw, hh]

theorem filledSubrects_widen (le : Bool) (rect : ScreenRect) (s : CoRRESubrect)
    (ss : List CoRRESubrect) :
    filledSubrects le rect ((s :: ss).map CoRRESubrect.widen)
      = solidRows ((rect.x.val + s.x.val) % 65536) ((rect.y.val + s.y.val) % 65536)
          s.w.val s.h.val (nativeValue le s.pixel)
        ++ filledSubrects le rect (ss.map CoRRESubrect.widen) := by
  have hx : s.x.val % 65536 = s.x.val := by omega
  have hy : s.y.val % 65536 = s.y.val := by omega
  have hw : s.w.val % 65536 = s.w.val := by omega
  have hh : s.h.val % 65536 = s.h.val := by omega
  simp [filledSubrects, CoRRESubrect.widen, toUint16_val, hx, hy, hw, hh]

theorem correSubrect_loop (bpp : Nat) (hb : bpp = 1 ∨ bpp = 2 ∨ bpp = 4) (rect : ScreenRect)
    (le : Bool) (fmt : PixelFormat) (pr : Processed) (rest : List Uint8)
    (subs : List CoRRESubrect) (hpix : ∀ s ∈ subs, s.pixel.length = bpp)
    (xs : List Nat) (hxs : xs.length = subs.length) (tr : List Event) :
    forEach (fun _ => correSubrect rect bpp) xs
      ⟨le, correSubrectsWire subs ++ rest, tr, fmt, pr⟩
    = (.ok (), ⟨le, rest, tr ++ filledSubrects le rect (subs.map CoRRESubrect.widen),
        fmt, pr⟩) := by
  induction subs generalizing xs tr with
  | nil =>
    have : xs = [] := List.length_eq_zero.mp hxs
    subst this
    simp [correSubrectsWire, filledSubrects]
  | cons s ss ih =>
    cases xs with
    | nil => simp at hxs
    | cons i xs =>
      have hs : s.pixel.length = bpp := hpix s (List.mem_cons_self _ _)
      have hstep := correSubrect_run bpp hb rect le fmt pr (correSubrectsWire ss ++ rest) s hs tr
      rw [forEach_cons]
      simp only [correSubrectsWire, List.append_assoc] at hstep ⊢
      rw [hstep]
      simp only []
      rw [ih (fun t ht => hpix t (List.mem_cons_of_mem _ ht)) xs (by simpa using hxs),
        filledSubrects_widen]
      simp [List.append_assoc]

/-- What the CoRRE decoder does on a CoRRE payload. -/
theorem DecoderCORRE_run (rect : ScreenRect) (le : Bool) (tr : List Event) (fmt : PixelFormat)
    (pr : Processed) (bg rest : List Uint8) (subs : List CoRRESubrect)
    (hb : fmt.bytes = 1 ∨ fmt.bytes = 2 ∨ fmt.bytes = 4)
    (hbg : bg.length = fmt.bytes) (hpix : ∀ s ∈ subs, s.pixel.length = fmt.bytes)
    (hn : subs.length < 4294967296) :
    DecoderCORRE rect ⟨le, correWire bg subs ++ rest, tr, fmt, pr⟩
      = (.ok (), ⟨le, rest,
          tr ++ ([Event.BeginDrawing]
            ++ solidRows rect.x.val rect.y.val rect.w.val rect.h.val (nativeValue le bg)
            ++ filledSubrects le rect (subs.map CoRRESubrect.widen) ++ [Event.EndDrawing rect]),
          fmt, { pr with CORRE := (pr.CORRE + 1) % 4294967296 }⟩) := by
  have hloop := correSubrect_loop fmt.bytes hb rect le fmt
    { pr with CORRE := (pr.CORRE + 1) % 4294967296 } rest subs hpix (List.range subs.length)
    (by simp)
  simp only [DecoderCORRE, correWire, be32, List.append_assoc, List.cons_append,
    List.nil_append, bind_run, incProcessed_run, GetPixelFormat_run, NET_UINT32_mk,
    be32_read_nat _ hn, RRE_NetPixel_mk fmt.bytes hb le bg _ hbg, emit_run, FillSolidRect_run,
    hloop]

theorem filledSubrects_eq (le : Bool) (rect : ScreenRect) (subs : List RRESubrect)
    (hwf : ∀ s ∈ subs, rect.x.val + s.x.val < 65536 ∧ rect.y.val + s.y.val < 65536) :
    filledSubrects le rect subs = rreSubrectCalls le rect subs := by
  induction subs with
  | nil => rfl
  | cons s ss ih =>
    have h := hwf s (List.mem_cons_self _ _)
    simp only [filledSubrects, rreSubrectCalls, Nat.mod_eq_of_lt h.1, Nat.mod_eq_of_lt h.2,
      ih (fun t ht => hwf t (List.mem_cons_of_mem _ ht))]

/-- Claim C4. On a well-formed RRE payload (the count as a big-endian u32, a background
pixel of `bpp` bytes, then per subrectangle a pixel of `bpp` bytes and big-endian u16
`x, y, w, h`, with every subrectangle corner `(rect.x + x, rect.y + y)` a screen
coordinate) and `bpp` in {1, 2, 4}, the RRE decoder returns having read exactly the
payload, and its display calls are `rreCalls`: `BeginDrawing`, `rect.h` rows of `rect.w`
background pixels, then for each subrectangle in wire order `h_i` rows of `w_i` pixels
at `(rect.x + x_i, rect.y + y_i)`, then `EndDrawing rect`; pixels are taken
byte-for-byte in native order. -/
theorem DecoderRRE_display_calls (rect : ScreenRect) (W : World) (bg rest : List Uint8)
    (subs : List RRESubrect)
    (hb : W.disp_format.bytes = 1 ∨ W.disp_format.bytes = 2 ∨ W.disp_format.bytes = 4)
    (hbg : bg.length = W.disp_format.bytes)
    (hpix : ∀ s ∈ subs, s.pixel.length = W.disp_format.bytes)
    (hn : subs.length < 4294967296)
    (hwf : ∀ s ∈ subs, rect.x.val + s.x.val < 65536 ∧ rect.y.val + s.y.val < 65536)
    (hin : W.input = rreWire bg subs ++ rest) :
    DecoderRRE rect W = (.ok (),
      { W with
        input := rest
        trace := W.trace ++ rreCalls W.little_endian rect bg subs
        processed := { W.processed with RRE := (W.processed.RRE + 1) % 4294967296 } }) := by
  obtain ⟨le, inp, tr, fmt, pr⟩ := W
  simp only at hb hbg hpix hin
  subst hin
  rw [DecoderRRE_run rect le tr fmt pr bg rest subs hb hbg hpix hn,
    filledSubrects_eq le rect subs hwf]
  rfl

/-- Claim C5. For `bpp` in {1, 2, 4}, the CoRRE decoder on a CoRRE payload and the RRE
decoder on the payload with each subrectangle's four 8-bit values widened to big-endian
16-bit values both return, having read their whole payload, with one and the same
sequence of display calls. -/
theorem DecoderCORRE_is_RRE_with_8bit_subrects (rect : ScreenRect) (W : World)
    (bg rest : List Uint8) (subs : List CoRRESubrect)
    (hb : W.disp_format.bytes = 1 ∨ W.disp_format.bytes = 2 ∨ W.disp_format.bytes = 4)
    (hbg : bg.length = W.disp_format.bytes)
    (hpix : ∀ s ∈ subs, s.pixel.length = W.disp_format.bytes)
    (hn : subs.length < 4294967296) :
    ∃ calls : List Event,
      DecoderCORRE rect { W with input := correWire bg subs ++ rest } = (.ok (),
        { W with
          input := rest
          trace := W.trace ++ calls
          processed := { W.processed with CORRE := (W.processed.CORRE + 1) % 4294967296 } })
      ∧ DecoderRRE rect { W with input := rreWire bg (subs.map CoRRESubrect.widen) ++ rest }
        = (.ok (),
        { W with
          input := rest
          trace := W.trace ++ calls
          processed := { W.processed with RRE := (W.processed.RRE + 1) % 4294967296 } }) := by
  obtain ⟨le, inp, tr, fmt, pr⟩ := W
  simp only at hb hbg hpix
  refine ⟨[Event.BeginDrawing]
      ++ solidRows rect.x.val rect.y.val rect.w.val rect.h.val (nativeValue le bg)
      ++ filledSubrects le rect (subs.map CoRRESubrect.widen) ++ [Event.EndDrawing rect],
    ?_, ?_⟩
  · exact DecoderCORRE_run rect le tr fmt pr bg rest subs hb hbg hpix hn
  · exact DecoderRRE_run rect le tr fmt pr bg rest (subs.map CoRRESubrect.widen) hb hbg
      (by
        intro s hs
        obtain ⟨t, ht, rfl⟩ := List.mem_map.mp hs
        exact hpix t ht)
      (by simpa using hn)

/-- Claim C3 at source `(3, 4)` for the rectangle `(10, 20, 5, 6)`. -/
theorem DecoderCOPYRECT_display_calls_witness :
    DecoderCOPYRECT ⟨10, 20, 5, 6⟩ (freshWorld [0, 3, 0, 4, 0xEE])
      = (.ok (),
        ⟨true, [0xEE],
          [Event.BeginDrawing, Event.CopyPixels 3 4 10 20 5 6, Event.EndDrawing ⟨10, 20, 5, 6⟩],
          ⟨4, 24, 255, 255, 255, 16, 8, 0, false⟩, ⟨0, 1, 0, 0, 0, 0⟩⟩) :=
  DecoderCOPYRECT_display_calls ⟨10, 20, 5, 6⟩ (freshWorld [0, 3, 0, 4, 0xEE]) 0 3 0 4 [0xEE] rfl

/-- Claim C4 at the rectangle `(10, 20, 3, 2)` with one subrectangle `(1, 0, 2, 1)`, 4 bytes
per pixel, on a little-endian host. -/
theorem DecoderRRE_display_calls_witness :
    DecoderRRE ⟨10, 20, 3, 2⟩
        (freshWorld [0, 0, 0, 1, 1, 2, 3, 4, 5, 6, 7, 8, 0, 1, 0, 0, 0, 2, 0, 1])
      = (.ok (),
        ⟨true, [],
          [Event.BeginDrawing,
            Event.WriteUniformPixels 10 20 3 67305985, Event.WriteUniformPixels 10 21 3 67305985,
            Event.WriteUniformPixels 11 20 2 134678021,
            Event.EndDrawing ⟨10, 20, 3, 2⟩],
          ⟨4, 24, 255, 255, 255, 16, 8, 0, false⟩, ⟨0, 0, 1, 0, 0, 0⟩⟩) :=
  DecoderRRE_display_calls ⟨10, 20, 3, 2⟩
    (freshWorld [0, 0, 0, 1, 1, 2, 3, 4, 5, 6, 7, 8, 0, 1, 0, 0, 0, 2, 0, 1])
    [1, 2, 3, 4] [] [⟨[5, 6, 7, 8], 1, 0, 2, 1⟩]
    (by decide) (by decide) (by decide) (by decide) (by decide) (by decide)

/-- Claim C5 at the rectangle `(10, 20, 3, 2)` with one subrectangle `(1, 0, 2, 1)`. -/
theorem DecoderCORRE_is_RRE_with_8bit_subrects_witness :
    ∃ calls : List Event,
      DecoderCORRE ⟨10, 20, 3, 2⟩
          (freshWorld [0, 0, 0, 1, 1, 2, 3, 4, 5, 6, 7, 8, 1, 0, 2, 1])
        = (.ok (), ⟨true, [], calls, ⟨4, 24, 255, 255, 255, 16, 8, 0, false⟩,
            ⟨0, 0, 0, 1, 0, 0⟩⟩)
      ∧ DecoderRRE ⟨10, 20, 3, 2⟩
          (freshWorld [0, 0, 0, 1, 1, 2, 3, 4, 5, 6, 7, 8, 0, 1, 0, 0, 0, 2, 0, 1])
        = (.ok (), ⟨true, [], calls, ⟨4, 24, 255, 255, 255, 16, 8, 0, false⟩,
            ⟨0, 0, 1, 0, 0, 0⟩⟩) :=
  DecoderCORRE_is_RRE_with_8bit_subrects ⟨10, 20, 3, 2⟩ (freshWorld [])
    [1, 2, 3, 4] [] [⟨[5, 6, 7, 8], 1, 0, 2, 1⟩]
    (by decide) (by decide) (by decide) (by decide)
/-! ## Hextile -/

theorem tileSteps_eq (n : Nat) : tileSteps n = tileOffsets n := by
  unfold tileSteps tileOffsets
  induction n with
  | zero => rfl
  | succ n ih =>
    rw [List.range_succ, List.filter_append, ih]
    by_cases h : n % 16 = 0
    · have h1 : (n + 1 + 15) / 16 = (n + 15) / 16 + 1 := by omega
      have h2 : 16 * ((n + 15) / 16) = n := by omega
      simp [h, h1, List.range_succ, h2]
    · have h1 : (n + 1 + 15) / 16 = (n + 15) / 16 := by omega
      simp [h, h1]

theorem forLoop_nil {σ : Type} (body : Nat → σ → M σ) (s : σ) (W : World) :
    forLoop body [] s W = (.ok s, W) := rfl

theorem forLoop_cons {σ : Type} (body : Nat → σ → M σ) (i : Nat) (xs : List Nat) (s : σ)
    (W : World) :
    forLoop body (i :: xs) s W = match body i s W with
      | (.ok s1, W1) => forLoop body xs s1 W1
      | (.error e, W1) => (.error e, W1) := rfl

/-- The function `NetPixel` of the Hextile file returns the big-endian value of the next `bpp` bytes. -/
theorem Hextile_NetPixel_mk (bpp : Nat) (hb : bpp = 1 ∨ bpp = 2 ∨ bpp = 4) (le : Bool)
    (bs rest : List Uint8) (hlen : bs.length = bpp) (tr : List Event) (fmt : PixelFormat)
    (pr : Processed) :
    Hextile.NetPixel bpp ⟨le, bs ++ rest, tr, fmt, pr⟩
      = (.ok (nativeValue false bs), ⟨le, rest, tr, fmt, pr⟩) := by
  subst hlen
  rcases hb with h | h | h
  · obtain ⟨b0, rfl⟩ := List.length_eq_one.mp h
    simp [Hextile.NetPixel, nativeValue]
  · obtain ⟨b0, b1, rfl⟩ := List.length_eq_two.mp h
    simp [Hextile.NetPixel, nativeValue]; omega
  · match bs, h with
    | [b0, b1, b2, b3], _ =>
      simp [Hextile.NetPixel, nativeValue]; omega

theorem optNetPixel_run (flag : Prop) [Decidable flag] (bpp : Nat)
    (hb : bpp = 1 ∨ bpp = 2 ∨ bpp = 4) (dflt : Nat) (le : Bool) (bs rest : List Uint8)
    (hlen : flag → bs.length = bpp) (tr : List Event) (fmt : PixelFormat) (pr : Processed) :
    (if flag then Hextile.NetPixel bpp else pure dflt)
        ⟨le, (if flag then bs else []) ++ rest, tr, fmt, pr⟩
      = (.ok (if flag then nativeValue false bs else dflt), ⟨le, rest, tr, fmt, pr⟩) := by
  by_cases h : flag
  · simp only [h, if_true]
    exact Hextile_NetPixel_mk bpp hb le bs rest (hlen h) tr fmt pr
  · simp [h]

theorem optCount_run (flag : Prop) [Decidable flag] (le : Bool) (b : Uint8)
    (rest : List Uint8) (tr : List Event) (fmt : PixelFormat) (pr : Processed) :
    (if flag then NET_UINT8 else pure 0) ⟨le, (if flag then [b] else []) ++ rest, tr, fmt, pr⟩
      = (.ok (if flag then b.val else 0), ⟨le, rest, tr, fmt, pr⟩) := by
  by_cases h : flag <;> simp [h]

theorem nibble_hi (b : Uint8) : (b.val >>> 4) &&& 0x0F = b.val >>> 4 := by
  have h : b.val >>> 4 < 16 := by
    rw [Nat.shiftRight_eq_div_pow]
    omega
  have := Nat.and_pow_two_sub_one_eq_mod (b.val >>> 4) 4
  simp only [Nat.reducePow, Nat.add_one_sub_one] at this
  rw [this]
  exact Nat.mod_eq_of_lt h

theorem nibble_lo_lt (b : Uint8) : b.val &&& 15 < 16 := by
  have := Nat.and_pow_two_sub_one_eq_mod b.val 4
  simp only [Nat.reducePow, Nat.add_one_sub_one] at this
  rw [this]
  omega

theorem nibble_hi_lt (b : Uint8) : b.val >>> 4 < 16 := by
  rw [Nat.shiftRight_eq_div_pow]
  omega

theorem hextileSubrect_run (bpp : Nat) (hb : bpp = 1 ∨ bpp = 2 ∨ bpp = 4)
    (tile_rect : ScreenRect) (colored : Bool) (fg : Nat) (le : Bool) (fmt : PixelFormat)
    (pr : Processed) (rest : List Uint8) (s : HexSubrect)
    (hs : colored = true → s.pixel.length = bpp) (tr : List Event) :
    hextileSubrect bpp tile_rect colored fg
      ⟨le, (if colored then s.pixel else []) ++ [s.xy, s.wh] ++ rest, tr, fmt, pr⟩
    = (.ok (), ⟨le, rest,
        tr ++ solidRows ((tile_rect.x.val + (s.xy.val >>> 4)) % 65536)
          ((tile_rect.y.val + (s.xy.val &&& 15)) % 65536)
          (1 + (s.wh.val >>> 4)) (1 + (s.wh.val &&& 15))
          (if colored then nativeValue false s.pixel else fg), fmt, pr⟩) := by
  have h1 := nibble_hi_lt s.wh
  have h2 := nibble_lo_lt s.wh
  have hw : (1 + (s.wh.val >>> 4)) % 65536 = 1 + (s.wh.val >>> 4) := by omega
  have hh : (1 + (s.wh.val &&& 15)) % 65536 = 1 + (s.wh.val &&& 15) := by omega
  have hpix := optNetPixel_run (colored = true) bpp hb fg le s.pixel
    ([s.xy, s.wh] ++ rest) hs tr fmt pr
  simp only [List.cons_append, List.nil_append] at hpix
  simp only [hextileSubrect, List.append_assoc, bind_run, List.cons_append, List.nil_append]
  rw [hpix]
  simp only [NET_UINT8_mk, FillSolidRect_run, ScreenRect.ctor, toUint16_val, nibble_hi, hw, hh]

theorem hextileSubrect_loop (bpp : Nat) (hb : bpp = 1 ∨ bpp = 2 ∨ bpp = 4)
    (tile_rect : ScreenRect) (colored : Bool) (fg : Nat) (le : Bool) (fmt : PixelFormat)
    (pr : Processed) (rest : List Uint8) (subs : List HexSubrect)
    (hpix : colored = true → ∀ s ∈ subs, s.pixel.length = bpp)
    (xs : List Nat) (hxs : xs.length = subs.length) (tr : List Event) :
    forEach (fun _ => hextileSubrect bpp tile_rect colored fg) xs
      ⟨le, hexSubrectsWire colored subs ++ rest, tr, fmt, pr⟩
    = (.ok (), ⟨le, rest,
        tr ++ hexSubrectFills tile_rect.x.val tile_rect.y.val colored fg subs, fmt, pr⟩) := by
  induction subs generalizing xs tr with
  | nil =>
    have : xs = [] := List.length_eq_zero.mp hxs
    subst this
    simp [hexSubrectsWire, hexSubrectFills]
  | cons s ss ih =>
    cases xs with
    | nil => simp at hxs
    | cons i xs =>
      have hstep := hextileSubrect_run bpp hb tile_rect colored fg le fmt pr
        (hexSubrectsWire colored ss ++ rest) s
        (fun hc => hpix hc s (List.mem_cons_self _ _)) tr
      rw [forEach_cons]
      simp only [hexSubrectsWire, List.append_assoc] at hstep ⊢
      rw [hstep]
      simp only []
      rw [ih (fun hc t ht => hpix hc t (List.mem_cons_of_mem _ ht)) xs (by simpa using hxs)]
      simp [hexSubrectFills, List.append_assoc]
theorem tile_width_eq (n : Nat) : (if n < 16 then n else 16) = min 16 n := by
  split <;> omega

theorem hextileTile_run (bpp : Nat) (hb : bpp = 1 ∨ bpp = 2 ∨ bpp = 4) (rect : ScreenRect)
    (tile_y th tile_x : Nat) (hth : th ≤ 16) (c : HextileColors) (t : HexTile)
    (hwf : t.WellFormed bpp (min 16 (rect.w.val - tile_x)) th)
    (le : Bool) (fmt : PixelFormat) (pr : Processed) (rest : List Uint8) (tr : List Event) :
    hextileTile rect bpp tile_y th tile_x c ⟨le, t.wire ++ rest, tr, fmt, pr⟩
      = (.ok (tileColors c t),
          ⟨le, rest, tr ++ tileFills rect bpp tile_y th tile_x c t, fmt, pr⟩) := by
  have hth' : th % 65536 = th := by omega
  have htw : min 16 (rect.w.val - tile_x) % 65536 = min 16 (rect.w.val - tile_x) := by omega
  unfold HexTile.WellFormed at hwf
  by_cases hraw : t.encoding.val &&& RFB_HEXTILE_RAW ≠ 0
  · rw [if_pos hraw] at hwf
    have hsmall : min 16 (rect.w.val - tile_x) * th * bpp ≤ 16 * 16 * 4 :=
      Nat.mul_le_mul (Nat.mul_le_mul (Nat.min_le_left _ _) hth) (by omega)
    have hrecv := ReceiveBytes_mk le t.raw rest tr fmt pr (by omega)
    rw [hwf] at hrecv
    simp only [hextileTile, HexTile.wire, if_pos hraw, List.cons_append, bind_run,
      NET_UINT8_mk, tile_width_eq, hrecv, forEach_emit, pure_run, tileColors,
      tileFills, rawTileRows]
  · rw [if_neg hraw] at hwf
    obtain ⟨hbg, hfg, hcount, hcol⟩ := hwf
    have hpbg := optNetPixel_run (t.encoding.val &&& RFB_HEXTILE_BG_SPECIFIED ≠ 0) bpp hb
      c.tile_bg_color le t.bg
    have hpfg := optNetPixel_run (t.encoding.val &&& RFB_HEXTILE_FG_SPECIFIED ≠ 0) bpp hb
      c.subtile_fg_color le t.fg
    have hcnt := optCount_run (t.encoding.val &&& RFB_HEXTILE_ANY_SUBRECTS ≠ 0) le
      (toUint8 t.subrects.length)
    have hnum : (if t.encoding.val &&& RFB_HEXTILE_ANY_SUBRECTS ≠ 0
        then (toUint8 t.subrects.length).val else 0) = t.subrects.length := by
      by_cases hany : t.encoding.val &&& RFB_HEXTILE_ANY_SUBRECTS ≠ 0
      · rw [if_pos hany] at hcount ⊢
        rw [toUint8_val]
        omega
      · rw [if_neg hany] at hcount ⊢
        simp [hcount]
    have hloop := hextileSubrect_loop bpp hb
      (ScreenRect.ctor (tile_x + rect.x.val) (tile_y + rect.y.val)
        (min 16 (rect.w.val - tile_x)) th)
      (decide (t.encoding.val &&& RFB_HEXTILE_SUBRECTS_COLORED ≠ 0))
      (tileColors c t).subtile_fg_color le fmt pr rest t.subrects
      (by simpa using hcol) (List.range t.subrects.length) (by simp)
    simp only [hextileTile, HexTile.wire, if_neg hraw, List.cons_append, bind_run,
      NET_UINT8_mk, tile_width_eq, List.append_assoc]
    rw [hpbg _ hbg]
    simp only []
    rw [hpfg _ hfg]
    simp only []
    rw [hcnt]
    simp only [hnum, FillSolidRect_run]
    simp only [tileColors, if_neg hraw] at hloop
    rw [hloop]
    simp only [pure_run, tileColors, if_neg hraw, tileFills, ScreenRect.ctor, toUint16_val,
      hth', htw, List.append_assoc]
theorem hextileTile_loop (bpp : Nat) (hb : bpp = 1 ∨ bpp = 2 ∨ bpp = 4) (rect : ScreenRect)
    (tile_y th : Nat) (hth : th ≤ 16) (le : Bool) (fmt : PixelFormat) (pr : Processed)
    (rest : List Uint8) (xs : List Nat) (row : List HexTile)
    (hwf : RowWellFormed rect bpp th xs row) (c : HextileColors) (tr : List Event) :
    forLoop (hextileTile rect bpp tile_y th) xs c ⟨le, rowWire row ++ rest, tr, fmt, pr⟩
      = (.ok (rowColors c row),
          ⟨le, rest, tr ++ rowFills rect bpp tile_y th xs row c, fmt, pr⟩) := by
  induction xs generalizing row c tr with
  | nil =>
    cases row with
    | nil => simp [forLoop_nil, rowWire, rowFills, rowColors]
    | cons t ts => simp [RowWellFormed] at hwf
  | cons tile_x xs ih =>
    cases row with
    | nil => simp [RowWellFormed] at hwf
    | cons t ts =>
      obtain ⟨ht, hts⟩ := hwf
      have hstep := hextileTile_run bpp hb rect tile_y th tile_x hth c t ht le fmt pr
        (rowWire ts ++ rest) tr
      rw [forLoop_cons]
      simp only [rowWire, List.append_assoc] at hstep ⊢
      rw [hstep]
      simp only []
      rw [ih ts hts]
      simp [rowFills, rowColors, List.append_assoc]

theorem hextileRow_loop (bpp : Nat) (hb : bpp = 1 ∨ bpp = 2 ∨ bpp = 4) (rect : ScreenRect)
    (le : Bool) (fmt : PixelFormat) (pr : Processed) (rest : List Uint8) (ys : List Nat)
    (rows : List (List HexTile)) (hwf : HexWellFormed rect bpp ys rows) (c : HextileColors)
    (tr : List Event) :
    ∃ c' : HextileColors,
      forLoop (hextileRow rect bpp) ys c ⟨le, hexWire rows ++ rest, tr, fmt, pr⟩
        = (.ok c', ⟨le, rest, tr ++ rectFills rect bpp ys rows c, fmt, pr⟩) := by
  induction ys generalizing rows c tr with
  | nil =>
    cases rows with
    | nil => exact ⟨c, by simp [forLoop_nil, hexWire, rectFills]⟩
    | cons r rs => simp [HexWellFormed] at hwf
  | cons tile_y ys ih =>
    cases rows with
    | nil => simp [HexWellFormed] at hwf
    | cons row rows =>
      obtain ⟨hrow, hrows⟩ := hwf
      have hstep := hextileTile_loop bpp hb rect tile_y (min 16 (rect.h.val - tile_y))
        (by omega) le fmt pr (hexWire rows ++ rest) (tileOffsets rect.w.val) row hrow c tr
      obtain ⟨c', hc'⟩ := ih rows hrows (rowColors c row)
        (tr ++ rowFills rect bpp tile_y (min 16 (rect.h.val - tile_y))
          (tileOffsets rect.w.val) row c)
      refine ⟨c', ?_⟩
      rw [forLoop_cons]
      simp only [hextileRow, tile_width_eq, tileSteps_eq, hexWire,
        List.append_assoc] at hstep hc' ⊢
      rw [hstep]
      simp only []
      rw [hc']
      simp [rectFills, List.append_assoc]

/-- What the Hextile decoder does on a well-formed payload, with the corners it
computes. -/
theorem DecoderHEXTILE_run (rect : ScreenRect) (le : Bool) (tr : List Event)
    (fmt : PixelFormat) (pr : Processed) (rest : List Uint8) (rows : List (List HexTile))
    (hb : fmt.bytes = 1 ∨ fmt.bytes = 2 ∨ fmt.bytes = 4)
    (hwf : HexWellFormed rect fmt.bytes (tileOffsets rect.h.val) rows) :
    DecoderHEXTILE rect ⟨le, hexWire rows ++ rest, tr, fmt, pr⟩
      = (.ok (), ⟨le, rest, tr ++ hextileCalls rect fmt.bytes rows, fmt,
          { pr with HEXTILE := (pr.HEXTILE + 1) % 4294967296 }⟩) := by
  obtain ⟨c', hc'⟩ := hextileRow_loop fmt.bytes hb rect le fmt
    { pr with HEXTILE := (pr.HEXTILE + 1) % 4294967296 } rest (tileOffsets rect.h.val) rows hwf
    ⟨0, 0⟩ (tr ++ [Event.BeginDrawing])
  simp only [DecoderHEXTILE, bind_run, incProcessed_run, GetPixelFormat_run, emit_run,
    tileSteps_eq, hc', hextileCalls, List.append_assoc]

/-! ### Running colours (C8) and one complex tile (C9) -/

/-- Claim C8. On every well-formed Hextile payload (`bpp` in {1, 2, 4}) the decoder returns
with the display calls `hextileCalls`, in which the two running colours are threaded
through the tiles in row-major order by `tileColors`, starting from `⟨0, 0⟩` in every
invocation of the decoder (so every rectangle starts at 0 again): a tile that is not raw
is filled with the background specified by itself or, without BackgroundSpecified, by
the last earlier tile of this rectangle that specified one (0 if none did); its
subrectangles without SubrectsColored use the foreground specified in the same way by
ForegroundSpecified; a raw tile and the pixels of coloured subrectangles leave both
running colours as they were. -/
theorem DecoderHEXTILE_running_colours (rect : ScreenRect) (W : World) (rest : List Uint8)
    (rows : List (List HexTile))
    (hb : W.disp_format.bytes = 1 ∨ W.disp_format.bytes = 2 ∨ W.disp_format.bytes = 4)
    (hwf : HexWellFormed rect W.disp_format.bytes (tileOffsets rect.h.val) rows)
    (hin : W.input = hexWire rows ++ rest) :
    DecoderHEXTILE rect W = (.ok (),
      { W with
        input := rest
        trace := W.trace ++ hextileCalls rect W.disp_format.bytes rows
        processed := { W.processed with HEXTILE := (W.processed.HEXTILE + 1) % 4294967296 } }) := by
  obtain ⟨le, inp, tr, fmt, pr⟩ := W
  simp only at hb hwf hin
  subst hin
  exact DecoderHEXTILE_run rect le tr fmt pr rest rows hb hwf

theorem hexSubrectFills_eq (tile : ScreenRect) (colored : Bool) (fg : Nat)
    (subs : List HexSubrect) :
    hexSubrectFills tile.x.val tile.y.val colored fg subs
      = hexSubrectCalls tile colored fg subs := by
  induction subs with
  | nil => rfl
  | cons s ss ih =>
    have h1 := nibble_hi_lt s.wh
    have h2 := nibble_lo_lt s.wh
    have hw : (1 + (s.wh.val >>> 4)) % 65536 = 1 + (s.wh.val >>> 4) := by omega
    have hh : (1 + (s.wh.val &&& 15)) % 65536 = 1 + (s.wh.val &&& 15) := by omega
    simp only [hexSubrectFills, hexSubrectCalls, fillRows, hexSubrectRect, ScreenRect.ctor,
      toUint16_val, hw, hh, ih]

/-- Claim C9. A well-formed tile that is not raw (`bpp` in {1, 2, 4}), at offset
`(tile_x, tile_y)` of the rectangle: the decoder first fills the whole tile, the
`ScreenRect` at `(rect.x + tile_x, rect.y + tile_y)`, with the background, then fills
for each subrectangle, in wire order, the `ScreenRect` at
`(tile.x + (xy >> 4), tile.y + (xy & 15))` of width `1 + (wh >> 4)` and height
`1 + (wh & 15)`, with the subrectangle's own pixel when SubrectsColored is set and with
the running foreground otherwise.  The rectangles are `ScreenRect`s, whose fields are
16-bit. -/
theorem hextileTile_fills_tile_then_subrects (rect : ScreenRect) (W : World) (t : HexTile)
    (rest : List Uint8) (c : HextileColors) (tile_y th tile_x : Nat)
    (hb : W.disp_format.bytes = 1 ∨ W.disp_format.bytes = 2 ∨ W.disp_format.bytes = 4)
    (hth : th ≤ 16)
    (hnotraw : t.encoding.val &&& RFB_HEXTILE_RAW = 0)
    (hwf : t.WellFormed W.disp_format.bytes (min 16 (rect.w.val - tile_x)) th)
    (hin : W.input = t.wire ++ rest) :
    hextileTile rect W.disp_format.bytes tile_y th tile_x c W = (.ok (tileColors c t),
      { W with
        input := rest
        trace := W.trace ++
          (fillRows
              (ScreenRect.ctor (rect.x.val + tile_x) (rect.y.val + tile_y)
                (min 16 (rect.w.val - tile_x)) th)
              (tileColors c t).tile_bg_color
            ++ hexSubrectCalls
              (ScreenRect.ctor (rect.x.val + tile_x) (rect.y.val + tile_y)
                (min 16 (rect.w.val - tile_x)) th)
              (decide (t.encoding.val &&& RFB_HEXTILE_SUBRECTS_COLORED ≠ 0))
              (tileColors c t).subtile_fg_color t.subrects) }) := by
  obtain ⟨le, inp, tr, fmt, pr⟩ := W
  simp only at hb hwf hin
  subst hin
  have hx : (tile_x + rect.x.val) % 65536 = (rect.x.val + tile_x) % 65536 := by
    rw [Nat.add_comm]
  have hy : (tile_y + rect.y.val) % 65536 = (rect.y.val + tile_y) % 65536 := by
    rw [Nat.add_comm]
  have hth' : th % 65536 = th := by omega
  have htw : min 16 (rect.w.val - tile_x) % 65536 = min 16 (rect.w.val - tile_x) := by omega
  rw [hextileTile_run fmt.bytes hb rect tile_y th tile_x hth c t hwf le fmt pr rest tr]
  have hraw : ¬ (t.encoding.val &&& RFB_HEXTILE_RAW ≠ 0) := by simp [hnotraw]
  have hsub := hexSubrectFills_eq
    (ScreenRect.ctor (rect.x.val + tile_x) (rect.y.val + tile_y)
      (min 16 (rect.w.val - tile_x)) th)
    (decide (t.encoding.val &&& RFB_HEXTILE_SUBRECTS_COLORED ≠ 0))
    (tileColors c t).subtile_fg_color t.subrects
  simp only [ScreenRect.ctor, toUint16_val] at hsub
  simp only [tileFills, if_neg hraw, hx, hy, hsub, fillRows, ScreenRect.ctor, toUint16_val,
    hth', htw]

/-! ### Pixels written by the Hextile decoder (C6, C7) -/

theorem mem_tileOffsets (n t : Nat) : t ∈ tileOffsets n ↔ t < n ∧ t % 16 = 0 := by
  unfold tileOffsets
  simp only [List.mem_map, List.mem_range]
  constructor
  · rintro ⟨k, hk, rfl⟩
    omega
  · rintro ⟨h1, h2⟩
    exact ⟨t / 16, by omega, by omega⟩

theorem solidRows_writes (x y w h pixel px py : Nat) (hx : x ≤ px) (hxw : px < x + w)
    (hy : y ≤ py) (hyh : py < y + h) :
    ∃ e ∈ solidRows x y w h pixel, e.writesPixel px py := by
  refine ⟨Event.WriteUniformPixels x (y + (py - y)) w pixel, ?_, ?_⟩
  · exact List.mem_map.mpr ⟨py - y, List.mem_range.mpr (by omega), rfl⟩
  · simp only [Event.writesPixel]
    omega

theorem rawTileRows_writes (x y tw th bpp : Nat) (raw : List Uint8) (px py : Nat)
    (hx : x ≤ px) (hxw : px < x + tw) (hy : y ≤ py) (hyh : py < y + th) :
    ∃ e ∈ rawTileRows x y tw th bpp raw, e.writesPixel px py := by
  refine ⟨Event.WritePixels x (y + (py - y)) tw
    ((raw.drop (bpp * tw * (py - y))).take (tw * bpp)), ?_, ?_⟩
  · exact List.mem_map.mpr ⟨py - y, List.mem_range.mpr (by omega), rfl⟩
  · simp only [Event.writesPixel]
    omega

theorem solidRows_inside (x y w h pixel px py : Nat) (e : Event)
    (he : e ∈ solidRows x y w h pixel) (hw : e.writesPixel px py) :
    x ≤ px ∧ px < x + w ∧ y ≤ py ∧ py < y + h := by
  obtain ⟨i, hi, rfl⟩ := List.mem_map.mp he
  have := List.mem_range.mp hi
  simp only [Event.writesPixel] at hw
  omega

theorem rawTileRows_inside (x y tw th bpp : Nat) (raw : List Uint8) (px py : Nat) (e : Event)
    (he : e ∈ rawTileRows x y tw th bpp raw) (hw : e.writesPixel px py) :
    x ≤ px ∧ px < x + tw ∧ y ≤ py ∧ py < y + th := by
  obtain ⟨i, hi, rfl⟩ := List.mem_map.mp he
  have := List.mem_range.mp hi
  simp only [Event.writesPixel] at hw
  omega

/-- The calls of a tile write every pixel of the tile that is on the 16-bit screen. -/
theorem tileFills_writes (rect : ScreenRect) (bpp tile_y th tile_x : Nat) (c : HextileColors)
    (t : HexTile) (px py : Nat) (hpx : px < 65536) (hpy : py < 65536)
    (hx : rect.x.val + tile_x ≤ px) (hxw : px < rect.x.val + tile_x + min 16 (rect.w.val - tile_x))
    (hy : rect.y.val + tile_y ≤ py) (hyh : py < rect.y.val + tile_y + th) :
    ∃ e ∈ tileFills rect bpp tile_y th tile_x c t, e.writesPixel px py := by
  unfold tileFills
  split
  · exact rawTileRows_writes _ _ _ _ _ _ px py hx hxw hy hyh
  · have h1 : (tile_x + rect.x.val) % 65536 = rect.x.val + tile_x := by omega
    have h2 : (tile_y + rect.y.val) % 65536 = rect.y.val + tile_y := by omega
    rw [h1, h2]
    obtain ⟨e, he, hw⟩ := solidRows_writes (rect.x.val + tile_x) (rect.y.val + tile_y)
      (min 16 (rect.w.val - tile_x)) th (tileColors c t).tile_bg_color px py hx hxw hy hyh
    exact ⟨e, List.mem_append_left _ he, hw⟩

theorem rowFills_writes (rect : ScreenRect) (bpp tile_y th : Nat) (xs : List Nat)
    (row : List HexTile) (hwf : RowWellFormed rect bpp th xs row) (c : HextileColors)
    (tile_x px py : Nat) (hmem : tile_x ∈ xs)
    (htile : ∀ (c : HextileColors) (t : HexTile),
      ∃ e ∈ tileFills rect bpp tile_y th tile_x c t, e.writesPixel px py) :
    ∃ e ∈ rowFills rect bpp tile_y th xs row c, e.writesPixel px py := by
  induction xs generalizing row c with
  | nil => simp at hmem
  | cons x xs ih =>
    cases row with
    | nil => simp [RowWellFormed] at hwf
    | cons t ts =>
      obtain ⟨_, hts⟩ := hwf
      rcases List.mem_cons.mp hmem with h | h
      · subst h
        obtain ⟨e, he, hw⟩ := htile c t
        exact ⟨e, by simp only [rowFills]; exact List.mem_append_left _ he, hw⟩
      · obtain ⟨e, he, hw⟩ := ih ts hts (tileColors c t) h
        exact ⟨e, by simp only [rowFills]; exact List.mem_append_right _ he, hw⟩

theorem rectFills_writes (rect : ScreenRect) (bpp : Nat) (ys : List Nat)
    (rows : List (List HexTile)) (hwf : HexWellFormed rect bpp ys rows) (c : HextileColors)
    (tile_y px py : Nat) (hmem : tile_y ∈ ys)
    (hrow : ∀ (c : HextileColors) (row : List HexTile),
      RowWellFormed rect bpp (min 16 (rect.h.val - tile_y)) (tileOffsets rect.w.val) row →
      ∃ e ∈ rowFills rect bpp tile_y (min 16 (rect.h.val - tile_y)) (tileOffsets rect.w.val)
        row c, e.writesPixel px py) :
    ∃ e ∈ rectFills rect bpp ys rows c, e.writesPixel px py := by
  induction ys generalizing rows c with
  | nil => simp at hmem
  | cons y ys ih =>
    cases rows with
    | nil => simp [HexWellFormed] at hwf
    | cons row rows =>
      obtain ⟨hr, hrs⟩ := hwf
      rcases List.mem_cons.mp hmem with h | h
      · subst h
        obtain ⟨e, he, hw⟩ := hrow c row hr
        exact ⟨e, by simp only [rectFills]; exact List.mem_append_left _ he, hw⟩
      · obtain ⟨e, he, hw⟩ := ih rows hrs (rowColors c row) h
        exact ⟨e, by simp only [rectFills]; exact List.mem_append_right _ he, hw⟩

/-- The calls for a well-formed payload write every pixel of the rectangle that is on the
16-bit screen. -/
theorem hextileCalls_writes (rect : ScreenRect) (bpp : Nat) (rows : List (List HexTile))
    (hwf : HexWellFormed rect bpp (tileOffsets rect.h.val) rows) (px py : Nat)
    (hin : rect.hasPixel px py) (hpx : px < 65536) (hpy : py < 65536) :
    ∃ e ∈ hextileCalls rect bpp rows, e.writesPixel px py := by
  obtain ⟨hx, hxw, hy, hyh⟩ := hin
  have hty : 16 * ((py - rect.y.val) / 16) ∈ tileOffsets rect.h.val :=
    (mem_tileOffsets _ _).mpr ⟨by omega, by omega⟩
  have htx : 16 * ((px - rect.x.val) / 16) ∈ tileOffsets rect.w.val :=
    (mem_tileOffsets _ _).mpr ⟨by omega, by omega⟩
  obtain ⟨e, he, hw⟩ := rectFills_writes rect bpp (tileOffsets rect.h.val) rows hwf ⟨0, 0⟩
    (16 * ((py - rect.y.val) / 16)) px py hty
    (fun c row hrow => rowFills_writes rect bpp _ _ (tileOffsets rect.w.val) row hrow c
      (16 * ((px - rect.x.val) / 16)) px py htx
      (fun c t => tileFills_writes rect bpp _ _ _ c t px py hpx hpy (by omega) (by omega)
        (by omega) (by omega)))
  refine ⟨e, ?_, hw⟩
  simp only [hextileCalls, List.mem_append, List.mem_singleton]
  exact Or.inl (Or.inr he)

/-- Claim C6. On every well-formed Hextile payload (`bpp` in {1, 2, 4}) the decoder returns,
and every pixel `(px, py)` of the rectangle (`rect.x ≤ px < rect.x + rect.w`,
`rect.y ≤ py < rect.y + rect.h`; pixel coordinates are 16-bit, as those of a
`ScreenRect`) is written by at least one `WritePixels` or `WriteUniformPixels` call
among the calls it made. -/
theorem DecoderHEXTILE_covers_rect (rect : ScreenRect) (W : World) (rest : List Uint8)
    (rows : List (List HexTile))
    (hb : W.disp_format.bytes = 1 ∨ W.disp_format.bytes = 2 ∨ W.disp_format.bytes = 4)
    (hwf : HexWellFormed rect W.disp_format.bytes (tileOffsets rect.h.val) rows)
    (hin : W.input = hexWire rows ++ rest) :
    ∃ calls : List Event,
      DecoderHEXTILE rect W = (.ok (),
        { W with
          input := rest
          trace := W.trace ++ calls
          processed := { W.processed with
            HEXTILE := (W.processed.HEXTILE + 1) % 4294967296 } })
      ∧ ∀ px py : Uint16, rect.hasPixel px.val py.val →
          ∃ e ∈ calls, e.writesPixel px.val py.val := by
  obtain ⟨le, inp, tr, fmt, pr⟩ := W
  simp only at hb hwf hin
  subst hin
  exact ⟨hextileCalls rect fmt.bytes rows,
    DecoderHEXTILE_run rect le tr fmt pr rest rows hb hwf,
    fun px py h => hextileCalls_writes rect fmt.bytes rows hwf px.val py.val h px.isLt py.isLt⟩

theorem hexSubrectFills_inside (X Y tw th : Nat) (colored : Bool) (fg : Nat)
    (subs : List HexSubrect) (hX : X + tw ≤ 65536) (hY : Y + th ≤ 65536)
    (hsub : ∀ s ∈ subs, (s.xy.val >>> 4) + (1 + (s.wh.val >>> 4)) ≤ tw
      ∧ (s.xy.val &&& 15) + (1 + (s.wh.val &&& 15)) ≤ th)
    (px py : Nat) (e : Event) (he : e ∈ hexSubrectFills X Y colored fg subs)
    (hw : e.writesPixel px py) :
    X ≤ px ∧ px < X + tw ∧ Y ≤ py ∧ py < Y + th := by
  induction subs with
  | nil => simp [hexSubrectFills] at he
  | cons s ss ih =>
    have hs := hsub s (List.mem_cons_self _ _)
    simp only [hexSubrectFills, List.mem_append] at he
    rcases he with he | he
    · have h1 : (X + (s.xy.val >>> 4)) % 65536 = X + (s.xy.val >>> 4) := by omega
      have h2 : (Y + (s.xy.val &&& 15)) % 65536 = Y + (s.xy.val &&& 15) := by omega
      rw [h1, h2] at he
      have := solidRows_inside _ _ _ _ _ px py e he hw
      omega
    · exact ih (fun t ht => hsub t (List.mem_cons_of_mem _ ht)) he

/-- The calls of a tile whose subrectangles lie in it write only pixels of the tile. -/
theorem tileFills_inside (rect : ScreenRect) (bpp tile_y th tile_x : Nat) (c : HextileColors)
    (t : HexTile) (hin : t.SubrectsInside (min 16 (rect.w.val - tile_x)) th)
    (htx : tile_x < rect.w.val) (hty0 : tile_y < rect.h.val) (hty : tile_y + th ≤ rect.h.val)
    (hX : rect.x.val + rect.w.val ≤ 65536) (hY : rect.y.val + rect.h.val ≤ 65536)
    (px py : Nat) (e : Event) (he : e ∈ tileFills rect bpp tile_y th tile_x c t)
    (hw : e.writesPixel px py) : rect.hasPixel px py := by
  unfold ScreenRect.hasPixel
  unfold tileFills at he
  split at he
  · have := rawTileRows_inside _ _ _ _ _ _ px py e he hw
    omega
  · rename_i hraw
    have hsub := hin.resolve_left hraw
    have h1 : (tile_x + rect.x.val) % 65536 = rect.x.val + tile_x := by omega
    have h2 : (tile_y + rect.y.val) % 65536 = rect.y.val + tile_y := by omega
    rw [h1, h2] at he
    rcases List.mem_append.mp he with he | he
    · have := solidRows_inside _ _ _ _ _ px py e he hw
      omega
    · have := hexSubrectFills_inside (rect.x.val + tile_x) (rect.y.val + tile_y)
        (min 16 (rect.w.val - tile_x)) th _ _ t.subrects (by omega) (by omega) hsub px py e
        he hw
      omega

theorem rowFills_inside (rect : ScreenRect) (bpp tile_y th : Nat) (xs : List Nat)
    (row : List HexTile) (hin : RowInside rect th xs row) (hxs : ∀ x ∈ xs, x < rect.w.val)
    (hty0 : tile_y < rect.h.val) (hty : tile_y + th ≤ rect.h.val)
    (hX : rect.x.val + rect.w.val ≤ 65536) (hY : rect.y.val + rect.h.val ≤ 65536)
    (c : HextileColors) (px py : Nat) (e : Event)
    (he : e ∈ rowFills rect bpp tile_y th xs row c) (hw : e.writesPixel px py) :
    rect.hasPixel px py := by
  induction xs generalizing row c with
  | nil => simp [rowFills] at he
  | cons x xs ih =>
    cases row with
    | nil => simp [rowFills] at he
    | cons t ts =>
      obtain ⟨ht, hts⟩ := hin
      simp only [rowFills, List.mem_append] at he
      rcases he with he | he
      · exact tileFills_inside rect bpp tile_y th x c t ht (hxs x (List.mem_cons_self _ _))
          hty0 hty hX hY px py e he hw
      · exact ih ts hts (fun y hy => hxs y (List.mem_cons_of_mem _ hy)) (tileColors c t) he

theorem rectFills_inside (rect : ScreenRect) (bpp : Nat) (ys : List Nat)
    (rows : List (List HexTile)) (hin : HexInside rect ys rows)
    (hys : ∀ y ∈ ys, y < rect.h.val)
    (hX : rect.x.val + rect.w.val ≤ 65536) (hY : rect.y.val + rect.h.val ≤ 65536)
    (c : HextileColors) (px py : Nat) (e : Event)
    (he : e ∈ rectFills rect bpp ys rows c) (hw : e.writesPixel px py) :
    rect.hasPixel px py := by
  induction ys generalizing rows c with
  | nil => simp [rectFills] at he
  | cons y ys ih =>
    cases rows with
    | nil => simp [rectFills] at he
    | cons row rows =>
      obtain ⟨hr, hrs⟩ := hin
      have hy := hys y (List.mem_cons_self _ _)
      simp only [rectFills, List.mem_append] at he
      rcases he with he | he
      · exact rowFills_inside rect bpp y _ (tileOffsets rect.w.val) row hr
          (fun x hx => ((mem_tileOffsets _ _).mp hx).1) hy (by omega) hX hY c px py e he hw
      · exact ih rows hrs (fun z hz => hys z (List.mem_cons_of_mem _ hz)) (rowColors c row) he

theorem hextileCalls_inside (rect : ScreenRect) (bpp : Nat) (rows : List (List HexTile))
    (hin : HexInside rect (tileOffsets rect.h.val) rows)
    (hX : rect.x.val + rect.w.val ≤ 65536) (hY : rect.y.val + rect.h.val ≤ 65536) :
    StaysInside rect (hextileCalls rect bpp rows) := by
  intro e he px py hw
  simp only [hextileCalls, List.mem_append, List.mem_singleton] at he
  rcases he with (he | he) | he
  · subst he
    simp [Event.writesPixel] at hw
  · exact rectFills_inside rect bpp (tileOffsets rect.h.val) rows hin
      (fun y hy => ((mem_tileOffsets _ _).mp hy).1) hX hY ⟨0, 0⟩ px py e he hw
  · subst he
    simp [Event.writesPixel] at hw

/-- Claim C7, as the code has it. For a rectangle on the 16-bit screen and a well-formed
Hextile payload (`bpp` in {1, 2, 4}) in which every subrectangle lies in its tile, the
decoder returns and the pixels written by its calls are exactly the pixels of the
rectangle. -/
theorem DecoderHEXTILE_writes_exactly_rect (rect : ScreenRect) (W : World)
    (rest : List Uint8) (rows : List (List HexTile))
    (hb : W.disp_format.bytes = 1 ∨ W.disp_format.bytes = 2 ∨ W.disp_format.bytes = 4)
    (hwf : HexWellFormed rect W.disp_format.bytes (tileOffsets rect.h.val) rows)
    (hinside : HexInside rect (tileOffsets rect.h.val) rows)
    (hX : rect.x.val + rect.w.val ≤ 65536) (hY : rect.y.val + rect.h.val ≤ 65536)
    (hin : W.input = hexWire rows ++ rest) :
    ∃ calls : List Event,
      DecoderHEXTILE rect W = (.ok (),
        { W with
          input := rest
          trace := W.trace ++ calls
          processed := { W.processed with
            HEXTILE := (W.processed.HEXTILE + 1) % 4294967296 } })
      ∧ ∀ px py : Nat, (∃ e ∈ calls, e.writesPixel px py) ↔ rect.hasPixel px py := by
  obtain ⟨le, inp, tr, fmt, pr⟩ := W
  simp only at hb hwf hin
  subst hin
  refine ⟨hextileCalls rect fmt.bytes rows,
    DecoderHEXTILE_run rect le tr fmt pr rest rows hb hwf, fun px py => ⟨?_, ?_⟩⟩
  · rintro ⟨e, he, hw⟩
    exact hextileCalls_inside rect fmt.bytes rows hinside hX hY e he px py hw
  · intro h
    have h' := h
    obtain ⟨hx, hxw, hy, hyh⟩ := h'
    exact hextileCalls_writes rect fmt.bytes rows hwf px py h (by omega) (by omega)


/-! ### The tile grid (C10) -/

theorem forLoop_append {σ : Type} (body : Nat → σ → M σ) (xs ys : List Nat) (s : σ)
    (W : World) :
    forLoop body (xs ++ ys) s W = match forLoop body xs s W with
      | (.ok s1, W1) => forLoop body ys s1 W1
      | (.error e, W1) => (.error e, W1) := by
  induction xs generalizing s W with
  | nil => simp [forLoop_nil]
  | cons x xs ih =>
    simp only [List.cons_append, forLoop_cons]
    rcases body x s W with ⟨r, W1⟩
    cases r with
    | error e => rfl
    | ok s1 => exact ih s1 W1

theorem forLoop_map {σ : Type} (body : Nat → σ → M σ) (f : Nat → Nat) (xs : List Nat)
    (s : σ) (W : World) :
    forLoop body (xs.map f) s W = forLoop (fun i => body (f i)) xs s W := by
  induction xs generalizing s W with
  | nil => rfl
  | cons x xs ih =>
    simp only [List.map_cons, forLoop_cons]
    rcases body (f x) s W with ⟨r, W1⟩
    cases r with
    | error e => rfl
    | ok s1 => exact ih s1 W1

theorem forLoop_congr {σ : Type} (body1 body2 : Nat → σ → M σ) (xs : List Nat)
    (h : ∀ i ∈ xs, body1 i = body2 i) (s : σ) (W : World) :
    forLoop body1 xs s W = forLoop body2 xs s W := by
  induction xs generalizing s W with
  | nil => rfl
  | cons x xs ih =>
    simp only [forLoop_cons, h x (List.mem_cons_self _ _)]
    rcases body2 x s W with ⟨r, W1⟩
    cases r with
    | error e => rfl
    | ok s1 => exact ih (fun i hi => h i (List.mem_cons_of_mem _ hi)) s1 W1

/-- Rows of columns, flattened in row-major order. -/
theorem forLoop_grid {σ : Type} (T : Nat → Nat → σ → M σ) (C R : Nat) (s : σ) (W : World) :
    forLoop (fun r s1 => forLoop (fun col s2 => T r col s2) (List.range C) s1) (List.range R)
        s W
      = forLoop (fun k s1 => T (k / C) (k % C) s1) (List.range (R * C)) s W := by
  induction R generalizing s W with
  | zero => simp [forLoop_nil]
  | succ R ih =>
    have hr : List.range ((R + 1) * C) = List.range (R * C) ++ (List.range C).map (R * C + ·) := by
      rw [Nat.succ_mul, List.range_add]
    rw [List.range_succ, forLoop_append, hr, forLoop_append, ih]
    rcases forLoop (fun k s1 => T (k / C) (k % C) s1) (List.range (R * C)) s W with ⟨r, W1⟩
    cases r with
    | error e => rfl
    | ok s1 =>
      simp only [forLoop_cons, forLoop_map]
      have hc : forLoop (fun col s2 => T R col s2) (List.range C) s1 W1
          = forLoop (fun i => (fun k s1 => T (k / C) (k % C) s1) (R * C + i)) (List.range C)
              s1 W1 := by
        apply forLoop_congr
        intro i hi
        have hi' : i < C := List.mem_range.mp hi
        have h1 : (R * C + i) / C = R := by
          rw [Nat.mul_comm, Nat.mul_add_div (by omega), Nat.div_eq_of_lt hi', Nat.add_zero]
        have h2 : (R * C + i) % C = i := by
          rw [Nat.mul_comm, Nat.mul_add_mod, Nat.mod_eq_of_lt hi']
        simp only [h1, h2]
      rw [hc]
      rcases forLoop (fun i => (fun k s1 => T (k / C) (k % C) s1) (R * C + i)) (List.range C)
        s1 W1 with ⟨r2, W2⟩
      cases r2 <;> rfl

theorem hextile_loops_grid (rect : ScreenRect) (bpp : Nat) (c : HextileColors) (W : World) :
    forLoop (hextileRow rect bpp) (tileSteps rect.h.val) c W
      = forLoop (fun k c1 =>
          hextileTile rect bpp (16 * (k / ((rect.w.val + 15) / 16)))
            (min 16 (rect.h.val - 16 * (k / ((rect.w.val + 15) / 16))))
            (16 * (k % ((rect.w.val + 15) / 16))) c1)
        (List.range ((rect.h.val + 15) / 16 * ((rect.w.val + 15) / 16))) c W := by
  rw [← forLoop_grid (fun r col s => hextileTile rect bpp (16 * r)
    (min 16 (rect.h.val - 16 * r)) (16 * col) s)]
  rw [tileSteps_eq, tileOffsets, forLoop_map]
  apply forLoop_congr
  intro r _
  funext s W1
  simp only [hextileRow, tile_width_eq, tileSteps_eq, tileOffsets, forLoop_map]

theorem hextileTile_raw (rect : ScreenRect) (W : World) (enc : Uint8) (raw rest : List Uint8)
    (c : HextileColors) (tile_y th tile_x : Nat)
    (hraw : enc.val &&& RFB_HEXTILE_RAW ≠ 0)
    (hlen : raw.length
      = (toInt32 (min 16 (rect.w.val - tile_x) * th * W.disp_format.bytes)).toNat)
    (hin : W.input = enc :: (raw ++ rest)) :
    hextileTile rect W.disp_format.bytes tile_y th tile_x c W = (.ok c,
      { W with
        input := rest
        trace := W.trace ++ rawTileRows (rect.x.val + tile_x) (rect.y.val + tile_y)
          (min 16 (rect.w.val - tile_x)) th W.disp_format.bytes raw }) := by
  obtain ⟨le, inp, tr, fmt, pr⟩ := W
  simp only at hlen hin
  subst hin
  have hrecv := ReceiveBytes_stored _ le raw rest tr fmt pr hlen
  simp only [hextileTile, if_pos hraw, bind_run, NET_UINT8_mk, tile_width_eq, hrecv,
    forEach_emit, pure_run, rawTileRows]

/-- The count of a raw tile of at most 16 rows, at up to 255 bytes per pixel, is below
2^31: the network client takes it as it is. -/
theorem rawTile_count (w tile_x th bpp : Nat) (hth : th ≤ 16) (hb : bpp ≤ 255) :
    (toInt32 (min 16 (w - tile_x) * th * bpp)).toNat = min 16 (w - tile_x) * th * bpp := by
  have h : min 16 (w - tile_x) * th * bpp ≤ 16 * 16 * 255 :=
    Nat.mul_le_mul (Nat.mul_le_mul (Nat.min_le_left _ _) hth) hb
  exact toInt32_toNat_small _ (by omega)

theorem tileOffsets_length (n : Nat) : (tileOffsets n).length = (n + 15) / 16 := by
  simp [tileOffsets]

theorem RowWellFormed_length (rect : ScreenRect) (bpp th : Nat) (xs : List Nat)
    (row : List HexTile) (hwf : RowWellFormed rect bpp th xs row) : row.length = xs.length := by
  induction xs generalizing row with
  | nil =>
    cases row with
    | nil => rfl
    | cons t ts => simp [RowWellFormed] at hwf
  | cons x xs ih =>
    cases row with
    | nil => simp [RowWellFormed] at hwf
    | cons t ts => simp [ih ts hwf.2]

theorem HexWellFormed_flatten_length (rect : ScreenRect) (bpp : Nat) (ys : List Nat)
    (rows : List (List HexTile)) (hwf : HexWellFormed rect bpp ys rows) :
    rows.flatten.length = ys.length * ((rect.w.val + 15) / 16) := by
  induction ys generalizing rows with
  | nil =>
    cases rows with
    | nil => simp
    | cons r rs => simp [HexWellFormed] at hwf
  | cons y ys ih =>
    cases rows with
    | nil => simp [HexWellFormed] at hwf
    | cons row rows =>
      have h1 := RowWellFormed_length rect bpp _ _ row hwf.1
      rw [tileOffsets_length] at h1
      rw [List.flatten_cons, List.length_append, ih rows hwf.2, h1, List.length_cons,
        Nat.succ_mul, Nat.add_comm]

theorem rowWire_append (a b : List HexTile) : rowWire (a ++ b) = rowWire a ++ rowWire b := by
  induction a with
  | nil => rfl
  | cons t ts ih => simp [rowWire, ih]

theorem hexWire_flatten (rows : List (List HexTile)) : hexWire rows = rowWire rows.flatten := by
  induction rows with
  | nil => rfl
  | cons row rows ih => simp [hexWire, rowWire_append, ih]

/-- Claim C10. The Hextile decoder is the decoder written over the tile grid
(`hextileByGrid`): it processes `ceil(h/16) * ceil(w/16)` tiles, each starting with its
subencoding byte, left to right then top to bottom, the tile of column `c` and row `r` at
offset `(16c, 16r)` of the rectangle with height `min(16, h - 16r)` and width
`min(16, w - 16c)`.  A tile whose subencoding has the Raw bit, whatever its other bits,
reads `tile_width * tile_height * bpp` bytes (the count goes to the network client, which
takes it as an `int`: that is the product itself for every tile of at most 16 rows at up
to 255 bytes per pixel) and issues `tile_height` rows of
`WritePixels` of `tile_width` pixels from `(rect.x + 16c, rect.y + 16r)` down, leaving
the running colours as they were.  And on a well-formed payload the decoder reads exactly
the bytes of `ceil(h/16) * ceil(w/16)` tiles, each made of one subencoding byte and what
that byte announces. -/
theorem DecoderHEXTILE_tile_grid (rect : ScreenRect) :
    DecoderHEXTILE rect = hextileByGrid rect
    ∧ (∀ (W : World) (enc : Uint8) (raw rest : List Uint8) (c : HextileColors)
        (tile_y th tile_x : Nat),
        enc.val &&& RFB_HEXTILE_RAW ≠ 0 →
        raw.length
          = (toInt32 (min 16 (rect.w.val - tile_x) * th * W.disp_format.bytes)).toNat →
        W.input = enc :: (raw ++ rest) →
        hextileTile rect W.disp_format.bytes tile_y th tile_x c W = (.ok c,
          { W with
            input := rest
            trace := W.trace ++ rawTileRows (rect.x.val + tile_x) (rect.y.val + tile_y)
              (min 16 (rect.w.val - tile_x)) th W.disp_format.bytes raw }))
    ∧ (∀ tile_x th bpp : Nat, th ≤ 16 → bpp ≤ 255 →
        (toInt32 (min 16 (rect.w.val - tile_x) * th * bpp)).toNat
          = min 16 (rect.w.val - tile_x) * th * bpp)
    ∧ (∀ (W : World) (rows : List (List HexTile)) (rest : List Uint8),
        (W.disp_format.bytes = 1 ∨ W.disp_format.bytes = 2 ∨ W.disp_format.bytes = 4) →
        HexWellFormed rect W.disp_format.bytes (tileOffsets rect.h.val) rows →
        W.input = rowWire rows.flatten ++ rest →
        rows.flatten.length = (rect.h.val + 15) / 16 * ((rect.w.val + 15) / 16)
          ∧ (DecoderHEXTILE rect W).1 = .ok ()
          ∧ (DecoderHEXTILE rect W).2.input = rest) := by
  refine ⟨?_, fun W enc raw rest c tile_y th tile_x hraw hlen hin =>
    hextileTile_raw rect W enc raw rest c tile_y th tile_x hraw hlen hin,
    fun tile_x th bpp hth hb => rawTile_count rect.w.val tile_x th bpp hth hb, ?_⟩
  · funext W
    simp only [DecoderHEXTILE, hextileByGrid, bind_run, incProcessed_run, GetPixelFormat_run,
      emit_run, hextile_loops_grid]
  · intro W rows rest hb hwf hin
    obtain ⟨le, inp, tr, fmt, pr⟩ := W
    simp only at hb hwf hin
    rw [← hexWire_flatten] at hin
    subst hin
    have hlen := HexWellFormed_flatten_length rect fmt.bytes _ rows hwf
    rw [tileOffsets_length] at hlen
    rw [DecoderHEXTILE_run rect le tr fmt pr rest rows hb hwf]
    exact ⟨hlen, rfl, rfl⟩

/-! ### The Hextile theorems at concrete payloads -/

/-- Claim C8 at a rectangle of two tiles: the first specifies background 5 and foreground
7, the second specifies neither and has one subrectangle. -/
theorem DecoderHEXTILE_running_colours_witness :
    DecoderHEXTILE ⟨0, 0, 17, 1⟩
        (freshWorld [0x06, 0, 0, 0, 5, 0, 0, 0, 7, 0x08, 1, 0x00, 0x00, 0xEE])
      = (.ok (),
        ⟨true, [0xEE],
          [Event.BeginDrawing,
            Event.WriteUniformPixels 0 0 16 5,
            Event.WriteUniformPixels 16 0 1 5, Event.WriteUniformPixels 16 0 1 7,
            Event.EndDrawing ⟨0, 0, 17, 1⟩],
          ⟨4, 24, 255, 255, 255, 16, 8, 0, false⟩, ⟨0, 0, 0, 0, 1, 0⟩⟩) :=
  DecoderHEXTILE_running_colours ⟨0, 0, 17, 1⟩
    (freshWorld [0x06, 0, 0, 0, 5, 0, 0, 0, 7, 0x08, 1, 0x00, 0x00, 0xEE]) [0xEE]
    [[⟨0x06, [], [0, 0, 0, 5], [0, 0, 0, 7], []⟩, ⟨0x08, [], [], [], [⟨[], 0x00, 0x00⟩]⟩]]
    (by decide) (by decide) (by decide)

/-- Claim C9 at a 16 by 16 tile with subencoding `0x02|0x04|0x08|0x10`, one subrectangle
with `xy = 0x12`, `wh = 0x34`: the tile is filled, then `(x=1, y=2, w=4, h=5)` in the
subrectangle pixel. -/
theorem hextileTile_fills_tile_then_subrects_witness :
    hextileTile ⟨0, 0, 16, 16⟩ 4 0 16 0 ⟨0, 0⟩
        (freshWorld [0x1E, 0, 0, 0, 5, 0, 0, 0, 7, 1, 0, 0, 0, 9, 0x12, 0x34])
      = (.ok ⟨5, 7⟩,
        ⟨true, [], solidRows 0 0 16 16 5 ++ solidRows 1 2 4 5 9,
          ⟨4, 24, 255, 255, 255, 16, 8, 0, false⟩, ⟨0, 0, 0, 0, 0, 0⟩⟩) :=
  hextileTile_fills_tile_then_subrects ⟨0, 0, 16, 16⟩
    (freshWorld [0x1E, 0, 0, 0, 5, 0, 0, 0, 7, 1, 0, 0, 0, 9, 0x12, 0x34])
    ⟨0x1E, [], [0, 0, 0, 5], [0, 0, 0, 7], [⟨[0, 0, 0, 9], 0x12, 0x34⟩]⟩ [] ⟨0, 0⟩ 0 16 0
    (by decide) (by decide) (by decide) (by decide) (by decide)

/-- Claim C6 at a rectangle of 17 by 1 pixels, two tiles. -/
theorem DecoderHEXTILE_covers_rect_witness :
    ∃ calls : List Event,
      DecoderHEXTILE ⟨0, 0, 17, 1⟩ (freshWorld [0x02, 0, 0, 0, 5, 0x00])
        = (.ok (), ⟨true, [], calls, ⟨4, 24, 255, 255, 255, 16, 8, 0, false⟩,
            ⟨0, 0, 0, 0, 1, 0⟩⟩)
      ∧ ∀ px py : Uint16, ScreenRect.hasPixel ⟨0, 0, 17, 1⟩ px.val py.val →
          ∃ e ∈ calls, e.writesPixel px.val py.val :=
  DecoderHEXTILE_covers_rect ⟨0, 0, 17, 1⟩ (freshWorld [0x02, 0, 0, 0, 5, 0x00]) []
    [[⟨0x02, [], [0, 0, 0, 5], [], []⟩, ⟨0x00, [], [], [], []⟩]]
    (by decide) (by decide) (by decide)

/-- Claim C7, as the code has it, at a rectangle of 17 by 1 pixels whose first tile has a
subrectangle of one pixel. -/
theorem DecoderHEXTILE_writes_exactly_rect_witness :
    ∃ calls : List Event,
      DecoderHEXTILE ⟨0, 0, 17, 1⟩ (freshWorld [0x0A, 0, 0, 0, 5, 1, 0x00, 0x00, 0x00])
        = (.ok (), ⟨true, [], calls, ⟨4, 24, 255, 255, 255, 16, 8, 0, false⟩,
            ⟨0, 0, 0, 0, 1, 0⟩⟩)
      ∧ ∀ px py : Nat, (∃ e ∈ calls, e.writesPixel px py)
          ↔ ScreenRect.hasPixel ⟨0, 0, 17, 1⟩ px py :=
  DecoderHEXTILE_writes_exactly_rect ⟨0, 0, 17, 1⟩
    (freshWorld [0x0A, 0, 0, 0, 5, 1, 0x00, 0x00, 0x00]) []
    [[⟨0x0A, [], [0, 0, 0, 5], [], [⟨[], 0x00, 0x00⟩]⟩, ⟨0x00, [], [], [], []⟩]]
    (by decide) (by decide) (by decide) (by decide) (by decide) (by decide)

/-- Claim C7, counterexample. The rectangle `(0, 0, 1, 1)` with the payload `08 01 00 10`
(AnySubrects, one subrectangle, `xy = 0x00`, `wh = 0x10`): the decoder returns, and its
call `WriteUniformPixels 0 0 2 0` writes the pixel `(1, 0)`, outside the rectangle. -/
theorem DecoderHEXTILE_writes_outside_rect :
    DecoderHEXTILE ⟨0, 0, 1, 1⟩ (freshWorld [0x08, 0x01, 0x00, 0x10])
      = (.ok (),
        ⟨true, [],
          [Event.BeginDrawing, Event.WriteUniformPixels 0 0 1 0,
            Event.WriteUniformPixels 0 0 2 0, Event.EndDrawing ⟨0, 0, 1, 1⟩],
          ⟨4, 24, 255, 255, 255, 16, 8, 0, false⟩, ⟨0, 0, 0, 0, 1, 0⟩⟩)
    ∧ ¬ StaysInside ⟨0, 0, 1, 1⟩
        [Event.BeginDrawing, Event.WriteUniformPixels 0 0 1 0,
          Event.WriteUniformPixels 0 0 2 0, Event.EndDrawing ⟨0, 0, 1, 1⟩] := by
  refine ⟨?_, fun h => ?_⟩
  · exact DecoderHEXTILE_run ⟨0, 0, 1, 1⟩ true [] ⟨4, 24, 255, 255, 255, 16, 8, 0, false⟩
      ⟨0, 0, 0, 0, 0, 0⟩ [] [[⟨0x08, [], [], [], [⟨[], 0x00, 0x10⟩]⟩]] (by decide) (by decide)
  · have h1 := h (Event.WriteUniformPixels 0 0 2 0) (by decide) 1 0 (by decide)
    exact absurd h1 (by decide)

/-- Claim C10 at a rectangle of 17 by 1 pixels: two tiles; the raw tile of the second
column is one pixel wide, and the other bits of its subencoding `0x1F` are ignored. -/
theorem DecoderHEXTILE_tile_grid_witness :
    DecoderHEXTILE ⟨0, 0, 17, 1⟩ = hextileByGrid ⟨0, 0, 17, 1⟩
    ∧ hextileTile ⟨0, 0, 17, 1⟩ 4 0 1 16 ⟨5, 7⟩ (freshWorld [0x1F, 9, 8, 7, 6, 0xEE])
      = (.ok ⟨5, 7⟩,
        ⟨true, [0xEE], [Event.WritePixels 16 0 1 [9, 8, 7, 6]],
          ⟨4, 24, 255, 255, 255, 16, 8, 0, false⟩, ⟨0, 0, 0, 0, 0, 0⟩⟩)
    ∧ (toInt32 (min 16 (17 - 16) * 1 * 4)).toNat = min 16 (17 - 16) * 1 * 4
    ∧ ([[⟨0x02, [], [0, 0, 0, 5], [], []⟩, ⟨0x1F, [9, 8, 7, 6], [], [], []⟩]] :
          List (List HexTile)).flatten.length = 1 * 2
    ∧ (DecoderHEXTILE ⟨0, 0, 17, 1⟩
          (freshWorld [0x02, 0, 0, 0, 5, 0x1F, 9, 8, 7, 6, 0xEE])).1 = .ok ()
    ∧ (DecoderHEXTILE ⟨0, 0, 17, 1⟩
          (freshWorld [0x02, 0, 0, 0, 5, 0x1F, 9, 8, 7, 6, 0xEE])).2.input = [0xEE] :=
  ⟨(DecoderHEXTILE_tile_grid ⟨0, 0, 17, 1⟩).1,
    (DecoderHEXTILE_tile_grid ⟨0, 0, 17, 1⟩).2.1 (freshWorld [0x1F, 9, 8, 7, 6, 0xEE]) 0x1F
      [9, 8, 7, 6] [0xEE] ⟨5, 7⟩ 0 1 16 (by decide) (by decide) (by decide),
    (DecoderHEXTILE_tile_grid ⟨0, 0, 17, 1⟩).2.2.1 16 1 4 (by decide) (by decide),
    (DecoderHEXTILE_tile_grid ⟨0, 0, 17, 1⟩).2.2.2
      (freshWorld [0x02, 0, 0, 0, 5, 0x1F, 9, 8, 7, 6, 0xEE])
      [[⟨0x02, [], [0, 0, 0, 5], [], []⟩, ⟨0x1F, [9, 8, 7, 6], [], [], []⟩]] [0xEE]
      (by decide) (by decide) (by decide)⟩
/-! ## The handshakes -/

/-- The reader `NET_UINT32` on the four bytes of a big-endian u32. -/
theorem NET_UINT32_be32 (le : Bool) (n : Nat) (hn : n < 4294967296) (rest : List Uint8)
    (tr : List Event) (fmt : PixelFormat) (pr : Processed) :
    NET_UINT32 ⟨le, be32 n ++ rest, tr, fmt, pr⟩ = (.ok n, ⟨le, rest, tr, fmt, pr⟩) := by
  simp [be32, be32_read_nat n hn]

/-- The reader `NET_UINT16` on the two bytes of a big-endian u16. -/
theorem NET_UINT16_be16 (le : Bool) (n : Nat) (hn : n < 65536) (rest : List Uint8)
    (tr : List Event) (fmt : PixelFormat) (pr : Processed) :
    NET_UINT16 ⟨le, be16 n ++ rest, tr, fmt, pr⟩ = (.ok n, ⟨le, rest, tr, fmt, pr⟩) := by
  have h : (toUint8 (n / 256)).val * 256 + (toUint8 n).val = n := by
    simp only [toUint8_val]; omega
  simp [be16, h]

/-- The string reader on a length within the limit: the string is the bytes before the
first NUL of the `n` bytes received. -/
theorem NET_STRING_ok (limit : Nat) (le : Bool) (n : Nat) (hn : n < 2147483648)
    (hlim : n ≤ limit) (s rest : List Uint8) (hs : s.length = n)
    (tr : List Event) (fmt : PixelFormat) (pr : Processed) :
    NET_STRING limit ⟨le, be32 n ++ (s ++ rest), tr, fmt, pr⟩
      = (.ok (cStr s), ⟨le, rest, tr, fmt, pr⟩) := by
  subst hs
  have hlim' : ¬ s.length > limit := by omega
  simp only [NET_STRING, bind_run, NET_UINT32_be32 le s.length (by omega), hlim', if_false,
    ReceiveBytes_mk le s rest tr fmt pr hn, pure_run]

/-- The string reader on a length over the limit: it throws after the length. -/
theorem NET_STRING_long (limit : Nat) (le : Bool) (n : Nat) (hn : n < 4294967296)
    (hlim : limit < n) (rest : List Uint8)
    (tr : List Event) (fmt : PixelFormat) (pr : Processed) :
    NET_STRING limit ⟨le, be32 n ++ rest, tr, fmt, pr⟩
      = (.error (.Msg "received unreasonably long string"), ⟨le, rest, tr, fmt, pr⟩) := by
  have hlim' : n > limit := hlim
  simp only [NET_STRING, bind_run, NET_UINT32_be32 le n hn, hlim', if_true, throwExc_run]

/-- Claim C19. The string reader `NET_STRING` with the limit `VNC_STRING_LENGTH_LIMIT`
(1000), on a stream that starts with the big-endian u32 length `n`: when `n` is at most
1000 and the `n` bytes `s` follow, it returns (the string made from `s`) and has consumed
exactly the four length bytes and `s`, that is `4 + n` bytes; when `n` is 1001 or more it
throws, and has consumed only the four length bytes. -/
theorem NET_STRING_limit_1000 (W : World) (n : Nat) (after : List Uint8)
    (hn : n < 4294967296) (hin : W.input = be32 n ++ after) :
    (n ≤ 1000 → ∀ s rest : List Uint8, s.length = n → after = s ++ rest →
        NET_STRING VNC_STRING_LENGTH_LIMIT W = (.ok (cStr s), { W with input := rest })
          ∧ (be32 n ++ s).length = 4 + n ∧ W.input = (be32 n ++ s) ++ rest)
    ∧ (1001 ≤ n →
        NET_STRING VNC_STRING_LENGTH_LIMIT W
          = (.error (.Msg "received unreasonably long string"), { W with input := after })
          ∧ (be32 n).length = 4) := by
  obtain ⟨le, inp, tr, fmt, pr⟩ := W
  simp only at hin
  subst hin
  constructor
  · intro hle s rest hs hafter
    subst hafter
    refine ⟨NET_STRING_ok _ le n (by omega) hle s rest hs tr fmt pr, ?_, ?_⟩
    · simp [be32, hs]; omega
    · simp
  · intro hge
    exact ⟨NET_STRING_long _ le n hn (by simp only [VNC_STRING_LENGTH_LIMIT]; omega) after tr fmt pr,
      by simp [be32]⟩

/-- Claim C19 at the limit and just over it: a string of exactly 1000 bytes is accepted
and 1004 bytes are consumed; a length of 1001 is refused after the four length bytes. -/
theorem NET_STRING_limit_1000_witness :
    (NET_STRING VNC_STRING_LENGTH_LIMIT (freshWorld (be32 1000 ++ (List.replicate 1000 65 ++ [7])))
        = (.ok (cStr (List.replicate 1000 65)), freshWorld [7])
      ∧ (be32 1000 ++ List.replicate 1000 65).length = 4 + 1000
      ∧ (freshWorld (be32 1000 ++ (List.replicate 1000 65 ++ [7]))).input
          = (be32 1000 ++ List.replicate 1000 65) ++ [7])
    ∧ (NET_STRING VNC_STRING_LENGTH_LIMIT (freshWorld (be32 1001 ++ [7]))
        = (.error (.Msg "received unreasonably long string"), freshWorld [7])
      ∧ (be32 1001).length = 4) :=
  ⟨(NET_STRING_limit_1000 (freshWorld (be32 1000 ++ (List.replicate 1000 65 ++ [7]))) 1000
      (List.replicate 1000 65 ++ [7]) (by decide) rfl).1 (by decide)
      (List.replicate 1000 65) [7] (List.length_replicate 1000 65) rfl,
    (NET_STRING_limit_1000 (freshWorld (be32 1001 ++ [7])) 1001 [7] (by decide) rfl).2
      (by decide)⟩
/-! ## The decoder map -/

theorem registerDecoders_fold_none (ds : List Decoder) (m : Nat → Option Decoder) (t : Nat)
    (h : ∀ d ∈ ds, d.GetType ≠ t) :
    (ds.foldl (fun m d => fun t => if t = d.GetType then some d else m t) m) t = m t := by
  induction ds generalizing m with
  | nil => rfl
  | cons d ds ih =>
    rw [List.foldl_cons, ih _ (fun d' hd' => h d' (List.mem_cons_of_mem _ hd'))]
    have : ¬ t = d.GetType := fun e => h d (List.mem_cons_self _ _) e.symm
    simp [this]

theorem registerDecoders_fold_some (P : Decoder → Prop) (ds : List Decoder)
    (m : Nat → Option Decoder) (t : Nat) (hP : ∀ d ∈ ds, P d)
    (h : (∃ d ∈ ds, d.GetType = t) ∨ ∃ d, m t = some d ∧ P d ∧ d.GetType = t) :
    ∃ d, (ds.foldl (fun m d => fun t => if t = d.GetType then some d else m t) m) t = some d
      ∧ P d ∧ d.GetType = t := by
  induction ds generalizing m with
  | nil =>
    rcases h with ⟨d, hd, _⟩ | ⟨d, hm, hp, ht⟩
    · simp at hd
    · exact ⟨d, hm, hp, ht⟩
  | cons d ds ih =>
    rw [List.foldl_cons]
    apply ih _ (fun d' hd' => hP d' (List.mem_cons_of_mem _ hd'))
    by_cases hd : d.GetType = t
    · right
      exact ⟨d, by simp [hd], hP d (List.mem_cons_self _ _), hd⟩
    · rcases h with ⟨d', hd', ht'⟩ | ⟨d', hm, hp, ht'⟩
      · rcases List.mem_cons.mp hd' with rfl | hmem
        · exact absurd ht' hd
        · exact Or.inl ⟨d', hmem, ht'⟩
      · right
        have : ¬ t = d.GetType := fun e => hd e.symm
        exact ⟨d', by simp [this, hm], hp, ht'⟩

/-- A type that some decoder of the list has is mapped to a decoder of the list with
that type. -/
theorem registerDecoders_some (ds : List Decoder) (t : Nat) (h : ∃ d ∈ ds, d.GetType = t) :
    ∃ d, registerDecoders ds t = some d ∧ d ∈ ds ∧ d.GetType = t :=
  registerDecoders_fold_some (fun d => d ∈ ds) ds _ t (fun _ hd => hd) (Or.inl h)

/-- A type that no decoder of the list has is not in the map. -/
theorem registerDecoders_none (ds : List Decoder) (t : Nat) (h : ∀ d ∈ ds, d.GetType ≠ t) :
    registerDecoders ds t = none :=
  registerDecoders_fold_none ds _ t h

/-- One turn of the rectangle loop on a header whose encoding has no decoder. -/
theorem updateRect_missing (S : RFBProto) (hd : RectHeader) (W : World)
    (rest : List Uint8) (hin : W.input = hd.wire ++ rest)
    (hreg : S.m_decoders hd.encoding.val = none) :
    S.updateRect W = (.error .MissingDecoder,
      { W with
        input := rest
        trace := W.trace ++ [Event.Cerr ("unable to find decoder for packet type "
          ++ toString hd.encoding.val ++ "\n")] }) := by
  obtain ⟨le, inp, tr, fmt, pr⟩ := W
  simp only at hin
  subst hin
  simp [RFBProto.updateRect, RectHeader.wire, be16, be32, be16_read, be32_read,
    RFBProto.GetDecoder, hreg]

theorem forEach_updateRect_missing (S : RFBProto) (hs : List RectHeader) (hd : RectHeader)
    (xs : List Nat) (hlen : hs.length < xs.length) (W W1 : World)
    (hc : CarriesRects S hs W W1) (rest : List Uint8) (hin : W1.input = hd.wire ++ rest)
    (hreg : S.m_decoders hd.encoding.val = none) :
    forEach (fun _ => S.updateRect) xs W = (.error .MissingDecoder,
      { W1 with
        input := rest
        trace := W1.trace ++ [Event.Cerr ("unable to find decoder for packet type "
          ++ toString hd.encoding.val ++ "\n")] }) := by
  induction hs generalizing xs W with
  | nil =>
    simp only [CarriesRects] at hc
    subst hc
    cases xs with
    | nil => simp at hlen
    | cons i xs => rw [forEach_cons, updateRect_missing S hd W1 rest hin hreg]
  | cons h0 hs ih =>
    obtain ⟨rest0, d, W0, hin0, hreg0, hcall, hrest⟩ := hc
    cases xs with
    | nil => simp at hlen
    | cons i xs =>
      rw [forEach_cons, updateRect_run S h0 d W rest0 hin0 hreg0, hcall]
      exact ih xs (by simpa using hlen) W0 hrest

/-- Claim C20. For a session whose map `m_decoders` is the one the constructor builds
from the list `decoders`, and every encoding ID `t`: when some decoder of the list has ID
`t`, `GetDecoder( t )` returns a decoder of the list whose ID is `t`; otherwise it throws
`MissingDecoder`. And when a FramebufferUpdate announces `n` rectangles, carries the
rectangles `hs` (fewer than `n`) with registered encodings and then a header whose
encoding no decoder of the list has, `Update` throws `MissingDecoder` in the world the
decoders of `hs` left, with only the diagnostic line added: no update request is sent. -/
theorem GetDecoder_by_type (decoders : List Decoder) (S : RFBProto)
    (hS : S.m_decoders = registerDecoders decoders) (t : Nat) (W : World) :
    ((∃ d ∈ decoders, d.GetType = t) →
        ∃ d, d ∈ decoders ∧ d.GetType = t ∧ S.GetDecoder t W = (.ok d, W))
    ∧ ((∀ d ∈ decoders, d.GetType ≠ t) → (S.GetDecoder t W).1 = .error .MissingDecoder)
    ∧ (∀ (ms n : Nat) (padding : Uint8) (hs : List RectHeader) (hd : RectHeader)
        (body rest : List Uint8) (W1 : World),
        hs.length < n → n < 65536 →
        W.input = 0 :: padding :: (be16 n ++ body) →
        CarriesRects S hs { W with input := body } W1 →
        W1.input = hd.wire ++ rest →
        (∀ d ∈ decoders, d.GetType ≠ hd.encoding.val) →
        S.Update ms W = (.error .MissingDecoder,
          { W1 with
            input := rest
            trace := W1.trace ++ [Event.Cerr ("unable to find decoder for packet type "
              ++ toString hd.encoding.val ++ "\n")] })) := by
  refine ⟨?_, ?_, ?_⟩
  · intro h
    obtain ⟨d, hd, hmem, ht⟩ := registerDecoders_some decoders t h
    exact ⟨d, hmem, ht, by simp [RFBProto.GetDecoder, hS, hd]⟩
  · intro h
    simp [RFBProto.GetDecoder, hS, registerDecoders_none decoders t h]
  · intro ms n padding hs hd body rest W1 hlen hn hin hc hin1 hnone
    obtain ⟨le, inp, tr, fmt, pr⟩ := W
    simp only at hin hc
    subst hin
    have hnum : (toUint8 (n / 256)).val * 256 + (toUint8 n).val = n := by
      simp only [toUint8_val]; omega
    have hreg : S.m_decoders hd.encoding.val = none := by
      rw [hS]; exact registerDecoders_none decoders _ hnone
    have hloop := forEach_updateRect_missing S hs hd (List.range n) (by simpa using hlen) _ W1
      hc rest hin1 hreg
    simp [RFBProto.Update, WaitDataReady, be16, RFB_SERVER_FBUPDATE, hnum, hloop]

/-- Claim C20 at the list that holds the Raw decoder only: type 0 is found, type 5
(Hextile) is missing, and an update of two rectangles, the first Raw and the second
Hextile, is left with `MissingDecoder` after the Raw rectangle was drawn, with no request
sent. -/
theorem GetDecoder_by_type_witness :
    (∃ d, d ∈ [(⟨0, DecoderRAW⟩ : Decoder)] ∧ d.GetType = 0
        ∧ rawListSession.GetDecoder 0 (freshWorld []) = (.ok d, freshWorld []))
    ∧ (rawListSession.GetDecoder 5 (freshWorld [])).1 = .error .MissingDecoder
    ∧ rawListSession.Update 100
        (freshWorld [0, 0, 0, 2,
          0, 0, 0, 0, 0, 2, 0, 1, 0, 0, 0, 0, 0x11, 0x22, 0x33, 0x44, 0x55, 0x66, 0x77, 0x88,
          0, 0, 0, 0, 0, 1, 0, 1, 0, 0, 0, 5, 0xAA])
      = (.error .MissingDecoder,
        ⟨true, [0xAA],
          [Event.BeginDrawing,
            Event.WritePixels 0 0 2 [0x11, 0x22, 0x33, 0x44, 0x55, 0x66, 0x77, 0x88],
            Event.EndDrawing ⟨0, 0, 2, 1⟩,
            Event.Cerr "unable to find decoder for packet type 5\n"],
          ⟨4, 24, 255, 255, 255, 16, 8, 0, false⟩, ⟨1, 0, 0, 0, 0, 0⟩⟩) :=
  ⟨(GetDecoder_by_type [⟨0, DecoderRAW⟩] rawListSession rfl 0 (freshWorld [])).1
      ⟨⟨0, DecoderRAW⟩, List.mem_cons_self _ _, rfl⟩,
    (GetDecoder_by_type [⟨0, DecoderRAW⟩] rawListSession rfl 5 (freshWorld [])).2.1
      (by intro d hd; rw [List.mem_singleton.mp hd]; decide),
    (GetDecoder_by_type [⟨0, DecoderRAW⟩] rawListSession rfl 0
      (freshWorld [0, 0, 0, 2,
          0, 0, 0, 0, 0, 2, 0, 1, 0, 0, 0, 0, 0x11, 0x22, 0x33, 0x44, 0x55, 0x66, 0x77, 0x88,
          0, 0, 0, 0, 0, 1, 0, 1, 0, 0, 0, 5, 0xAA])).2.2
      100 2 0 [⟨⟨0, 0, 2, 1⟩, 0⟩] ⟨⟨0, 0, 1, 1⟩, 5⟩
      [0, 0, 0, 0, 0, 2, 0, 1, 0, 0, 0, 0, 0x11, 0x22, 0x33, 0x44, 0x55, 0x66, 0x77, 0x88,
        0, 0, 0, 0, 0, 1, 0, 1, 0, 0, 0, 5, 0xAA]
      [0xAA]
      ⟨true, [0, 0, 0, 0, 0, 1, 0, 1, 0, 0, 0, 5, 0xAA],
        [Event.BeginDrawing,
          Event.WritePixels 0 0 2 [0x11, 0x22, 0x33, 0x44, 0x55, 0x66, 0x77, 0x88],
          Event.EndDrawing ⟨0, 0, 2, 1⟩],
        ⟨4, 24, 255, 255, 255, 16, 8, 0, false⟩, ⟨1, 0, 0, 0, 0, 0⟩⟩
      (by decide) (by decide) (by decide)
      ⟨[0x11, 0x22, 0x33, 0x44, 0x55, 0x66, 0x77, 0x88,
          0, 0, 0, 0, 0, 1, 0, 1, 0, 0, 0, 5, 0xAA], ⟨0, DecoderRAW⟩, _, by decide, rfl,
        by decide, rfl⟩
      (by decide)
      (by intro d hd; rw [List.mem_singleton.mp hd]; decide)⟩
/-! ## The DES response -/

/-- The key loop pads the password with NUL bytes on the right, or cuts it, to 8 bytes. -/
theorem desKey_eq (password : List Uint8) :
    desKey password = password.take 8 ++ List.replicate (8 - password.length) 0 := by
  rcases password with _ | ⟨a, _ | ⟨b, _ | ⟨c, _ | ⟨d, _ | ⟨e, _ | ⟨f, _ | ⟨g, _ | ⟨h, t⟩⟩⟩⟩⟩⟩⟩⟩ <;>
    simp [desKey, List.range, List.range.loop, List.replicate]

theorem desKey_length (password : List Uint8) : (desKey password).length = 8 := by
  simp [desKey]

theorem desKey_getD (password : List Uint8) (i : Nat) (hi : i < 8) :
    (desKey password).getD i 0
      = if i < min password.length 8 then password.getD i 0 else 0 := by
  have h8 : i < (List.range 8).length := by simpa using hi
  simp only [desKey, List.getD_eq_getElem?_getD, List.getElem?_map,
    List.getElem?_range hi, Option.map_some', Option.getD_some]
  by_cases h : i < password.length
  · have h1 : ¬ i ≥ password.length := by omega
    have h2 : i < min password.length 8 := by omega
    simp [h1, h2]
  · have h1 : i ≥ password.length := by omega
    have h2 : ¬ i < min password.length 8 := by omega
    simp [h1, h2]

/-- The key depends on the first 8 bytes of the password only. -/
theorem desKey_take (password : List Uint8) : desKey (password.take 8) = desKey password := by
  rw [desKey_eq, desKey_eq]
  rcases password with _ | ⟨a, _ | ⟨b, _ | ⟨c, _ | ⟨d, _ | ⟨e, _ | ⟨f, _ | ⟨g, _ | ⟨h, t⟩⟩⟩⟩⟩⟩⟩⟩ <;>
    simp

/-- Claim C15. For every password and every 16-byte challenge, with DES as an abstract
function `Des key block`: `GenerateDESResponse` yields `Des key` of the first eight
challenge bytes followed by `Des key` of the last eight, where `key` has 8 bytes,
`key[i] = password[i]` for `i < min (len password) 8` and `key[i] = 0` otherwise (the
password padded with NUL bytes on the right or cut to 8 bytes); hence two passwords with
the same first 8 bytes give the same response. -/
theorem GenerateDESResponse_two_blocks (Des : List Uint8 → List Uint8 → List Uint8)
    (password challenge : List Uint8) (hc : challenge.length = 16) :
    GenerateDESResponse Des password challenge
        = Des (desKey password) (challenge.take 8) ++ Des (desKey password) (challenge.drop 8)
      ∧ (desKey password).length = 8
      ∧ (∀ i, i < 8 → (desKey password).getD i 0
          = if i < min password.length 8 then password.getD i 0 else 0)
      ∧ desKey password = password.take 8 ++ List.replicate (8 - password.length) 0
      ∧ (∀ other : List Uint8, other.take 8 = password.take 8 →
          GenerateDESResponse Des other challenge = GenerateDESResponse Des password challenge) := by
  refine ⟨?_, desKey_length password, desKey_getD password, desKey_eq password, ?_⟩
  · have h : (challenge.drop 8).take 8 = challenge.drop 8 := by
      apply List.take_of_length_le
      simp [hc]
    simp [GenerateDESResponse, h]
  · intro other h
    simp only [GenerateDESResponse]
    rw [← desKey_take other, ← desKey_take password, h]

/-- Claim C15 at the password `"pass"` and the all-zero challenge, with the stand-in that
returns its key: both blocks are under the key `"pass\0\0\0\0"`, and the longer password
`"pass"` followed by eight more bytes after four NULs gives the same response. -/
theorem GenerateDESResponse_two_blocks_witness :
    GenerateDESResponse keyProbe passBytes (List.replicate 16 0)
        = keyProbe (desKey passBytes) ((List.replicate 16 (0 : Uint8)).take 8)
          ++ keyProbe (desKey passBytes) ((List.replicate 16 (0 : Uint8)).drop 8)
      ∧ (desKey passBytes).length = 8
      ∧ (∀ i, i < 8 → (desKey passBytes).getD i 0
          = if i < min passBytes.length 8 then passBytes.getD i 0 else 0)
      ∧ desKey passBytes = passBytes.take 8 ++ List.replicate (8 - passBytes.length) 0
      ∧ (∀ other : List Uint8, other.take 8 = passBytes.take 8 →
          GenerateDESResponse keyProbe other (List.replicate 16 0)
            = GenerateDESResponse keyProbe passBytes (List.replicate 16 0)) :=
  GenerateDESResponse_two_blocks keyProbe passBytes (List.replicate 16 0) (by decide)

/-- The claim C16 fails on the code: for the password `"pass"` the key handed to DES is
`"pass\0\0\0\0"` as it is, which is not its bit-mirrored form, and with the stand-in that
returns its key the response to the all-zero challenge is not the one under the mirrored
key. -/
theorem GenerateDESResponse_key_not_mirrored :
    desKey passBytes = [112, 97, 115, 115, 0, 0, 0, 0]
      ∧ desKey passBytes ≠ ([112, 97, 115, 115, 0, 0, 0, 0] : List Uint8).map bitMirror
      ∧ GenerateDESResponse keyProbe passBytes (List.replicate 16 0)
          ≠ keyProbe (([112, 97, 115, 115, 0, 0, 0, 0] : List Uint8).map bitMirror)
              (List.replicate 8 0)
            ++ keyProbe (([112, 97, 115, 115, 0, 0, 0, 0] : List Uint8).map bitMirror)
              (List.replicate 8 0) := by
  decide

/-- Claim C16, amended. For every password the 8 key bytes that `GenerateDESResponse`
hands to DES are the bytes of the NUL-padded password unchanged (they are not
bit-mirrored); for the password `"pass"` and the all-zero challenge the response is, for
every DES function, the DES of eight zeros under the key `"pass\0\0\0\0"` as it is, twice. -/
theorem GenerateDESResponse_key_as_is (Des : List Uint8 → List Uint8 → List Uint8)
    (password : List Uint8) :
    (∀ challenge : List Uint8, GenerateDESResponse Des password challenge
        = Des (password.take 8 ++ List.replicate (8 - password.length) 0) (challenge.take 8)
          ++ Des (password.take 8 ++ List.replicate (8 - password.length) 0)
            ((challenge.drop 8).take 8))
      ∧ GenerateDESResponse Des passBytes (List.replicate 16 0)
        = Des [112, 97, 115, 115, 0, 0, 0, 0] (List.replicate 8 0)
          ++ Des [112, 97, 115, 115, 0, 0, 0, 0] (List.replicate 8 0) := by
  constructor
  · intro challenge
    simp only [GenerateDESResponse, desKey_eq]
  · rfl
/-! ## The authentication handshake -/

theorem NET_UINT32_short (le : Bool) (inp : List Uint8) (tr : List Event) (fmt : PixelFormat)
    (pr : Processed) (h : inp.length < 4) :
    NET_UINT32 ⟨le, inp, tr, fmt, pr⟩ = (.error .Read, ⟨le, [], tr, fmt, pr⟩) := by
  have h' : ¬ 4 ≤ inp.length := by omega
  simp [NET_UINT32, GET_NOSWAP, ReceiveBytes, toInt32, h']

theorem ReceiveBytes_short (n : Nat) (le : Bool) (inp : List Uint8) (tr : List Event)
    (fmt : PixelFormat) (pr : Processed) (h : inp.length < n) (hlt : n < 2147483648) :
    ReceiveBytes n ⟨le, inp, tr, fmt, pr⟩ = (.error .Read, ⟨le, [], tr, fmt, pr⟩) := by
  have h' : ¬ n ≤ inp.length := by omega
  simp [ReceiveBytes, toInt32_toNat_small n hlt, h']

/-- The DES challenge on a stream that holds a challenge and a result word. -/
theorem DoDESChallenge_run (Des : List Uint8 → List Uint8 → List Uint8) (S : RFBProto)
    (le : Bool) (challenge rest : List Uint8) (result : Nat) (tr : List Event)
    (fmt : PixelFormat) (pr : Processed) (hc : challenge.length = 16)
    (hr : result < 4294967296) :
    S.DoDESChallenge Des ⟨le, challenge ++ (be32 result ++ rest), tr, fmt, pr⟩
      = ((if result = 0 then .ok ()
          else if result = 2 then .error .AuthTooMany else .error .AuthFailed),
        ⟨le, rest, tr ++ [Event.SendBytes (GenerateDESResponse Des S.m_password challenge)],
          fmt, pr⟩) := by
  have hrecv := ReceiveBytes_mk le challenge (be32 result ++ rest) tr fmt pr (by omega)
  rw [hc] at hrecv
  simp only [RFBProto.DoDESChallenge, bind_run, hrecv, SendBytes, emit_run,
    NET_UINT32_be32 le result hr, RFB_AUTH_RESULT_OK, RFB_AUTH_RESULT_FAILED,
    RFB_AUTH_RESULT_TOOMANY]
  by_cases h0 : result = 0
  · simp [h0]
  · by_cases h1 : result = 1
    · simp [h1]
    · by_cases h2 : result = 2
      · simp [h2]
      · simp [h0, h1, h2]

/-- The DES challenge returns only on a stream that holds 16 challenge bytes and then the
result word 0. -/
theorem DoDESChallenge_ok (Des : List Uint8 → List Uint8 → List Uint8) (S : RFBProto)
    (le : Bool) (inp : List Uint8) (tr : List Event) (fmt : PixelFormat) (pr : Processed)
    (h : (S.DoDESChallenge Des ⟨le, inp, tr, fmt, pr⟩).1 = .ok ()) :
    ∃ challenge rest : List Uint8, challenge.length = 16
      ∧ inp = challenge ++ (be32 0 ++ rest) := by
  by_cases h16 : inp.length < 16
  · simp [RFBProto.DoDESChallenge, ReceiveBytes_short 16 le inp tr fmt pr h16 (by omega)] at h
  · have hsplit : inp = inp.take 16 ++ inp.drop 16 := (List.take_append_drop 16 inp).symm
    have hlen : (inp.take 16).length = 16 := by simp; omega
    have hrecv := ReceiveBytes_mk le (inp.take 16) (inp.drop 16) tr fmt pr (by omega)
    rw [hlen, ← hsplit] at hrecv
    rcases hd : inp.drop 16 with _ | ⟨b0, _ | ⟨b1, _ | ⟨b2, _ | ⟨b3, rest⟩⟩⟩⟩
    all_goals
      simp only [RFBProto.DoDESChallenge, bind_run, hrecv, SendBytes, emit_run, hd] at h
    · simp [NET_UINT32_short] at h
    · simp [NET_UINT32_short] at h
    · simp [NET_UINT32_short] at h
    · simp [NET_UINT32_short] at h
    · refine ⟨inp.take 16, rest, hlen, ?_⟩
      simp only [NET_UINT32_mk] at h
      have hv : b0.val * 16777216 + b1.val * 65536 + b2.val * 256 + b3.val = 0 := by
        by_contra hne
        have h1 : ¬ (b0.val * 16777216 + b1.val * 65536 + b2.val * 256 + b3.val
            = RFB_AUTH_RESULT_OK) := hne
        simp only [h1, if_false] at h
        split_ifs at h <;> simp at h
      have e0 : b0 = 0 := Fin.ext (by simp; omega)
      have e1 : b1 = 0 := Fin.ext (by simp; omega)
      have e2 : b2 = 0 := Fin.ext (by simp; omega)
      have e3 : b3 = 0 := Fin.ext (by simp; omega)
      subst e0 e1 e2 e3
      conv_lhs => rw [hsplit, hd]
      rfl

/-- Claim C14. On a stream that starts with the big-endian u32 `scheme`:
`DoAuthHandshake` returns exactly when `scheme` is 1, or `scheme` is 2 and the stream goes
on with 16 challenge bytes and the result word 0. With scheme 1 nothing further is read or
written. With scheme 0 it never returns, and once the string reader has read the
length-prefixed reason it throws the error whose message is `"RFB handshake failed: "`
followed by that reason: for a reason of at most 1000 bytes on the wire, the text of its
bytes up to the first NUL. With scheme 2, a 16-byte challenge and a result word, it sends
the response to the challenge and then returns on result 0, throws `AuthTooMany` on result
2 and `AuthFailed` on every other result. Every other scheme throws `UnknownAuth` with
only the scheme read. -/
theorem DoAuthHandshake_outcomes (Des : List Uint8 → List Uint8 → List Uint8) (S : RFBProto)
    (W : World) (scheme : Nat) (after : List Uint8) (hs : scheme < 4294967296)
    (hin : W.input = be32 scheme ++ after) :
    ((S.DoAuthHandshake Des W).1 = .ok () ↔
        scheme = 1 ∨ (scheme = 2 ∧ ∃ challenge rest : List Uint8,
          challenge.length = 16 ∧ after = challenge ++ (be32 0 ++ rest)))
    ∧ (scheme = 1 → S.DoAuthHandshake Des W = (.ok (), { W with input := after }))
    ∧ (scheme = 0 → ∀ (reason : List Uint8) (W1 : World),
        NET_STRING VNC_STRING_LENGTH_LIMIT { W with input := after } = (.ok reason, W1) →
        S.DoAuthHandshake Des W
          = (.error (.Msg ("RFB handshake failed: " ++ stdString reason)), W1))
    ∧ (scheme = 0 → ∀ (n : Nat) (reason rest : List Uint8),
        n ≤ 1000 → reason.length = n → after = be32 n ++ (reason ++ rest) →
        S.DoAuthHandshake Des W
          = (.error (.Msg ("RFB handshake failed: " ++ stdString (cStr reason))),
            { W with input := rest }))
    ∧ (scheme = 2 → ∀ (challenge rest : List Uint8) (result : Nat),
        challenge.length = 16 → result < 4294967296 →
        after = challenge ++ (be32 result ++ rest) →
        S.DoAuthHandshake Des W
          = ((if result = 0 then .ok ()
              else if result = 2 then .error .AuthTooMany else .error .AuthFailed),
            { W with
              input := rest
              trace := W.trace
                ++ [Event.SendBytes (GenerateDESResponse Des S.m_password challenge)] }))
    ∧ (scheme ≠ 0 → scheme ≠ 1 → scheme ≠ 2 →
        S.DoAuthHandshake Des W = (.error .UnknownAuth, { W with input := after })) := by
  obtain ⟨le, inp, tr, fmt, pr⟩ := W
  simp only at hin
  subst hin
  have hrun : S.DoAuthHandshake Des ⟨le, be32 scheme ++ after, tr, fmt, pr⟩
      = (if scheme = 0 then
          (do let reason ← NET_STRING VNC_STRING_LENGTH_LIMIT
              throwExc (.Msg ("RFB handshake failed: " ++ stdString reason)) : M Unit)
        else if scheme = 1 then pure ()
        else if scheme = 2 then S.DoDESChallenge Des
        else throwExc .UnknownAuth) ⟨le, after, tr, fmt, pr⟩ := by
    simp only [RFBProto.DoAuthHandshake, bind_run, NET_UINT32_be32 le scheme hs,
      RFB_AUTH_FAILED, RFB_AUTH_NONE, RFB_AUTH_VNC]
  rw [hrun]
  refine ⟨?_, ?_, ?_, ?_, ?_, ?_⟩
  · by_cases h0 : scheme = 0
    · subst h0
      simp only [if_true, bind_run]
      rcases NET_STRING VNC_STRING_LENGTH_LIMIT ⟨le, after, tr, fmt, pr⟩ with ⟨r, W1⟩
      cases r <;> simp
    · by_cases h1 : scheme = 1
      · subst h1
        simp
      · by_cases h2 : scheme = 2
        · subst h2
          rw [if_neg h0, if_neg h1, if_pos rfl]
          constructor
          · intro h
            exact Or.inr ⟨rfl, DoDESChallenge_ok Des S le after tr fmt pr h⟩
          · rintro (h | ⟨_, challenge, rest, hc, rfl⟩)
            · exact absurd h h1
            · rw [DoDESChallenge_run Des S le challenge rest 0 tr fmt pr hc (by decide)]
              simp
        · simp [h0, h1, h2]
  · intro h1
    subst h1
    simp
  · intro h0 reason W1 hread
    subst h0
    simp only at hread
    simp only [if_true, bind_run, hread, throwExc_run]
  · intro h0 n reason rest hn hlen hafter
    subst h0 hafter
    simp only [if_true, bind_run,
      NET_STRING_ok VNC_STRING_LENGTH_LIMIT le n (by omega) hn reason rest hlen, throwExc_run]
  · intro h2 challenge rest result hc hr hafter
    subst h2 hafter
    simp only [if_true, if_false]
    rw [if_neg (by decide), if_neg (by decide)]
    exact DoDESChallenge_run Des S le challenge rest result tr fmt pr hc hr
  · intro h0 h1 h2
    simp [h0, h1, h2]

/-- Claim C14 on three streams, for the session with the password `"pass"` and the DES
stand-in that returns its key: scheme 2 with an all-zero challenge and result 0 returns
after the response was sent; scheme 0 with the reason `"no"` throws the error that
carries it; scheme 1 returns with nothing further read or written. -/
theorem DoAuthHandshake_outcomes_witness :
    passSession.DoAuthHandshake keyProbe
        (freshWorld (be32 2 ++ (List.replicate 16 0 ++ (be32 0 ++ [9]))))
      = (.ok (),
        { freshWorld (be32 2 ++ (List.replicate 16 0 ++ (be32 0 ++ [9]))) with
          input := [9]
          trace := [Event.SendBytes [112, 97, 115, 115, 0, 0, 0, 0,
            112, 97, 115, 115, 0, 0, 0, 0]] })
    ∧ passSession.DoAuthHandshake keyProbe (freshWorld (be32 0 ++ (be32 2 ++ [110, 111, 9])))
      = (.error (.Msg ("RFB handshake failed: " ++ stdString [110, 111])), freshWorld [9])
    ∧ passSession.DoAuthHandshake keyProbe (freshWorld (be32 1 ++ [9]))
      = (.ok (), freshWorld [9]) :=
  ⟨(DoAuthHandshake_outcomes keyProbe passSession
      (freshWorld (be32 2 ++ (List.replicate 16 0 ++ (be32 0 ++ [9])))) 2
      (List.replicate 16 0 ++ (be32 0 ++ [9])) (by decide) rfl).2.2.2.2.1 rfl
      (List.replicate 16 0) [9] 0 (by decide) (by decide) rfl,
    (DoAuthHandshake_outcomes keyProbe passSession
      (freshWorld (be32 0 ++ (be32 2 ++ [110, 111, 9]))) 0 (be32 2 ++ [110, 111, 9])
      (by decide) rfl).2.2.2.1 rfl 2 [110, 111] [9] (by decide) rfl rfl,
    (DoAuthHandshake_outcomes keyProbe passSession (freshWorld (be32 1 ++ [9])) 1 [9]
      (by decide) rfl).2.1 rfl⟩
/-! ## The version handshake -/

theorem cStr_length_le (buf : List Uint8) : (cStr buf).length ≤ buf.length :=
  (List.takeWhile_sublist _).length_le

/-- A buffer without a NUL byte is its own string. -/
theorem cStr_of_no_NUL (buf : List Uint8) (h : ∀ b ∈ buf, b.val ≠ 0) : cStr buf = buf := by
  apply List.takeWhile_eq_self_iff.mpr
  intro b hb
  simpa using h b hb

/-- The version handshake on a greeting whose first eight bytes are not NUL: the checks
are made on bytes 0..2, on bytes 4..6 and on bytes 8..10 up to their first NUL, and byte
11 is not looked at. -/
theorem DoVersionHandshake_run (S : RFBProto) (le : Bool) (g0 g1 g2 g3 g4 g5 g6 g7 g8 g9 g10
    g11 : Uint8) (rest : List Uint8) (tr : List Event) (fmt : PixelFormat) (pr : Processed)
    (h0 : g0.val ≠ 0) (h1 : g1.val ≠ 0) (h2 : g2.val ≠ 0) (h3 : g3.val ≠ 0)
    (h4 : g4.val ≠ 0) (h5 : g5.val ≠ 0) (h6 : g6.val ≠ 0) (h7 : g7.val ≠ 0) :
    S.DoVersionHandshake
        ⟨le, g0 :: g1 :: g2 :: g3 :: g4 :: g5 :: g6 :: g7 :: g8 :: g9 :: g10 :: g11 :: rest,
          tr, fmt, pr⟩
      = if [g0, g1, g2] ≠ RFB_ID then (.error .NotRFB, ⟨le, rest, tr, fmt, pr⟩)
        else if atoi [g4, g5, g6] ≠ 3 then (.error .BadVersion, ⟨le, rest, tr, fmt, pr⟩)
        else if atoi (cStr [g8, g9, g10]) < 0 then
          (.error .BadVersion, ⟨le, rest, tr, fmt, pr⟩)
        else (.ok { S with m_rfb_major_version := 3, m_rfb_minor_version := 3 },
          ⟨le, rest, tr ++ [Event.SendBytes RFB_VERSION_3_3], fmt, pr⟩) := by
  have hrecv : ReceiveBytes 12
      ⟨le, g0 :: g1 :: g2 :: g3 :: g4 :: g5 :: g6 :: g7 :: g8 :: g9 :: g10 :: g11 :: rest,
        tr, fmt, pr⟩
      = (.ok [g0, g1, g2, g3, g4, g5, g6, g7, g8, g9, g10, g11], ⟨le, rest, tr, fmt, pr⟩) :=
    ReceiveBytes_mk le [g0, g1, g2, g3, g4, g5, g6, g7, g8, g9, g10, g11] rest tr fmt pr
      (by simp)
  have hver : cStr ([g0, g1, g2, g3, g4, g5, g6, g7, g8, g9, g10, g11].set 11 0)
      = [g0, g1, g2, g3, g4, g5, g6, g7] ++ cStr [g8, g9, g10] := by
    by_cases h8 : g8.val = 0 <;> by_cases h9 : g9.val = 0 <;> by_cases h10 : g10.val = 0 <;>
      simp [cStr, List.takeWhile, List.set, h0, h1, h2, h3, h4, h5, h6, h7, h8, h9, h10]
  have hlen : (cStr [g8, g9, g10]).length ≤ 3 := cStr_length_le [g8, g9, g10]
  have hminor : ((cStr [g8, g9, g10]).take 3) = cStr [g8, g9, g10] :=
    List.take_of_length_le hlen
  simp only [RFBProto.DoVersionHandshake, bind_run, hrecv, hver, substr, List.length_append,
    List.length_cons, List.length_nil]
  have e0 : ¬ (0 > 0 + 1 + 1 + 1 + 1 + 1 + 1 + 1 + 1 + (cStr [g8, g9, g10]).length) := by omega
  have e4 : ¬ (4 > 0 + 1 + 1 + 1 + 1 + 1 + 1 + 1 + 1 + (cStr [g8, g9, g10]).length) := by omega
  have e8 : ¬ (8 > 0 + 1 + 1 + 1 + 1 + 1 + 1 + 1 + 1 + (cStr [g8, g9, g10]).length) := by omega
  simp only [e0, e4, e8, if_false, pure_run, List.drop, List.cons_append, List.nil_append,
    List.take, List.append_eq, hminor]
  by_cases c1 : [g0, g1, g2] = RFB_ID
  · by_cases c2 : atoi [g4, g5, g6] = 3
    · by_cases c3 : atoi (cStr [g8, g9, g10]) < 0
      · simp [c1, c2, c3]
      · simp [c1, c2, c3, SendBytes]
    · simp [c1, c2]
  · simp [c1]

/-- Claim C12. For every greeting `"RFB xxx.yyy\n"` (the bytes `"RFB "`, a major field
of three bytes, `"."`, a minor field of three bytes, a line feed) whose major field is
text (no NUL byte) that `atoi` parses to 3 and whose minor field `atoi` parses (as the C
string it is) to a non-negative number: `DoVersionHandshake` returns, has sent exactly the
12 bytes `"RFB 003.003\n"`, and the session records major version 3 and minor version 3,
whatever minor version the server announced. -/
theorem DoVersionHandshake_pins_3_3 (S : RFBProto) (W : World) (x0 x1 x2 y0 y1 y2 : Uint8)
    (rest : List Uint8)
    (hin : W.input = [82, 70, 66, 32, x0, x1, x2, 46, y0, y1, y2, 10] ++ rest)
    (hx0 : x0.val ≠ 0) (hx1 : x1.val ≠ 0) (hx2 : x2.val ≠ 0)
    (hmajor : atoi [x0, x1, x2] = 3) (hminor : 0 ≤ atoi (cStr [y0, y1, y2])) :
    S.DoVersionHandshake W
      = (.ok { S with m_rfb_major_version := 3, m_rfb_minor_version := 3 },
        { W with
          input := rest
          trace := W.trace
            ++ [Event.SendBytes [82, 70, 66, 32, 48, 48, 51, 46, 48, 48, 51, 10]] }) := by
  obtain ⟨le, inp, tr, fmt, pr⟩ := W
  simp only at hin
  subst hin
  have h := DoVersionHandshake_run S le 82 70 66 32 x0 x1 x2 46 y0 y1 y2 10 rest tr fmt pr
    (by decide) (by decide) (by decide) (by decide) hx0 hx1 hx2 (by decide)
  have hid : ¬ ([82, 70, 66] : List Uint8) ≠ RFB_ID := by decide
  have hmaj : ¬ atoi [x0, x1, x2] ≠ 3 := by simp [hmajor]
  have hmin : ¬ atoi (cStr [y0, y1, y2]) < 0 := by omega
  rw [if_neg hid, if_neg hmaj, if_neg hmin] at h
  exact h

/-- Claim C12 at the greeting `"RFB 003.008\n"`: the reply is `"RFB 003.003\n"` and the
version recorded is 3.3. -/
theorem DoVersionHandshake_pins_3_3_witness :
    rawOnlySession.DoVersionHandshake
        (freshWorld ([82, 70, 66, 32, 48, 48, 51, 46, 48, 48, 56, 10] ++ [1]))
      = (.ok { rawOnlySession with m_rfb_major_version := 3, m_rfb_minor_version := 3 },
        { freshWorld ([82, 70, 66, 32, 48, 48, 51, 46, 48, 48, 56, 10] ++ [1]) with
          input := [1]
          trace := [Event.SendBytes [82, 70, 66, 32, 48, 48, 51, 46, 48, 48, 51, 10]] }) :=
  DoVersionHandshake_pins_3_3 rawOnlySession
    (freshWorld ([82, 70, 66, 32, 48, 48, 51, 46, 48, 48, 56, 10] ++ [1])) 48 48 51 48 48 56 [1]
    rfl (by decide) (by decide) (by decide) (by decide) (by decide)

/-- What the handshake does with a greeting it does not accept, when none of the first
eight bytes is NUL: `NotRFB` when the first three bytes are not `"RFB"`, otherwise
`BadVersion` when the major field does not parse to 3 or the minor field parses to a
negative number; nothing is sent. -/
theorem DoVersionHandshake_rejects_text (S : RFBProto) (le : Bool) (g0 g1 g2 g3 g4 g5 g6 g7
    g8 g9 g10 g11 : Uint8) (rest : List Uint8) (tr : List Event) (fmt : PixelFormat)
    (pr : Processed)
    (h0 : g0.val ≠ 0) (h1 : g1.val ≠ 0) (h2 : g2.val ≠ 0) (h3 : g3.val ≠ 0)
    (h4 : g4.val ≠ 0) (h5 : g5.val ≠ 0) (h6 : g6.val ≠ 0) (h7 : g7.val ≠ 0) :
    ([g0, g1, g2] ≠ RFB_ID →
      S.DoVersionHandshake
          ⟨le, g0 :: g1 :: g2 :: g3 :: g4 :: g5 :: g6 :: g7 :: g8 :: g9 :: g10 :: g11 :: rest,
            tr, fmt, pr⟩
        = (.error .NotRFB, ⟨le, rest, tr, fmt, pr⟩))
    ∧ ([g0, g1, g2] = RFB_ID → (atoi [g4, g5, g6] ≠ 3 ∨ atoi (cStr [g8, g9, g10]) < 0) →
      S.DoVersionHandshake
          ⟨le, g0 :: g1 :: g2 :: g3 :: g4 :: g5 :: g6 :: g7 :: g8 :: g9 :: g10 :: g11 :: rest,
            tr, fmt, pr⟩
        = (.error .BadVersion, ⟨le, rest, tr, fmt, pr⟩)) := by
  have h := DoVersionHandshake_run S le g0 g1 g2 g3 g4 g5 g6 g7 g8 g9 g10 g11 rest tr fmt pr
    h0 h1 h2 h3 h4 h5 h6 h7
  constructor
  · intro hid
    rw [if_pos hid] at h
    exact h
  · intro hid hbad
    rw [if_neg (by simp [hid])] at h
    by_cases hmaj : atoi [g4, g5, g6] ≠ 3
    · rw [if_pos hmaj] at h
      exact h
    · rw [if_neg hmaj] at h
      rcases hbad with hb | hb
      · exact absurd hb hmaj
      · rw [if_pos hb] at h
        exact h

/-- The string made from a buffer is no longer than the position of any NUL byte in it. -/
theorem cStr_length_le_of_NUL (buf : List Uint8) (i : Nat) (h : (buf.getD i 1).val = 0) :
    (cStr buf).length ≤ i := by
  induction buf generalizing i with
  | nil => simp [cStr]
  | cons b bs ih =>
    cases i with
    | zero =>
      have hb : b.val = 0 := by simpa using h
      simp [cStr, List.takeWhile, hb]
    | succ i =>
      have h1 : (bs.getD i 1).val = 0 := by simpa using h
      have := ih i h1
      by_cases hb : b.val = 0
      · simp [cStr, List.takeWhile, hb]
      · simp only [cStr, List.takeWhile, ne_eq, hb, not_false_eq_true, decide_True,
          List.length_cons]
        simp only [cStr, ne_eq] at this
        omega

/-- Every greeting with a NUL byte among its first eight bytes ends the version handshake
in `std::out_of_range`, with nothing sent. -/
theorem DoVersionHandshake_NUL_throws (S : RFBProto) (le : Bool) (g rest : List Uint8)
    (tr : List Event) (fmt : PixelFormat) (pr : Processed) (hg : g.length = 12) (i : Nat)
    (hi : i < 8) (h0 : (g.getD i 1).val = 0) :
    S.DoVersionHandshake ⟨le, g ++ rest, tr, fmt, pr⟩
      = (.error .StdOutOfRange, ⟨le, rest, tr, fmt, pr⟩) := by
  have hrecv := ReceiveBytes_mk le g rest tr fmt pr (by omega)
  rw [hg] at hrecv
  have hset : ((g.set 11 0).getD i 1).val = 0 := by
    have hne : 11 ≠ i := by omega
    simpa [List.getD_eq_getElem?_getD, List.getElem?_set_ne hne] using h0
  have hlen := cStr_length_le_of_NUL (g.set 11 0) i hset
  have e0 : ¬ 0 > (cStr (g.set 11 0)).length := by omega
  have e8 : 8 > (cStr (g.set 11 0)).length := by omega
  simp only [RFBProto.DoVersionHandshake, bind_run, hrecv, substr, e0, e8, if_false, if_true,
    pure_run, throwExc_run]
  by_cases e4 : 4 > (cStr (g.set 11 0)).length
  · simp [e4]
  · simp [e4]

/-- Claim C13 fails on the code at greetings with a NUL byte among the first eight: the
string made from the buffer ends at the NUL, and `substr( 4, 3 )` or `substr( 8, 3 )`
throws `std::out_of_range` before any check is made. Twelve NUL bytes, and twelve bytes
that start like the greeting of another service (`4A 00 00 00 0A ...`), do not start with
`"RFB"`, and the handshake ends in `std::out_of_range`, not in `NotRFB`; the greeting
`"RFB 004"` followed by NUL bytes has major version 4 and does not end in `BadVersion`. -/
theorem DoVersionHandshake_NUL_greeting :
    rawOnlySession.DoVersionHandshake (freshWorld (List.replicate 12 0))
        = (.error .StdOutOfRange, freshWorld [])
    ∧ rawOnlySession.DoVersionHandshake
        (freshWorld [74, 0, 0, 0, 10, 53, 46, 55, 46, 50, 53, 0])
        = (.error .StdOutOfRange, freshWorld [])
    ∧ rawOnlySession.DoVersionHandshake
        (freshWorld [82, 70, 66, 32, 48, 48, 52, 0, 0, 0, 0, 0])
        = (.error .StdOutOfRange, freshWorld []) := by
  refine ⟨?_, ?_, ?_⟩ <;> rfl
/-! ## The init handshake -/

/-- The init handshake up to the desktop name: the shared flag is sent, the 20 bytes in
front of the name are read, and the string reader is run on what follows. -/
theorem DoInitHandshake_fields (S : RFBProto) (r : ServerInit) (le : Bool)
    (tail : List Uint8) (tr : List Event) (fmt : PixelFormat) (pr : Processed) :
    S.DoInitHandshake
        ⟨le, be16 r.width.val ++ (be16 r.height.val ++
          (r.bits_per_pixel :: r.depth :: r.big_endian_flag :: r.true_color_flag ::
            (be16 r.red_max.val ++ (be16 r.green_max.val ++ (be16 r.blue_max.val ++
              (r.red_shift :: r.green_shift :: r.blue_shift :: r.pad0 :: r.pad1 :: r.pad2 ::
                tail)))))), tr, fmt, pr⟩
      = match NET_STRING VNC_STRING_LENGTH_LIMIT
            ⟨le, tail, tr ++ [Event.SendBytes [if S.m_shared then 1 else 0]], fmt, pr⟩ with
        | (.error e, W1) => (.error e, W1)
        | (.ok desktop_name, W1) =>
          (if r.bits_per_pixel.val < 8 then .error .BadFormat
            else .ok { S with
              m_desktop_name := desktop_name
              m_desktop_width := (r.width.val : Int)
              m_desktop_height := (r.height.val : Int)
              m_pixel_format := r.format }, W1) := by
  have hpad : ∀ tr1, ReceiveBytes 3 ⟨le, r.pad0 :: r.pad1 :: r.pad2 :: tail, tr1, fmt, pr⟩
      = (.ok [r.pad0, r.pad1, r.pad2], ⟨le, tail, tr1, fmt, pr⟩) :=
    fun tr1 => ReceiveBytes_mk le [r.pad0, r.pad1, r.pad2] tail tr1 fmt pr (by simp)
  simp only [RFBProto.DoInitHandshake, bind_run, SendBytes, emit_run, be16, List.cons_append,
    List.nil_append, NET_UINT16_mk, NET_UINT8_mk, be16_read, hpad]
  rcases NET_STRING VNC_STRING_LENGTH_LIMIT
      ⟨le, tail, tr ++ [Event.SendBytes [if S.m_shared then 1 else 0]], fmt, pr⟩ with ⟨res, W1⟩
  cases res with
  | error e => rfl
  | ok name =>
    by_cases hb : r.bits_per_pixel.val < 8
    · have hb' : r.bits_per_pixel.val / 8 < 1 := by omega
      simp [hb, hb']
    · have hb' : ¬ r.bits_per_pixel.val / 8 < 1 := by omega
      simp [hb, hb', ServerInit.format]

/-- The bytes of a server-init record followed by `rest`, with the name's length and the
name last. -/
theorem ServerInit.wire_append (r : ServerInit) (rest : List Uint8) :
    r.wire ++ rest = be16 r.width.val ++ (be16 r.height.val ++
      (r.bits_per_pixel :: r.depth :: r.big_endian_flag :: r.true_color_flag ::
        (be16 r.red_max.val ++ (be16 r.green_max.val ++ (be16 r.blue_max.val ++
          (r.red_shift :: r.green_shift :: r.blue_shift :: r.pad0 :: r.pad1 :: r.pad2 ::
            (be32 r.name.length ++ (r.name ++ rest)))))))) := by
  simp [ServerInit.wire, be16]

/-- The init handshake on a record whose name is within the string limit. -/
theorem DoInitHandshake_run (S : RFBProto) (r : ServerInit) (le : Bool) (rest : List Uint8)
    (tr : List Event) (fmt : PixelFormat) (pr : Processed) (hname : r.name.length ≤ 1000) :
    S.DoInitHandshake ⟨le, r.wire ++ rest, tr, fmt, pr⟩
      = ((if r.bits_per_pixel.val < 8 then .error .BadFormat
          else .ok { S with
            m_desktop_name := cStr r.name
            m_desktop_width := (r.width.val : Int)
            m_desktop_height := (r.height.val : Int)
            m_pixel_format := r.format }),
        ⟨le, rest, tr ++ [Event.SendBytes [if S.m_shared then 1 else 0]], fmt, pr⟩) := by
  rw [ServerInit.wire_append, DoInitHandshake_fields,
    NET_STRING_ok VNC_STRING_LENGTH_LIMIT le r.name.length (by omega) hname r.name rest rfl]

/-- The init handshake on a record whose name is over the string limit: it throws after
the name's length, whatever the other fields are. -/
theorem DoInitHandshake_long_name (S : RFBProto) (r : ServerInit) (le : Bool)
    (rest : List Uint8) (tr : List Event) (fmt : PixelFormat) (pr : Processed)
    (hname : 1000 < r.name.length) (h32 : r.name.length < 4294967296) :
    S.DoInitHandshake ⟨le, r.wire ++ rest, tr, fmt, pr⟩
      = (.error (.Msg "received unreasonably long string"),
        ⟨le, r.name ++ rest, tr ++ [Event.SendBytes [if S.m_shared then 1 else 0]], fmt, pr⟩) := by
  rw [ServerInit.wire_append, DoInitHandshake_fields,
    NET_STRING_long VNC_STRING_LENGTH_LIMIT le r.name.length h32 hname (r.name ++ rest)]

/-- The claim C17 fails on the code at a record with a desktop name of 1001 bytes: with
32 bits per pixel the handshake does not set anything, it throws the string reader's
error; with 0 bits per pixel it throws that same error, not `BadFormat`. -/
theorem DoInitHandshake_long_name_fails :
    rawOnlySession.DoInitHandshake
        (freshWorld ((initRecord (List.replicate 1001 65)).wire ++ []))
      = (.error (.Msg "received unreasonably long string"),
        ⟨true, List.replicate 1001 65 ++ [], [Event.SendBytes [1]],
          ⟨4, 24, 255, 255, 255, 16, 8, 0, false⟩, ⟨0, 0, 0, 0, 0, 0⟩⟩)
    ∧ (initRecord (List.replicate 1001 65)).bits_per_pixel.val = 32
    ∧ rawOnlySession.DoInitHandshake
        (freshWorld (({ initRecord (List.replicate 1001 65) with
          bits_per_pixel := 0 } : ServerInit).wire ++ []))
      = (.error (.Msg "received unreasonably long string"),
        ⟨true, List.replicate 1001 65 ++ [], [Event.SendBytes [1]],
          ⟨4, 24, 255, 255, 255, 16, 8, 0, false⟩, ⟨0, 0, 0, 0, 0, 0⟩⟩) :=
  ⟨DoInitHandshake_long_name rawOnlySession (initRecord (List.replicate 1001 65)) true [] []
      _ _
      (by show 1000 < (List.replicate 1001 (65 : Uint8)).length
          rw [List.length_replicate]; decide)
      (by show (List.replicate 1001 (65 : Uint8)).length < 4294967296
          rw [List.length_replicate]; decide),
    rfl,
    DoInitHandshake_long_name rawOnlySession
      { initRecord (List.replicate 1001 65) with bits_per_pixel := 0 } true [] []
      _ _
      (by show 1000 < (List.replicate 1001 (65 : Uint8)).length
          rw [List.length_replicate]; decide)
      (by show (List.replicate 1001 (65 : Uint8)).length < 4294967296
          rw [List.length_replicate]; decide)⟩

/-- Claim C17, amended. For every server-init record whose desktop name is at most 1000
bytes long: `DoInitHandshake` first sends exactly one byte, 1 when the session is shared and
0 when it is not, and reads the record; it throws `BadFormat` exactly when the bits-per-pixel
field is below 8, and otherwise returns with the desktop width and height set to the two
u16 fields and the pixel format set to bytes = bits per pixel div 8, the depth, the
big-endian flag (non-zero means true), the three u16 maxima and the three u8 shifts as
received. -/
theorem DoInitHandshake_sets_format (S : RFBProto) (W : World) (r : ServerInit)
    (rest : List Uint8) (hin : W.input = r.wire ++ rest) (hname : r.name.length ≤ 1000) :
    S.DoInitHandshake W
        = ((if r.bits_per_pixel.val < 8 then .error .BadFormat
            else .ok { S with
              m_desktop_name := cStr r.name
              m_desktop_width := (r.width.val : Int)
              m_desktop_height := (r.height.val : Int)
              m_pixel_format :=
                { bytes := r.bits_per_pixel.val / 8
                  bits := r.depth.val
                  red_mask := r.red_max.val
                  green_mask := r.green_max.val
                  blue_mask := r.blue_max.val
                  red_shift := r.red_shift.val
                  green_shift := r.green_shift.val
                  blue_shift := r.blue_shift.val
                  big_endian := decide (r.big_endian_flag.val ≠ 0) } }),
          { W with
            input := rest
            trace := W.trace ++ [Event.SendBytes [if S.m_shared then 1 else 0]] })
      ∧ ((S.DoInitHandshake W).1 = .error .BadFormat ↔ r.bits_per_pixel.val < 8) := by
  obtain ⟨le, inp, tr, fmt, pr⟩ := W
  simp only at hin
  subst hin
  have h := DoInitHandshake_run S r le rest tr fmt pr hname
  refine ⟨h, ?_⟩
  rw [h]
  by_cases hb : r.bits_per_pixel.val < 8 <;> simp [hb]

/-- Claim C17 (amended) at the record of a 1x1 desktop, 32 bits per pixel, depth 24,
maxima 255, shifts 16, 8, 0, named `"T"`, for a shared session: the byte 1 is sent and the
format has 4 bytes per pixel. -/
theorem DoInitHandshake_sets_format_witness :
    rawOnlySession.DoInitHandshake (freshWorld ((initRecord [84]).wire ++ [9]))
        = (.ok { rawOnlySession with
              m_desktop_name := [84]
              m_desktop_width := 1
              m_desktop_height := 1
              m_pixel_format := ⟨4, 24, 255, 255, 255, 16, 8, 0, false⟩ },
          ⟨true, [9], [Event.SendBytes [1]], ⟨4, 24, 255, 255, 255, 16, 8, 0, false⟩,
            ⟨0, 0, 0, 0, 0, 0⟩⟩)
      ∧ ((rawOnlySession.DoInitHandshake (freshWorld ((initRecord [84]).wire ++ [9]))).1
          = .error .BadFormat ↔ (initRecord [84]).bits_per_pixel.val < 8) :=
  DoInitHandshake_sets_format rawOnlySession (freshWorld ((initRecord [84]).wire ++ [9]))
    (initRecord [84]) [9] rfl (by decide)

/-- The claim C18 fails on the code at a name with a NUL byte: for the three-byte name
`41 00 42` the handshake returns and `GetDesktopName()` is the one byte `41`. -/
theorem GetDesktopName_cut_at_NUL :
    rawOnlySession.DoInitHandshake (freshWorld ((initRecord [65, 0, 66]).wire ++ []))
        = (.ok { rawOnlySession with
              m_desktop_name := [65]
              m_desktop_width := 1
              m_desktop_height := 1
              m_pixel_format := ⟨4, 24, 255, 255, 255, 16, 8, 0, false⟩ },
          ⟨true, [], [Event.SendBytes [1]], ⟨4, 24, 255, 255, 255, 16, 8, 0, false⟩,
            ⟨0, 0, 0, 0, 0, 0⟩⟩)
      ∧ RFBProto.GetDesktopName { rawOnlySession with
              m_desktop_name := [65]
              m_desktop_width := 1
              m_desktop_height := 1
              m_pixel_format := ⟨4, 24, 255, 255, 255, 16, 8, 0, false⟩ }
          ≠ (initRecord [65, 0, 66]).name :=
  ⟨DoInitHandshake_run rawOnlySession (initRecord [65, 0, 66]) true [] [] _ _ (by decide),
    by decide⟩

/-- Claim C18, amended. For every server-init record that the handshake accepts (8 bits
per pixel or more) with a desktop name of at most 1000 bytes, of any byte values:
`DoInitHandshake` returns and `GetDesktopName()` is then the bytes of the name before its
first NUL byte; hence exactly the name when no byte of it is NUL. -/
theorem GetDesktopName_after_init (S : RFBProto) (W : World) (r : ServerInit)
    (rest : List Uint8) (hin : W.input = r.wire ++ rest) (hname : r.name.length ≤ 1000)
    (hbpp : 8 ≤ r.bits_per_pixel.val) :
    ∃ S1 : RFBProto,
      S.DoInitHandshake W = (.ok S1,
          { W with
            input := rest
            trace := W.trace ++ [Event.SendBytes [if S.m_shared then 1 else 0]] })
        ∧ S1.GetDesktopName = r.name.takeWhile (fun b => b.val ≠ 0)
        ∧ ((∀ b ∈ r.name, b.val ≠ 0) → S1.GetDesktopName = r.name) := by
  obtain ⟨le, inp, tr, fmt, pr⟩ := W
  simp only at hin
  subst hin
  have h := DoInitHandshake_run S r le rest tr fmt pr hname
  rw [if_neg (by omega)] at h
  exact ⟨_, h, rfl, fun hno => cStr_of_no_NUL r.name hno⟩

/-- Claim C18 (amended) at the name `"T"`: `GetDesktopName()` is `"T"`. -/
theorem GetDesktopName_after_init_witness :
    ∃ S1 : RFBProto,
      rawOnlySession.DoInitHandshake (freshWorld ((initRecord [84]).wire ++ [9]))
          = (.ok S1, ⟨true, [9], [Event.SendBytes [1]], ⟨4, 24, 255, 255, 255, 16, 8, 0, false⟩,
            ⟨0, 0, 0, 0, 0, 0⟩⟩)
        ∧ S1.GetDesktopName = [84]
        ∧ ((∀ b ∈ (initRecord [84]).name, b.val ≠ 0) → S1.GetDesktopName = [84]) :=
  GetDesktopName_after_init rawOnlySession (freshWorld ((initRecord [84]).wire ++ [9]))
    (initRecord [84]) [9] rfl (by decide) (by decide)
/-! ## The ZLIB decoder -/

theorem toUInt_toInt32 (n : Nat) (hn : n < 4294967296) : toUInt (toInt32 n) = n := by
  unfold toUInt toInt32
  rw [Nat.mod_eq_of_lt hn]
  split <;> omega

/-- More fuel does not change what the loop of `ReadBytes` returns. -/
theorem readLoop_mono {σ : Type} (inflate : Inflate σ) (length : Int) (fuel k : Nat)
    (rd : ZlibReader σ) (avail_out : Nat) (written : List Uint8)
    (r : Except Exc (List Uint8) × ZlibReader σ)
    (h : ZlibReader.readLoop inflate length fuel rd avail_out written = some r) :
    ZlibReader.readLoop inflate length (fuel + k) rd avail_out written = some r := by
  induction fuel generalizing rd avail_out written with
  | zero => simp [ZlibReader.readLoop] at h
  | succ fuel ih =>
    have e : fuel + 1 + k = (fuel + k) + 1 := by omega
    rw [e]
    simp only [ZlibReader.readLoop] at h ⊢
    split_ifs at h ⊢ with h1 h2
    · exact h
    · exact ih _ _ _ h
    · exact h

/-- More fuel does not change what `ReadBytes` returns. -/
theorem ReadBytes_mono {σ : Type} (inflate : Inflate σ) (fuel k : Nat) (rd : ZlibReader σ)
    (length : Int) (r : Except Exc (List Uint8) × ZlibReader σ)
    (h : ZlibReader.ReadBytes inflate fuel rd length = some r) :
    ZlibReader.ReadBytes inflate (fuel + k) rd length = some r :=
  readLoop_mono inflate length fuel k rd _ [] r h

/-- When the first call of `inflate` returns `Z_OK` and fills the buffer, `ReadBytes`
returns after that one call with the bytes written. -/
theorem ReadBytes_one_call {σ : Type} (inflate : Inflate σ) (k : Nat) (rd : ZlibReader σ)
    (length : Int)
    (hok : (inflate rd.state rd.next_in (toUInt length)).ret = Z_OK)
    (hfull : ¬ (((inflate rd.state rd.next_in (toUInt length)).output.take
      (toUInt length)).length : Int) < length) :
    ZlibReader.ReadBytes inflate (1 + k) rd length
      = some (.ok ((inflate rd.state rd.next_in (toUInt length)).output.take (toUInt length)),
          ⟨(inflate rd.state rd.next_in (toUInt length)).state,
            rd.next_in.drop (inflate rd.state rd.next_in (toUInt length)).consumed⟩) := by
  have e : 1 + k = k + 1 := by omega
  rw [e]
  simp only [ZlibReader.ReadBytes, ZlibReader.readLoop, hok, ne_eq, not_true_eq_false,
    if_false, List.nil_append, hfull]

/-- The ZLIB decoder up to the inflater: it counts the packet, reads the length and that
many bytes, and hands them to the reader. -/
theorem DecoderZLIB_receive_run {σ : Type} (rd : ZlibReader σ) (le : Bool) (n : Nat)
    (hn : n < 2147483648) (compressed rest : List Uint8) (hc : compressed.length = n)
    (tr : List Event) (fmt : PixelFormat) (pr : Processed) :
    DecoderZLIB.receive rd ⟨le, be32 n ++ (compressed ++ rest), tr, fmt, pr⟩
      = (.ok ⟨rd.state, compressed⟩,
        ⟨le, rest, tr ++ [Event.Cerr ("stream has " ++ toString (toInt32 n) ++ " bytes\n")],
          fmt, { pr with ZLIB := (pr.ZLIB + 1) % 4294967296 }⟩) := by
  have hrecv := ReceiveBytes_mk le compressed rest tr fmt
    { pr with ZLIB := (pr.ZLIB + 1) % 4294967296 } (by omega)
  rw [hc] at hrecv
  have htake : compressed.take (toUInt (toInt32 n)) = compressed := by
    rw [toUInt_toInt32 n (by omega)]
    exact List.take_of_length_le (by omega)
  simp only [DecoderZLIB.receive, bind_run, incProcessed_run, NET_UINT32_be32 le n (by omega),
    hrecv,
    ZlibReader.SetStream, emit_run, pure_run, htake]

/-- The drawing part of the ZLIB decoder. -/
theorem DecoderZLIB_draw_run (rect : ScreenRect) (buf : List Uint8) (W : World) :
    DecoderZLIB.draw rect buf W
      = (.ok (), { W with trace := W.trace ++ ([Event.BeginDrawing]
          ++ bufferRows rect W.disp_format.bytes buf ++ [Event.EndDrawing rect]) }) := by
  simp only [DecoderZLIB.draw, bind_run, emit_run, GetPixelFormat_run, forEach_emit, bufferRows,
    List.append_assoc]

theorem pairInflate_implements : Implements pairInflate pairOut where
  consumed_le := by intro s inp a; simp [pairInflate]
  output_le := by
    intro s inp a
    simp only [pairInflate, List.length_take]
    omega
  coherent := by
    intro s inp a _
    simp [pairInflate, pairOut]
  progress := by
    intro s inp a h
    simp only [pairInflate] at h ⊢
    by_cases h1 : inp = []
    · right
      by_cases h2 : (pairOut s inp).take (min a 3) = []
      · subst h1
        simp [h2, Z_OK] at h
      · exact List.length_pos.mpr h2
    · left
      exact List.length_pos.mpr h1
  willing := by
    intro s inp a ha hne
    simp only [pairInflate]
    have h2 : (pairOut s inp).take (min a 3) ≠ [] := by
      intro h
      have hl := congrArg List.length h
      rw [List.length_take] at hl
      have := List.length_pos.mpr hne
      simp only [List.length_nil] at hl
      omega
    simp [h2]

/-- The loop of `ReadBytes` with an inflater that implements `out`: from any turn on,
with room for `avail` bytes, on input that stands for at least that many, it returns
within `next_in.length + avail + 1` turns, and what it has written then is the first
`avail` bytes that the input stood for; the reader is left with the rest. -/
theorem readLoop_returns {σ : Type} (inflate : Inflate σ) (out : σ → List Uint8 → List Uint8)
    (hI : Implements inflate out) (length : Int) :
    ∀ (fuel : Nat) (rd : ZlibReader σ) (avail : Nat) (written : List Uint8),
      0 < avail → avail ≤ (out rd.state rd.next_in).length →
      length = ((written.length + avail : Nat) : Int) →
      rd.next_in.length + avail < fuel →
      ∃ rd1, ZlibReader.readLoop inflate length fuel rd avail written
          = some (.ok (written ++ (out rd.state rd.next_in).take avail), rd1)
        ∧ out rd1.state rd1.next_in = (out rd.state rd.next_in).drop avail := by
  intro fuel
  induction fuel with
  | zero => intro rd avail written _ _ _ hf; omega
  | succ fuel ih =>
    intro rd avail written hpos hle hlen hf
    have hne : out rd.state rd.next_in ≠ [] := by
      intro h; rw [h] at hle; simp at hle; omega
    have hret := hI.willing rd.state rd.next_in avail hpos hne
    have hol := hI.output_le rd.state rd.next_in avail
    have hcl := hI.consumed_le rd.state rd.next_in avail
    have hco := hI.coherent rd.state rd.next_in avail hret
    have hpr := hI.progress rd.state rd.next_in avail hret
    simp only [ZlibReader.readLoop, hret, ne_eq, not_true_eq_false, if_false]
    generalize inflate rd.state rd.next_in avail = r at hret hol hcl hco hpr ⊢
    have htk : r.output.take avail = r.output := List.take_of_length_le hol
    rw [htk]
    have ih1 := ih ⟨r.state, rd.next_in.drop r.consumed⟩ (avail - r.output.length)
      (written ++ r.output)
    simp only at ih1
    generalize hX : out r.state (rd.next_in.drop r.consumed) = X at hco ih1
    generalize out rd.state rd.next_in = T at hco hle hne ⊢
    subst hco
    rw [List.length_append] at hle
    by_cases hlt : (((written ++ r.output).length : Nat) : Int) < length
    · rw [if_pos hlt]
      rw [hlen, List.length_append] at hlt
      have hlt1 : r.output.length < avail := by omega
      obtain ⟨rd1, h1, h2⟩ := ih1 (by omega) (by omega)
        (by rw [hlen, List.length_append]; congr 1; omega)
        (by simp only [List.length_drop]; omega)
      refine ⟨rd1, ?_, ?_⟩
      · rw [h1, List.take_append_eq_append_take, htk, List.append_assoc]
      · rw [h2, List.drop_append_eq_append_drop, List.drop_of_length_le hol,
          List.nil_append]
    · rw [if_neg hlt]
      rw [hlen, List.length_append] at hlt
      have heq : r.output.length = avail := by omega
      refine ⟨⟨r.state, rd.next_in.drop r.consumed⟩, ?_, ?_⟩
      · rw [List.take_left' heq]
      · simp only
        rw [hX, List.drop_left' heq]
/-- `ReadBytes` with an inflater that implements `out`, for a positive count below 2^31 on
input that stands for at least `count` bytes: it returns within
`next_in.length + count + 1` turns of its loop with the first `count` bytes that the
input stood for, and the reader is left with the rest. -/
theorem ReadBytes_returns {σ : Type} (inflate : Inflate σ) (out : σ → List Uint8 → List Uint8)
    (hI : Implements inflate out) (rd : ZlibReader σ) (count fuel : Nat) (hpos : 0 < count)
    (hlt : count < 2147483648) (hout : count ≤ (out rd.state rd.next_in).length)
    (hf : rd.next_in.length + count < fuel) :
    ∃ rd1, ZlibReader.ReadBytes inflate fuel rd (toInt32 count)
        = some (.ok ((out rd.state rd.next_in).take count), rd1)
      ∧ out rd1.state rd1.next_in = (out rd.state rd.next_in).drop count := by
  have h := readLoop_returns inflate out hI (toInt32 count) fuel rd count [] hpos hout
    (by rw [toInt32_small count hlt]; simp) hf
  simp only [List.nil_append] at h
  simp only [ZlibReader.ReadBytes, toUInt_toInt32 count (by omega)]
  exact h

/-- The ZLIB decoder up to the inflater, for a length of 2^31 or more: the network client
stores nothing, the compressed bytes stay in the stream, and the reader is handed a
buffer in which nothing was stored. -/
theorem DecoderZLIB_receive_unfilled {σ : Type} (rd : ZlibReader σ) (le : Bool) (n : Nat)
    (h1 : 2147483648 ≤ n) (h2 : n < 4294967296) (rest : List Uint8)
    (tr : List Event) (fmt : PixelFormat) (pr : Processed) :
    DecoderZLIB.receive rd ⟨le, be32 n ++ rest, tr, fmt, pr⟩
      = (.ok ⟨rd.state, []⟩,
        ⟨le, rest, tr ++ [Event.Cerr ("stream has " ++ toString (toInt32 n) ++ " bytes\n")],
          fmt, { pr with ZLIB := (pr.ZLIB + 1) % 4294967296 }⟩) := by
  simp only [DecoderZLIB.receive, bind_run, incProcessed_run, NET_UINT32_be32 le n h2,
    ReceiveBytes_unfilled n h1 h2, ZlibReader.SetStream, emit_run, pure_run, List.take_nil]

/-- For every rectangle, every number of bytes per pixel and every inflater that
implements a decompression function `out`: on a stream that starts with the big-endian
u32 `n`, below 2^31, and `n` compressed bytes that stand (from the reader's state on) for
at least `count = w * h * bpp` bytes, a count that is positive and below 2^31, the ZLIB
decoder returns within `n + count + 1` turns of the loop of `ReadBytes`; it has read
exactly the length and the `n` compressed bytes; its display calls are `BeginDrawing`,
one `WritePixels` per row, `EndDrawing rect`, exactly the display calls of the Raw decoder
on a stream that holds the first `count` bytes the compressed bytes stand for; and the
reader is left with the rest of what they stand for. -/
theorem DecoderZLIB_draws_as_RAW {σ : Type} (inflate : Inflate σ)
    (out : σ → List Uint8 → List Uint8) (hI : Implements inflate out) (rect : ScreenRect)
    (rd : ZlibReader σ) (W : World) (n fuel : Nat) (compressed rest : List Uint8)
    (hn : compressed.length = n) (hn31 : n < 2147483648)
    (hin : W.input = be32 n ++ (compressed ++ rest))
    (hpos : 0 < rect.w.val * rect.h.val * W.disp_format.bytes)
    (hlt : rect.w.val * rect.h.val * W.disp_format.bytes < 2147483648)
    (hout : rect.w.val * rect.h.val * W.disp_format.bytes ≤ (out rd.state compressed).length)
    (hf : n + rect.w.val * rect.h.val * W.disp_format.bytes < fuel) :
    (∃ rd1, DecoderZLIB inflate fuel rect rd W = some (.ok rd1,
        { W with
          input := rest
          trace := W.trace
            ++ [Event.Cerr ("stream has " ++ toString (toInt32 n) ++ " bytes\n")]
            ++ ([Event.BeginDrawing]
              ++ rawRows rect W.disp_format.bytes ((out rd.state compressed).take
                  (rect.w.val * rect.h.val * W.disp_format.bytes))
              ++ [Event.EndDrawing rect])
          processed := { W.processed with ZLIB := (W.processed.ZLIB + 1) % 4294967296 } })
      ∧ out rd1.state rd1.next_in
        = (out rd.state compressed).drop (rect.w.val * rect.h.val * W.disp_format.bytes))
    ∧ (∀ rest1, DecoderRAW rect
        ⟨W.little_endian,
          (out rd.state compressed).take (rect.w.val * rect.h.val * W.disp_format.bytes)
            ++ rest1,
          W.trace, W.disp_format, W.processed⟩ = (.ok (),
        { W with
          input := rest1
          trace := W.trace
            ++ ([Event.BeginDrawing]
              ++ rawRows rect W.disp_format.bytes ((out rd.state compressed).take
                  (rect.w.val * rect.h.val * W.disp_format.bytes))
              ++ [Event.EndDrawing rect])
          processed := { W.processed with RAW := (W.processed.RAW + 1) % 4294967296 } })) := by
  obtain ⟨le, inp, tr, fmt, pr⟩ := W
  simp only at hin hpos hlt hout hf
  subst hin
  have hmod : (rect.w.val * rect.h.val * fmt.bytes) % 4294967296
      = rect.w.val * rect.h.val * fmt.bytes := Nat.mod_eq_of_lt (by omega)
  refine ⟨?_, ?_⟩
  · obtain ⟨rd1, h1, h2⟩ := ReadBytes_returns inflate out hI ⟨rd.state, compressed⟩
      (rect.w.val * rect.h.val * fmt.bytes) fuel hpos hlt hout (by simp only; omega)
    simp only at h1 h2
    refine ⟨rd1, ?_, h2⟩
    simp only [DecoderZLIB, DecoderZLIB_receive_run rd le n hn31 compressed rest hn, hmod, h1,
      DecoderZLIB_draw_run, bufferRows_payload rect fmt.bytes _ (show _ < 4294967296 by omega)]
  · intro rest1
    exact DecoderRAW_display_calls rect _ _ rest1 hlt
      (by simp only [List.length_take]; omega) rfl

/-- The rectangle `(0, 0, 2, 1)` with 4 bytes per pixel and the inflater `pairInflate`,
which writes at most three bytes per call: the five bytes behind the length 5 stand for
ten bytes, the loop of `ReadBytes` takes three turns, the first eight bytes are drawn as
one `WritePixels 0 0 2`, as the Raw decoder draws them, and the reader keeps the other
two. -/
theorem DecoderZLIB_draws_as_RAW_witness :
    pairOut [] [10, 20, 30, 40, 50] = [10, 11, 20, 21, 30, 31, 40, 41, 50, 51]
    ∧ ∃ rd1, DecoderZLIB pairInflate 14 ⟨0, 0, 2, 1⟩ ⟨[], []⟩
        (freshWorld (be32 5 ++ ([10, 20, 30, 40, 50] ++ [9])))
      = some (.ok rd1,
        ⟨true, [9],
          [Event.Cerr "stream has 5 bytes\n", Event.BeginDrawing,
            Event.WritePixels 0 0 2 [10, 11, 20, 21, 30, 31, 40, 41],
            Event.EndDrawing ⟨0, 0, 2, 1⟩],
          ⟨4, 24, 255, 255, 255, 16, 8, 0, false⟩, ⟨0, 0, 0, 0, 0, 1⟩⟩)
      ∧ pairOut rd1.state rd1.next_in = [50, 51] :=
  ⟨by decide,
    (DecoderZLIB_draws_as_RAW pairInflate pairOut pairInflate_implements ⟨0, 0, 2, 1⟩ ⟨[], []⟩
      (freshWorld (be32 5 ++ ([10, 20, 30, 40, 50] ++ [9]))) 5 14
      [10, 20, 30, 40, 50] [9] rfl (by decide) rfl (by decide) (by decide) (by decide)
      (by decide)).1⟩

/-- Claim C11 fails on the code at a compressed length of 2^31 (`80 00 00 00`).  The
network client compares `received` with `(int)count`, which is negative, and returns at
once: the ZLIB decoder reads the four bytes of the length and not one of the compressed
bytes, where the claim has it read exactly that many; the reader is handed a buffer in
which nothing was stored (with the size printed as -2147483648), and whatever the inflater
makes of it, the compressed bytes are still in the stream when the decoder ends. -/
theorem DecoderZLIB_length_negative {σ : Type} (inflate : Inflate σ) (rect : ScreenRect)
    (rd : ZlibReader σ) (le : Bool) (rest : List Uint8) (tr : List Event) (fmt : PixelFormat)
    (pr : Processed) :
    DecoderZLIB.receive rd ⟨le, be32 2147483648 ++ rest, tr, fmt, pr⟩
        = (.ok ⟨rd.state, []⟩,
          ⟨le, rest, tr ++ [Event.Cerr "stream has -2147483648 bytes\n"], fmt,
            { pr with ZLIB := (pr.ZLIB + 1) % 4294967296 }⟩)
      ∧ ∀ fuel r W1,
        DecoderZLIB inflate fuel rect rd ⟨le, be32 2147483648 ++ rest, tr, fmt, pr⟩
          = some (r, W1) → W1.input = rest := by
  have h := DecoderZLIB_receive_unfilled rd le 2147483648 (by decide) (by decide) rest tr fmt pr
  have hs : "stream has " ++ toString (toInt32 2147483648) ++ " bytes\n"
      = "stream has -2147483648 bytes\n" := by decide
  rw [hs] at h
  refine ⟨h, ?_⟩
  intro fuel r W1 hrun
  simp only [DecoderZLIB, h] at hrun
  split at hrun
  · simp at hrun
  · simp only [Option.some.injEq, Prod.mk.injEq] at hrun
    rw [← hrun.2]
  · simp only [DecoderZLIB_draw_run, Option.some.injEq, Prod.mk.injEq] at hrun
    rw [← hrun.2]

/-- Claim C11 at the failing length with the inflater `pairInflate`, on a rectangle of one
pixel: the decoder ends with the four bytes that follow the length still in the stream. -/
theorem DecoderZLIB_length_negative_witness :
    ∃ r W1, DecoderZLIB pairInflate 2 ⟨0, 0, 1, 1⟩ ⟨[], []⟩
        (freshWorld (be32 2147483648 ++ [1, 2, 3, 4])) = some (r, W1)
      ∧ W1.input = [1, 2, 3, 4] := by
  have h : DecoderZLIB pairInflate 2 ⟨0, 0, 1, 1⟩ ⟨[], []⟩
      (freshWorld (be32 2147483648 ++ [1, 2, 3, 4]))
      = some (.error (.Msg "unable to decompress data"),
          ⟨true, [1, 2, 3, 4], [Event.Cerr "stream has -2147483648 bytes\n"],
            ⟨4, 24, 255, 255, 255, 16, 8, 0, false⟩, ⟨0, 0, 0, 0, 0, 1⟩⟩) := by
    rfl
  exact ⟨_, _, h, (DecoderZLIB_length_negative pairInflate ⟨0, 0, 1, 1⟩ ⟨[], []⟩ true
    [1, 2, 3, 4] [] ⟨4, 24, 255, 255, 255, 16, 8, 0, false⟩ ⟨0, 0, 0, 0, 0, 0⟩).2 2 _ _ h⟩
/-! ## The constructor -/

/-- The version handshake leaves the decoders of the session as they are. -/
theorem DoVersionHandshake_decoders (S S1 : RFBProto) (W W1 : World)
    (h : S.DoVersionHandshake W = (.ok S1, W1)) :
    S1.m_decoders = S.m_decoders ∧ S1.m_decoders_vec = S.m_decoders_vec := by
  simp only [RFBProto.DoVersionHandshake, bind_run, substr] at h
  repeat' split at h
  all_goals first
    | (simp [throwExc] at h; done)
    | (simp only [bind_run, pure_run, SendBytes, emit_run, Prod.mk.injEq, Except.ok.injEq] at h;
       obtain ⟨h1, _⟩ := h; subst h1; exact ⟨rfl, rfl⟩)

/-- The init handshake leaves the decoders of the session as they are. -/
theorem DoInitHandshake_decoders (S S1 : RFBProto) (W W1 : World)
    (h : S.DoInitHandshake W = (.ok S1, W1)) :
    S1.m_decoders = S.m_decoders ∧ S1.m_decoders_vec = S.m_decoders_vec := by
  simp only [RFBProto.DoInitHandshake, bind_run] at h
  repeat' split at h
  all_goals first
    | (simp [throwExc] at h; done)
    | (simp only [bind_run, pure_run, Prod.mk.injEq, Except.ok.injEq] at h;
       obtain ⟨h1, _⟩ := h; subst h1; exact ⟨rfl, rfl⟩)

/-- A session that the constructor returns has the map built from the decoder list, and
the list. -/
theorem ctor_decoders (Des : List Uint8 → List Uint8 → List Uint8) (fmt0 : PixelFormat)
    (password : List Uint8) (shared : Bool) (decoders : List Decoder) (S : RFBProto)
    (W W1 : World) (h : RFBProto.ctor Des fmt0 password shared decoders W = (.ok S, W1)) :
    S.m_decoders = registerDecoders decoders ∧ S.m_decoders_vec = decoders := by
  simp only [RFBProto.ctor, bind_run] at h
  split at h
  · rename_i S1 W2 hv
    have h1 := DoVersionHandshake_decoders _ _ _ _ hv
    split at h
    · split at h
      · rename_i S2 W4 hi
        have h2 := DoInitHandshake_decoders _ _ _ _ hi
        split at h
        · simp only [pure_run, Prod.mk.injEq, Except.ok.injEq] at h
          obtain ⟨e, _⟩ := h
          subst e
          exact ⟨h2.1.trans h1.1, h2.2.trans h1.2⟩
        · simp at h
      · simp at h
    · simp at h
  · simp at h

/-! ## The messages the client sends -/

theorem SEND_UINT8_any (v : Nat) (W : World) :
    SEND_UINT8 v W = (.ok (), { W with trace := W.trace ++ [Event.SendBytes [toUint8 v]] }) := by
  have h : toUint8 (v % 256) = toUint8 v := by
    apply Fin.ext; simp [toUint8_val]
  cases hle : W.little_endian <;>
    simp [SEND_UINT8, SendBytes, memoryBytes, hle, List.range, List.range.loop, h]

/-- The base-256 digits of a four-digit number. -/
theorem digits4 (a b c d : Nat) (ha : a < 256) (hb : b < 256) (hc : c < 256) (hd : d < 256) :
    (16777216 * a + 65536 * b + 256 * c + d) % 256 = d
      ∧ (16777216 * a + 65536 * b + 256 * c + d) / 256 % 256 = c
      ∧ (16777216 * a + 65536 * b + 256 * c + d) / 65536 % 256 = b
      ∧ (16777216 * a + 65536 * b + 256 * c + d) / 16777216 % 256 = a := by
  refine ⟨?_, ?_, ?_, ?_⟩ <;> omega

theorem memoryBytes_swap32 (le : Bool) (v : Nat) :
    memoryBytes le 4 (VNC_SWAP_BE_32 le (v % 4294967296) % 4294967296)
      = be32 (v % 4294967296) := by
  obtain ⟨a, b, c, d, ha, hb, hc, hd, hu⟩ : ∃ a b c d, a < 256 ∧ b < 256 ∧ c < 256 ∧ d < 256 ∧
      v % 4294967296 = 16777216 * a + 65536 * b + 256 * c + d :=
    ⟨v % 4294967296 / 16777216, v % 4294967296 / 65536 % 256, v % 4294967296 / 256 % 256,
      v % 4294967296 % 256, by omega, by omega, by omega, by omega, by omega⟩
  rw [hu]
  clear hu
  obtain ⟨x0, x1, x2, x3⟩ := digits4 a b c d ha hb hc hd
  cases le
  · have h3 : (16777216 * a + 65536 * b + 256 * c + d) % 4294967296
        = 16777216 * a + 65536 * b + 256 * c + d := by omega
    simp only [memoryBytes, VNC_SWAP_BE_32, be32, List.range, List.range.loop, List.map,
      List.reverse_cons, List.reverse_nil, List.nil_append, List.singleton_append,
      Bool.false_eq_true, if_false, pow_zero, pow_one, Nat.div_one, h3, List.cons_append]
    norm_num
  · simp only [memoryBytes, VNC_SWAP_BE_32, if_true, be32, List.range, List.range.loop,
      List.map, pow_zero, pow_one, Nat.div_one]
    rw [and_FF000000, and_FF0000, and_FF00, and_FF]
    simp only [Nat.shiftLeft_eq, Nat.shiftRight_eq_div_pow, x0, x1, x2, x3]
    have e : (a * 16777216 / 2 ^ 24 + b * 65536 / 2 ^ 8 + c * 256 * 2 ^ 8 + d * 2 ^ 24)
        % 4294967296 = 16777216 * d + 65536 * c + 256 * b + a := by
      clear x0 x1 x2 x3
      norm_num; omega
    rw [e]
    obtain ⟨y0, y1, y2, y3⟩ := digits4 d c b a hd hc hb ha
    simp only [List.cons.injEq, and_true]
    refine ⟨?_, ?_, ?_, ?_⟩ <;> apply Fin.ext <;>
      simp only [toUint8_val, x0, x1, x2, x3, y0, y1, y2, y3, pow_one, pow_zero, Nat.div_one,
        Nat.reducePow]

@[simp] theorem SEND_UINT32_run (v : Nat) (W : World) :
    SEND_UINT32 v W
      = (.ok (), { W with trace := W.trace ++ [Event.SendBytes (be32 (v % 4294967296))] }) := by
  simp [SEND_UINT32, SendBytes, memoryBytes_swap32]

theorem SEND_UINT32_emit (v : Nat) :
    SEND_UINT32 v = emit (Event.SendBytes (be32 (v % 4294967296))) := by
  funext W; simp

theorem toUint8_mod32 (n : Nat) : toUint8 (n % 4294967296) = toUint8 n := by
  apply Fin.ext; simp only [toUint8_val]; omega

/-- Walking a list by index visits its elements in order. -/
theorem map_range_getD {α β : Type} (l : List α) (a : α) (g : α → β) :
    (List.range l.length).map (fun i => g (l.getD i a)) = l.map g := by
  apply List.ext_getElem
  · simp
  · intro i h1 h2
    simp at h1
    simp [List.getElem?_eq_getElem h1]

/-- The call `SendPixelFormat` always returns, after adding its seventeen calls to the
trace. -/
theorem SendPixelFormat_run (format : PixelFormat) (W : World) :
    RFBProto.SendPixelFormat format W
      = (.ok (), { W with trace := W.trace ++ pixelFormatCalls format }) := by
  cases hb : format.big_endian <;>
    simp [RFBProto.SendPixelFormat, BeginWritePacket, EndWritePacket, pixelFormatCalls,
      RFB_CLIENT_SETPIXELFORMAT, SEND_UINT8_any, toUint8_mod32, hb, be16, toUint8] <;>
    omega

/-- The call `DoSupportedEncodings` always returns, after adding its calls to the trace. -/
theorem DoSupportedEncodings_run (S : RFBProto) (W : World) :
    S.DoSupportedEncodings W
      = (.ok (), { W with trace := W.trace ++ setEncodingsCalls S.m_decoders_vec }) := by
  have hloop : (fun i => SEND_UINT32 ((S.m_decoders_vec.map Decoder.GetType).getD i 0))
      = fun i => emit (Event.SendBytes
          (be32 (((S.m_decoders_vec.map Decoder.GetType).getD i 0) % 4294967296))) := by
    funext i; exact SEND_UINT32_emit _
  have hmap := map_range_getD (S.m_decoders_vec.map Decoder.GetType) 0
    (fun t => Event.SendBytes (be32 (t % 4294967296)))
  simp only [List.length_map] at hmap
  simp only [RFBProto.DoSupportedEncodings, hloop, bind_run, BeginWritePacket, EndWritePacket,
    emit_run, forEach_emit, hmap, SEND_UINT8_any, SEND_UINT16_run, RFB_CLIENT_SETENCODINGS,
    setEncodingsCalls, List.map_map]
  simp [toUint8, Function.comp_def]

theorem SendKeyEventMessage_run (key : Uint32) (down : Bool) (W : World) :
    RFBProto.SendKeyEventMessage key.val down W
      = (.ok (), { W with trace := W.trace ++ keyEventCalls key down }) := by
  cases down <;>
    simp [RFBProto.SendKeyEventMessage, BeginWritePacket, EndWritePacket, keyEventCalls,
      RFB_CLIENT_KEYEVENT, SEND_UINT8_any, be16, toUint8, Nat.mod_eq_of_lt key.isLt]

theorem SendMouseEventMessage_run (x y : Uint16) (buttons : Uint8) (W : World) :
    RFBProto.SendMouseEventMessage x.val y.val buttons.val W
      = (.ok (), { W with trace := W.trace ++ pointerEventCalls x y buttons }) := by
  have hb : toUint8 buttons.val = buttons := by
    apply Fin.ext; simp [toUint8_val, Nat.mod_eq_of_lt buttons.isLt]
  simp [RFBProto.SendMouseEventMessage, BeginWritePacket, EndWritePacket, pointerEventCalls,
    RFB_CLIENT_POINTEREVENT, SEND_UINT8_any, hb, Nat.mod_eq_of_lt x.isLt,
    Nat.mod_eq_of_lt y.isLt]
  rfl

theorem sentBytes_append (a b : List Event) : sentBytes (a ++ b) = sentBytes a ++ sentBytes b := by
  simp [sentBytes]

/-- The bytes a call sends are those of the calls it adds to the trace. -/
theorem sentBy_of_run (m : M Unit) (W : World) (calls : List Event)
    (h : (m W).2.trace = W.trace ++ calls) : sentBy m W = sentBytes calls := by
  simp [sentBy, h]

theorem sentBytes_pixelFormatCalls (format : PixelFormat) :
    sentBytes (pixelFormatCalls format) = [0, 0, 0, 0] ++ pixelFormatRecord format := by
  simp [sentBytes, pixelFormatCalls, pixelFormatRecord, Event.sent, be16]

theorem sentBytes_setEncodingsCalls (decoders : List Decoder) :
    sentBytes (setEncodingsCalls decoders)
      = [2, 0] ++ be16 (decoders.length % 65536)
        ++ (decoders.map (fun d => be32 (d.GetType % 4294967296))).flatten := by
  simp [sentBytes, setEncodingsCalls, Event.sent, be16, Function.comp_def]

theorem sentBytes_keyEventCalls (key : Uint32) (down : Bool) :
    sentBytes (keyEventCalls key down) = [4, if down then 1 else 0, 0, 0] ++ be32 key.val := by
  simp [sentBytes, keyEventCalls, Event.sent, be32]

theorem sentBytes_pointerEventCalls (x y : Uint16) (buttons : Uint8) :
    sentBytes (pointerEventCalls x y buttons) = [5, buttons] ++ be16 x.val ++ be16 y.val := by
  simp [sentBytes, pointerEventCalls, Event.sent, be16]

theorem sentBytes_updateRequestCalls (rect : ScreenRect) (incremental : Bool) :
    sentBytes (updateRequestCalls rect incremental)
      = [3, if incremental then 1 else 0] ++ be16 rect.x.val ++ be16 rect.y.val
        ++ be16 rect.w.val ++ be16 rect.h.val := by
  simp [sentBytes, updateRequestCalls, Event.sent, be16]

theorem length_flatten_be32 (decoders : List Decoder) :
    ((decoders.map (fun d => be32 (d.GetType % 4294967296))).flatten).length
      = 4 * decoders.length := by
  induction decoders with
  | nil => rfl
  | cons d ds ih =>
    rw [List.map_cons, List.flatten_cons, List.length_append, ih, List.length_cons]
    simp only [be32, List.length_cons, List.length_nil]
    omega

/-- Claim C23. For every `PixelFormat`, on either host, `SendPixelFormat` returns and
hands the transport exactly 20 bytes: the message type 0, three zero bytes, then the
16-byte record with bits per pixel (`bytes * 8`), depth, the big-endian flag (0 or 1), the
true-colour flag 1, the red, green and blue maxima as big-endian u16, the three shifts as
u8 (each field converted to the width of its place) and three zero bytes. -/
theorem SendPixelFormat_writes_record (format : PixelFormat) (W : World) :
    RFBProto.SendPixelFormat format W
        = (.ok (), { W with trace := W.trace ++ pixelFormatCalls format })
      ∧ sentBy (RFBProto.SendPixelFormat format) W
        = [0, 0, 0, 0,
            toUint8 (format.bytes * 8), toUint8 format.bits,
            if format.big_endian then 1 else 0, 1,
            toUint8 (format.red_mask % 65536 / 256), toUint8 (format.red_mask % 65536),
            toUint8 (format.green_mask % 65536 / 256), toUint8 (format.green_mask % 65536),
            toUint8 (format.blue_mask % 65536 / 256), toUint8 (format.blue_mask % 65536),
            toUint8 format.red_shift, toUint8 format.green_shift, toUint8 format.blue_shift,
            0, 0, 0]
      ∧ (sentBy (RFBProto.SendPixelFormat format) W).length = 20 := by
  have hrun := SendPixelFormat_run format W
  have hsent := sentBy_of_run (RFBProto.SendPixelFormat format) W (pixelFormatCalls format)
    (by rw [hrun])
  refine ⟨hrun, ?_, ?_⟩
  · rw [hsent, sentBytes_pixelFormatCalls]; rfl
  · rw [hsent, sentBytes_pixelFormatCalls]; rfl

/-- Claim C24. For every decoder preference list, of length `n`, on either host,
`DoSupportedEncodings` returns and hands the transport exactly `4 + 4n` bytes: the
message type 2, one zero byte, `n` as a big-endian u16, then the encoding ID of each
decoder as a big-endian u32, in the order of the preference list. -/
theorem DoSupportedEncodings_writes_list (S : RFBProto) (W : World) :
    S.DoSupportedEncodings W
        = (.ok (), { W with trace := W.trace ++ setEncodingsCalls S.m_decoders_vec })
      ∧ sentBy S.DoSupportedEncodings W
        = [2, 0] ++ be16 (S.m_decoders_vec.length % 65536)
          ++ (S.m_decoders_vec.map (fun d => be32 (d.GetType % 4294967296))).flatten
      ∧ (sentBy S.DoSupportedEncodings W).length = 4 + 4 * S.m_decoders_vec.length := by
  have hrun := DoSupportedEncodings_run S W
  have hsent := sentBy_of_run S.DoSupportedEncodings W (setEncodingsCalls S.m_decoders_vec)
    (by rw [hrun])
  refine ⟨hrun, ?_, ?_⟩
  · rw [hsent, sentBytes_setEncodingsCalls]
  · rw [hsent, sentBytes_setEncodingsCalls, List.length_append, length_flatten_be32]
    simp [be16]

theorem bind_unit_run (m n : M Unit) (W : World) (calls1 calls2 : List Event)
    (h1 : ∀ W, m W = (.ok (), { W with trace := W.trace ++ calls1 }))
    (h2 : ∀ W, n W = (.ok (), { W with trace := W.trace ++ calls2 })) :
    (m >>= fun _ => n) W = (.ok (), { W with trace := W.trace ++ (calls1 ++ calls2) }) := by
  simp [h1, h2]

theorem be32_shifts (k : Nat) :
    be32 k = [toUint8 (k >>> 24), toUint8 ((k >>> 16) &&& 255), toUint8 ((k >>> 8) &&& 255),
      toUint8 (k &&& 255)] := by
  have h255 : (255 : Nat) = 0xFF := rfl
  have hm : ∀ n : Nat, toUint8 (n % 256) = toUint8 n := by
    intro n; apply Fin.ext; simp [toUint8_val]
  simp only [be32, h255, and_FF, Nat.shiftRight_eq_div_pow, hm]

/-- Claim C25. For every 32-bit keysym `k` and flag `down`, on either host,
`SendKeyEventMessage` returns and hands the transport exactly the 8 bytes
`[4, down ? 1 : 0, 0, 0, k>>24, (k>>16)&255, (k>>8)&255, k&255]`, whatever the world it is
called in; sending `KeyEvent(k, down = true)` twice hands over that frame twice. -/
theorem SendKeyEventMessage_frame (k : Uint32) (down : Bool) (W : World) :
    (RFBProto.SendKeyEventMessage k.val down W).1 = .ok ()
      ∧ sentBy (RFBProto.SendKeyEventMessage k.val down) W
        = [4, if down then 1 else 0, 0, 0, toUint8 (k.val >>> 24),
            toUint8 ((k.val >>> 16) &&& 255), toUint8 ((k.val >>> 8) &&& 255),
            toUint8 (k.val &&& 255)]
      ∧ sentBy (RFBProto.SendKeyEventMessage k.val true
            >>= fun _ => RFBProto.SendKeyEventMessage k.val true) W
        = [4, 1, 0, 0, toUint8 (k.val >>> 24),
            toUint8 ((k.val >>> 16) &&& 255), toUint8 ((k.val >>> 8) &&& 255),
            toUint8 (k.val &&& 255)]
          ++ [4, 1, 0, 0, toUint8 (k.val >>> 24),
            toUint8 ((k.val >>> 16) &&& 255), toUint8 ((k.val >>> 8) &&& 255),
            toUint8 (k.val &&& 255)] := by
  have hrun := SendKeyEventMessage_run k down W
  have hsent := sentBy_of_run (RFBProto.SendKeyEventMessage k.val down) W
    (keyEventCalls k down) (by rw [hrun])
  have htwice := bind_unit_run (RFBProto.SendKeyEventMessage k.val true)
    (RFBProto.SendKeyEventMessage k.val true) W _ _
    (SendKeyEventMessage_run k true) (SendKeyEventMessage_run k true)
  have hsent2 := sentBy_of_run (RFBProto.SendKeyEventMessage k.val true
      >>= fun _ => RFBProto.SendKeyEventMessage k.val true) W
    (keyEventCalls k true ++ keyEventCalls k true) (by rw [htwice])
  refine ⟨by rw [hrun], ?_, ?_⟩
  · rw [hsent, sentBytes_keyEventCalls, be32_shifts]; rfl
  · rw [hsent2, sentBytes_append, sentBytes_keyEventCalls, be32_shifts]; rfl

theorem sentBy_SendKeyEventMessage (key : Uint32) (down : Bool) (W : World) :
    sentBy (RFBProto.SendKeyEventMessage key.val down) W
      = [4, if down then 1 else 0, 0, 0] ++ be32 key.val := by
  rw [sentBy_of_run _ W (keyEventCalls key down) (by rw [SendKeyEventMessage_run]),
    sentBytes_keyEventCalls]

theorem sentBy_SendMouseEventMessage (x y : Uint16) (buttons : Uint8) (W : World) :
    sentBy (RFBProto.SendMouseEventMessage x.val y.val buttons.val) W
      = [5, buttons] ++ be16 x.val ++ be16 y.val := by
  rw [sentBy_of_run _ W (pointerEventCalls x y buttons) (by rw [SendMouseEventMessage_run]),
    sentBytes_pointerEventCalls]

theorem sentBy_SendUpdateRequest (rect : ScreenRect) (incremental : Bool) (W : World) :
    sentBy (RFBProto.SendUpdateRequest rect incremental) W
      = [3, if incremental then 1 else 0] ++ be16 rect.x.val ++ be16 rect.y.val
        ++ be16 rect.w.val ++ be16 rect.h.val := by
  rw [sentBy_of_run _ W (updateRequestCalls rect incremental) (by rw [SendUpdateRequest_run]),
    sentBytes_updateRequestCalls]

theorem sentBy_SEND_UINT16 (x : Uint16) (W : World) :
    sentBy (SEND_UINT16 x.val) W = be16 x.val := by
  rw [sentBy_of_run _ W [Event.SendBytes (be16 x.val)]
    (by rw [SEND_UINT16_run, Nat.mod_eq_of_lt x.isLt])]
  simp [sentBytes, Event.sent]

theorem sentBy_SEND_UINT32 (k : Uint32) (W : World) :
    sentBy (SEND_UINT32 k.val) W = be32 k.val := by
  rw [sentBy_of_run _ W [Event.SendBytes (be32 k.val)]
    (by rw [SEND_UINT32_run, Nat.mod_eq_of_lt k.isLt])]
  simp [sentBytes, Event.sent]

/-- Claim C26. For KeyEvent, PointerEvent and FramebufferUpdateRequest and for every
tuple of field values: the bytes the client sends, whatever the byte order of its host,
are read back by `NET_UINT8`, `NET_UINT16` and `NET_UINT32`, whatever the byte order of
the reading host, as the message type code followed by the original field values, and
nothing else of the reader's stream is touched. A u16 written by `SEND_UINT16` and a u32
written by `SEND_UINT32` go on the wire most-significant byte first and are read back
unchanged. -/
theorem client_messages_round_trip (key : Uint32) (down : Bool) (x y w h : Uint16)
    (buttons : Uint8) (incremental : Bool) (W R : World) :
    readKeyEvent
        { R with input := sentBy (RFBProto.SendKeyEventMessage key.val down) W ++ R.input }
      = (.ok (4, (if down then 1 else 0), key.val), R)
    ∧ readPointerEvent
        { R with input :=
            sentBy (RFBProto.SendMouseEventMessage x.val y.val buttons.val) W ++ R.input }
      = (.ok (5, buttons.val, x.val, y.val), R)
    ∧ readUpdateRequest
        { R with input :=
            sentBy (RFBProto.SendUpdateRequest ⟨x, y, w, h⟩ incremental) W ++ R.input }
      = (.ok (3, (if incremental then 1 else 0), x.val, y.val, w.val, h.val), R)
    ∧ sentBy (SEND_UINT16 x.val) W = [toUint8 (x.val / 256), toUint8 x.val]
    ∧ NET_UINT16 { R with input := sentBy (SEND_UINT16 x.val) W ++ R.input } = (.ok x.val, R)
    ∧ sentBy (SEND_UINT32 key.val) W
      = [toUint8 (key.val / 16777216), toUint8 (key.val / 65536), toUint8 (key.val / 256),
          toUint8 key.val]
    ∧ NET_UINT32 { R with input := sentBy (SEND_UINT32 key.val) W ++ R.input }
      = (.ok key.val, R) := by
  obtain ⟨le, inp, tr, fmt, pr⟩ := R
  rw [sentBy_SendKeyEventMessage, sentBy_SendMouseEventMessage, sentBy_SendUpdateRequest,
    sentBy_SEND_UINT16, sentBy_SEND_UINT32]
  refine ⟨?_, ?_, ?_, rfl, ?_, rfl, ?_⟩
  · cases down <;> simp [readKeyEvent, be32, be32_read] <;> rfl
  · simp [readPointerEvent, be16, be16_read]; rfl
  · cases incremental <;> simp [readUpdateRequest, be16, be16_read] <;> rfl
  · simp [be16, be16_read]
  · simp [be32, be32_read]

/-! ## main.cc: the decoder list -/

/-- The list `main` builds is the fixed order of preference with the disabled classes
left out. -/
theorem mainDecoders_filter (o : Options) :
    mainDecoders o = preferenceOrder.filter o.enables := by
  obtain ⟨pw, port, v, hx, co, rr, zr, cp, zl⟩ := o
  cases hx <;> cases co <;> cases rr <;> cases cp <;> cases zl <;> rfl

/-- Every exit of the option loop has status 1. -/
theorem mainOption_status (p : String) (o : Options) (g : GetoptResult) (e : Int × String)
    (h : mainOption p o g = .error e) : e.1 = 1 := by
  simp only [mainOption] at h
  repeat' split at h
  all_goals first
    | (simp at h; done)
    | (injection h with h; subst h; rfl)

theorem mainOptionLoop_status (p : String) (opts : List GetoptResult) (o : Options)
    (e : Int × String) (h : mainOptionLoop p o opts = .error e) : e.1 = 1 := by
  induction opts generalizing o with
  | nil => simp [mainOptionLoop] at h
  | cons g gs ih =>
    simp only [mainOptionLoop] at h
    split at h
    · exact ih _ h
    · rename_i e1 he
      injection h with h
      subst h
      exact mainOption_status p o g _ he

/-- A `-d` argument that names none of the six encodings ends the option loop. -/
theorem mainOption_bad_d (p : String) (o : Options) (g : GetoptResult) (hd : g.ch = 'd')
    (hbad : ¬ NamesEncoding g.optarg) : mainOption p o g = .error (1, Usage p) := by
  simp only [NamesEncoding, not_or] at hbad
  obtain ⟨h1, h2, h3, h4, h5, h6⟩ := hbad
  have ha : g.ch ≠ 'a' := by rw [hd]; decide
  have hp : g.ch ≠ 'p' := by rw [hd]; decide
  have hv : g.ch ≠ 'v' := by rw [hd]; decide
  simp only [mainOption]
  rw [if_neg ha, if_neg hp, if_neg hv, if_pos hd, if_neg h1, if_neg h2, if_neg h3, if_neg h4,
    if_neg h5, if_neg h6]

theorem mainOptionLoop_bad_d (p : String) (opts : List GetoptResult) (o : Options)
    (g : GetoptResult) (hg : g ∈ opts) (hd : g.ch = 'd') (hbad : ¬ NamesEncoding g.optarg) :
    ∃ e, mainOptionLoop p o opts = .error e := by
  induction opts generalizing o with
  | nil => simp at hg
  | cons g1 gs ih =>
    simp only [mainOptionLoop]
    rcases List.mem_cons.mp hg with rfl | hmem
    · rw [mainOption_bad_d p o g hd hbad]
      exact ⟨_, rfl⟩
    · cases h1 : mainOption p o g1 with
      | error e => exact ⟨e, rfl⟩
      | ok o1 => exact ih o1 hmem

theorem mainOptions_status (p : String) (opts : List GetoptResult)
    (operands : List (List Uint8)) (e : Int × String)
    (h : mainOptions p opts operands = .error e) : e.1 = 1 := by
  simp only [mainOptions] at h
  split at h
  · rename_i e1 he
    injection h with h
    subst h
    exact mainOptionLoop_status p opts _ _ he
  · split at h
    · injection h with h; subst h; rfl
    · simp at h

/-- Claim C29. For every sequence of options and operands: if `main` accepts it, the
decoder list handed to the session has Raw as its last element and holds Raw exactly
once, and it is the fixed order Zlib, Hextile, CoRRE, RRE, CopyRect, Raw with the disabled
classes left out; and if a `-d` argument names none of hextile, corre, rre, zrle,
copyrect, zlib (up to the case of letters), `main` exits with status 1 and hands no list
to a session. -/
theorem mainDecoders_raw_last (program_path : String) (opts : List GetoptResult)
    (operands : List (List Uint8)) :
    (∀ o, mainOptions program_path opts operands = .ok o →
      (mainDecoders o).getLast? = some DecoderClass.RAW
        ∧ (mainDecoders o).count DecoderClass.RAW = 1
        ∧ mainDecoders o = preferenceOrder.filter o.enables
        ∧ (mainDecoders o).Sublist preferenceOrder)
    ∧ (∀ g, g ∈ opts → g.ch = 'd' → ¬ NamesEncoding g.optarg →
      ∃ text, mainOptions program_path opts operands = .error (1, text)) := by
  constructor
  · intro o _
    refine ⟨?_, ?_, mainDecoders_filter o, ?_⟩
    · obtain ⟨pw, port, v, hx, co, rr, zr, cp, zl⟩ := o
      cases hx <;> cases co <;> cases rr <;> cases cp <;> cases zl <;> rfl
    · obtain ⟨pw, port, v, hx, co, rr, zr, cp, zl⟩ := o
      cases hx <;> cases co <;> cases rr <;> cases cp <;> cases zl <;>
        simp [mainDecoders, List.count_cons]
    · rw [mainDecoders_filter]
      exact List.filter_sublist _
  · intro g hg hd hbad
    obtain ⟨e, he⟩ := mainOptionLoop_bad_d program_path opts Options.initial g hg hd hbad
    have herr : mainOptions program_path opts operands = .error e := by
      simp only [mainOptions, he]
    have hst := mainOptions_status program_path opts operands e herr
    refine ⟨e.2, ?_⟩
    rw [herr, ← hst]

/-- Claim C29 at two command lines: `-d hextile -d RRE host` is accepted and hands over
Zlib, CoRRE, CopyRect, Raw; `-d raw host` makes `main` exit with status 1. -/
theorem mainDecoders_raw_last_witness :
    (mainDecoders { Options.initial with opt_enable_hextile := false, opt_enable_rre := false }
        = [DecoderClass.ZLIB, DecoderClass.CORRE, DecoderClass.COPYRECT, DecoderClass.RAW]
      ∧ (mainDecoders
          { Options.initial with opt_enable_hextile := false, opt_enable_rre := false }).getLast?
        = some DecoderClass.RAW)
    ∧ ∃ text, mainOptions "palantir" [⟨'d', asciiBytes "raw"⟩] [asciiBytes "host"]
        = .error (1, text) :=
  ⟨⟨by decide,
    ((mainDecoders_raw_last "palantir"
      [⟨'d', asciiBytes "hextile"⟩, ⟨'d', asciiBytes "RRE"⟩] [asciiBytes "host"]).1
      { Options.initial with opt_enable_hextile := false, opt_enable_rre := false }
      (by decide)).1⟩,
    (mainDecoders_raw_last "palantir" [⟨'d', asciiBytes "raw"⟩] [asciiBytes "host"]).2
      ⟨'d', asciiBytes "raw"⟩ (by decide) (by decide) (by decide)⟩

/-! ## Arbitration of the 8-bit format; Bell and cut text -/

/-- What `Setup8bpp` keeps of a server format of 1 byte per pixel: the three shifts, and
the red maximum when it is a solid mask below 2^31. -/
theorem Setup8bpp_keeps_shifts (m_format : PixelFormat) (h : m_format.bytes = 1) :
    (Setup8bpp m_format).red_shift = m_format.red_shift
      ∧ (Setup8bpp m_format).green_shift = m_format.green_shift
      ∧ (Setup8bpp m_format).blue_shift = m_format.blue_shift := by
  simp [Setup8bpp, h]

/-- In `Setup8bpp` the green and the blue maximum are always the red one. -/
theorem Setup8bpp_masks_from_red (m_format : PixelFormat) :
    (Setup8bpp m_format).green_mask = (Setup8bpp m_format).red_mask
      ∧ (Setup8bpp m_format).blue_mask = (Setup8bpp m_format).red_mask := by
  simp [Setup8bpp]

/-- Claim C28 fails on the code at the claim's own example. With a display of 1 byte per
pixel and the server's 3-3-2 format of 1 byte per pixel (maxima 7, 7, 3 at shifts 5, 2, 0)
`ReconcilePixelFormat` goes through `Setup8bpp`, and the arbitrated format has the
server's shifts but the maxima 7, 7, 7: `gmask` and `bmask` are computed from `rbits`. -/
theorem Setup8bpp_server_332 :
    Setup8bpp format332 = ⟨1, 8, 7, 7, 7, 5, 2, 0, false⟩
      ∧ ReconcilePixelFormat ⟨1, 0, 0, 0, 0, 0, 0⟩ format332 (freshWorld [])
        = (.ok ⟨1, 8, 7, 7, 7, 5, 2, 0, false⟩, freshWorld [])
      ∧ (Setup8bpp format332).blue_mask ≠ format332.blue_mask := by
  decide

/-- A Bell message: `Update` consumes the type byte and writes `Ding!` to `cerr`. -/
theorem Update_bell (S : RFBProto) (ms : Nat) (le : Bool) (rest : List Uint8)
    (tr : List Event) (fmt : PixelFormat) (pr : Processed) :
    S.Update ms ⟨le, 2 :: rest, tr, fmt, pr⟩
      = (.ok (), ⟨le, rest, tr ++ [Event.Cerr "Ding!\n"], fmt, pr⟩) := by
  simp [RFBProto.Update, WaitDataReady, RFB_SERVER_FBUPDATE, RFB_SERVER_SETCOLORMAPENTRIES,
    RFB_SERVER_BELL]

/-- A ServerCutText message whose length is below 2^31: `Update` consumes the type
byte, three padding bytes, the length and the text, and writes the text to `cerr`. -/
theorem Update_cuttext (S : RFBProto) (ms : Nat) (le : Bool) (p0 p1 p2 : Uint8)
    (text rest : List Uint8) (tr : List Event) (fmt : PixelFormat) (pr : Processed)
    (hlen : text.length < 2147483648) :
    S.Update ms ⟨le, 3 :: p0 :: p1 :: p2 :: (be32 text.length ++ (text ++ rest)), tr, fmt, pr⟩
      = (.ok (), ⟨le, rest, tr ++ [Event.Cerr ("New cut text: " ++ cString text ++ "\n")],
          fmt, pr⟩) := by
  have h32 := be32_read ⟨text.length, by omega⟩
  simp only at h32
  have hsize : ¬ (text.length + 1) % 4294967296 ≤ text.length := by
    rw [Nat.mod_eq_of_lt (by omega)]; omega
  have v3 : ((3 : Uint8) : Nat) = 3 := rfl
  simp [v3, RFBProto.Update, WaitDataReady, RFB_SERVER_FBUPDATE, RFB_SERVER_SETCOLORMAPENTRIES,
    RFB_SERVER_BELL, RFB_SERVER_CUTTEXT, be32, h32, hsize,
    ReceiveBytes_mk le text rest tr fmt pr hlen]

/-- Claim C30 fails on the code at a ServerCutText message with length 2^32 - 1
(`03 00 00 00 FF FF FF FF`): `length + 1` is 0 as a `Uint32`, so the buffer of
`new char[ length + 1 ]` has no room, and `buf[length] = 0` writes past its end (so would
a `ReceiveBytes( buf, length )` that stores a byte). `Update` does not return as the
claim says, on either host and whatever follows the length. -/
theorem Update_cuttext_length_wraps (S : RFBProto) (ms : Nat) (le : Bool) (rest : List Uint8)
    (tr : List Event) (fmt : PixelFormat) (pr : Processed) :
    S.Update ms ⟨le, 3 :: 0 :: 0 :: 0 :: 255 :: 255 :: 255 :: 255 :: rest, tr, fmt, pr⟩
      = (.error Exc.BufferOverrun, ⟨le, rest, tr, fmt, pr⟩) := by
  have v3 : ((3 : Uint8) : Nat) = 3 := rfl
  have v255 : ((255 : Uint8) : Nat) = 255 := rfl
  simp [v3, v255, RFBProto.Update, WaitDataReady, RFB_SERVER_FBUPDATE, RFB_SERVER_SETCOLORMAPENTRIES,
    RFB_SERVER_BELL, RFB_SERVER_CUTTEXT]

/-- A ServerCutText message whose length is 2^31 or more and below 2^32 - 1: the network
client takes the count as a negative `int` and stores nothing, so `Update` consumes the
type byte, the padding and the length only, and the text stays in the stream. -/
theorem Update_cuttext_unread (S : RFBProto) (ms : Nat) (le : Bool) (p0 p1 p2 : Uint8)
    (length : Nat) (rest : List Uint8) (tr : List Event) (fmt : PixelFormat) (pr : Processed)
    (h1 : 2147483648 ≤ length) (h2 : length < 4294967295) :
    S.Update ms ⟨le, 3 :: p0 :: p1 :: p2 :: (be32 length ++ rest), tr, fmt, pr⟩
      = (.ok (), ⟨le, rest, tr ++ [Event.Cerr ("New cut text: " ++ cString [] ++ "\n")],
          fmt, pr⟩) := by
  have h32 := be32_read ⟨length, by omega⟩
  simp only at h32
  have hsize : ¬ (length + 1) % 4294967296 ≤ length := by
    rw [Nat.mod_eq_of_lt (by omega)]; omega
  have v3 : ((3 : Uint8) : Nat) = 3 := rfl
  simp [v3, RFBProto.Update, WaitDataReady, RFB_SERVER_FBUPDATE, RFB_SERVER_SETCOLORMAPENTRIES,
    RFB_SERVER_BELL, RFB_SERVER_CUTTEXT, be32, h32, hsize,
    ReceiveBytes_unfilled length h1 (by omega)]

/-- A Bell message and a ServerCutText message whose length is below 2^31 add one
write to `cerr` to the trace: no call on the transport and none on the display. -/
theorem Update_bell_cuttext_frame (S : RFBProto) (ms : Nat) (le : Bool) (p0 p1 p2 : Uint8)
    (text rest : List Uint8) (tr : List Event) (fmt : PixelFormat) (pr : Processed)
    (hlen : text.length < 2147483648) :
    netCalls (S.Update ms ⟨le, 2 :: rest, tr, fmt, pr⟩).2.trace = netCalls tr
      ∧ displayCalls (S.Update ms ⟨le, 2 :: rest, tr, fmt, pr⟩).2.trace = displayCalls tr
      ∧ netCalls (S.Update ms
          ⟨le, 3 :: p0 :: p1 :: p2 :: (be32 text.length ++ (text ++ rest)), tr, fmt, pr⟩).2.trace
        = netCalls tr
      ∧ displayCalls (S.Update ms
          ⟨le, 3 :: p0 :: p1 :: p2 :: (be32 text.length ++ (text ++ rest)), tr, fmt, pr⟩).2.trace
        = displayCalls tr := by
  rw [Update_bell, Update_cuttext S ms le p0 p1 p2 text rest tr fmt pr hlen]
  simp [netCalls, displayCalls, Event.isNetCall, Event.isDisplayCall]

/-! ## The pixel-format record, there and back -/

theorem sentBy_SendPixelFormat (format : PixelFormat) (W : World) :
    sentBy (RFBProto.SendPixelFormat format) W = [0, 0, 0, 0] ++ pixelFormatRecord format := by
  rw [sentBy_of_run _ W (pixelFormatCalls format) (by rw [SendPixelFormat_run]),
    sentBytes_pixelFormatCalls]

/-- The pixel-format record of `format` between a desktop size and a name is the wire
form of a server-init record. -/
theorem echoRecord_wire (w h : Uint16) (format : PixelFormat) (name rest : List Uint8) :
    be16 w.val ++ be16 h.val ++ pixelFormatRecord format ++ be32 name.length ++ name ++ rest
      = (echoRecord w h format name).wire ++ rest := by
  simp [ServerInit.wire, echoRecord, pixelFormatRecord, be16, toUint16_val]

/-- What the parsing of the init handshake makes of the record written for `format`:
each field converted to the width of its place in the record. -/
theorem echoRecord_format (w h : Uint16) (format : PixelFormat) (name : List Uint8) :
    (echoRecord w h format name).format
      = { bytes := (format.bytes * 8) % 256 / 8
          bits := format.bits % 256
          red_mask := format.red_mask % 65536
          green_mask := format.green_mask % 65536
          blue_mask := format.blue_mask % 65536
          red_shift := format.red_shift % 256
          green_shift := format.green_shift % 256
          blue_shift := format.blue_shift % 256
          big_endian := format.big_endian } := by
  cases hb : format.big_endian <;>
    simp [ServerInit.format, echoRecord, toUint8_val, toUint16_val, hb]

/-- The init handshake on the record written by `SendPixelFormat`. -/
theorem DoInitHandshake_echo (S : RFBProto) (format : PixelFormat) (W R : World)
    (w h : Uint16) (name : List Uint8) (hname : name.length ≤ 1000)
    (hbpp : 8 ≤ (format.bytes * 8) % 256) :
    S.DoInitHandshake
        { R with input := be16 w.val ++ be16 h.val
            ++ (sentBy (RFBProto.SendPixelFormat format) W).drop 4
            ++ be32 name.length ++ name ++ R.input }
      = (.ok { S with
            m_desktop_name := cStr name
            m_desktop_width := (w.val : Int)
            m_desktop_height := (h.val : Int)
            m_pixel_format := (echoRecord w h format name).format },
          { R with trace := R.trace ++ [Event.SendBytes [if S.m_shared then 1 else 0]] }) := by
  obtain ⟨le, inp, tr, fmt, pr⟩ := R
  have hdrop : (sentBy (RFBProto.SendPixelFormat format) W).drop 4 = pixelFormatRecord format := by
    rw [sentBy_SendPixelFormat]; rfl
  have hb : ¬ (echoRecord w h format name).bits_per_pixel.val < 8 := by
    simp only [echoRecord, toUint8_val]; omega
  simp only [hdrop]
  rw [echoRecord_wire, DoInitHandshake_run S _ le inp tr fmt pr hname, if_neg hb]
  rfl

/-- Claim C27 fails on the code at a format of the data model with a channel wider than
16 bits: 4 bytes per pixel, depth 32, maxima `0x1FFFF`, `0x7F`, `0xFF` at shifts 15, 8, 0.
The record written by `SendPixelFormat` holds the red maximum in a u16, and the parsing of
the init handshake yields the red maximum `0xFFFF`. -/
theorem PixelFormat_round_trip_wide_channel :
    format1778.Invariant
      ∧ ∃ S1 R1, rawOnlySession.DoInitHandshake
          (freshWorld (be16 1 ++ be16 1
            ++ (sentBy (RFBProto.SendPixelFormat format1778) (freshWorld [])).drop 4
            ++ be32 1 ++ [84] ++ []))
          = (.ok S1, R1)
        ∧ S1.m_pixel_format = ⟨4, 32, 0xFFFF, 0x7F, 0xFF, 15, 8, 0, false⟩
        ∧ S1.m_pixel_format ≠ format1778 := by
  refine ⟨by decide, _, _,
    DoInitHandshake_echo rawOnlySession format1778 (freshWorld []) (freshWorld []) 1 1 [84]
      (by decide) (by decide), ?_, ?_⟩
  · rw [echoRecord_format]; decide
  · rw [echoRecord_format]; decide

/-- Claim C27, amended. For every `PixelFormat` of the data model (1, 2 or 4 bytes per
pixel, `bytes * 8 >= depth >= ` the sum of the popcounts of the maxima) whose three
maxima are below 2^16 and whose three shifts are below 2^8: when the 16-byte record
written by `SendPixelFormat` stands in a server-init record (behind any desktop size, in
front of any name within the string limit), the init handshake returns and the pixel
format it sets equals the original in every field, on either host. -/
theorem PixelFormat_round_trip (S : RFBProto) (format : PixelFormat) (W R : World)
    (w h : Uint16) (name : List Uint8) (hname : name.length ≤ 1000)
    (hinv : format.Invariant)
    (hmax : format.red_mask < 65536 ∧ format.green_mask < 65536 ∧ format.blue_mask < 65536)
    (hshift : format.red_shift < 256 ∧ format.green_shift < 256 ∧ format.blue_shift < 256) :
    S.DoInitHandshake
        { R with input := be16 w.val ++ be16 h.val
            ++ (sentBy (RFBProto.SendPixelFormat format) W).drop 4
            ++ be32 name.length ++ name ++ R.input }
      = (.ok { S with
            m_desktop_name := cStr name
            m_desktop_width := (w.val : Int)
            m_desktop_height := (h.val : Int)
            m_pixel_format := format },
          { R with trace := R.trace ++ [Event.SendBytes [if S.m_shared then 1 else 0]] }) := by
  obtain ⟨hbytes, hbits, _⟩ := hinv
  obtain ⟨hr, hg, hb⟩ := hmax
  obtain ⟨hrs, hgs, hbs⟩ := hshift
  have hbpp : 8 ≤ (format.bytes * 8) % 256 := by
    rcases hbytes with h1 | h1 | h1 <;> rw [h1] <;> decide
  have hfmt : (echoRecord w h format name).format = format := by
    rw [echoRecord_format]
    obtain ⟨by_, bi, rm, gm, bm, rs, gs, bs, be⟩ := format
    simp only at hbytes hbits hr hg hb hrs hgs hbs ⊢
    have e1 : by_ * 8 % 256 / 8 = by_ := by
      rcases hbytes with h1 | h1 | h1 <;> rw [h1]
    have e2 : bi % 256 = bi := by
      apply Nat.mod_eq_of_lt
      rcases hbytes with h1 | h1 | h1 <;> rw [h1] at hbits <;> omega
    rw [e1, e2, Nat.mod_eq_of_lt hr, Nat.mod_eq_of_lt hg, Nat.mod_eq_of_lt hb,
      Nat.mod_eq_of_lt hrs, Nat.mod_eq_of_lt hgs, Nat.mod_eq_of_lt hbs]
  rw [DoInitHandshake_echo S format W R w h name hname hbpp, hfmt]

/-- Claim C27, amended, at the 5-6-5 format of 2 bytes per pixel, written on a
little-endian host and parsed behind the size of a 1x1 desktop. -/
theorem PixelFormat_round_trip_witness :
    rawOnlySession.DoInitHandshake
        (freshWorld (be16 1 ++ be16 1
          ++ (sentBy (RFBProto.SendPixelFormat ⟨2, 16, 31, 63, 31, 11, 5, 0, false⟩)
              (freshWorld [])).drop 4
          ++ be32 1 ++ [84] ++ []))
      = (.ok { rawOnlySession with
            m_desktop_name := cStr [84]
            m_desktop_width := 1
            m_desktop_height := 1
            m_pixel_format := ⟨2, 16, 31, 63, 31, 11, 5, 0, false⟩ },
          ⟨true, [], [Event.SendBytes [1]], ⟨4, 24, 255, 255, 255, 16, 8, 0, false⟩,
            ⟨0, 0, 0, 0, 0, 0⟩⟩) :=
  PixelFormat_round_trip rawOnlySession ⟨2, 16, 31, 63, 31, 11, 5, 0, false⟩ (freshWorld [])
    (freshWorld []) 1 1 [84] (by decide) (by decide) (by decide) (by decide)

/-! ## What the decoders and the message loop send -/

theorem netCalls_append (a b : List Event) : netCalls (a ++ b) = netCalls a ++ netCalls b := by
  simp [netCalls]

theorem sentBytes_netCalls (tr : List Event) : sentBytes (netCalls tr) = sentBytes tr := by
  induction tr with
  | nil => rfl
  | cons e es ih =>
    have hcons : ∀ (x : Event) (xs : List Event), sentBytes (x :: xs) = x.sent ++ sentBytes xs := by
      intro x xs; simp [sentBytes]
    cases e <;> simp [netCalls, Event.isNetCall, hcons, Event.sent] <;>
      simpa [netCalls] using ih

theorem silent_pure {α : Type} (a : α) : Silent (pure a : M α) := fun _ => rfl

theorem silent_throwExc {α : Type} (e : Exc) : Silent (throwExc e : M α) := fun _ => rfl

theorem silent_bind {α β : Type} {m : M α} {f : α → M β} (hm : Silent m)
    (hf : ∀ a, Silent (f a)) : Silent (m >>= f) := by
  intro W
  have h1 := hm W
  simp only [bind_run]
  rcases hmW : m W with ⟨r, W1⟩
  rw [hmW] at h1
  cases r with
  | error e => exact h1
  | ok a => exact (hf a W1).trans h1

theorem silent_ite {α : Type} (c : Prop) [Decidable c] {a b : M α} (ha : Silent a)
    (hb : Silent b) : Silent (if c then a else b) := by
  split
  · exact ha
  · exact hb

theorem silent_emit (e : Event) (h : e.isNetCall = false) : Silent (emit e) := by
  intro W
  simp [netCalls_append, netCalls, h]

theorem silent_incProcessed (f : Processed → Processed) : Silent (incProcessed f) :=
  fun _ => rfl

theorem silent_GetPixelFormat : Silent GetPixelFormat := fun _ => rfl

theorem silent_ReceiveBytes (count : Nat) : Silent (ReceiveBytes count) := by
  intro W
  simp only [ReceiveBytes]
  split <;> rfl

theorem silent_GET_NOSWAP (n : Nat) : Silent (GET_NOSWAP n) := by
  intro W
  have h := silent_ReceiveBytes n W
  simp only [GET_NOSWAP]
  rcases hr : ReceiveBytes n W with ⟨r, W1⟩
  rw [hr] at h
  cases r <;> exact h

theorem silent_NET_UINT8 : Silent NET_UINT8 := silent_GET_NOSWAP 1

theorem silent_NET_UINT16 : Silent NET_UINT16 := by
  intro W
  have h := silent_GET_NOSWAP 2 W
  simp only [NET_UINT16]
  rcases hr : GET_NOSWAP 2 W with ⟨r, W1⟩
  rw [hr] at h
  cases r <;> exact h

theorem silent_NET_UINT32 : Silent NET_UINT32 := by
  intro W
  have h := silent_GET_NOSWAP 4 W
  simp only [NET_UINT32]
  rcases hr : GET_NOSWAP 4 W with ⟨r, W1⟩
  rw [hr] at h
  cases r <;> exact h

theorem silent_forLoop {σ : Type} (body : Nat → σ → M σ) (hb : ∀ i s, Silent (body i s))
    (xs : List Nat) (s : σ) : Silent (forLoop body xs s) := by
  induction xs generalizing s with
  | nil => exact fun _ => rfl
  | cons i xs ih =>
    have h : Silent (body i s >>= fun s1 => forLoop body xs s1) :=
      silent_bind (hb i s) (fun s1 => ih s1)
    exact h

theorem silent_forEach (body : Nat → M Unit) (hb : ∀ i, Silent (body i)) (xs : List Nat) :
    Silent (forEach body xs) :=
  silent_forLoop (fun i _ => body i) (fun i _ => hb i) xs ()

theorem silent_FillSolidRect (rect : ScreenRect) (pixel : Nat) :
    Silent (FillSolidRect rect pixel) :=
  silent_forEach _ (fun _ => silent_emit _ (by rfl)) _

theorem silent_RRE_NetPixel (bpp : Nat) : Silent (RRE.NetPixel bpp) := by
  unfold RRE.NetPixel
  split
  · exact silent_NET_UINT8
  · exact silent_GET_NOSWAP 2
  · exact silent_GET_NOSWAP 4
  · exact silent_throwExc _

theorem silent_Hextile_NetPixel (bpp : Nat) : Silent (Hextile.NetPixel bpp) := by
  unfold Hextile.NetPixel
  split
  · exact silent_NET_UINT8
  · exact silent_NET_UINT16
  · exact silent_NET_UINT32
  · exact silent_throwExc _

/-- The Raw decoder writes nothing to the transport. -/
theorem DecoderRAW_quiet (rect : ScreenRect) : Silent (DecoderRAW rect) := by
  unfold DecoderRAW
  refine silent_bind (silent_incProcessed _) fun _ => ?_
  refine silent_bind silent_GetPixelFormat fun fmt => ?_
  refine silent_bind (silent_ReceiveBytes _) fun buf => ?_
  refine silent_bind (silent_emit _ (by rfl)) fun _ => ?_
  refine silent_bind (silent_forEach _ (fun _ => silent_emit _ (by rfl)) _) fun _ => ?_
  exact silent_emit _ (by rfl)

/-- The CopyRect decoder writes nothing to the transport. -/
theorem DecoderCOPYRECT_quiet (rect : ScreenRect) : Silent (DecoderCOPYRECT rect) := by
  unfold DecoderCOPYRECT
  refine silent_bind (silent_incProcessed _) fun _ => ?_
  refine silent_bind silent_NET_UINT16 fun _ => ?_
  refine silent_bind silent_NET_UINT16 fun _ => ?_
  refine silent_bind (silent_emit _ (by rfl)) fun _ => ?_
  refine silent_bind (silent_emit _ (by rfl)) fun _ => ?_
  exact silent_emit _ (by rfl)

theorem rreSubrect_quiet (rect : ScreenRect) (bpp : Nat) : Silent (rreSubrect rect bpp) := by
  unfold rreSubrect
  refine silent_bind (silent_RRE_NetPixel _) fun _ => ?_
  refine silent_bind silent_NET_UINT16 fun _ => ?_
  refine silent_bind silent_NET_UINT16 fun _ => ?_
  refine silent_bind silent_NET_UINT16 fun _ => ?_
  refine silent_bind silent_NET_UINT16 fun _ => ?_
  exact silent_FillSolidRect _ _

theorem correSubrect_quiet (rect : ScreenRect) (bpp : Nat) :
    Silent (correSubrect rect bpp) := by
  unfold correSubrect
  refine silent_bind (silent_RRE_NetPixel _) fun _ => ?_
  refine silent_bind silent_NET_UINT8 fun _ => ?_
  refine silent_bind silent_NET_UINT8 fun _ => ?_
  refine silent_bind silent_NET_UINT8 fun _ => ?_
  refine silent_bind silent_NET_UINT8 fun _ => ?_
  exact silent_FillSolidRect _ _

/-- The RRE decoder writes nothing to the transport. -/
theorem DecoderRRE_quiet (rect : ScreenRect) : Silent (DecoderRRE rect) := by
  unfold DecoderRRE
  refine silent_bind (silent_incProcessed _) fun _ => ?_
  refine silent_bind silent_GetPixelFormat fun fmt => ?_
  refine silent_bind silent_NET_UINT32 fun _ => ?_
  refine silent_bind (silent_RRE_NetPixel _) fun _ => ?_
  refine silent_bind (silent_emit _ (by rfl)) fun _ => ?_
  refine silent_bind (silent_FillSolidRect _ _) fun _ => ?_
  refine silent_bind (silent_forEach _ (fun _ => rreSubrect_quiet _ _) _) fun _ => ?_
  exact silent_emit _ (by rfl)

/-- The CoRRE decoder writes nothing to the transport. -/
theorem DecoderCORRE_quiet (rect : ScreenRect) : Silent (DecoderCORRE rect) := by
  unfold DecoderCORRE
  refine silent_bind (silent_incProcessed _) fun _ => ?_
  refine silent_bind silent_GetPixelFormat fun fmt => ?_
  refine silent_bind silent_NET_UINT32 fun _ => ?_
  refine silent_bind (silent_RRE_NetPixel _) fun _ => ?_
  refine silent_bind (silent_emit _ (by rfl)) fun _ => ?_
  refine silent_bind (silent_FillSolidRect _ _) fun _ => ?_
  refine silent_bind (silent_forEach _ (fun _ => correSubrect_quiet _ _) _) fun _ => ?_
  exact silent_emit _ (by rfl)

theorem hextileSubrect_quiet (bpp : Nat) (tile_rect : ScreenRect) (colored : Bool)
    (fg : Nat) : Silent (hextileSubrect bpp tile_rect colored fg) := by
  unfold hextileSubrect
  refine silent_bind (silent_ite _ (silent_Hextile_NetPixel _) (silent_pure _)) fun _ => ?_
  refine silent_bind silent_NET_UINT8 fun _ => ?_
  refine silent_bind silent_NET_UINT8 fun _ => ?_
  exact silent_FillSolidRect _ _

theorem hextileTile_quiet (rect : ScreenRect) (bpp tile_y tile_height tile_x : Nat)
    (c : HextileColors) : Silent (hextileTile rect bpp tile_y tile_height tile_x c) := by
  unfold hextileTile
  refine silent_bind silent_NET_UINT8 fun encoding => ?_
  refine silent_ite _ ?_ ?_
  · refine silent_bind (silent_ReceiveBytes _) fun buf => ?_
    refine silent_bind (silent_forEach _ (fun _ => silent_emit _ (by rfl)) _) fun _ => ?_
    exact silent_pure _
  · refine silent_bind (silent_ite _ (silent_Hextile_NetPixel _) (silent_pure _)) fun _ => ?_
    refine silent_bind (silent_ite _ (silent_Hextile_NetPixel _) (silent_pure _)) fun _ => ?_
    refine silent_bind (silent_ite _ silent_NET_UINT8 (silent_pure _)) fun _ => ?_
    refine silent_bind (silent_FillSolidRect _ _) fun _ => ?_
    refine silent_bind (silent_forEach _ (fun _ => hextileSubrect_quiet _ _ _ _) _) fun _ => ?_
    exact silent_pure _

/-- The Hextile decoder writes nothing to the transport. -/
theorem DecoderHEXTILE_quiet (rect : ScreenRect) : Silent (DecoderHEXTILE rect) := by
  unfold DecoderHEXTILE
  refine silent_bind (silent_incProcessed _) fun _ => ?_
  refine silent_bind silent_GetPixelFormat fun fmt => ?_
  refine silent_bind (silent_emit _ (by rfl)) fun _ => ?_
  refine silent_bind (silent_forLoop _ (fun ty c => ?_) _ _) fun _ => ?_
  · unfold hextileRow
    exact silent_forLoop _ (fun tx c1 => hextileTile_quiet _ _ _ _ _ _) _ _
  · exact silent_emit _ (by rfl)

/-- A FramebufferUpdate message that carries the headers `hs`: `Update` runs the
decoders, then sends the update request. -/
theorem Update_rects_run (S : RFBProto) (ms : Nat) (W W' : World)
    (padding : Uint8) (hs : List RectHeader) (body : List Uint8)
    (hn : hs.length < 65536)
    (hin : W.input = 0 :: padding :: (be16 hs.length ++ body))
    (hc : CarriesRects S hs { W with input := body } W') :
    S.Update ms W = (.ok (),
      { W' with
        trace := W'.trace ++ (updateRequestCalls
          (ScreenRect.ctor 0 0 (intToUint16 S.m_desktop_width)
            (intToUint16 S.m_desktop_height)) true) }) := by
  obtain ⟨le, inp, tr, fmt, pr⟩ := W
  simp only at hin hc
  subst hin
  have hnum : (toUint8 (hs.length / 256)).val * 256 + (toUint8 hs.length).val = hs.length := by
    simp only [toUint8_val]; omega
  have hloop := forEach_updateRect S hs (List.range hs.length) (by simp) _ W' hc
  simp [RFBProto.Update, WaitDataReady, be16, RFB_SERVER_FBUPDATE, hnum, hloop,
    SendUpdateRequest_run]

/-- Decoders that write nothing to the transport leave its calls as they were, over a
whole list of rectangles. -/
theorem CarriesRects_netCalls (S : RFBProto) (hquiet : ∀ t d, S.m_decoders t = some d → d.Quiet)
    (hs : List RectHeader) (W W' : World) (hc : CarriesRects S hs W W') :
    netCalls W'.trace = netCalls W.trace := by
  induction hs generalizing W with
  | nil =>
    simp only [CarriesRects] at hc
    rw [hc]
  | cons hd hs ih =>
    obtain ⟨rest, d, W1, _, hreg, hcall, hrest⟩ := hc
    have h1 := hquiet _ d hreg hd.rect { W with input := rest }
    rw [hcall] at h1
    exact (ih W1 hrest).trans h1

theorem intToUint16_val (w : Uint16) : intToUint16 (w.val : Int) = w.val := by
  have h := w.isLt
  simp only [intToUint16]
  omega

theorem rawOnlySession_quiet (t : Nat) (d : Decoder)
    (h : rawOnlySession.m_decoders t = some d) : d.Quiet := by
  simp only [rawOnlySession] at h
  split at h
  · injection h with h
    subst h
    exact fun rect => DecoderRAW_quiet rect
  · simp at h

/-- Claim C21. A FramebufferUpdate message that carries any number of rectangles, zero
included, for a session whose registered decoders write nothing to the transport (as
the Raw, CopyRect, RRE, CoRRE and Hextile decoders do) and whose desktop is `w` by `h`:
`Update` returns, and the calls it makes on the sending side of the network are those of
one message, the FramebufferUpdateRequest with incremental = 1, x = 0, y = 0 and the
desktop's width and height; the bytes it hands over are the 10 bytes
`03 01 00 00 00 00` followed by `w` and `h` as big-endian u16. -/
theorem Update_sends_one_request (S : RFBProto) (ms : Nat) (W W' : World)
    (padding : Uint8) (hs : List RectHeader) (body : List Uint8) (w h : Uint16)
    (hn : hs.length < 65536)
    (hin : W.input = 0 :: padding :: (be16 hs.length ++ body))
    (hc : CarriesRects S hs { W with input := body } W')
    (hquiet : ∀ t d, S.m_decoders t = some d → d.Quiet)
    (hw : S.m_desktop_width = (w.val : Int)) (hh : S.m_desktop_height = (h.val : Int)) :
    (S.Update ms W).1 = .ok ()
      ∧ netCalls (S.Update ms W).2.trace
        = netCalls W.trace ++ updateRequestCalls ⟨0, 0, w, h⟩ true
      ∧ sentBytes (S.Update ms W).2.trace
        = sentBytes W.trace
          ++ [3, 1, 0, 0, 0, 0, toUint8 (w.val / 256), toUint8 w.val,
              toUint8 (h.val / 256), toUint8 h.val] := by
  have hrun := Update_rects_run S ms W W' padding hs body hn hin hc
  have hnet := CarriesRects_netCalls S hquiet hs _ W' hc
  have hrect : ScreenRect.ctor 0 0 (intToUint16 S.m_desktop_width)
      (intToUint16 S.m_desktop_height) = ⟨0, 0, w, h⟩ := by
    rw [hw, hh, intToUint16_val, intToUint16_val]
    simp [ScreenRect.ctor, toUint16_of_val]
    rfl
  have hreq : netCalls (updateRequestCalls ⟨0, 0, w, h⟩ true)
      = updateRequestCalls ⟨0, 0, w, h⟩ true := by
    simp [netCalls, updateRequestCalls, Event.isNetCall]
  have hcalls : netCalls (S.Update ms W).2.trace
      = netCalls W.trace ++ updateRequestCalls ⟨0, 0, w, h⟩ true := by
    rw [hrun, hrect]
    simp only [netCalls_append, hreq, hnet]
  refine ⟨by rw [hrun], hcalls, ?_⟩
  rw [← sentBytes_netCalls, hcalls, sentBytes_append, sentBytes_netCalls,
    sentBytes_updateRequestCalls]
  simp [be16, toUint8]

/-- Claim C21 at a message of one Raw rectangle, for a session that registers the Raw
decoder and has a 1x1 desktop: `Update` sends `FramebufferUpdateRequest(incremental=1,
0, 0, 1, 1)` and nothing else. -/
theorem Update_sends_one_request_witness :
    (rawOnlySession.Update 100
        (freshWorld [0, 0, 0, 1, 0, 0, 0, 0, 0, 1, 0, 1, 0, 0, 0, 0, 0xAA, 0xBB, 0xCC, 0xDD])).1
      = .ok ()
    ∧ netCalls (rawOnlySession.Update 100
        (freshWorld [0, 0, 0, 1, 0, 0, 0, 0, 0, 1, 0, 1, 0, 0, 0, 0, 0xAA, 0xBB, 0xCC, 0xDD])).2.trace
      = netCalls [] ++ updateRequestCalls ⟨0, 0, 1, 1⟩ true
    ∧ sentBytes (rawOnlySession.Update 100
        (freshWorld [0, 0, 0, 1, 0, 0, 0, 0, 0, 1, 0, 1, 0, 0, 0, 0, 0xAA, 0xBB, 0xCC, 0xDD])).2.trace
      = sentBytes [] ++ [3, 1, 0, 0, 0, 0, 0, 1, 0, 1] :=
  Update_sends_one_request rawOnlySession 100 _
    ⟨true, [],
      [Event.BeginDrawing, Event.WritePixels 0 0 1 [0xAA, 0xBB, 0xCC, 0xDD],
        Event.EndDrawing ⟨0, 0, 1, 1⟩],
      ⟨4, 24, 255, 255, 255, 16, 8, 0, false⟩, ⟨1, 0, 0, 0, 0, 0⟩⟩
    0 [⟨⟨0, 0, 1, 1⟩, 0⟩] [0, 0, 0, 0, 0, 1, 0, 1, 0, 0, 0, 0, 0xAA, 0xBB, 0xCC, 0xDD] 1 1
    (by decide) (by decide)
    ⟨[0xAA, 0xBB, 0xCC, 0xDD], ⟨0, DecoderRAW⟩, _, by decide, rfl, by decide, rfl⟩
    rawOnlySession_quiet rfl rfl

/-! ## The set-up of main: the order of the first messages -/

/-- The constructor is the handshakes followed by `DoSupportedEncodings`. -/
theorem ctor_of_handshakes (Des : List Uint8 → List Uint8 → List Uint8) (fmt0 : PixelFormat)
    (password : List Uint8) (shared : Bool) (decoders : List Decoder) (S : RFBProto)
    (W W0 : World)
    (h : RFBProto.handshakes Des fmt0 password shared decoders W = (.ok S, W0)) :
    RFBProto.ctor Des fmt0 password shared decoders W
      = (.ok S, { W0 with trace := W0.trace ++ setEncodingsCalls S.m_decoders_vec }) := by
  simp only [RFBProto.handshakes, bind_run] at h
  simp only [RFBProto.ctor, bind_run]
  split at h
  · rename_i S1 W2 hv
    simp only [hv]
    split at h
    · rename_i u W3 ha
      simp only [ha, h, DoSupportedEncodings_run, pure_run]
    · simp at h
  · simp at h

/-- A session that the handshakes return has the decoder list it was given. -/
theorem handshakes_decoders (Des : List Uint8 → List Uint8 → List Uint8) (fmt0 : PixelFormat)
    (password : List Uint8) (shared : Bool) (decoders : List Decoder) (S : RFBProto)
    (W W0 : World)
    (h : RFBProto.handshakes Des fmt0 password shared decoders W = (.ok S, W0)) :
    S.m_decoders_vec = decoders :=
  (ctor_decoders Des fmt0 password shared decoders S W _
    (ctor_of_handshakes Des fmt0 password shared decoders S W W0 h)).2

/-- The constructor of the display, when SDL gives a surface of 1 to 4 bytes per pixel:
the format is arbitrated and one non-incremental update request is sent. -/
theorem SDLDisplay_ctor_run (rfb : RFBProto) (sdl_init : Int) (fmt : SDL_PixelFormat)
    (W : World) (hsdl : 0 ≤ sdl_init)
    (hbpp : 1 ≤ fmt.BytesPerPixel ∧ fmt.BytesPerPixel ≤ 4) :
    SDLDisplay.ctor rfb sdl_init (some fmt) W
      = (.ok (),
        { W with
          disp_format := arbitrated W.little_endian fmt rfb.m_pixel_format
          trace := W.trace ++ updateRequestCalls
            (ScreenRect.ctor 0 0 (intToUint16 rfb.m_desktop_width)
              (intToUint16 rfb.m_desktop_height)) false }) := by
  have hneg : ¬ sdl_init < 0 := by omega
  by_cases h1 : fmt.BytesPerPixel = 1
  · simp [SDLDisplay.ctor, setDisplayFormat, hneg, ReconcilePixelFormat, h1, arbitrated,
      SendUpdateRequest_run]
  · have h234 : fmt.BytesPerPixel = 2 ∨ fmt.BytesPerPixel = 3 ∨ fmt.BytesPerPixel = 4 := by
      omega
    simp [SDLDisplay.ctor, setDisplayFormat, hneg, ReconcilePixelFormat, h1, h234, arbitrated,
      SendUpdateRequest_run]

theorem SetDisplay_run (S : RFBProto) (W : World) :
    S.SetDisplay W
      = (.ok { S with m_pixel_format := W.disp_format },
        { W with trace := W.trace ++ pixelFormatCalls W.disp_format }) := by
  simp [RFBProto.SetDisplay, SendPixelFormat_run]

/-- The three statements of `main` that set the session up, from the end of the init
handshake on. -/
theorem mainSession_run (Des : List Uint8 → List Uint8 → List Uint8) (fmt0 : PixelFormat)
    (password : List Uint8) (decoders : List Decoder) (sdl_init : Int) (fmt : SDL_PixelFormat)
    (S : RFBProto) (W W0 : World)
    (hhs : RFBProto.handshakes Des fmt0 password true decoders W = (.ok S, W0))
    (hsdl : 0 ≤ sdl_init) (hbpp : 1 ≤ fmt.BytesPerPixel ∧ fmt.BytesPerPixel ≤ 4) :
    mainSession Des fmt0 password decoders sdl_init (some fmt) W
      = (.ok { S with m_pixel_format := arbitrated W0.little_endian fmt S.m_pixel_format },
        { W0 with
          disp_format := arbitrated W0.little_endian fmt S.m_pixel_format
          trace := W0.trace ++ (setEncodingsCalls decoders
            ++ updateRequestCalls
              (ScreenRect.ctor 0 0 (intToUint16 S.m_desktop_width)
                (intToUint16 S.m_desktop_height)) false
            ++ pixelFormatCalls (arbitrated W0.little_endian fmt S.m_pixel_format)) }) := by
  have hctor := ctor_of_handshakes Des fmt0 password true decoders S W W0 hhs
  rw [handshakes_decoders Des fmt0 password true decoders S W W0 hhs] at hctor
  simp only [mainSession, bind_run, hctor, SDLDisplay_ctor_run _ _ _ _ hsdl hbpp, SetDisplay_run,
    List.append_assoc]

/-- Claim C22, amended. When the handshakes of the constructor have returned the session
`S` and SDL gives a surface of 1 to 4 bytes per pixel, the set-up of `main` returns, and
the calls it adds to those of the init handshake are, in this order: the SetEncodings
message advertising the encoding IDs of the decoder list, the non-incremental
FramebufferUpdateRequest for `(0, 0, desktop width, desktop height)`, and last the
SetPixelFormat message carrying the display's arbitrated format. -/
theorem mainSession_message_order (Des : List Uint8 → List Uint8 → List Uint8)
    (fmt0 : PixelFormat) (password : List Uint8) (decoders : List Decoder) (sdl_init : Int)
    (fmt : SDL_PixelFormat) (S : RFBProto) (W W0 : World)
    (hhs : RFBProto.handshakes Des fmt0 password true decoders W = (.ok S, W0))
    (hsdl : 0 ≤ sdl_init) (hbpp : 1 ≤ fmt.BytesPerPixel ∧ fmt.BytesPerPixel ≤ 4) :
    (mainSession Des fmt0 password decoders sdl_init (some fmt) W).1
        = .ok { S with m_pixel_format := arbitrated W0.little_endian fmt S.m_pixel_format }
      ∧ (mainSession Des fmt0 password decoders sdl_init (some fmt) W).2.trace
        = W0.trace ++ (setEncodingsCalls decoders
            ++ updateRequestCalls
              (ScreenRect.ctor 0 0 (intToUint16 S.m_desktop_width)
                (intToUint16 S.m_desktop_height)) false
            ++ pixelFormatCalls (arbitrated W0.little_endian fmt S.m_pixel_format)) := by
  rw [mainSession_run Des fmt0 password decoders sdl_init fmt S W W0 hhs hsdl hbpp]
  exact ⟨rfl, rfl⟩

/-- The handshakes on the greeting `"RFB 003.008\n"`, scheme 1 and the init record of a
1x1 desktop named `"T"`. -/
theorem handshakes_serverHello :
    RFBProto.handshakes keyProbe ⟨0, 0, 0, 0, 0, 0, 0, 0, false⟩ [] true [⟨0, DecoderRAW⟩]
        (freshWorld serverHello)
      = (.ok rawListSession,
        ⟨true, [], [Event.SendBytes RFB_VERSION_3_3, Event.SendBytes [1]],
          ⟨4, 24, 255, 255, 255, 16, 8, 0, false⟩, ⟨0, 0, 0, 0, 0, 0⟩⟩) := rfl

/-- Claim C22 fails on the code. On the greeting `"RFB 003.008\n"`, scheme 1 and the init
record of a 1x1 desktop named `"T"`, with a 32-bit surface, the bytes the set-up of
`main` sends after the version reply and the shared flag start with the SetEncodings
message (type 2); the update request (type 3) follows, and SetPixelFormat (type 0) is
last. The calls are not those of SetPixelFormat, SetEncodings, update request in the
order of the claim. -/
theorem mainSession_encodings_first :
    sentBytes (mainSession keyProbe ⟨0, 0, 0, 0, 0, 0, 0, 0, false⟩ [] [⟨0, DecoderRAW⟩] 0
        (some surface32) (freshWorld serverHello)).2.trace
      = [82, 70, 66, 32, 48, 48, 51, 46, 48, 48, 51, 10] ++ [1]
        ++ [2, 0, 0, 1, 0, 0, 0, 0]
        ++ [3, 0, 0, 0, 0, 0, 0, 1, 0, 1]
        ++ [0, 0, 0, 0, 32, 24, 0, 1, 0, 255, 0, 255, 0, 255, 16, 8, 0, 0, 0, 0]
    ∧ (mainSession keyProbe ⟨0, 0, 0, 0, 0, 0, 0, 0, false⟩ [] [⟨0, DecoderRAW⟩] 0
        (some surface32) (freshWorld serverHello)).2.trace
      ≠ [Event.SendBytes RFB_VERSION_3_3, Event.SendBytes [1]]
        ++ (pixelFormatCalls ⟨4, 24, 255, 255, 255, 16, 8, 0, false⟩
          ++ setEncodingsCalls [⟨0, DecoderRAW⟩]
          ++ updateRequestCalls ⟨0, 0, 1, 1⟩ false) := by
  rw [mainSession_run keyProbe _ [] [⟨0, DecoderRAW⟩] 0 surface32 rawListSession _ _
    handshakes_serverHello (by decide) (by decide)]
  constructor
  · decide
  · decide

/-- Claim C22, amended, on the greeting `"RFB 003.008\n"`, scheme 1 and the init record
of a 1x1 desktop named `"T"`, with a 32-bit surface and the Raw decoder alone. -/
theorem mainSession_message_order_witness :
    (mainSession keyProbe ⟨0, 0, 0, 0, 0, 0, 0, 0, false⟩ [] [⟨0, DecoderRAW⟩] 0
        (some surface32) (freshWorld serverHello)).1
      = .ok { rawListSession with
          m_pixel_format := arbitrated true surface32 ⟨4, 24, 255, 255, 255, 16, 8, 0, false⟩ }
    ∧ (mainSession keyProbe ⟨0, 0, 0, 0, 0, 0, 0, 0, false⟩ [] [⟨0, DecoderRAW⟩] 0
        (some surface32) (freshWorld serverHello)).2.trace
      = [Event.SendBytes RFB_VERSION_3_3, Event.SendBytes [1]]
        ++ (setEncodingsCalls [⟨0, DecoderRAW⟩]
          ++ updateRequestCalls (ScreenRect.ctor 0 0 (intToUint16 1) (intToUint16 1)) false
          ++ pixelFormatCalls
            (arbitrated true surface32 ⟨4, 24, 255, 255, 255, 16, 8, 0, false⟩)) :=
  mainSession_message_order keyProbe ⟨0, 0, 0, 0, 0, 0, 0, 0, false⟩ [] [⟨0, DecoderRAW⟩] 0
    surface32 rawListSession (freshWorld serverHello)
    ⟨true, [], [Event.SendBytes RFB_VERSION_3_3, Event.SendBytes [1]],
      ⟨4, 24, 255, 255, 255, 16, 8, 0, false⟩, ⟨0, 0, 0, 0, 0, 0⟩⟩
    handshakes_serverHello (by decide) (by decide)

/-! ## Unsupported messages -/

/-- Claim C31. For every type byte `t` of a server message, on either host: with `t = 1`
(SetColorMapEntries) `Update` throws the error "server tried to set color map entries, but
this is currently unsupported", and with `t >= 4` it throws `UnknownMessage` after a line
on `cerr`; in both cases only the type byte has been read and no call is made on the
transport or on the display. When `WaitDataReady` reports no data, `Update` returns and
the world is as it was. -/
theorem Update_rejects_unsupported (S : RFBProto) (ms : Nat) (t : Uint8) (le : Bool)
    (rest : List Uint8) (tr : List Event) (fmt : PixelFormat) (pr : Processed) :
    (t.val = 1 → S.Update ms ⟨le, t :: rest, tr, fmt, pr⟩
      = (.error (.Msg
          "server tried to set color map entries, but this is currently unsupported"),
        ⟨le, rest, tr, fmt, pr⟩))
    ∧ (4 ≤ t.val → S.Update ms ⟨le, t :: rest, tr, fmt, pr⟩
      = (.error .UnknownMessage,
        ⟨le, rest,
          tr ++ [Event.Cerr ("got unknown message type " ++ toString t.val ++ "\n")],
          fmt, pr⟩))
    ∧ S.Update ms ⟨le, [], tr, fmt, pr⟩ = (.ok (), ⟨le, [], tr, fmt, pr⟩) := by
  refine ⟨?_, ?_, ?_⟩
  · intro h1
    simp [RFBProto.Update, WaitDataReady, RFB_SERVER_FBUPDATE, RFB_SERVER_SETCOLORMAPENTRIES,
      h1]
  · intro h4
    have h0 : ¬ t.val = 0 := by omega
    have h1 : ¬ t.val = 1 := by omega
    have h2 : ¬ t.val = 2 := by omega
    have h3 : ¬ t.val = 3 := by omega
    simp [RFBProto.Update, WaitDataReady, RFB_SERVER_FBUPDATE, RFB_SERVER_SETCOLORMAPENTRIES,
      RFB_SERVER_BELL, RFB_SERVER_CUTTEXT, h0, h1, h2, h3]
  · simp [RFBProto.Update, WaitDataReady]

/-- Claim C31 at the type bytes 1 and 200, each followed by the byte 7, and at an empty
stream. -/
theorem Update_rejects_unsupported_witness :
    rawOnlySession.Update 100 (freshWorld [1, 7])
      = (.error (.Msg
          "server tried to set color map entries, but this is currently unsupported"),
        freshWorld [7])
    ∧ rawOnlySession.Update 100 (freshWorld [200, 7])
      = (.error .UnknownMessage,
        ⟨true, [7], [] ++ [Event.Cerr ("got unknown message type " ++ toString 200 ++ "\n")],
          ⟨4, 24, 255, 255, 255, 16, 8, 0, false⟩, ⟨0, 0, 0, 0, 0, 0⟩⟩)
    ∧ rawOnlySession.Update 100 (freshWorld []) = (.ok (), freshWorld []) :=
  ⟨(Update_rejects_unsupported rawOnlySession 100 1 true [7] [] _ _).1 rfl,
    (Update_rejects_unsupported rawOnlySession 100 200 true [7] [] _ _).2.1 (by decide),
    (Update_rejects_unsupported rawOnlySession 100 0 true [7] [] _ _).2.2⟩

/-! ## The byte count of the Raw decoder -/

/-- Claim C38 fails on the code at a server-init record with 24 bits per pixel (depth 24,
maxima 255): the init handshake returns, and the session's pixel format has 3 bytes per
pixel, which is none of 1, 2, 4. -/
theorem DoInitHandshake_three_bytes :
    ∃ S1 W1, rawOnlySession.DoInitHandshake (freshWorld (initRecord24.wire ++ []))
        = (.ok S1, W1)
      ∧ S1.m_pixel_format = ⟨3, 24, 255, 255, 255, 16, 8, 0, false⟩
      ∧ ¬ S1.m_pixel_format.Invariant :=
  ⟨_, _, DoInitHandshake_run rawOnlySession initRecord24 true [] [] _ _ (by decide),
    by decide, by decide⟩

/-- Claim C38, amended. After every successful init handshake, for every server-init
record with a name within the string limit: the session's pixel format is the one the
record describes, with `bits_per_pixel div 8` between 1 and 31 as its bytes per pixel, and
it satisfies the invariant of the data model if and only if the fields of the record do:
`bits_per_pixel div 8` is 1, 2 or 4, the depth is at most `(bits_per_pixel div 8) * 8`, and
the popcounts of the three maxima add up to at most the depth. -/
theorem DoInitHandshake_invariant (S S1 : RFBProto) (r : ServerInit) (le : Bool)
    (rest : List Uint8) (tr : List Event) (fmt : PixelFormat) (pr : Processed) (W1 : World)
    (hname : r.name.length ≤ 1000)
    (hok : S.DoInitHandshake ⟨le, r.wire ++ rest, tr, fmt, pr⟩ = (.ok S1, W1)) :
    S1.m_pixel_format = r.format
      ∧ S1.m_pixel_format.bytes = r.bits_per_pixel.val / 8
      ∧ 1 ≤ S1.m_pixel_format.bytes ∧ S1.m_pixel_format.bytes ≤ 31
      ∧ (S1.m_pixel_format.Invariant ↔
        ((r.bits_per_pixel.val / 8 = 1 ∨ r.bits_per_pixel.val / 8 = 2
            ∨ r.bits_per_pixel.val / 8 = 4)
          ∧ r.depth.val ≤ r.bits_per_pixel.val / 8 * 8
          ∧ popcount r.red_max.val + popcount r.green_max.val + popcount r.blue_max.val
            ≤ r.depth.val)) := by
  rw [DoInitHandshake_run S r le rest tr fmt pr hname] at hok
  by_cases hb : r.bits_per_pixel.val < 8
  · simp [hb] at hok
  · simp only [hb, if_false, Prod.mk.injEq, Except.ok.injEq] at hok
    obtain ⟨hS, _⟩ := hok
    subst hS
    have hlt := r.bits_per_pixel.isLt
    refine ⟨rfl, rfl, ?_, ?_, Iff.rfl⟩
    · show 1 ≤ r.bits_per_pixel.val / 8
      omega
    · show r.bits_per_pixel.val / 8 ≤ 31
      omega

/-- Claim C38, amended, at the init record of a 1x1 desktop with 32 bits per pixel and
depth 24: the handshake returns, the format set has 4 bytes per pixel and satisfies the
invariant. -/
theorem DoInitHandshake_invariant_witness :
    ∃ S1 W1, rawOnlySession.DoInitHandshake (freshWorld ((initRecord [84]).wire ++ []))
        = (.ok S1, W1)
      ∧ S1.m_pixel_format = (initRecord [84]).format
      ∧ S1.m_pixel_format.bytes = 4
      ∧ S1.m_pixel_format.Invariant := by
  have hrun := DoInitHandshake_run rawOnlySession (initRecord [84]) true [] []
    ⟨4, 24, 255, 255, 255, 16, 8, 0, false⟩ ⟨0, 0, 0, 0, 0, 0⟩ (by decide)
  have h := DoInitHandshake_invariant rawOnlySession _ (initRecord [84]) true [] []
    ⟨4, 24, 255, 255, 255, 16, 8, 0, false⟩ ⟨0, 0, 0, 0, 0, 0⟩ _ (by decide) hrun
  exact ⟨_, _, hrun, h.1, h.2.1, h.2.2.2.2.mpr (by decide)⟩

/-! ## The two NetPixel functions -/

/-- On a big-endian host, and for pixels of one byte on either host, the two `NetPixel`
functions read the same value: the bytes in native order. -/
theorem NetPixel_same (bpp : Nat) (hb : bpp = 1 ∨ bpp = 2 ∨ bpp = 4) (le : Bool)
    (hle : le = false ∨ bpp = 1) (bs rest : List Uint8) (hlen : bs.length = bpp)
    (tr : List Event) (fmt : PixelFormat) (pr : Processed) :
    Hextile.NetPixel bpp ⟨le, bs ++ rest, tr, fmt, pr⟩
        = RRE.NetPixel bpp ⟨le, bs ++ rest, tr, fmt, pr⟩
      ∧ RRE.NetPixel bpp ⟨le, bs ++ rest, tr, fmt, pr⟩
        = (.ok (nativeValue le bs), ⟨le, rest, tr, fmt, pr⟩) := by
  rw [Hextile_NetPixel_mk bpp hb le bs rest hlen, RRE_NetPixel_mk bpp hb le bs rest hlen]
  refine ⟨?_, rfl⟩
  rcases hle with h | h
  · rw [h]
  · subst h
    obtain ⟨b0, rfl⟩ := List.length_eq_one.mp hlen
    cases le <;> simp [nativeValue]

/-- For a number of bytes per pixel other than 1, 2 and 4 both `NetPixel` functions throw
the error "invalid color depth for RRE decoder" and read nothing. -/
theorem NetPixel_invalid_depth (bpp : Nat) (h1 : bpp ≠ 1) (h2 : bpp ≠ 2) (h4 : bpp ≠ 4)
    (W : World) :
    Hextile.NetPixel bpp W = (.error (.Msg "invalid color depth for RRE decoder"), W)
      ∧ RRE.NetPixel bpp W = (.error (.Msg "invalid color depth for RRE decoder"), W) := by
  constructor
  · unfold Hextile.NetPixel
    split <;> first | contradiction | rfl
  · unfold RRE.NetPixel
    split <;> first | contradiction | rfl

/-- Claim C40 fails on the code on a little-endian host. From the two bytes `01 02` the
`NetPixel` of the RRE file reads the native value `0x0201`, the `NetPixel` of the Hextile
file reads `0x0102`: it goes through `NET_UINT16`, which swaps. Likewise from the four
bytes `01 02 03 04` the one reads `0x04030201`, the other `0x01020304`. -/
theorem NetPixel_differs_little_endian :
    RRE.NetPixel 2 (freshWorld [1, 2]) = (.ok 0x0201, freshWorld [])
      ∧ Hextile.NetPixel 2 (freshWorld [1, 2]) = (.ok 0x0102, freshWorld [])
      ∧ RRE.NetPixel 4 (freshWorld [1, 2, 3, 4]) = (.ok 0x04030201, freshWorld [])
      ∧ Hextile.NetPixel 4 (freshWorld [1, 2, 3, 4]) = (.ok 0x01020304, freshWorld []) := by
  decide

/-! ## What a computation adds to the trace and to the counters -/

theorem still_pure {α : Type} (a : α) : Still (pure a : M α) := fun _ => ⟨rfl, rfl⟩

theorem still_throwExc {α : Type} (e : Exc) : Still (throwExc e : M α) := fun _ => ⟨rfl, rfl⟩

theorem still_GetPixelFormat : Still GetPixelFormat := fun _ => ⟨rfl, rfl⟩

theorem still_ReceiveBytes (count : Nat) : Still (ReceiveBytes count) := by
  intro W
  simp only [ReceiveBytes]
  split <;> exact ⟨rfl, rfl⟩

theorem still_GET_NOSWAP (n : Nat) : Still (GET_NOSWAP n) := by
  intro W
  have h := still_ReceiveBytes n W
  simp only [GET_NOSWAP]
  rcases hr : ReceiveBytes n W with ⟨r, W1⟩
  rw [hr] at h
  cases r <;> exact h

theorem still_NET_UINT8 : Still NET_UINT8 := still_GET_NOSWAP 1

theorem still_NET_UINT16 : Still NET_UINT16 := by
  intro W
  have h := still_GET_NOSWAP 2 W
  simp only [NET_UINT16]
  rcases hr : GET_NOSWAP 2 W with ⟨r, W1⟩
  rw [hr] at h
  cases r <;> exact h

theorem still_NET_UINT32 : Still NET_UINT32 := by
  intro W
  have h := still_GET_NOSWAP 4 W
  simp only [NET_UINT32]
  rcases hr : GET_NOSWAP 4 W with ⟨r, W1⟩
  rw [hr] at h
  cases r <;> exact h

theorem still_RRE_NetPixel (bpp : Nat) : Still (RRE.NetPixel bpp) := by
  unfold RRE.NetPixel
  split
  · exact still_NET_UINT8
  · exact still_GET_NOSWAP 2
  · exact still_GET_NOSWAP 4
  · exact still_throwExc _

theorem still_Hextile_NetPixel (bpp : Nat) : Still (Hextile.NetPixel bpp) := by
  unfold Hextile.NetPixel
  split
  · exact still_NET_UINT8
  · exact still_NET_UINT16
  · exact still_NET_UINT32
  · exact still_throwExc _

/-! ### Calls added to the trace -/

theorem emits_of_still {α : Type} {P : Event → Prop} {m : M α} (h : Still m) : Emits P m :=
  fun W => ⟨[], by simp [(h W).1], by simp⟩

theorem emits_pure {α : Type} (P : Event → Prop) (a : α) : Emits P (pure a : M α) :=
  emits_of_still (still_pure a)

theorem emits_incProcessed (P : Event → Prop) (f : Processed → Processed) :
    Emits P (incProcessed f) :=
  fun W => ⟨[], by simp, by simp⟩

theorem emits_emit {P : Event → Prop} (e : Event) (h : P e) : Emits P (emit e) :=
  fun W => ⟨[e], rfl, by simpa using h⟩

theorem emits_bind {α β : Type} {P : Event → Prop} {m : M α} {f : α → M β} (hm : Emits P m)
    (hf : ∀ a, Emits P (f a)) : Emits P (m >>= f) := by
  intro W
  obtain ⟨c1, h1, hp1⟩ := hm W
  simp only [bind_run]
  rcases hmW : m W with ⟨r, W1⟩
  rw [hmW] at h1
  cases r with
  | error e => exact ⟨c1, h1, hp1⟩
  | ok a =>
    obtain ⟨c2, h2, hp2⟩ := hf a W1
    refine ⟨c1 ++ c2, ?_, ?_⟩
    · simp only at h1 ⊢
      rw [h2, h1, List.append_assoc]
    · intro e he
      rcases List.mem_append.mp he with h | h
      · exact hp1 e h
      · exact hp2 e h

theorem emits_ite {α : Type} {P : Event → Prop} (c : Prop) [Decidable c] {a b : M α}
    (ha : Emits P a) (hb : Emits P b) : Emits P (if c then a else b) := by
  split
  · exact ha
  · exact hb

theorem emits_mono {α : Type} {P Q : Event → Prop} {m : M α} (h : Emits P m)
    (hPQ : ∀ e, P e → Q e) : Emits Q m := by
  intro W
  obtain ⟨c, h1, hp⟩ := h W
  exact ⟨c, h1, fun e he => hPQ e (hp e he)⟩

theorem emits_forLoop {σ : Type} {P : Event → Prop} (body : Nat → σ → M σ) (xs : List Nat)
    (hb : ∀ i ∈ xs, ∀ s, Emits P (body i s)) (s : σ) : Emits P (forLoop body xs s) := by
  induction xs generalizing s with
  | nil => exact emits_of_still (still_pure s)
  | cons i xs ih =>
    have h : Emits P (body i s >>= fun s1 => forLoop body xs s1) :=
      emits_bind (hb i (List.mem_cons_self _ _) s)
        (fun s1 => ih (fun j hj => hb j (List.mem_cons_of_mem _ hj)) s1)
    exact h

theorem emits_forEach {P : Event → Prop} (body : Nat → M Unit) (xs : List Nat)
    (hb : ∀ i ∈ xs, Emits P (body i)) : Emits P (forEach body xs) :=
  emits_forLoop (fun i _ => body i) xs (fun i hi _ => hb i hi) ()

/-! ### The counters -/

theorem keeps_of_still {α : Type} {m : M α} (h : Still m) : KeepsCounters m :=
  fun W => (h W).2

theorem keeps_emit (e : Event) : KeepsCounters (emit e) := fun _ => rfl

theorem keeps_bind {α β : Type} {m : M α} {f : α → M β} (hm : KeepsCounters m)
    (hf : ∀ a, KeepsCounters (f a)) : KeepsCounters (m >>= f) := by
  intro W
  have h1 := hm W
  simp only [bind_run]
  rcases hmW : m W with ⟨r, W1⟩
  rw [hmW] at h1
  cases r with
  | error e => exact h1
  | ok a => exact (hf a W1).trans h1

theorem keeps_ite {α : Type} (c : Prop) [Decidable c] {a b : M α} (ha : KeepsCounters a)
    (hb : KeepsCounters b) : KeepsCounters (if c then a else b) := by
  split
  · exact ha
  · exact hb

theorem keeps_forLoop {σ : Type} (body : Nat → σ → M σ) (hb : ∀ i s, KeepsCounters (body i s))
    (xs : List Nat) (s : σ) : KeepsCounters (forLoop body xs s) := by
  induction xs generalizing s with
  | nil => exact fun _ => rfl
  | cons i xs ih =>
    have h : KeepsCounters (body i s >>= fun s1 => forLoop body xs s1) :=
      keeps_bind (hb i s) (fun s1 => ih s1)
    exact h

theorem keeps_forEach (body : Nat → M Unit) (hb : ∀ i, KeepsCounters (body i))
    (xs : List Nat) : KeepsCounters (forEach body xs) :=
  keeps_forLoop (fun i _ => body i) (fun i _ => hb i) xs ()

theorem keeps_FillSolidRect (rect : ScreenRect) (pixel : Nat) :
    KeepsCounters (FillSolidRect rect pixel) :=
  keeps_forEach _ (fun _ => keeps_emit _) _

/-- The first statement of a decoder is `++m_processed`; when what follows leaves the
counters alone, the counters after an invocation are those after that statement,
whatever the outcome. -/
theorem counted {α : Type} (g : Processed → Processed) (tail : M α)
    (ht : KeepsCounters tail) (W : World) :
    ((incProcessed g >>= fun _ => tail) W).2.processed = g W.processed := by
  simp only [bind_run, incProcessed_run]
  exact ht _

/-! ## The counters of the decoders -/

theorem DecoderRAW_counts (rect : ScreenRect) (W : World) :
    (DecoderRAW rect W).2.processed
      = { W.processed with RAW := (W.processed.RAW + 1) % 4294967296 } := by
  unfold DecoderRAW
  exact counted _ _
    (keeps_bind (keeps_of_still still_GetPixelFormat) fun _ =>
      keeps_bind (keeps_of_still (still_ReceiveBytes _)) fun _ =>
      keeps_bind (keeps_emit _) fun _ =>
      keeps_bind (keeps_forEach _ (fun _ => keeps_emit _) _) fun _ => keeps_emit _) W

theorem DecoderCOPYRECT_counts (rect : ScreenRect) (W : World) :
    (DecoderCOPYRECT rect W).2.processed
      = { W.processed with COPYRECT := (W.processed.COPYRECT + 1) % 4294967296 } := by
  unfold DecoderCOPYRECT
  exact counted _ _
    (keeps_bind (keeps_of_still still_NET_UINT16) fun _ =>
      keeps_bind (keeps_of_still still_NET_UINT16) fun _ =>
      keeps_bind (keeps_emit _) fun _ =>
      keeps_bind (keeps_emit _) fun _ => keeps_emit _) W

theorem keeps_rreSubrect (rect : ScreenRect) (bpp : Nat) :
    KeepsCounters (rreSubrect rect bpp) := by
  unfold rreSubrect
  exact keeps_bind (keeps_of_still (still_RRE_NetPixel _)) fun _ =>
    keeps_bind (keeps_of_still still_NET_UINT16) fun _ =>
    keeps_bind (keeps_of_still still_NET_UINT16) fun _ =>
    keeps_bind (keeps_of_still still_NET_UINT16) fun _ =>
    keeps_bind (keeps_of_still still_NET_UINT16) fun _ => keeps_FillSolidRect _ _

theorem keeps_correSubrect (rect : ScreenRect) (bpp : Nat) :
    KeepsCounters (correSubrect rect bpp) := by
  unfold correSubrect
  exact keeps_bind (keeps_of_still (still_RRE_NetPixel _)) fun _ =>
    keeps_bind (keeps_of_still still_NET_UINT8) fun _ =>
    keeps_bind (keeps_of_still still_NET_UINT8) fun _ =>
    keeps_bind (keeps_of_still still_NET_UINT8) fun _ =>
    keeps_bind (keeps_of_still still_NET_UINT8) fun _ => keeps_FillSolidRect _ _

theorem DecoderRRE_counts (rect : ScreenRect) (W : World) :
    (DecoderRRE rect W).2.processed
      = { W.processed with RRE := (W.processed.RRE + 1) % 4294967296 } := by
  unfold DecoderRRE
  exact counted _ _
    (keeps_bind (keeps_of_still still_GetPixelFormat) fun _ =>
      keeps_bind (keeps_of_still still_NET_UINT32) fun _ =>
      keeps_bind (keeps_of_still (still_RRE_NetPixel _)) fun _ =>
      keeps_bind (keeps_emit _) fun _ =>
      keeps_bind (keeps_FillSolidRect _ _) fun _ =>
      keeps_bind (keeps_forEach _ (fun _ => keeps_rreSubrect _ _) _) fun _ => keeps_emit _) W

theorem DecoderCORRE_counts (rect : ScreenRect) (W : World) :
    (DecoderCORRE rect W).2.processed
      = { W.processed with CORRE := (W.processed.CORRE + 1) % 4294967296 } := by
  unfold DecoderCORRE
  exact counted _ _
    (keeps_bind (keeps_of_still still_GetPixelFormat) fun _ =>
      keeps_bind (keeps_of_still still_NET_UINT32) fun _ =>
      keeps_bind (keeps_of_still (still_RRE_NetPixel _)) fun _ =>
      keeps_bind (keeps_emit _) fun _ =>
      keeps_bind (keeps_FillSolidRect _ _) fun _ =>
      keeps_bind (keeps_forEach _ (fun _ => keeps_correSubrect _ _) _) fun _ =>
        keeps_emit _) W

theorem keeps_hextileSubrect (bpp : Nat) (tile_rect : ScreenRect) (colored : Bool)
    (fg : Nat) : KeepsCounters (hextileSubrect bpp tile_rect colored fg) := by
  unfold hextileSubrect
  exact keeps_bind
    (keeps_ite _ (keeps_of_still (still_Hextile_NetPixel _)) (keeps_of_still (still_pure _)))
    fun _ =>
    keeps_bind (keeps_of_still still_NET_UINT8) fun _ =>
    keeps_bind (keeps_of_still still_NET_UINT8) fun _ => keeps_FillSolidRect _ _

theorem keeps_hextileTile (rect : ScreenRect) (bpp tile_y tile_height tile_x : Nat)
    (c : HextileColors) : KeepsCounters (hextileTile rect bpp tile_y tile_height tile_x c) := by
  unfold hextileTile
  refine keeps_bind (keeps_of_still still_NET_UINT8) fun encoding => ?_
  refine keeps_ite _ ?_ ?_
  · exact keeps_bind (keeps_of_still (still_ReceiveBytes _)) fun _ =>
      keeps_bind (keeps_forEach _ (fun _ => keeps_emit _) _) fun _ =>
        keeps_of_still (still_pure _)
  · exact keeps_bind
      (keeps_ite _ (keeps_of_still (still_Hextile_NetPixel _)) (keeps_of_still (still_pure _)))
      fun _ =>
      keeps_bind
        (keeps_ite _ (keeps_of_still (still_Hextile_NetPixel _))
          (keeps_of_still (still_pure _)))
        fun _ =>
      keeps_bind (keeps_ite _ (keeps_of_still still_NET_UINT8) (keeps_of_still (still_pure _)))
        fun _ =>
      keeps_bind (keeps_FillSolidRect _ _) fun _ =>
      keeps_bind (keeps_forEach _ (fun _ => keeps_hextileSubrect _ _ _ _) _) fun _ =>
        keeps_of_still (still_pure _)

theorem DecoderHEXTILE_counts (rect : ScreenRect) (W : World) :
    (DecoderHEXTILE rect W).2.processed
      = { W.processed with HEXTILE := (W.processed.HEXTILE + 1) % 4294967296 } := by
  unfold DecoderHEXTILE
  refine counted _ _
    (keeps_bind (keeps_of_still still_GetPixelFormat) fun _ =>
      keeps_bind (keeps_emit _) fun _ =>
      keeps_bind (keeps_forLoop _ (fun ty c => ?_) _ _) fun _ => keeps_emit _) W
  unfold hextileRow
  exact keeps_forLoop _ (fun tx c1 => keeps_hextileTile _ _ _ _ _ _) _ _

/-- Every invocation of one of the five decoders adds one to its counter, modulo 2^32,
whether it returns or throws. -/
theorem decoderTable_counts (c : DecoderClass) (d : ScreenRect → M Unit)
    (h : (c, d) ∈ decoderTable) (rect : ScreenRect) (W : World) :
    GetNumProcessed c (d rect W).2 = (GetNumProcessed c W + 1) % 4294967296 := by
  simp only [decoderTable, List.mem_cons, Prod.mk.injEq, List.mem_singleton, List.mem_nil_iff,
    or_false] at h
  rcases h with ⟨rfl, rfl⟩ | ⟨rfl, rfl⟩ | ⟨rfl, rfl⟩ | ⟨rfl, rfl⟩ | ⟨rfl, rfl⟩
  · simp only [GetNumProcessed, DecoderRAW_counts]
  · simp only [GetNumProcessed, DecoderCOPYRECT_counts]
  · simp only [GetNumProcessed, DecoderRRE_counts]
  · simp only [GetNumProcessed, DecoderCORRE_counts]
  · simp only [GetNumProcessed, DecoderHEXTILE_counts]

/-- Claim C39 fails on the code at invocations that fail. The Raw decoder on an empty
stream fails with `Read`, and the RRE decoder with a display of 3 bytes per pixel fails
with the error "invalid color depth for RRE decoder"; in both cases the counter, 0 before,
is 1 after: `++m_processed` is the first statement of a decoder. -/
theorem GetNumProcessed_counts_failures :
    (DecoderRAW ⟨0, 0, 1, 1⟩ (freshWorld [])).1 = .error .Read
      ∧ GetNumProcessed .RAW (freshWorld []) = 0
      ∧ GetNumProcessed .RAW (DecoderRAW ⟨0, 0, 1, 1⟩ (freshWorld [])).2 = 1
      ∧ (DecoderRRE ⟨0, 0, 1, 1⟩
          ⟨true, [0, 0, 0, 0, 7, 7, 7], [], ⟨3, 24, 255, 255, 255, 16, 8, 0, false⟩,
            ⟨0, 0, 0, 0, 0, 0⟩⟩).1
        = .error (.Msg "invalid color depth for RRE decoder")
      ∧ GetNumProcessed .RRE (DecoderRRE ⟨0, 0, 1, 1⟩
          ⟨true, [0, 0, 0, 0, 7, 7, 7], [], ⟨3, 24, 255, 255, 255, 16, 8, 0, false⟩,
            ⟨0, 0, 0, 0, 0, 0⟩⟩).2 = 1 := by
  decide

/-- Claim C39, amended. For each of the Raw, CopyRect, RRE, CoRRE and Hextile decoders and
every sequence of invocations of it, each in the world the one before has left:
`GetNumProcessed()` is the number it was before plus the number of invocations, modulo
2^32, whether they returned or threw; each single invocation adds exactly one, modulo
2^32, also when it fails. -/
theorem GetNumProcessed_counts_invocations (c : DecoderClass) (d : ScreenRect → M Unit)
    (h : (c, d) ∈ decoderTable) (rects : List ScreenRect) (W : World)
    (hW : GetNumProcessed c W < 4294967296) :
    GetNumProcessed c (invocations d rects W)
        = (GetNumProcessed c W + rects.length) % 4294967296
      ∧ ∀ rect W0, GetNumProcessed c (d rect W0).2
        = (GetNumProcessed c W0 + 1) % 4294967296 := by
  refine ⟨?_, fun rect W0 => decoderTable_counts c d h rect W0⟩
  induction rects generalizing W with
  | nil => simp [invocations, Nat.mod_eq_of_lt hW]
  | cons rect rects ih =>
    have h1 := decoderTable_counts c d h rect W
    have hlt : GetNumProcessed c (d rect W).2 < 4294967296 := by
      rw [h1]; exact Nat.mod_lt _ (by decide)
    simp only [invocations, List.length_cons]
    rw [ih (d rect W).2 hlt, h1]
    omega

/-- Claim C39, amended, at three invocations of the Raw decoder with a 1x1 rectangle on
a stream of six bytes: the first returns, the other two fail, and the counter is 3. -/
theorem GetNumProcessed_counts_invocations_witness :
    GetNumProcessed .RAW (invocations DecoderRAW [⟨0, 0, 1, 1⟩, ⟨0, 0, 1, 1⟩, ⟨0, 0, 1, 1⟩]
        (freshWorld [1, 2, 3, 4, 5, 6]))
      = (0 + 3) % 4294967296 :=
  (GetNumProcessed_counts_invocations .RAW DecoderRAW (by simp [decoderTable])
    [⟨0, 0, 1, 1⟩, ⟨0, 0, 1, 1⟩, ⟨0, 0, 1, 1⟩] (freshWorld [1, 2, 3, 4, 5, 6]) (by decide)).1

theorem keeps_SetStream {σ : Type} (rd : ZlibReader σ) (input : List Uint8) (size : Int) :
    KeepsCounters (rd.SetStream input size) := by
  unfold ZlibReader.SetStream
  exact keeps_bind (keeps_emit _) fun _ => keeps_of_still (still_pure _)

theorem keeps_DecoderZLIB_draw (rect : ScreenRect) (buf : List Uint8) :
    KeepsCounters (DecoderZLIB.draw rect buf) := by
  unfold DecoderZLIB.draw
  exact keeps_bind (keeps_emit _) fun _ =>
    keeps_bind (keeps_of_still still_GetPixelFormat) fun _ =>
    keeps_bind (keeps_forEach _ (fun _ => keeps_emit _) _) fun _ => keeps_emit _

/-- The ZLIB decoder, too, adds one to its counter whenever its invocation ends, whether
it returns or throws. -/
theorem DecoderZLIB_counts {σ : Type} (inflate : Inflate σ) (fuel : Nat) (rect : ScreenRect)
    (rd : ZlibReader σ) (W W1 : World) (r : Except Exc (ZlibReader σ))
    (h : DecoderZLIB inflate fuel rect rd W = some (r, W1)) :
    GetNumProcessed .ZLIB W1 = (GetNumProcessed .ZLIB W + 1) % 4294967296 := by
  have hrecv : (DecoderZLIB.receive rd W).2.processed
      = { W.processed with ZLIB := (W.processed.ZLIB + 1) % 4294967296 } := by
    unfold DecoderZLIB.receive
    exact counted _ _
      (keeps_bind (keeps_of_still still_NET_UINT32) fun _ =>
        keeps_bind (keeps_of_still (still_ReceiveBytes _)) fun _ => keeps_SetStream _ _ _) W
  simp only [DecoderZLIB] at h
  rcases hr : DecoderZLIB.receive rd W with ⟨res, W2⟩
  rw [hr] at h hrecv
  simp only at hrecv
  cases res with
  | error e =>
    simp only [Option.some.injEq, Prod.mk.injEq] at h
    rw [← h.2]
    simp [GetNumProcessed, hrecv]
  | ok rd1 =>
    simp only at h
    split at h
    · simp at h
    · simp only [Option.some.injEq, Prod.mk.injEq] at h
      rw [← h.2]
      simp [GetNumProcessed, hrecv]
    · rename_i buf rd2 _
      have hd := keeps_DecoderZLIB_draw rect buf W2
      split at h <;>
        (rename_i hdraw
         rw [hdraw] at hd
         simp only [Option.some.injEq, Prod.mk.injEq] at h
         rw [← h.2]
         simp only [GetNumProcessed]
         simp only at hd
         rw [hd, hrecv])

/-! ## BeginDrawing and EndDrawing around the pixel calls -/

theorem closes_end (rect : ScreenRect) : Closes rect (emit (Event.EndDrawing rect)) := by
  intro W a W1 h
  simp only [emit_run, Prod.mk.injEq] at h
  exact ⟨[], by rw [← h.2]; rfl, by simp⟩

theorem closes_bind {α β : Type} {rect : ScreenRect} {m : M α} {f : α → M β}
    (hm : Emits (fun e => e.isPixelCall = true) m) (hf : ∀ a, Closes rect (f a)) :
    Closes rect (m >>= f) := by
  intro W b W1 h
  obtain ⟨c1, h1, hp1⟩ := hm W
  simp only [bind_run] at h
  rcases hmW : m W with ⟨r, W2⟩
  rw [hmW] at h h1
  cases r with
  | error e => simp at h
  | ok a =>
    obtain ⟨mid, h2, hp2⟩ := hf a W2 b W1 h
    refine ⟨c1 ++ mid, ?_, ?_⟩
    · simp only at h1
      rw [h2, h1, List.append_assoc, List.append_assoc]
    · intro e he
      rcases List.mem_append.mp he with h | h
      · exact hp1 e h
      · exact hp2 e h

theorem brackets_open {α : Type} {rect : ScreenRect} {body : M α} (hb : Closes rect body) :
    Brackets rect (emit Event.BeginDrawing >>= fun _ => body) := by
  intro W a W1 h
  simp only [bind_run, emit_run] at h
  obtain ⟨mid, h2, hp⟩ := hb _ a W1 h
  refine ⟨mid, ?_, hp⟩
  rw [h2]
  simp

theorem brackets_pre {α β : Type} {rect : ScreenRect} {m : M α} {f : α → M β}
    (hm : Emits (fun _ => False) m) (hf : ∀ a, Brackets rect (f a)) :
    Brackets rect (m >>= f) := by
  intro W b W1 h
  obtain ⟨c1, h1, hp1⟩ := hm W
  have hc : c1 = [] := by
    cases c1 with
    | nil => rfl
    | cons e es => exact (hp1 e (List.mem_cons_self _ _)).elim
  subst hc
  simp only [bind_run] at h
  rcases hmW : m W with ⟨r, W2⟩
  rw [hmW] at h h1
  cases r with
  | error e => simp at h
  | ok a =>
    obtain ⟨mid, h2, hp2⟩ := hf a W2 b W1 h
    refine ⟨mid, ?_, hp2⟩
    simp only [List.append_nil] at h1
    rw [h2, h1]

theorem emits_FillSolidRect_pixel (rect : ScreenRect) (pixel : Nat) :
    Emits (fun e => e.isPixelCall = true) (FillSolidRect rect pixel) :=
  emits_forEach _ _ (fun _ _ => emits_emit _ (by rfl))

theorem DecoderRAW_brackets (rect : ScreenRect) : Brackets rect (DecoderRAW rect) := by
  unfold DecoderRAW
  refine brackets_pre (emits_incProcessed _ _) fun _ => ?_
  refine brackets_pre (emits_of_still still_GetPixelFormat) fun _ => ?_
  refine brackets_pre (emits_of_still (still_ReceiveBytes _)) fun _ => ?_
  refine brackets_open ?_
  exact closes_bind (emits_forEach _ _ (fun _ _ => emits_emit _ (by rfl)))
    fun _ => closes_end rect

theorem DecoderCOPYRECT_brackets (rect : ScreenRect) :
    Brackets rect (DecoderCOPYRECT rect) := by
  unfold DecoderCOPYRECT
  refine brackets_pre (emits_incProcessed _ _) fun _ => ?_
  refine brackets_pre (emits_of_still still_NET_UINT16) fun _ => ?_
  refine brackets_pre (emits_of_still still_NET_UINT16) fun _ => ?_
  refine brackets_open ?_
  exact closes_bind (emits_emit _ (by rfl)) fun _ => closes_end rect

theorem emits_rreSubrect_pixel (rect : ScreenRect) (bpp : Nat) :
    Emits (fun e => e.isPixelCall = true) (rreSubrect rect bpp) := by
  unfold rreSubrect
  exact emits_bind (emits_of_still (still_RRE_NetPixel _)) fun _ =>
    emits_bind (emits_of_still still_NET_UINT16) fun _ =>
    emits_bind (emits_of_still still_NET_UINT16) fun _ =>
    emits_bind (emits_of_still still_NET_UINT16) fun _ =>
    emits_bind (emits_of_still still_NET_UINT16) fun _ => emits_FillSolidRect_pixel _ _

theorem emits_correSubrect_pixel (rect : ScreenRect) (bpp : Nat) :
    Emits (fun e => e.isPixelCall = true) (correSubrect rect bpp) := by
  unfold correSubrect
  exact emits_bind (emits_of_still (still_RRE_NetPixel _)) fun _ =>
    emits_bind (emits_of_still still_NET_UINT8) fun _ =>
    emits_bind (emits_of_still still_NET_UINT8) fun _ =>
    emits_bind (emits_of_still still_NET_UINT8) fun _ =>
    emits_bind (emits_of_still still_NET_UINT8) fun _ => emits_FillSolidRect_pixel _ _

theorem DecoderRRE_brackets (rect : ScreenRect) : Brackets rect (DecoderRRE rect) := by
  unfold DecoderRRE
  refine brackets_pre (emits_incProcessed _ _) fun _ => ?_
  refine brackets_pre (emits_of_still still_GetPixelFormat) fun _ => ?_
  refine brackets_pre (emits_of_still still_NET_UINT32) fun _ => ?_
  refine brackets_pre (emits_of_still (still_RRE_NetPixel _)) fun _ => ?_
  refine brackets_open ?_
  refine closes_bind (emits_FillSolidRect_pixel _ _) fun _ => ?_
  exact closes_bind (emits_forEach _ _ (fun _ _ => emits_rreSubrect_pixel _ _))
    fun _ => closes_end rect

theorem DecoderCORRE_brackets (rect : ScreenRect) : Brackets rect (DecoderCORRE rect) := by
  unfold DecoderCORRE
  refine brackets_pre (emits_incProcessed _ _) fun _ => ?_
  refine brackets_pre (emits_of_still still_GetPixelFormat) fun _ => ?_
  refine brackets_pre (emits_of_still still_NET_UINT32) fun _ => ?_
  refine brackets_pre (emits_of_still (still_RRE_NetPixel _)) fun _ => ?_
  refine brackets_open ?_
  refine closes_bind (emits_FillSolidRect_pixel _ _) fun _ => ?_
  exact closes_bind (emits_forEach _ _ (fun _ _ => emits_correSubrect_pixel _ _))
    fun _ => closes_end rect

theorem emits_hextileSubrect_pixel (bpp : Nat) (tile_rect : ScreenRect) (colored : Bool)
    (fg : Nat) :
    Emits (fun e => e.isPixelCall = true) (hextileSubrect bpp tile_rect colored fg) := by
  unfold hextileSubrect
  exact emits_bind
    (emits_ite _ (emits_of_still (still_Hextile_NetPixel _)) (emits_of_still (still_pure _)))
    fun _ =>
    emits_bind (emits_of_still still_NET_UINT8) fun _ =>
    emits_bind (emits_of_still still_NET_UINT8) fun _ => emits_FillSolidRect_pixel _ _

theorem emits_hextileTile_pixel (rect : ScreenRect) (bpp tile_y tile_height tile_x : Nat)
    (c : HextileColors) :
    Emits (fun e => e.isPixelCall = true)
      (hextileTile rect bpp tile_y tile_height tile_x c) := by
  unfold hextileTile
  refine emits_bind (emits_of_still still_NET_UINT8) fun encoding => ?_
  refine emits_ite _ ?_ ?_
  · exact emits_bind (emits_of_still (still_ReceiveBytes _)) fun _ =>
      emits_bind (emits_forEach _ _ (fun _ _ => emits_emit _ (by rfl))) fun _ =>
        emits_of_still (still_pure _)
  · exact emits_bind
      (emits_ite _ (emits_of_still (still_Hextile_NetPixel _)) (emits_of_still (still_pure _)))
      fun _ =>
      emits_bind
        (emits_ite _ (emits_of_still (still_Hextile_NetPixel _))
          (emits_of_still (still_pure _)))
        fun _ =>
      emits_bind (emits_ite _ (emits_of_still still_NET_UINT8) (emits_of_still (still_pure _)))
        fun _ =>
      emits_bind (emits_FillSolidRect_pixel _ _) fun _ =>
      emits_bind (emits_forEach _ _ (fun _ _ => emits_hextileSubrect_pixel _ _ _ _)) fun _ =>
        emits_of_still (still_pure _)

theorem DecoderHEXTILE_brackets (rect : ScreenRect) : Brackets rect (DecoderHEXTILE rect) := by
  unfold DecoderHEXTILE
  refine brackets_pre (emits_incProcessed _ _) fun _ => ?_
  refine brackets_pre (emits_of_still still_GetPixelFormat) fun _ => ?_
  refine brackets_open ?_
  refine closes_bind (emits_forLoop _ _ (fun ty _ c => ?_) _) fun _ => closes_end rect
  unfold hextileRow
  exact emits_forLoop _ _ (fun tx _ c1 => emits_hextileTile_pixel _ _ _ _ _ _) _

/-- Claim C35. For every decode by the Raw, CopyRect, RRE, CoRRE or Hextile decoder that
returns, whatever the stream held: the calls the decoder has added to the trace are one
`BeginDrawing` first, one `EndDrawing` last, whose argument is the rectangle the decoder
was given, and between the two only `WritePixels`, `WriteUniformPixels` and `CopyPixels`
calls. -/
theorem decoders_bracket_drawing (c : DecoderClass) (d : ScreenRect → M Unit)
    (h : (c, d) ∈ decoderTable) (rect : ScreenRect) (W W1 : World)
    (hok : d rect W = (.ok (), W1)) :
    ∃ mid, W1.trace = W.trace ++ ([Event.BeginDrawing] ++ mid ++ [Event.EndDrawing rect])
      ∧ (∀ e ∈ mid, e.isPixelCall = true)
      ∧ Event.BeginDrawing ∉ mid ∧ ∀ r, Event.EndDrawing r ∉ mid := by
  have hb : Brackets rect (d rect) := by
    simp only [decoderTable, List.mem_cons, Prod.mk.injEq, List.mem_singleton,
      List.mem_nil_iff, or_false] at h
    rcases h with ⟨_, rfl⟩ | ⟨_, rfl⟩ | ⟨_, rfl⟩ | ⟨_, rfl⟩ | ⟨_, rfl⟩
    · exact DecoderRAW_brackets rect
    · exact DecoderCOPYRECT_brackets rect
    · exact DecoderRRE_brackets rect
    · exact DecoderCORRE_brackets rect
    · exact DecoderHEXTILE_brackets rect
  obtain ⟨mid, h1, hp⟩ := hb W () W1 hok
  refine ⟨mid, h1, hp, ?_, ?_⟩
  · intro hm
    have := hp _ hm
    simp [Event.isPixelCall] at this
  · intro r hm
    have := hp _ hm
    simp [Event.isPixelCall] at this

/-- Claim C35 at the Raw decoder on a 2x1 rectangle: it returns, and what it has added
to the trace is `BeginDrawing`, pixel calls, `EndDrawing` with the rectangle. -/
theorem decoders_bracket_drawing_witness :
    DecoderRAW ⟨0, 0, 2, 1⟩ (freshWorld [0x11, 0x22, 0x33, 0x44, 0x55, 0x66, 0x77, 0x88])
        = (.ok (), ⟨true, [],
            [Event.BeginDrawing,
              Event.WritePixels 0 0 2 [0x11, 0x22, 0x33, 0x44, 0x55, 0x66, 0x77, 0x88],
              Event.EndDrawing ⟨0, 0, 2, 1⟩],
            ⟨4, 24, 255, 255, 255, 16, 8, 0, false⟩, ⟨1, 0, 0, 0, 0, 0⟩⟩)
      ∧ ∃ mid, [Event.BeginDrawing,
            Event.WritePixels 0 0 2 [0x11, 0x22, 0x33, 0x44, 0x55, 0x66, 0x77, 0x88],
            Event.EndDrawing ⟨0, 0, 2, 1⟩]
          = [] ++ ([Event.BeginDrawing] ++ mid ++ [Event.EndDrawing ⟨0, 0, 2, 1⟩])
        ∧ (∀ e ∈ mid, e.isPixelCall = true)
        ∧ Event.BeginDrawing ∉ mid ∧ ∀ r, Event.EndDrawing r ∉ mid :=
  ⟨by decide,
    decoders_bracket_drawing .RAW DecoderRAW (by simp [decoderTable]) ⟨0, 0, 2, 1⟩
      (freshWorld [0x11, 0x22, 0x33, 0x44, 0x55, 0x66, 0x77, 0x88])
      ⟨true, [],
        [Event.BeginDrawing,
          Event.WritePixels 0 0 2 [0x11, 0x22, 0x33, 0x44, 0x55, 0x66, 0x77, 0x88],
          Event.EndDrawing ⟨0, 0, 2, 1⟩],
        ⟨4, 24, 255, 255, 255, 16, 8, 0, false⟩, ⟨1, 0, 0, 0, 0, 0⟩⟩
      (by decide)⟩

/-! ## Drawing calls and the bounds of the desktop -/

/-- The Raw decoder, given a rectangle inside the desktop, addresses only pixels inside
the desktop, whatever the stream holds. -/
theorem DecoderRAW_confined (rect : ScreenRect) (width height : Nat)
    (hr : rect.insideDesktop width height) :
    Emits (Event.insideDesktop width height) (DecoderRAW rect) := by
  obtain ⟨hx, hy⟩ := hr
  unfold DecoderRAW
  refine emits_bind (emits_incProcessed _ _) fun _ => ?_
  refine emits_bind (emits_of_still still_GetPixelFormat) fun _ => ?_
  refine emits_bind (emits_of_still (still_ReceiveBytes _)) fun _ => ?_
  refine emits_bind (emits_emit _ trivial) fun _ => ?_
  refine emits_bind (emits_forEach _ _ (fun y hy1 => emits_emit _ ?_)) fun _ =>
    emits_emit _ trivial
  have : y < rect.h.val := List.mem_range.mp hy1
  exact ⟨hx, by omega⟩

/-- Decoders that keep inside the desktop do so over a whole list of rectangles that lie
inside the desktop. -/
theorem CarriesRects_emits (S : RFBProto) (width height : Nat)
    (hconf : ∀ t d, S.m_decoders t = some d → ∀ rect, rect.insideDesktop width height →
      Emits (Event.insideDesktop width height) (d.call rect))
    (hs : List RectHeader) (hinside : ∀ hd ∈ hs, hd.rect.insideDesktop width height)
    (W W1 : World) (hc : CarriesRects S hs W W1) :
    ∃ calls, W1.trace = W.trace ++ calls ∧ ∀ e ∈ calls, e.insideDesktop width height := by
  induction hs generalizing W with
  | nil =>
    simp only [CarriesRects] at hc
    exact ⟨[], by rw [hc]; simp, by simp⟩
  | cons hd hs ih =>
    obtain ⟨rest, d, W2, _, hreg, hcall, hrest⟩ := hc
    obtain ⟨c1, h1, hp1⟩ := hconf _ d hreg hd.rect (hinside hd (List.mem_cons_self _ _))
      { W with input := rest }
    rw [hcall] at h1
    obtain ⟨c2, h2, hp2⟩ := ih (fun x hx => hinside x (List.mem_cons_of_mem _ hx)) W2 hrest
    refine ⟨c1 ++ c2, ?_, ?_⟩
    · simp only at h1
      rw [h2, h1, List.append_assoc]
    · intro e he
      rcases List.mem_append.mp he with h | h
      · exact hp1 e h
      · exact hp2 e h

/-- What each of the five decoders does on a well-formed payload of its encoding. -/
theorem RectPayload_run (p : RectPayload) (rect : ScreenRect) (le : Bool)
    (rest : List Uint8) (tr : List Event) (fmt : PixelFormat) (pr : Processed)
    (hwf : p.WellFormed rect fmt.bytes) :
    p.decoder rect ⟨le, p.wire ++ rest, tr, fmt, pr⟩
      = (.ok (), ⟨le, rest, tr ++ p.calls le rect fmt.bytes, fmt, p.counted pr⟩) := by
  cases p with
  | raw bytes => exact DecoderRAW_run rect le bytes rest tr fmt pr hwf
  | copyrect src_x src_y =>
    simp only [RectPayload.decoder, RectPayload.wire, RectPayload.calls, RectPayload.counted,
      DecoderCOPYRECT, List.append_assoc, bind_run, incProcessed_run,
      NET_UINT16_be16 le _ src_x.isLt, NET_UINT16_be16 le _ src_y.isLt, emit_run,
      List.cons_append, List.nil_append]
  | rre bg subs =>
    obtain ⟨hb, hbg, hpix, hn⟩ := hwf
    exact DecoderRRE_run rect le tr fmt pr bg rest subs hb hbg hpix hn
  | corre bg subs =>
    obtain ⟨hb, hbg, hpix, hn⟩ := hwf
    exact DecoderCORRE_run rect le tr fmt pr bg rest subs hb hbg hpix hn
  | hextile rows =>
    obtain ⟨hb, hwf⟩ := hwf
    exact DecoderHEXTILE_run rect le tr fmt pr rest rows hb hwf

/-- A stream that holds well-formed rectangles for registered decoders carries their
headers: the decoders return one after the other, and leave the calls of the payloads in
the trace. -/
theorem rects_carried (S : RFBProto) (le : Bool) (fmt : PixelFormat) (rest : List Uint8)
    (rects : List UpdateRect)
    (hreg : ∀ r ∈ rects, ∃ d, S.m_decoders r.payload.encoding.val = some d
      ∧ d.call = r.payload.decoder)
    (hwf : ∀ r ∈ rects, r.payload.WellFormed r.rect fmt.bytes)
    (tr : List Event) (pr : Processed) :
    CarriesRects S (rects.map UpdateRect.header) ⟨le, rectsWire rects ++ rest, tr, fmt, pr⟩
      ⟨le, rest, tr ++ rectsCalls le fmt.bytes rects, fmt, rectsCounted rects pr⟩ := by
  induction rects generalizing tr pr with
  | nil => simp [CarriesRects, rectsWire, rectsCalls, rectsCounted]
  | cons r rs ih =>
    obtain ⟨d, hd, hcall⟩ := hreg r (List.mem_cons_self _ _)
    refine ⟨r.payload.wire ++ (rectsWire rs ++ rest), d,
      ⟨le, rectsWire rs ++ rest, tr ++ r.payload.calls le r.rect fmt.bytes, fmt,
        r.payload.counted pr⟩, ?_, hd, ?_, ?_⟩
    · simp [rectsWire, List.append_assoc]
    · rw [hcall]
      exact RectPayload_run r.payload r.rect le _ tr fmt pr (hwf r (List.mem_cons_self _ _))
    · have h := ih (fun x hx => hreg x (List.mem_cons_of_mem _ hx))
        (fun x hx => hwf x (List.mem_cons_of_mem _ hx))
        (tr ++ r.payload.calls le r.rect fmt.bytes) (r.payload.counted pr)
      simpa [rectsCalls, rectsCounted, List.append_assoc] using h

/-- A FramebufferUpdate message of well-formed rectangles for registered decoders:
`Update` returns having read the message, and has made the calls of the payloads and
then sent the update request. -/
theorem Update_payloads_run (S : RFBProto) (ms : Nat) (le : Bool) (padding : Uint8)
    (rects : List UpdateRect) (rest : List Uint8) (tr : List Event) (fmt : PixelFormat)
    (pr : Processed)
    (hreg : ∀ r ∈ rects, ∃ d, S.m_decoders r.payload.encoding.val = some d
      ∧ d.call = r.payload.decoder)
    (hn : rects.length < 65536)
    (hwf : ∀ r ∈ rects, r.payload.WellFormed r.rect fmt.bytes) :
    S.Update ms ⟨le, 0 :: padding :: (be16 rects.length ++ (rectsWire rects ++ rest)), tr, fmt, pr⟩
      = (.ok (), ⟨le, rest,
          tr ++ rectsCalls le fmt.bytes rects ++ updateRequestCalls
            (ScreenRect.ctor 0 0 (intToUint16 S.m_desktop_width)
              (intToUint16 S.m_desktop_height)) true,
          fmt, rectsCounted rects pr⟩) := by
  have hc := rects_carried S le fmt rest rects hreg hwf tr pr
  have h := Update_rects_run S ms
    ⟨le, 0 :: padding :: (be16 rects.length ++ (rectsWire rects ++ rest)), tr, fmt, pr⟩ _
    padding (rects.map UpdateRect.header) (rectsWire rects ++ rest)
    (by simpa using hn) (by simp) hc
  rw [h]

theorem solidRows_confined (width height x y w h pixel : Nat) (hx : x + w ≤ width)
    (hy : y + h ≤ height) :
    ∀ e ∈ solidRows x y w h pixel, e.insideDesktop width height := by
  intro e he
  obtain ⟨i, hi, rfl⟩ := List.mem_map.mp he
  have := List.mem_range.mp hi
  exact ⟨hx, by omega⟩

theorem bufferRows_confined (width height : Nat) (rect : ScreenRect) (bpp : Nat)
    (payload : List Uint8) (hr : rect.insideDesktop width height) :
    ∀ e ∈ bufferRows rect bpp payload, e.insideDesktop width height := by
  intro e he
  obtain ⟨i, hi, rfl⟩ := List.mem_map.mp he
  have := List.mem_range.mp hi
  exact ⟨hr.1, by have := hr.2; omega⟩

theorem rawTileRows_confined (width height x y tw th bpp : Nat) (raw : List Uint8)
    (hx : x + tw ≤ width) (hy : y + th ≤ height) :
    ∀ e ∈ rawTileRows x y tw th bpp raw, e.insideDesktop width height := by
  intro e he
  obtain ⟨i, hi, rfl⟩ := List.mem_map.mp he
  have := List.mem_range.mp hi
  exact ⟨hx, by omega⟩

/-- The fills of RRE subrectangles that lie in a rectangle inside the desktop address
only pixels inside the desktop. -/
theorem filledSubrects_confined (width height : Nat) (le : Bool) (rect : ScreenRect)
    (subs : List RRESubrect) (hr : rect.insideDesktop width height)
    (hsub : ∀ s ∈ subs, s.x.val + s.w.val ≤ rect.w.val ∧ s.y.val + s.h.val ≤ rect.h.val) :
    ∀ e ∈ filledSubrects le rect subs, e.insideDesktop width height := by
  induction subs with
  | nil => intro e he; simp [filledSubrects] at he
  | cons s ss ih =>
    intro e he
    have hs := hsub s (List.mem_cons_self _ _)
    obtain ⟨hx, hy⟩ := hr
    simp only [filledSubrects, List.mem_append] at he
    rcases he with he | he
    · have h1 := Nat.mod_le (rect.x.val + s.x.val) 65536
      have h2 := Nat.mod_le (rect.y.val + s.y.val) 65536
      exact solidRows_confined width height _ _ _ _ _ (by omega) (by omega) e he
    · exact ih (fun t ht => hsub t (List.mem_cons_of_mem _ ht)) e he

theorem hexSubrectFills_confined (width height X Y tw th : Nat) (colored : Bool) (fg : Nat)
    (subs : List HexSubrect) (hX : X + tw ≤ width) (hY : Y + th ≤ height)
    (hsub : ∀ s ∈ subs, (s.xy.val >>> 4) + (1 + (s.wh.val >>> 4)) ≤ tw
      ∧ (s.xy.val &&& 15) + (1 + (s.wh.val &&& 15)) ≤ th) :
    ∀ e ∈ hexSubrectFills X Y colored fg subs, e.insideDesktop width height := by
  induction subs with
  | nil => intro e he; simp [hexSubrectFills] at he
  | cons s ss ih =>
    intro e he
    have hs := hsub s (List.mem_cons_self _ _)
    simp only [hexSubrectFills, List.mem_append] at he
    rcases he with he | he
    · have h1 := Nat.mod_le (X + (s.xy.val >>> 4)) 65536
      have h2 := Nat.mod_le (Y + (s.xy.val &&& 15)) 65536
      exact solidRows_confined width height _ _ _ _ _ (by omega) (by omega) e he
    · exact ih (fun t ht => hsub t (List.mem_cons_of_mem _ ht)) e he

theorem tileFills_confined (width height : Nat) (rect : ScreenRect)
    (bpp tile_y th tile_x : Nat) (c : HextileColors) (t : HexTile)
    (hin : t.SubrectsInside (min 16 (rect.w.val - tile_x)) th)
    (htx : tile_x < rect.w.val) (hty : tile_y + th ≤ rect.h.val)
    (hr : rect.insideDesktop width height) :
    ∀ e ∈ tileFills rect bpp tile_y th tile_x c t, e.insideDesktop width height := by
  intro e he
  obtain ⟨hx, hy⟩ := hr
  unfold tileFills at he
  split at he
  · exact rawTileRows_confined width height _ _ _ _ _ _ (by omega) (by omega) e he
  · rename_i hraw
    have hsub := hin.resolve_left hraw
    have h1 := Nat.mod_le (tile_x + rect.x.val) 65536
    have h2 := Nat.mod_le (tile_y + rect.y.val) 65536
    rcases List.mem_append.mp he with he | he
    · exact solidRows_confined width height _ _ _ _ _ (by omega) (by omega) e he
    · exact hexSubrectFills_confined width height _ _ (min 16 (rect.w.val - tile_x)) th _ _
        t.subrects (by omega) (by omega) hsub e he

theorem rowFills_confined (width height : Nat) (rect : ScreenRect) (bpp tile_y th : Nat)
    (xs : List Nat) (row : List HexTile) (hin : RowInside rect th xs row)
    (hxs : ∀ x ∈ xs, x < rect.w.val) (hty : tile_y + th ≤ rect.h.val)
    (hr : rect.insideDesktop width height) (c : HextileColors) :
    ∀ e ∈ rowFills rect bpp tile_y th xs row c, e.insideDesktop width height := by
  induction xs generalizing row c with
  | nil => intro e he; simp [rowFills] at he
  | cons x xs ih =>
    cases row with
    | nil => intro e he; simp [rowFills] at he
    | cons t ts =>
      intro e he
      obtain ⟨ht, hts⟩ := hin
      simp only [rowFills, List.mem_append] at he
      rcases he with he | he
      · exact tileFills_confined width height rect bpp tile_y th x c t ht
          (hxs x (List.mem_cons_self _ _)) hty hr e he
      · exact ih ts hts (fun y hy => hxs y (List.mem_cons_of_mem _ hy)) (tileColors c t) e he

theorem rectFills_confined (width height : Nat) (rect : ScreenRect) (bpp : Nat)
    (ys : List Nat) (rows : List (List HexTile)) (hin : HexInside rect ys rows)
    (hys : ∀ y ∈ ys, y < rect.h.val) (hr : rect.insideDesktop width height)
    (c : HextileColors) :
    ∀ e ∈ rectFills rect bpp ys rows c, e.insideDesktop width height := by
  induction ys generalizing rows c with
  | nil => intro e he; simp [rectFills] at he
  | cons y ys ih =>
    cases rows with
    | nil => intro e he; simp [rectFills] at he
    | cons row rows =>
      intro e he
      obtain ⟨hrow, hrs⟩ := hin
      have hy := hys y (List.mem_cons_self _ _)
      simp only [rectFills, List.mem_append] at he
      rcases he with he | he
      · exact rowFills_confined width height rect bpp y _ (tileOffsets rect.w.val) row hrow
          (fun x hx => ((mem_tileOffsets _ _).mp hx).1) (by omega) hr c e he
      · exact ih rows hrs (fun z hz => hys z (List.mem_cons_of_mem _ hz)) (rowColors c row)
          e he

/-- The calls for a payload address only pixels inside the desktop when the rectangle
lies inside the desktop and what the payload refers to lies where the protocol wants
it. -/
theorem RectPayload_confined (width height : Nat) (le : Bool) (rect : ScreenRect) (bpp : Nat)
    (p : RectPayload) (hr : rect.insideDesktop width height)
    (hin : p.Inside rect width height) :
    ∀ e ∈ p.calls le rect bpp, e.insideDesktop width height := by
  intro e he
  cases p with
  | raw bytes =>
    simp only [RectPayload.calls, List.mem_append, List.mem_singleton] at he
    rcases he with (he | he) | he
    · subst he; trivial
    · exact bufferRows_confined width height rect bpp bytes hr e he
    · subst he; trivial
  | copyrect src_x src_y =>
    simp only [RectPayload.calls, List.mem_cons, List.mem_singleton, List.mem_nil_iff,
      or_false] at he
    rcases he with he | he | he
    · subst he; trivial
    · subst he; exact ⟨hin.1, hin.2, hr.1, hr.2⟩
    · subst he; trivial
  | rre bg subs =>
    simp only [RectPayload.calls, List.mem_append, List.mem_singleton] at he
    rcases he with ((he | he) | he) | he
    · subst he; trivial
    · exact solidRows_confined width height _ _ _ _ _ hr.1 hr.2 e he
    · exact filledSubrects_confined width height le rect subs hr hin e he
    · subst he; trivial
  | corre bg subs =>
    simp only [RectPayload.calls, List.mem_append, List.mem_singleton] at he
    rcases he with ((he | he) | he) | he
    · subst he; trivial
    · exact solidRows_confined width height _ _ _ _ _ hr.1 hr.2 e he
    · refine filledSubrects_confined width height le rect (subs.map CoRRESubrect.widen) hr
        ?_ e he
      intro s hs
      obtain ⟨t, ht, rfl⟩ := List.mem_map.mp hs
      have := hin t ht
      simp only [CoRRESubrect.widen, toUint16_val]
      omega
    · subst he; trivial
  | hextile rows =>
    simp only [RectPayload.calls, hextileCalls, List.mem_append, List.mem_singleton] at he
    rcases he with (he | he) | he
    · subst he; trivial
    · exact rectFills_confined width height rect bpp (tileOffsets rect.h.val) rows hin
        (fun y hy => ((mem_tileOffsets _ _).mp hy).1) hr ⟨0, 0⟩ e he
    · subst he; trivial

theorem rectsCalls_confined (width height : Nat) (le : Bool) (bpp : Nat)
    (rects : List UpdateRect)
    (hrect : ∀ r ∈ rects, r.rect.insideDesktop width height)
    (hsub : ∀ r ∈ rects, r.payload.Inside r.rect width height) :
    ∀ e ∈ rectsCalls le bpp rects, e.insideDesktop width height := by
  induction rects with
  | nil => intro e he; simp [rectsCalls] at he
  | cons r rs ih =>
    intro e he
    simp only [rectsCalls, List.mem_append] at he
    rcases he with he | he
    · exact RectPayload_confined width height le r.rect bpp r.payload
        (hrect r (List.mem_cons_self _ _)) (hsub r (List.mem_cons_self _ _)) e he
    · exact ih (fun x hx => hrect x (List.mem_cons_of_mem _ hx))
        (fun x hx => hsub x (List.mem_cons_of_mem _ hx)) e he
theorem fiveSession_registers (p : RectPayload) :
    ∃ d, fiveSession.m_decoders p.encoding.val = some d ∧ d.call = p.decoder := by
  cases p <;> exact ⟨_, rfl, rfl⟩

/-- On the desktop of 20 by 20 pixels, an RRE rectangle `(0, 0, 2, 2)` with a
subrectangle of one pixel at `(30, 30)`: the decoder fills it there. -/
theorem fiveSession_rre_outside :
    fiveSession.Update 100
        ⟨true, [0, 0, 0, 1, 0, 0, 0, 0, 0, 2, 0, 2, 0, 0, 0, 2,
          0, 0, 0, 1, 1, 0, 0, 0, 2, 0, 0, 0, 0, 30, 0, 30, 0, 1, 0, 1], [],
          ⟨4, 24, 255, 255, 255, 16, 8, 0, false⟩, ⟨0, 0, 0, 0, 0, 0⟩⟩
      = (.ok (),
        ⟨true, [],
          [Event.BeginDrawing, Event.WriteUniformPixels 0 0 2 1,
            Event.WriteUniformPixels 0 1 2 1, Event.WriteUniformPixels 30 30 1 2,
            Event.EndDrawing ⟨0, 0, 2, 2⟩,
            Event.BeginWritePacket, Event.SendBytes [3], Event.SendBytes [1],
            Event.SendBytes [0, 0], Event.SendBytes [0, 0], Event.SendBytes [0, 20],
            Event.SendBytes [0, 20], Event.EndWritePacket],
          ⟨4, 24, 255, 255, 255, 16, 8, 0, false⟩, ⟨0, 0, 1, 0, 0, 0⟩⟩) := by
  have h := Update_payloads_run fiveSession 100 true 0
    [⟨⟨0, 0, 2, 2⟩, .rre [1, 0, 0, 0] [⟨[2, 0, 0, 0], 30, 30, 1, 1⟩]⟩] [] []
    ⟨4, 24, 255, 255, 255, 16, 8, 0, false⟩ ⟨0, 0, 0, 0, 0, 0⟩
    (fun r _ => fiveSession_registers r.payload) (by decide) (by decide)
  have hin : (0 :: 0 :: (be16 ([⟨⟨0, 0, 2, 2⟩,
        .rre [1, 0, 0, 0] [⟨[2, 0, 0, 0], 30, 30, 1, 1⟩]⟩] : List UpdateRect).length
      ++ (rectsWire [⟨⟨0, 0, 2, 2⟩, .rre [1, 0, 0, 0] [⟨[2, 0, 0, 0], 30, 30, 1, 1⟩]⟩]
        ++ [])) : List Uint8)
      = [0, 0, 0, 1, 0, 0, 0, 0, 0, 2, 0, 2, 0, 0, 0, 2,
          0, 0, 0, 1, 1, 0, 0, 0, 2, 0, 0, 0, 0, 30, 0, 30, 0, 1, 0, 1] := by decide
  rw [hin] at h
  rw [h]
  decide

/-- On the desktop of 20 by 20 pixels, a CoRRE rectangle `(0, 0, 2, 2)` with a
subrectangle of one pixel at `(30, 30)`: the decoder fills it there. -/
theorem fiveSession_corre_outside :
    fiveSession.Update 100
        ⟨true, [0, 0, 0, 1, 0, 0, 0, 0, 0, 2, 0, 2, 0, 0, 0, 4,
          0, 0, 0, 1, 1, 0, 0, 0, 2, 0, 0, 0, 30, 30, 1, 1], [],
          ⟨4, 24, 255, 255, 255, 16, 8, 0, false⟩, ⟨0, 0, 0, 0, 0, 0⟩⟩
      = (.ok (),
        ⟨true, [],
          [Event.BeginDrawing, Event.WriteUniformPixels 0 0 2 1,
            Event.WriteUniformPixels 0 1 2 1, Event.WriteUniformPixels 30 30 1 2,
            Event.EndDrawing ⟨0, 0, 2, 2⟩,
            Event.BeginWritePacket, Event.SendBytes [3], Event.SendBytes [1],
            Event.SendBytes [0, 0], Event.SendBytes [0, 0], Event.SendBytes [0, 20],
            Event.SendBytes [0, 20], Event.EndWritePacket],
          ⟨4, 24, 255, 255, 255, 16, 8, 0, false⟩, ⟨0, 0, 0, 1, 0, 0⟩⟩) := by
  have h := Update_payloads_run fiveSession 100 true 0
    [⟨⟨0, 0, 2, 2⟩, .corre [1, 0, 0, 0] [⟨[2, 0, 0, 0], 30, 30, 1, 1⟩]⟩] [] []
    ⟨4, 24, 255, 255, 255, 16, 8, 0, false⟩ ⟨0, 0, 0, 0, 0, 0⟩
    (fun r _ => fiveSession_registers r.payload) (by decide) (by decide)
  have hin : (0 :: 0 :: (be16 ([⟨⟨0, 0, 2, 2⟩,
        .corre [1, 0, 0, 0] [⟨[2, 0, 0, 0], 30, 30, 1, 1⟩]⟩] : List UpdateRect).length
      ++ (rectsWire [⟨⟨0, 0, 2, 2⟩, .corre [1, 0, 0, 0] [⟨[2, 0, 0, 0], 30, 30, 1, 1⟩]⟩]
        ++ [])) : List Uint8)
      = [0, 0, 0, 1, 0, 0, 0, 0, 0, 2, 0, 2, 0, 0, 0, 4,
          0, 0, 0, 1, 1, 0, 0, 0, 2, 0, 0, 0, 30, 30, 1, 1] := by decide
  rw [hin] at h
  rw [h]
  decide

/-- On the desktop of 20 by 20 pixels, a Hextile rectangle `(4, 4, 16, 16)` whose one
tile has a subrectangle of 16 pixels from column 15 on: the decoder fills it from
`(19, 4)` on. -/
theorem fiveSession_hextile_outside :
    (fiveSession.Update 100
        ⟨true, [0, 0, 0, 1, 0, 4, 0, 4, 0, 16, 0, 16, 0, 0, 0, 5, 0x08, 1, 0xF0, 0xF0], [],
          ⟨4, 24, 255, 255, 255, 16, 8, 0, false⟩, ⟨0, 0, 0, 0, 0, 0⟩⟩).1 = .ok ()
      ∧ Event.WriteUniformPixels 19 4 16 0 ∈ (fiveSession.Update 100
        ⟨true, [0, 0, 0, 1, 0, 4, 0, 4, 0, 16, 0, 16, 0, 0, 0, 5, 0x08, 1, 0xF0, 0xF0], [],
          ⟨4, 24, 255, 255, 255, 16, 8, 0, false⟩, ⟨0, 0, 0, 0, 0, 0⟩⟩).2.trace := by
  have h := Update_payloads_run fiveSession 100 true 0
    [⟨⟨4, 4, 16, 16⟩, .hextile [[⟨0x08, [], [], [], [⟨[], 0xF0, 0xF0⟩]⟩]]⟩] [] []
    ⟨4, 24, 255, 255, 255, 16, 8, 0, false⟩ ⟨0, 0, 0, 0, 0, 0⟩
    (fun r _ => fiveSession_registers r.payload) (by decide) (by decide)
  have hin : (0 :: 0 :: (be16 ([⟨⟨4, 4, 16, 16⟩,
        .hextile [[⟨0x08, [], [], [], [⟨[], 0xF0, 0xF0⟩]⟩]]⟩] : List UpdateRect).length
      ++ (rectsWire [⟨⟨4, 4, 16, 16⟩, .hextile [[⟨0x08, [], [], [], [⟨[], 0xF0, 0xF0⟩]⟩]]⟩]
        ++ [])) : List Uint8)
      = [0, 0, 0, 1, 0, 4, 0, 4, 0, 16, 0, 16, 0, 0, 0, 5, 0x08, 1, 0xF0, 0xF0] := by decide
  rw [hin] at h
  rw [h]
  refine ⟨rfl, ?_⟩
  simp only
  decide

/-- On the desktop of 20 by 20 pixels, a CopyRect rectangle `(0, 0, 1, 1)` with the
source `(30, 30)`: the decoder copies from there. -/
theorem fiveSession_copyrect_outside :
    fiveSession.Update 100
        ⟨true, [0, 0, 0, 1, 0, 0, 0, 0, 0, 1, 0, 1, 0, 0, 0, 1, 0, 30, 0, 30], [],
          ⟨4, 24, 255, 255, 255, 16, 8, 0, false⟩, ⟨0, 0, 0, 0, 0, 0⟩⟩
      = (.ok (),
        ⟨true, [],
          [Event.BeginDrawing, Event.CopyPixels 30 30 0 0 1 1, Event.EndDrawing ⟨0, 0, 1, 1⟩,
            Event.BeginWritePacket, Event.SendBytes [3], Event.SendBytes [1],
            Event.SendBytes [0, 0], Event.SendBytes [0, 0], Event.SendBytes [0, 20],
            Event.SendBytes [0, 20], Event.EndWritePacket],
          ⟨4, 24, 255, 255, 255, 16, 8, 0, false⟩, ⟨0, 1, 0, 0, 0, 0⟩⟩) := by
  have h := Update_payloads_run fiveSession 100 true 0
    [⟨⟨0, 0, 1, 1⟩, .copyrect 30 30⟩] [] []
    ⟨4, 24, 255, 255, 255, 16, 8, 0, false⟩ ⟨0, 0, 0, 0, 0, 0⟩
    (fun r _ => fiveSession_registers r.payload) (by decide) (by decide)
  have hin : (0 :: 0 :: (be16 ([⟨⟨0, 0, 1, 1⟩, .copyrect 30 30⟩] : List UpdateRect).length
      ++ (rectsWire [⟨⟨0, 0, 1, 1⟩, .copyrect 30 30⟩] ++ [])) : List Uint8)
      = [0, 0, 0, 1, 0, 0, 0, 0, 0, 1, 0, 1, 0, 0, 0, 1, 0, 30, 0, 30] := by decide
  rw [hin] at h
  rw [h]
  decide

/-- Claim C37 fails on the code, for each of its two parts and for the source of a copy.
A FramebufferUpdate for a 1x1 desktop that carries one Raw rectangle of one pixel at
`(5, 5)`: `Update` hands the rectangle to the decoder as it is, the message is processed
without an error, and the decoder writes the pixel at `(5, 5)`, outside the desktop.  And
on a desktop of 20 by 20 pixels, with rectangles that lie inside the desktop: an RRE
rectangle `(0, 0, 2, 2)` with a subrectangle at `(30, 30)` is filled at `(30, 30)`; a
CoRRE rectangle `(0, 0, 2, 2)` with a subrectangle at `(30, 30)` likewise; a Hextile
rectangle `(4, 4, 16, 16)` with a subrectangle of 16 pixels from column 15 of its tile is
filled over the columns 19 to 34; and a CopyRect rectangle `(0, 0, 1, 1)` with the source
`(30, 30)` copies from there. -/
theorem Update_draws_outside_desktop :
    (rawOnlySession.m_desktop_width = 1 ∧ rawOnlySession.m_desktop_height = 1
      ∧ rawOnlySession.Update 100
          (freshWorld [0, 0, 0, 1, 0, 5, 0, 5, 0, 1, 0, 1, 0, 0, 0, 0, 0xAA, 0xBB, 0xCC, 0xDD])
        = (.ok (),
          ⟨true, [],
            [Event.BeginDrawing, Event.WritePixels 5 5 1 [0xAA, 0xBB, 0xCC, 0xDD],
              Event.EndDrawing ⟨5, 5, 1, 1⟩,
              Event.BeginWritePacket, Event.SendBytes [3], Event.SendBytes [1],
              Event.SendBytes [0, 0], Event.SendBytes [0, 0], Event.SendBytes [0, 1],
              Event.SendBytes [0, 1], Event.EndWritePacket],
            ⟨4, 24, 255, 255, 255, 16, 8, 0, false⟩, ⟨1, 0, 0, 0, 0, 0⟩⟩)
      ∧ ¬ (Event.WritePixels 5 5 1 [0xAA, 0xBB, 0xCC, 0xDD]).insideDesktop 1 1)
    ∧ (fiveSession.m_desktop_width = 20 ∧ fiveSession.m_desktop_height = 20
      ∧ (⟨0, 0, 2, 2⟩ : ScreenRect).insideDesktop 20 20
      ∧ fiveSession.Update 100
          (freshWorld [0, 0, 0, 1, 0, 0, 0, 0, 0, 2, 0, 2, 0, 0, 0, 2,
            0, 0, 0, 1, 1, 0, 0, 0, 2, 0, 0, 0, 0, 30, 0, 30, 0, 1, 0, 1])
        = (.ok (),
          ⟨true, [],
            [Event.BeginDrawing, Event.WriteUniformPixels 0 0 2 1,
              Event.WriteUniformPixels 0 1 2 1, Event.WriteUniformPixels 30 30 1 2,
              Event.EndDrawing ⟨0, 0, 2, 2⟩,
              Event.BeginWritePacket, Event.SendBytes [3], Event.SendBytes [1],
              Event.SendBytes [0, 0], Event.SendBytes [0, 0], Event.SendBytes [0, 20],
              Event.SendBytes [0, 20], Event.EndWritePacket],
            ⟨4, 24, 255, 255, 255, 16, 8, 0, false⟩, ⟨0, 0, 1, 0, 0, 0⟩⟩)
      ∧ ¬ (Event.WriteUniformPixels 30 30 1 2).insideDesktop 20 20)
    ∧ (fiveSession.Update 100
          (freshWorld [0, 0, 0, 1, 0, 0, 0, 0, 0, 2, 0, 2, 0, 0, 0, 4,
            0, 0, 0, 1, 1, 0, 0, 0, 2, 0, 0, 0, 30, 30, 1, 1])
        = (.ok (),
          ⟨true, [],
            [Event.BeginDrawing, Event.WriteUniformPixels 0 0 2 1,
              Event.WriteUniformPixels 0 1 2 1, Event.WriteUniformPixels 30 30 1 2,
              Event.EndDrawing ⟨0, 0, 2, 2⟩,
              Event.BeginWritePacket, Event.SendBytes [3], Event.SendBytes [1],
              Event.SendBytes [0, 0], Event.SendBytes [0, 0], Event.SendBytes [0, 20],
              Event.SendBytes [0, 20], Event.EndWritePacket],
            ⟨4, 24, 255, 255, 255, 16, 8, 0, false⟩, ⟨0, 0, 0, 1, 0, 0⟩⟩))
    ∧ ((⟨4, 4, 16, 16⟩ : ScreenRect).insideDesktop 20 20
      ∧ (fiveSession.Update 100
          (freshWorld [0, 0, 0, 1, 0, 4, 0, 4, 0, 16, 0, 16, 0, 0, 0, 5,
            0x08, 1, 0xF0, 0xF0])).1 = .ok ()
      ∧ Event.WriteUniformPixels 19 4 16 0 ∈ (fiveSession.Update 100
          (freshWorld [0, 0, 0, 1, 0, 4, 0, 4, 0, 16, 0, 16, 0, 0, 0, 5,
            0x08, 1, 0xF0, 0xF0])).2.trace
      ∧ ¬ (Event.WriteUniformPixels 19 4 16 0).insideDesktop 20 20)
    ∧ ((⟨0, 0, 1, 1⟩ : ScreenRect).insideDesktop 20 20
      ∧ fiveSession.Update 100
          (freshWorld [0, 0, 0, 1, 0, 0, 0, 0, 0, 1, 0, 1, 0, 0, 0, 1, 0, 30, 0, 30])
        = (.ok (),
          ⟨true, [],
            [Event.BeginDrawing, Event.CopyPixels 30 30 0 0 1 1, Event.EndDrawing ⟨0, 0, 1, 1⟩,
              Event.BeginWritePacket, Event.SendBytes [3], Event.SendBytes [1],
              Event.SendBytes [0, 0], Event.SendBytes [0, 0], Event.SendBytes [0, 20],
              Event.SendBytes [0, 20], Event.EndWritePacket],
            ⟨4, 24, 255, 255, 255, 16, 8, 0, false⟩, ⟨0, 1, 0, 0, 0, 0⟩⟩)
      ∧ ¬ (Event.CopyPixels 30 30 0 0 1 1).insideDesktop 20 20) := by
  unfold freshWorld
  refine ⟨⟨rfl, rfl, ?_, by decide⟩,
    ⟨rfl, rfl, by decide, fiveSession_rre_outside, by decide⟩, fiveSession_corre_outside,
    ⟨by decide, fiveSession_hextile_outside.1, fiveSession_hextile_outside.2, by decide⟩,
    ⟨by decide, fiveSession_copyrect_outside, by decide⟩⟩
  exact Update_rects_run rawOnlySession 100 _
    ⟨true, [],
      [Event.BeginDrawing, Event.WritePixels 5 5 1 [0xAA, 0xBB, 0xCC, 0xDD],
        Event.EndDrawing ⟨5, 5, 1, 1⟩],
      ⟨4, 24, 255, 255, 255, 16, 8, 0, false⟩, ⟨1, 0, 0, 0, 0, 0⟩⟩
    0 [⟨⟨5, 5, 1, 1⟩, 0⟩] [0, 5, 0, 5, 0, 1, 0, 1, 0, 0, 0, 0, 0xAA, 0xBB, 0xCC, 0xDD]
    (by decide) (by decide)
    ⟨[0xAA, 0xBB, 0xCC, 0xDD], ⟨0, DecoderRAW⟩, _, by decide, rfl, by decide, rfl⟩

theorem mem_rectsCalls (le : Bool) (bpp : Nat) (rects : List UpdateRect) (r : UpdateRect)
    (hr : r ∈ rects) (e : Event) (he : e ∈ r.payload.calls le r.rect bpp) :
    e ∈ rectsCalls le bpp rects := by
  induction rects with
  | nil => simp at hr
  | cons r0 rs ih =>
    simp only [rectsCalls, List.mem_append]
    rcases List.mem_cons.mp hr with rfl | hr
    · exact Or.inl he
    · exact Or.inr (ih hr)

/-- Claim C37, amended. While processing a FramebufferUpdate of well-formed rectangles
for the decoders of the program (Raw, CopyRect, RRE, CoRRE, Hextile), in which every
rectangle satisfies `x + w <= desktop width` and `y + h <= desktop height`, the source
rectangle of every CopyRect lies inside the desktop, every subrectangle of an RRE or
CoRRE rectangle lies inside its rectangle, and every subrectangle of a Hextile tile lies
inside its tile: `Update` returns having read the message, the calls it has added to the
trace hold the calls of every rectangle's decoder, and every one of them addresses only
pixels inside the desktop. -/
theorem Update_draws_inside_desktop (S : RFBProto) (ms : Nat) (W : World) (padding : Uint8)
    (rects : List UpdateRect) (rest : List Uint8)
    (hreg : ∀ r ∈ rects, ∃ d, S.m_decoders r.payload.encoding.val = some d
      ∧ d.call = r.payload.decoder)
    (hn : rects.length < 65536)
    (hin : W.input = 0 :: padding :: (be16 rects.length ++ (rectsWire rects ++ rest)))
    (hwf : ∀ r ∈ rects, r.payload.WellFormed r.rect W.disp_format.bytes)
    (hrect : ∀ r ∈ rects,
      r.rect.insideDesktop S.m_desktop_width.toNat S.m_desktop_height.toNat)
    (hsub : ∀ r ∈ rects,
      r.payload.Inside r.rect S.m_desktop_width.toNat S.m_desktop_height.toNat) :
    (S.Update ms W).1 = .ok ()
      ∧ (S.Update ms W).2.input = rest
      ∧ ∃ calls, (S.Update ms W).2.trace = W.trace ++ calls
        ∧ (∀ r ∈ rects,
            ∀ e ∈ r.payload.calls W.little_endian r.rect W.disp_format.bytes, e ∈ calls)
        ∧ ∀ e ∈ calls,
            e.insideDesktop S.m_desktop_width.toNat S.m_desktop_height.toNat := by
  obtain ⟨le, inp, tr, fmt, pr⟩ := W
  simp only at hin hwf
  subst hin
  rw [Update_payloads_run S ms le padding rects rest tr fmt pr hreg hn hwf]
  refine ⟨rfl, rfl, rectsCalls le fmt.bytes rects ++ updateRequestCalls
    (ScreenRect.ctor 0 0 (intToUint16 S.m_desktop_width) (intToUint16 S.m_desktop_height)) true,
    by simp only [List.append_assoc], ?_, ?_⟩
  · intro r hr e he
    exact List.mem_append_left _ (mem_rectsCalls le fmt.bytes rects r hr e he)
  · intro e he
    rcases List.mem_append.mp he with h | h
    · exact rectsCalls_confined _ _ le fmt.bytes rects hrect hsub e h
    · simp only [updateRequestCalls, List.mem_cons, List.mem_singleton, List.mem_nil_iff,
        or_false] at h
      rcases h with rfl | rfl | rfl | rfl | rfl | rfl | rfl | rfl <;> trivial

/-- Claim C37, amended, at a message of five rectangles, one of each encoding, for a
session that registers the five decoders and has a desktop of 20 by 20 pixels. -/
theorem Update_draws_inside_desktop_witness :
    (fiveSession.Update 100
        ⟨true, 0 :: 0 :: (be16 fiveRects.length ++ (rectsWire fiveRects ++ [])), [],
          ⟨4, 24, 255, 255, 255, 16, 8, 0, false⟩, ⟨0, 0, 0, 0, 0, 0⟩⟩).1 = .ok ()
      ∧ (fiveSession.Update 100
        ⟨true, 0 :: 0 :: (be16 fiveRects.length ++ (rectsWire fiveRects ++ [])), [],
          ⟨4, 24, 255, 255, 255, 16, 8, 0, false⟩, ⟨0, 0, 0, 0, 0, 0⟩⟩).2.input = []
      ∧ ∃ calls, (fiveSession.Update 100
          ⟨true, 0 :: 0 :: (be16 fiveRects.length ++ (rectsWire fiveRects ++ [])), [],
            ⟨4, 24, 255, 255, 255, 16, 8, 0, false⟩, ⟨0, 0, 0, 0, 0, 0⟩⟩).2.trace = [] ++ calls
        ∧ (∀ r ∈ fiveRects, ∀ e ∈ r.payload.calls true r.rect 4, e ∈ calls)
        ∧ ∀ e ∈ calls, e.insideDesktop 20 20 :=
  Update_draws_inside_desktop fiveSession 100
    ⟨true, 0 :: 0 :: (be16 fiveRects.length ++ (rectsWire fiveRects ++ [])), [],
      ⟨4, 24, 255, 255, 255, 16, 8, 0, false⟩, ⟨0, 0, 0, 0, 0, 0⟩⟩ 0 fiveRects []
    (fun r _ => fiveSession_registers r.payload) (by decide) rfl (by decide) (by decide)
    (by decide)

/-! ## Receiving over the SDL_net socket -/

theorem SDL_ReceiveBytes_zero (fuel : Nat) (s : Socket) :
    SDLNetworkClient.ReceiveBytes (fuel + 1) 0 s = some (.ok [], s) := by
  simp [SDLNetworkClient.ReceiveBytes, SDLNetworkClient.ReceiveBytes.loop, toInt32]

/-- With a count of 2^31 or more `(int)count` is negative: `ReceiveBytes` returns at once,
without a call of `SDLNet_TCP_Recv` and with nothing stored. -/
theorem SDL_ReceiveBytes_large (fuel : Nat) (count : Nat) (s : Socket)
    (h1 : 2147483648 ≤ count) (h2 : count < 4294967296) :
    SDLNetworkClient.ReceiveBytes (fuel + 1) count s = some (.ok [], s) := by
  have h : ¬ (0 : Int) < toInt32 count := by
    rw [toInt32_large count h1 h2]; omega
  simp [SDLNetworkClient.ReceiveBytes, SDLNetworkClient.ReceiveBytes.loop, h]

theorem take_append_split (b d : List Uint8) (m : Nat) :
    b.take m ++ ((b ++ d).drop (b.take m).length).take (m - (b.take m).length)
      = (b ++ d).take m := by
  by_cases h : m ≤ b.length
  · have hl : (b.take m).length = m := by rw [List.length_take]; omega
    rw [hl, Nat.sub_self, List.take_zero, List.append_nil, List.take_append_of_le_length h]
  · have hl : b.take m = b := List.take_of_length_le (by omega)
    rw [hl, List.drop_left, List.take_append_eq_append_take, hl]

theorem drop_append_split (b d : List Uint8) (m : Nat) :
    ((b ++ d).drop (b.take m).length).drop (m - (b.take m).length) = (b ++ d).drop m := by
  have hl : (b.take m).length ≤ m := by rw [List.length_take]; omega
  rw [List.drop_drop]
  congr 1
  omega

/-- The loop of `ReceiveBytes` for a count below 2^31, from any turn on: `buf` holds what
has been stored, and `n - buf.length` bytes are missing. When the socket delivers that
many bytes before its first failure, the loop returns with exactly them added to `buf` in
stream order, the rest of the stream is left in the socket, and every request made is
positive and at most the number of bytes missing; when it does not, the loop fails with
`Read`. -/
theorem SDL_ReceiveBytes_loop (n : Nat) (fuel : Nat) :
    ∀ (buf : List Uint8) (s : Socket), buf.length ≤ n → n - buf.length < fuel →
      (n - buf.length ≤ (deliverable s.pending).length →
        ∃ s1, SDLNetworkClient.ReceiveBytes.loop (n : Int) fuel (buf.length : Int) buf s
            = some (.ok (buf ++ (deliverable s.pending).take (n - buf.length)), s1)
          ∧ deliverable s1.pending = (deliverable s.pending).drop (n - buf.length)
          ∧ ∃ reqs, s1.requests = s.requests ++ reqs
            ∧ ∀ r ∈ reqs, 0 < r ∧ r ≤ ((n - buf.length : Nat) : Int))
      ∧ ((deliverable s.pending).length < n - buf.length →
        ∃ s1, SDLNetworkClient.ReceiveBytes.loop (n : Int) fuel (buf.length : Int) buf s
            = some (.error .Read, s1)
          ∧ ∃ reqs, s1.requests = s.requests ++ reqs
            ∧ ∀ r ∈ reqs, 0 < r ∧ r ≤ ((n - buf.length : Nat) : Int)) := by
  induction fuel with
  | zero => intro buf s _ h; omega
  | succ fuel ih =>
    intro buf s hle hfuel
    by_cases hdone : buf.length = n
    · -- nothing is missing
      have hnot : ¬ ((buf.length : Int) < (n : Int)) := by omega
      have hz : n - buf.length = 0 := by omega
      simp only [SDLNetworkClient.ReceiveBytes.loop, hnot, if_false, hz]
      refine ⟨fun _ => ⟨s, by simp, by simp, [], by simp, by simp⟩, fun h => ?_⟩
      omega
    · have hlt : (buf.length : Int) < (n : Int) := by omega
      have hneed : ((n : Int) - (buf.length : Int)).toNat = n - buf.length := by omega
      obtain ⟨pending, requests⟩ := s
      simp only [SDLNetworkClient.ReceiveBytes.loop, hlt, if_true]
      cases pending with
      | nil =>
        simp only [SDLNet_TCP_Recv, deliverable, List.length_nil]
        refine ⟨fun h => by omega, fun _ =>
          ⟨⟨[], requests ++ [(n : Int) - (buf.length : Int)]⟩, by simp,
            [(n : Int) - (buf.length : Int)], rfl, ?_⟩⟩
        intro r hr
        simp only [List.mem_singleton] at hr
        subst hr
        omega
      | cons a rest =>
        cases a with
        | fail code =>
          simp only [SDLNet_TCP_Recv, deliverable, List.length_nil]
          refine ⟨fun h => by omega, fun _ =>
            ⟨⟨rest, requests ++ [(n : Int) - (buf.length : Int)]⟩, ?_,
              [(n : Int) - (buf.length : Int)], rfl, ?_⟩⟩
          · have : -(code : Int) ≤ 0 := by omega
            simp [this]
          · intro r hr
            simp only [List.mem_singleton] at hr
            subst hr
            omega
        | data bytes =>
          by_cases hb : bytes = []
          · subst hb
            simp only [SDLNet_TCP_Recv, deliverable, List.isEmpty_nil, if_true, List.length_nil,
              List.take_nil, List.drop_nil]
            refine ⟨fun h => by omega, fun _ =>
              ⟨⟨rest, requests ++ [(n : Int) - (buf.length : Int)]⟩, by simp,
                [(n : Int) - (buf.length : Int)], rfl, ?_⟩⟩
            intro r hr
            simp only [List.mem_singleton] at hr
            subst hr
            omega
          · have hbl : 0 < bytes.length := List.length_pos.mpr hb
            have hbe : bytes.isEmpty = false := by
              cases bytes with
              | nil => exact absurd rfl hb
              | cons _ _ => rfl
            have hgot : 0 < (bytes.take (n - buf.length)).length := by
              rw [List.length_take]; omega
            have hamt : ¬ (((bytes.take (n - buf.length)).length : Int) ≤ 0) := by omega
            have hlen : ((buf.length : Int) + ((bytes.take (n - buf.length)).length : Int))
                = ((buf ++ bytes.take (n - buf.length)).length : Int) := by
              rw [List.length_append]; omega
            have hle1 : (buf ++ bytes.take (n - buf.length)).length ≤ n := by
              rw [List.length_append, List.length_take]; omega
            have hfuel1 : n - (buf ++ bytes.take (n - buf.length)).length < fuel := by
              rw [List.length_append]; omega
            simp only [SDLNet_TCP_Recv, hneed, hamt, if_false, hlen, deliverable, hbe,
              Bool.false_eq_true]
            obtain ⟨ihok, iherr⟩ := ih (buf ++ bytes.take (n - buf.length))
              ⟨if (bytes.drop (n - buf.length)).isEmpty then rest
                else RecvAnswer.data (bytes.drop (n - buf.length)) :: rest,
                requests ++ [(n : Int) - (buf.length : Int)]⟩ hle1 hfuel1
            -- what the socket still delivers after this call
            have hdel : deliverable
                (if (bytes.drop (n - buf.length)).isEmpty then rest
                  else RecvAnswer.data (bytes.drop (n - buf.length)) :: rest)
                = (bytes ++ deliverable rest).drop (bytes.take (n - buf.length)).length := by
              by_cases hleft : bytes.drop (n - buf.length) = []
              · have hshort : bytes.length ≤ n - buf.length := by
                  have := congrArg List.length hleft
                  simp only [List.length_drop, List.length_nil] at this
                  omega
                simp only [hleft, List.isEmpty_nil, if_true, List.take_of_length_le hshort,
                  List.drop_left]
              · have hle2 : (bytes.drop (n - buf.length)).isEmpty = false := by
                  cases hd : bytes.drop (n - buf.length) with
                  | nil => exact absurd hd hleft
                  | cons _ _ => rfl
                have hlong : n - buf.length < bytes.length := by
                  by_contra hcon
                  exact hleft (List.drop_of_length_le (by omega))
                have htl : (bytes.take (n - buf.length)).length = n - buf.length := by
                  rw [List.length_take]; omega
                simp only [hle2, deliverable, htl, Bool.false_eq_true, if_false]
                rw [List.drop_append_of_le_length (by omega)]
            have hmiss : n - (buf ++ bytes.take (n - buf.length)).length
                = n - buf.length - (bytes.take (n - buf.length)).length := by
              rw [List.length_append]; omega
            simp only [hdel, hmiss] at ihok iherr
            have htk : (bytes.take (n - buf.length)).length ≤ bytes.length := by
              rw [List.length_take]; omega
            have hdl : ((bytes ++ deliverable rest).drop (bytes.take (n - buf.length)).length).length
                = bytes.length + (deliverable rest).length
                  - (bytes.take (n - buf.length)).length := by
              rw [List.length_drop, List.length_append]
            constructor
            · intro hen
              simp only [List.length_append] at hen
              obtain ⟨s1, hrun, hrest, reqs, hreq, hbound⟩ := ihok (by rw [hdl]; omega)
              refine ⟨s1, ?_, ?_, ((n : Int) - (buf.length : Int)) :: reqs, ?_, ?_⟩
              · rw [hrun, List.append_assoc, take_append_split]
              · rw [hrest, drop_append_split]
              · rw [hreq]; simp
              · intro r hr
                rcases List.mem_cons.mp hr with rfl | hr
                · omega
                · have := hbound r hr
                  omega
            · intro hen
              simp only [List.length_append] at hen
              obtain ⟨s1, hrun, reqs, hreq, hbound⟩ := iherr (by rw [hdl]; omega)
              refine ⟨s1, hrun, ((n : Int) - (buf.length : Int)) :: reqs, ?_, ?_⟩
              · rw [hreq]; simp
              · intro r hr
                rcases List.mem_cons.mp hr with rfl | hr
                · omega
                · have := hbound r hr
                  omega

/-- For a count below 2^31 and enough fuel, `ReceiveBytes` does what its interface says:
on a socket that delivers `count` bytes before its first failure it returns with exactly
the first `count` bytes of the stream stored in order, the rest of the stream stays in
the socket, and every request is positive and at most `count`; on a socket that delivers
fewer it fails with `Read`. -/
theorem SDL_ReceiveBytes_exact (count fuel : Nat) (s : Socket) (hc : count < 2147483648)
    (hf : count < fuel) :
    (count ≤ (deliverable s.pending).length →
      ∃ s1, SDLNetworkClient.ReceiveBytes fuel count s
          = some (.ok ((deliverable s.pending).take count), s1)
        ∧ deliverable s1.pending = (deliverable s.pending).drop count
        ∧ ∃ reqs, s1.requests = s.requests ++ reqs ∧ ∀ r ∈ reqs, 0 < r ∧ r ≤ (count : Int))
    ∧ ((deliverable s.pending).length < count →
      ∃ s1, SDLNetworkClient.ReceiveBytes fuel count s = some (.error .Read, s1)
        ∧ ∃ reqs, s1.requests = s.requests ++ reqs ∧ ∀ r ∈ reqs, 0 < r ∧ r ≤ (count : Int)) := by
  have h := SDL_ReceiveBytes_loop count fuel [] s (Nat.zero_le _) (by simpa using hf)
  simp only [List.length_nil, Nat.sub_zero, List.nil_append, Nat.cast_zero] at h
  simp only [SDLNetworkClient.ReceiveBytes, toInt32_small count hc]
  exact h

/-- Claim C34 fails on the code at a count of 2^31. The loop compares `received` with
`(int)count`, which is negative then: `ReceiveBytes( buf, 2147483648 )` returns at once, on
every socket, without a call of `SDLNet_TCP_Recv` and with no byte stored, although the
socket has bytes to deliver. -/
theorem SDL_ReceiveBytes_count_negative (fuel : Nat) (s : Socket) :
    toInt32 2147483648 = -2147483648
      ∧ SDLNetworkClient.ReceiveBytes (fuel + 1) 2147483648 s = some (.ok [], s)
      ∧ SDLNetworkClient.ReceiveBytes 1 2147483648 (freshSocket [.data [1, 2, 3]])
        = some (.ok [], ⟨[.data [1, 2, 3]], []⟩) :=
  ⟨by decide, SDL_ReceiveBytes_large fuel 2147483648 s (by decide) (by decide), by decide⟩
/-- The `ReceiveBytes` of the world is `SDLNetworkClient::ReceiveBytes` on a socket that
delivers the stream: for every count and enough fuel for its loop, the call on the socket
ends as the call on the stream does, with the same bytes stored, and when it returns the
socket is left to deliver what is left of the stream. -/
theorem ReceiveBytes_of_socket (count fuel : Nat) (s : Socket) (W : World)
    (hs : deliverable s.pending = W.input) (hc : count < 4294967296) (hf : count < fuel) :
    ∃ s1, SDLNetworkClient.ReceiveBytes fuel count s = some ((ReceiveBytes count W).1, s1)
      ∧ (∀ bs, (ReceiveBytes count W).1 = .ok bs →
          deliverable s1.pending = (ReceiveBytes count W).2.input) := by
  by_cases h31 : count < 2147483648
  · have h := SDL_ReceiveBytes_exact count fuel s h31 hf
    rw [hs] at h
    by_cases hlen : count ≤ W.input.length
    · obtain ⟨s1, h1, h2, _⟩ := h.1 hlen
      refine ⟨s1, ?_, ?_⟩
      · rw [h1]
        simp [ReceiveBytes, toInt32_toNat_small count h31, hlen]
      · intro bs _
        rw [h2]
        simp [ReceiveBytes, toInt32_toNat_small count h31, hlen]
    · obtain ⟨s1, h1, _⟩ := h.2 (by omega)
      refine ⟨s1, ?_, ?_⟩
      · rw [h1]
        simp [ReceiveBytes, toInt32_toNat_small count h31, hlen]
      · intro bs hbs
        simp [ReceiveBytes, toInt32_toNat_small count h31, hlen] at hbs
  · obtain ⟨f, rfl⟩ : ∃ f, fuel = f + 1 := ⟨fuel - 1, by omega⟩
    refine ⟨s, ?_, ?_⟩
    · rw [SDL_ReceiveBytes_large f count s (by omega) hc]
      simp [ReceiveBytes, toInt32_toNat_large count (by omega) hc]
    · intro bs _
      rw [hs]
      simp [ReceiveBytes, toInt32_toNat_large count (by omega) hc]

/-! ## Copying inside the surface of the SDL display -/

theorem set_getD_self (l : List Uint8) (i : Nat) : l.set i (l.getD i 0) = l := by
  induction l generalizing i with
  | nil => rfl
  | cons x xs ih =>
    cases i with
    | zero => rfl
    | succ i =>
      have h := ih i
      simp only [List.getD_cons_succ, List.set_cons_succ]
      rw [h]

/-- A `memcpy` whose source is its destination leaves the memory as it is, from whichever
end it copies. -/
theorem memcpy_self (ascending : Bool) (mem : List Uint8) (p n : Nat) :
    memcpy ascending mem p p n = mem := by
  unfold memcpy
  generalize (if ascending = true then List.range n else (List.range n).reverse) = order
  induction order generalizing mem with
  | nil => rfl
  | cons k ks ih => rw [List.foldl_cons, set_getD_self, ih]

/-- A copy of a rectangle onto itself leaves the surface as it is. -/
theorem CopyPixels_self (ascending : Bool) (x y w h : Nat) (s : Surface) :
    SDLDisplay.CopyPixels ascending x y x y w h s = s := by
  unfold SDLDisplay.CopyPixels
  simp only [memcpy_self]
  have : ∀ (rows : List Nat) (px : List Uint8), rows.foldl (fun pixels _ => pixels) px = px := by
    intro rows
    induction rows with
    | nil => intro px; rfl
    | cons r rs ih => intro px; rw [List.foldl_cons, ih]
  rw [this]


/-- The byte copy of `memcpy`, in any order of the offsets, on two regions of `n` bytes
that lie in the memory and do not overlap. -/
theorem fold_copy (dst src n : Nat) (hdis : dst + n ≤ src ∨ src + n ≤ dst)
    (order : List Nat) (hk : ∀ k ∈ order, k < n) :
    ∀ m : List Uint8, dst + n ≤ m.length → src + n ≤ m.length →
      (order.foldl (fun m k => m.set (dst + k) (m.getD (src + k) 0)) m).length = m.length
      ∧ (∀ k ∈ order,
          (order.foldl (fun m k => m.set (dst + k) (m.getD (src + k) 0)) m)[dst + k]?
            = m[src + k]?)
      ∧ (∀ a, (∀ k ∈ order, a ≠ dst + k) →
          (order.foldl (fun m k => m.set (dst + k) (m.getD (src + k) 0)) m)[a]? = m[a]?) := by
  induction order with
  | nil => intro m _ _; exact ⟨rfl, by simp, fun _ _ => rfl⟩
  | cons k ks ih =>
    intro m hbd hbs
    have hkn : k < n := hk k (List.mem_cons_self _ _)
    have hks : ∀ k' ∈ ks, k' < n := fun k' h => hk k' (List.mem_cons_of_mem _ h)
    have hlen : (m.set (dst + k) (m.getD (src + k) 0)).length = m.length := List.length_set ..
    obtain ⟨h1, h2, h3⟩ := ih hks (m.set (dst + k) (m.getD (src + k) 0))
      (by rw [hlen]; exact hbd) (by rw [hlen]; exact hbs)
    -- the source region is not touched by the write
    have hsrc : ∀ j, j < n → (m.set (dst + k) (m.getD (src + k) 0))[src + j]? = m[src + j]? := by
      intro j hj
      exact List.getElem?_set_ne (by omega)
    have hhead : (m.set (dst + k) (m.getD (src + k) 0))[dst + k]? = m[src + k]? := by
      rw [List.getElem?_set_self (by omega)]
      have hin : src + k < m.length := by omega
      rw [List.getD_eq_getElem?_getD, List.getElem?_eq_getElem hin]
      rfl
    simp only [List.foldl_cons]
    refine ⟨by rw [h1, hlen], ?_, ?_⟩
    · intro k' hk'
      rcases List.mem_cons.mp hk' with rfl | hmem
      · by_cases hdup : k' ∈ ks
        · rw [h2 k' hdup, hsrc k' hkn]
        · rw [h3 (dst + k') (fun k'' hk'' hc => hdup (by
            have : k' = k'' := by omega
            rw [this]; exact hk'')), hhead]
      · rw [h2 k' hmem, hsrc k' (hks k' hmem)]
    · intro a ha
      rw [h3 a (fun k' hk' => ha k' (List.mem_cons_of_mem _ hk'))]
      exact List.getElem?_set_ne (fun hc => ha k (List.mem_cons_self _ _) hc.symm)

/-- On regions that lie in the memory and do not overlap, `memcpy` copies: from whichever
end, the destination holds what the source held, and every other byte is as it was. -/
theorem memcpy_disjoint (ascending : Bool) (mem : List Uint8) (dst src n : Nat)
    (hdis : dst + n ≤ src ∨ src + n ≤ dst) (hbd : dst + n ≤ mem.length)
    (hbs : src + n ≤ mem.length) :
    (memcpy ascending mem dst src n).length = mem.length
      ∧ (∀ k, k < n → (memcpy ascending mem dst src n)[dst + k]? = mem[src + k]?)
      ∧ (∀ a, (a < dst ∨ dst + n ≤ a) → (memcpy ascending mem dst src n)[a]? = mem[a]?) := by
  have hmem : ∀ k, k ∈ (if ascending = true then List.range n else (List.range n).reverse)
      ↔ k < n := by
    intro k
    cases ascending <;> simp
  obtain ⟨h1, h2, h3⟩ := fold_copy dst src n hdis _ (fun k hk => (hmem k).mp hk) mem hbd hbs
  refine ⟨h1, fun k hk => h2 k ((hmem k).mpr hk), fun a ha => h3 a (fun k hk => ?_)⟩
  have := (hmem k).mp hk
  omega

/-- A sequence of `memcpy` calls, one per row, in which no call overlaps itself, no
later call reads what an earlier one has written, and no two calls write the same bytes:
every destination row holds what its source row held before the first call, and every
byte outside the destination rows is as it was. -/
theorem fold_rows (ascending : Bool) (dstf srcf : Nat → Nat) (n : Nat) (ys : List Nat) :
    ∀ m : List Uint8,
      (∀ y ∈ ys, dstf y + n ≤ m.length ∧ srcf y + n ≤ m.length) →
      (∀ y ∈ ys, dstf y + n ≤ srcf y ∨ srcf y + n ≤ dstf y) →
      ys.Pairwise (fun y y' => (dstf y + n ≤ srcf y' ∨ srcf y' + n ≤ dstf y)
        ∧ (dstf y + n ≤ dstf y' ∨ dstf y' + n ≤ dstf y)) →
      (ys.foldl (fun px y => memcpy ascending px (dstf y) (srcf y) n) m).length = m.length
      ∧ (∀ y ∈ ys, ∀ k, k < n →
          (ys.foldl (fun px y => memcpy ascending px (dstf y) (srcf y) n) m)[dstf y + k]?
            = m[srcf y + k]?)
      ∧ (∀ a, (∀ y ∈ ys, a < dstf y ∨ dstf y + n ≤ a) →
          (ys.foldl (fun px y => memcpy ascending px (dstf y) (srcf y) n) m)[a]? = m[a]?) := by
  induction ys with
  | nil => intro m _ _ _; exact ⟨rfl, by simp, fun _ _ => rfl⟩
  | cons y ys ih =>
    intro m hb hself hpair
    obtain ⟨hby, hbs⟩ := hb y (List.mem_cons_self _ _)
    obtain ⟨hl, hd, ho⟩ := memcpy_disjoint ascending m (dstf y) (srcf y) n
      (hself y (List.mem_cons_self _ _)) hby hbs
    rw [List.pairwise_cons] at hpair
    obtain ⟨hhead, htail⟩ := hpair
    obtain ⟨h1, h2, h3⟩ := ih (memcpy ascending m (dstf y) (srcf y) n)
      (fun y' hy' => by rw [hl]; exact hb y' (List.mem_cons_of_mem _ hy'))
      (fun y' hy' => hself y' (List.mem_cons_of_mem _ hy')) htail
    simp only [List.foldl_cons]
    refine ⟨by rw [h1, hl], ?_, ?_⟩
    · intro y' hy' k hk
      by_cases hin : y' ∈ ys
      · rw [h2 y' hin k hk]
        have := (hhead y' hin).1
        exact ho _ (by omega)
      · have hyy : y' = y := by
          rcases List.mem_cons.mp hy' with h | h
          · exact h
          · exact absurd h hin
        subst hyy
        rw [h3 (dstf y' + k) (fun y'' hy'' => by
          have := (hhead y'' hy'').2
          omega)]
        exact hd k hk
    · intro a ha
      rw [h3 a (fun y' hy' => ha y' (List.mem_cons_of_mem _ hy'))]
      exact ho a (ha y (List.mem_cons_self _ _))

/-- Bytes in a lower row of a block with rows of `P` bytes lie below a higher row. -/
theorem rows_apart (P r1 r2 c1 c2 n : Nat) (hr : r1 < r2) (h1 : c1 + n ≤ P) :
    P * r1 + c1 + n ≤ P * r2 + c2 := by
  have h2 : P * (r1 + 1) ≤ P * r2 := Nat.mul_le_mul_left P hr
  rw [Nat.mul_succ] at h2
  omega

/-- Two windows of `B` bytes that hold the same bytes are equal. -/
theorem window_eq (l l1 : List Uint8) (a a1 B : Nat)
    (h : ∀ k, k < B → l[a + k]? = l1[a1 + k]?) :
    (l.drop a).take B = (l1.drop a1).take B := by
  apply List.ext_getElem?
  intro k
  rw [List.getElem?_take, List.getElem?_take, List.getElem?_drop, List.getElem?_drop]
  split
  · next hk => exact h k hk
  · rfl

/-- The bytes of the surface after `CopyPixels`, for two rectangles inside the surface
that lie in different rows or side by side: row `y` of the destination holds what row `y`
of the source held, and every byte outside the destination rows is as it was. -/
theorem CopyPixels_bytes (ascending : Bool) (s : Surface) (sx sy dx dy w h : Nat)
    (hs : s.holds sx sy w h) (hd : s.holds dx dy w h)
    (hsep : sy ≠ dy ∨ sx + w ≤ dx ∨ dx + w ≤ sx) :
    (SDLDisplay.CopyPixels ascending sx sy dx dy w h s).pixels.length = s.pixels.length
      ∧ (∀ y, y < h → ∀ k, k < w * s.BytesPerPixel →
          (SDLDisplay.CopyPixels ascending sx sy dx dy w h s).pixels[
              s.pitch * (dy + y) + dx * s.BytesPerPixel + k]?
            = s.pixels[s.pitch * (sy + y) + sx * s.BytesPerPixel + k]?)
      ∧ (∀ a, (∀ y, y < h → a < s.pitch * (dy + y) + dx * s.BytesPerPixel
            ∨ s.pitch * (dy + y) + dx * s.BytesPerPixel + w * s.BytesPerPixel ≤ a) →
          (SDLDisplay.CopyPixels ascending sx sy dx dy w h s).pixels[a]? = s.pixels[a]?) := by
  obtain ⟨hsw, hsl⟩ := hs
  obtain ⟨hdw, hdl⟩ := hd
  rw [Nat.add_mul] at hsw hdw
  -- a row of either rectangle ends inside the pixel memory
  have hend : ∀ r c, r < h → ∀ y0, s.pitch * (y0 + h) ≤ s.pixels.length →
      c + w * s.BytesPerPixel ≤ s.pitch →
      s.pitch * (y0 + r) + c + w * s.BytesPerPixel ≤ s.pixels.length := by
    intro r c hr y0 hl hc
    have h2 : s.pitch * (y0 + r + 1) ≤ s.pitch * (y0 + h) := Nat.mul_le_mul_left _ (by omega)
    rw [Nat.mul_succ] at h2
    omega
  have hrows : ∀ y ∈ (if sy > dy then List.range h else (List.range h).reverse), y < h := by
    intro y hy
    split at hy
    · exact List.mem_range.mp hy
    · exact List.mem_range.mp (List.mem_reverse.mp hy)
  have hmemrows : ∀ y, y < h → y ∈ (if sy > dy then List.range h else (List.range h).reverse) := by
    intro y hy
    split
    · exact List.mem_range.mpr hy
    · exact List.mem_reverse.mpr (List.mem_range.mpr hy)
  have hpair : (if sy > dy then List.range h else (List.range h).reverse).Pairwise
      (fun y y1 =>
        (s.pitch * (dy + y) + dx * s.BytesPerPixel + w * s.BytesPerPixel
            ≤ s.pitch * (sy + y1) + sx * s.BytesPerPixel
          ∨ s.pitch * (sy + y1) + sx * s.BytesPerPixel + w * s.BytesPerPixel
            ≤ s.pitch * (dy + y) + dx * s.BytesPerPixel)
        ∧ (s.pitch * (dy + y) + dx * s.BytesPerPixel + w * s.BytesPerPixel
            ≤ s.pitch * (dy + y1) + dx * s.BytesPerPixel
          ∨ s.pitch * (dy + y1) + dx * s.BytesPerPixel + w * s.BytesPerPixel
            ≤ s.pitch * (dy + y) + dx * s.BytesPerPixel)) := by
    split
    · next hgt =>
      refine (List.pairwise_lt_range h).imp ?_
      intro y y1 hlt
      exact ⟨Or.inl (rows_apart _ _ _ _ _ _ (by omega) hdw),
        Or.inl (rows_apart _ _ _ _ _ _ (by omega) hdw)⟩
    · next hle =>
      rw [List.pairwise_reverse]
      refine (List.pairwise_lt_range h).imp ?_
      intro y1 y hlt
      exact ⟨Or.inr (rows_apart _ _ _ _ _ _ (by omega) hsw),
        Or.inr (rows_apart _ _ _ _ _ _ (by omega) hdw)⟩
  have hself : ∀ y ∈ (if sy > dy then List.range h else (List.range h).reverse),
      s.pitch * (dy + y) + dx * s.BytesPerPixel + w * s.BytesPerPixel
          ≤ s.pitch * (sy + y) + sx * s.BytesPerPixel
        ∨ s.pitch * (sy + y) + sx * s.BytesPerPixel + w * s.BytesPerPixel
          ≤ s.pitch * (dy + y) + dx * s.BytesPerPixel := by
    intro y _
    by_cases hrow : sy = dy
    · subst hrow
      rcases hsep with h0 | h1 | h2
      · exact absurd rfl h0
      · right
        have := Nat.mul_le_mul_right s.BytesPerPixel h1
        rw [Nat.add_mul] at this
        omega
      · left
        have := Nat.mul_le_mul_right s.BytesPerPixel h2
        rw [Nat.add_mul] at this
        omega
    · rcases Nat.lt_or_gt_of_ne hrow with hlt | hgt
      · exact Or.inr (rows_apart _ _ _ _ _ _ (by omega) hsw)
      · exact Or.inl (rows_apart _ _ _ _ _ _ (by omega) hdw)
  obtain ⟨h1, h2, h3⟩ := fold_rows ascending
    (fun y => s.pitch * (dy + y) + dx * s.BytesPerPixel)
    (fun y => s.pitch * (sy + y) + sx * s.BytesPerPixel) (w * s.BytesPerPixel)
    (if sy > dy then List.range h else (List.range h).reverse) s.pixels
    (fun y hy => ⟨hend y _ (hrows y hy) dy hdl hdw, hend y _ (hrows y hy) sy hsl hsw⟩)
    hself hpair
  refine ⟨h1, fun y hy k hk => h2 y (hmemrows y hy) k hk, fun a ha => h3 a (fun y hy => ?_)⟩
  exact ha y (hrows y hy)

/-- What `CopyPixels` does right. For every surface, in whichever direction `memcpy`
copies, and for two rectangles of the same size inside the surface that lie in different
rows (`sy` is not `dy`), overlapping or not, or side by side in the same rows: after the
call each destination pixel `(dx + i, dy + j)` holds the bytes the source pixel
`(sx + i, sy + j)` had before, and every pixel outside the destination rectangle holds the
bytes it had. -/
theorem CopyPixels_copies (ascending : Bool) (s : Surface) (sx sy dx dy w h : Nat)
    (hs : s.holds sx sy w h) (hd : s.holds dx dy w h)
    (hsep : sy ≠ dy ∨ sx + w ≤ dx ∨ dx + w ≤ sx) :
    (∀ i j, i < w → j < h →
        (SDLDisplay.CopyPixels ascending sx sy dx dy w h s).pixelAt (dx + i) (dy + j)
          = s.pixelAt (sx + i) (sy + j))
      ∧ (∀ x y, (x + 1) * s.BytesPerPixel ≤ s.pitch →
          ¬ (dx ≤ x ∧ x < dx + w ∧ dy ≤ y ∧ y < dy + h) →
          (SDLDisplay.CopyPixels ascending sx sy dx dy w h s).pixelAt x y = s.pixelAt x y) := by
  obtain ⟨_, hcopy, hout⟩ := CopyPixels_bytes ascending s sx sy dx dy w h hs hd hsep
  have hpitch : (SDLDisplay.CopyPixels ascending sx sy dx dy w h s).pitch = s.pitch := rfl
  have hbpp : (SDLDisplay.CopyPixels ascending sx sy dx dy w h s).BytesPerPixel
      = s.BytesPerPixel := rfl
  obtain ⟨hdw, _⟩ := hd
  rw [Nat.add_mul] at hdw
  constructor
  · intro i j hi hj
    simp only [Surface.pixelAt, hpitch, hbpp]
    apply window_eq
    intro k hk
    have hik : i * s.BytesPerPixel + k < w * s.BytesPerPixel := by
      have := Nat.mul_le_mul_right s.BytesPerPixel (Nat.succ_le_of_lt hi)
      rw [Nat.succ_mul] at this
      omega
    have := hcopy j hj (i * s.BytesPerPixel + k) hik
    rw [Nat.add_mul, Nat.add_mul]
    have e1 : s.pitch * (dy + j) + (dx * s.BytesPerPixel + i * s.BytesPerPixel) + k
        = s.pitch * (dy + j) + dx * s.BytesPerPixel + (i * s.BytesPerPixel + k) := by omega
    have e2 : s.pitch * (sy + j) + (sx * s.BytesPerPixel + i * s.BytesPerPixel) + k
        = s.pitch * (sy + j) + sx * s.BytesPerPixel + (i * s.BytesPerPixel + k) := by omega
    rw [e1, e2]
    exact this
  · intro x y hx hnot
    simp only [Surface.pixelAt, hpitch, hbpp]
    apply window_eq
    intro k hk
    apply hout
    intro j hj
    rw [Nat.add_mul, Nat.one_mul] at hx
    by_cases hrow : y = dy + j
    · subst hrow
      have hxx : x < dx ∨ dx + w ≤ x := by
        by_contra hc
        exact hnot ⟨by omega, by omega, by omega, by omega⟩
      rcases hxx with hlt | hge
      · left
        have := Nat.mul_le_mul_right s.BytesPerPixel (Nat.succ_le_of_lt hlt)
        rw [Nat.succ_mul] at this
        omega
      · right
        have := Nat.mul_le_mul_right s.BytesPerPixel hge
        rw [Nat.add_mul] at this
        omega
    · rcases Nat.lt_or_gt_of_ne hrow with hlt | hgt
      · left
        have := rows_apart s.pitch y (dy + j) (x * s.BytesPerPixel + k) (dx * s.BytesPerPixel) 1
          hlt (by omega)
        omega
      · right
        have := rows_apart s.pitch (dy + j) y (dx * s.BytesPerPixel) (x * s.BytesPerPixel + k)
          (w * s.BytesPerPixel) hgt hdw
        omega

/-- Claim C33. For every framebuffer content and every rectangle, in whichever direction
`memcpy` copies: the CopyRect decoder on a source position that equals the rectangle's own
position makes, between `BeginDrawing` and `EndDrawing`, the one call
`CopyPixels( rect.x, rect.y, rect.x, rect.y, rect.w, rect.h )`, and that call leaves every
byte of the surface of the SDL display as it was. -/
theorem CopyRect_same_position_is_noop (ascending : Bool) (s : Surface) (rect : ScreenRect)
    (le : Bool) (rest : List Uint8) (tr : List Event) (fmt : PixelFormat) (pr : Processed) :
    DecoderCOPYRECT rect ⟨le, be16 rect.x.val ++ be16 rect.y.val ++ rest, tr, fmt, pr⟩
        = (.ok (), ⟨le, rest,
            tr ++ [Event.BeginDrawing,
              Event.CopyPixels rect.x.val rect.y.val rect.x.val rect.y.val rect.w.val
                rect.h.val,
              Event.EndDrawing rect],
            fmt, { pr with COPYRECT := (pr.COPYRECT + 1) % 4294967296 }⟩)
      ∧ SDLDisplay.CopyPixels ascending rect.x.val rect.y.val rect.x.val rect.y.val
          rect.w.val rect.h.val s = s := by
  refine ⟨?_, CopyPixels_self ascending _ _ _ _ s⟩
  simp [DecoderCOPYRECT, be16, be16_read]

/-- Claim C32 fails on the code at a copy inside one row onto an overlapping place. On a
row of three pixels 10, 20, 30 of one byte each: when `memcpy` copies from the low end,
the copy of the two pixels at `(0, 0)` to `(1, 0)` leaves 10, 10, 10, so the destination
pixel `(2, 0)` holds 10 and not the 20 the source pixel `(1, 0)` had; when `memcpy` copies
from the high end, the copy of the two pixels at `(1, 0)` to `(0, 0)` leaves 30, 30, 30, so
the destination pixel `(0, 0)` holds 30 and not 20. Both rectangles lie inside the
surface. -/
theorem CopyPixels_overlap_in_row :
    rowSurface.holds 0 0 2 1 ∧ rowSurface.holds 1 0 2 1
      ∧ SDLDisplay.CopyPixels true 0 0 1 0 2 1 rowSurface = ⟨[10, 10, 10], 3, 1⟩
      ∧ (SDLDisplay.CopyPixels true 0 0 1 0 2 1 rowSurface).pixelAt 2 0 = [10]
      ∧ SDLDisplay.CopyPixels false 1 0 0 0 2 1 rowSurface = ⟨[30, 30, 30], 3, 1⟩
      ∧ (SDLDisplay.CopyPixels false 1 0 0 0 2 1 rowSurface).pixelAt 0 0 = [30]
      ∧ rowSurface.pixelAt 1 0 = [20] := by
  decide

end VNC
